import Mathlib

/-!
# Focus management and event dispatch of `tgui::Container`

A shallow embedding of `src/src/TGUI/Container.cpp`.

* A widget tree is a finite tree of `Widget` values.  Every widget carries the
  address of its C++ object (`ptr`), so that the pointer comparisons of the
  source (`m_widgets[i].get() == widget`) can be expressed.
* Virtual calls a container makes on its children go through a method table
  `d : Dispatch`.  The table used by the theorems is `invoke env n`: a leaf
  widget records the call in its trace `calls` (the bodies of the leaf widgets
  are outside `Container.cpp`), a container child records the call and then runs
  the `Container` implementation, resolving the calls on its own children with
  `invoke env (n - 1)`.  `n` bounds the nesting depth that is resolved; any `n`
  that is at least the depth of the widget gives the same result (`invoke_depth`).
  The theorems about a single container hold for every `n`.
* `unsigned int` indices are natural numbers; the sizes involved are far below
  `2 ^ 32`.  Event coordinates are the integers of `sf::Event`.  `handleEvent` hands them
  to the children through `static_cast<float>`, which is the identity on the integers
  within `±2^24` (`exactFloat`); the model passes the integer on, so the theorems about
  mouse events carry `exactFloat` for both coordinates.
* The functions of the model are total.  Where the source indexes `m_widgets` with
  `m_focusedWidget-1` beyond the end of the vector, which is undefined behaviour in C++
  and is reachable through `moveWidgetToBack` (`C22_moveWidgetToBack_leaves_range`), the
  model skips the access.  A tree of values also cannot hold one object twice, which a
  vector of shared pointers can.  The theorems that describe what the code does to the
  children are therefore stated for valid states (`Widget.valid`): the focus index is
  within the list of children at every level, and all widgets are distinct objects.  The
  operations keep a valid state valid (`invoke_keepsValid`, `Container.handleEvent_valid`).
* The value setters of `tgui::Scrollbar` are modelled from the specification and from
  `tests/Widgets/Scrollbar.cpp`; the source of the class is not among the files.
-/

namespace tgui

/-! ## Events -/

/-- Payload of `sf::Event::KeyEvent`. -/
structure KeyEvent where
  code : Int
  alt : Bool
  control : Bool
  shift : Bool
  system : Bool
deriving DecidableEq, Repr

namespace Keyboard

/-- Value of `sf::Keyboard::Unknown`. -/
def Unknown : Int := -1

/-- Value of `sf::Keyboard::Tab`. -/
def Tab : Int := 60

end Keyboard

namespace Mouse

/-- Value of `sf::Mouse::Left`. -/
def Left : Nat := 0

end Mouse

/-- The part of `sf::Event` that `Container::handleEvent` inspects. `Other` stands for
every event type that `handleEvent` ignores. -/
inductive Event where
  | MouseMoved (x y : Int)
  | MouseButtonPressed (button : Nat) (x y : Int)
  | MouseButtonReleased (button : Nat) (x y : Int)
  | KeyPressed (key : KeyEvent)
  | KeyReleased (key : KeyEvent)
  | TextEntered (unicode : Nat)
  | MouseWheelMoved (delta x y : Int)
  | Other
deriving DecidableEq, Repr

/-- The member functions that `Container.cpp` calls on a child widget; `initialise` is the
member `initialize(Container*)` that `add` calls on the widget it is given. -/
inductive Call where
  | widgetFocused
  | widgetUnfocused
  | mouseOnWidget (x y : Int)
  | mouseNotOnWidget
  | mouseNoLongerDown
  | mouseMoved (x y : Int)
  | leftMousePressed (x y : Int)
  | leftMouseReleased (x y : Int)
  | keyPressed (key : KeyEvent)
  | textEntered (unicode : Nat)
  | mouseWheelMoved (delta x y : Int)
  | focusNextWidgetInContainer
  | tabKeyPressed
  | initialise
deriving DecidableEq, Repr

/-! ## Widgets -/

/-- The members of `tgui::Widget` that `Container.cpp` reads or writes, the address of the
object, and the trace of the calls the widget has received from its parent. -/
structure WidgetBase where
  ptr : Nat
  m_focused : Bool
  m_allowFocus : Bool
  m_visible : Bool
  m_enabled : Bool
  m_mouseDown : Bool
  m_mouseHover : Bool
  m_draggableWidget : Bool
  calls : List Call
deriving DecidableEq, Repr

/-- A widget together with, when it is a container (`m_containerWidget`), the members of
`tgui::Container`: the focus index (1-based, 0 = none), the children and their names.
The children are the objects that the shared pointers of `m_widgets` refer to, held by
value: the tree represents a vector whose entries refer to pairwise distinct objects
(`Widget.valid`); a vector that holds one object twice has no counterpart. -/
inductive Widget where
  | mk (base : WidgetBase) (m_containerWidget : Bool) (m_focusedWidget : Nat)
      (m_widgets : List Widget) (m_objName : List String)
deriving Repr

namespace Widget

def base : Widget → WidgetBase
  | .mk b _ _ _ _ => b

def m_containerWidget : Widget → Bool
  | .mk _ k _ _ _ => k

def m_focusedWidget : Widget → Nat
  | .mk _ _ f _ _ => f

def m_widgets : Widget → List Widget
  | .mk _ _ _ ws _ => ws

def m_objName : Widget → List String
  | .mk _ _ _ _ ns => ns

def ptr (w : Widget) : Nat := w.base.ptr

def m_focused (w : Widget) : Bool := w.base.m_focused

def m_allowFocus (w : Widget) : Bool := w.base.m_allowFocus

def m_visible (w : Widget) : Bool := w.base.m_visible

def m_enabled (w : Widget) : Bool := w.base.m_enabled

def m_mouseDown (w : Widget) : Bool := w.base.m_mouseDown

def m_mouseHover (w : Widget) : Bool := w.base.m_mouseHover

def m_draggableWidget (w : Widget) : Bool := w.base.m_draggableWidget

def calls (w : Widget) : List Call := w.base.calls

/-- Assignment `w->m_focused = v`. -/
def setFocused (v : Bool) : Widget → Widget
  | .mk b k f ws ns => .mk { b with m_focused := v } k f ws ns

/-- Append a received call to the trace of the widget. -/
def record (call : Call) : Widget → Widget
  | .mk b k f ws ns => .mk { b with calls := b.calls ++ [call] } k f ws ns

/-- Assignment `m_focusedWidget = v`. -/
def setFocusedWidget (v : Nat) : Widget → Widget
  | .mk b k _ ws ns => .mk b k v ws ns

def setWidgets (ws : List Widget) : Widget → Widget
  | .mk b k f _ ns => .mk b k f ws ns

def setObjName (ns : List String) : Widget → Widget
  | .mk b k f ws _ => .mk b k f ws ns

mutual

/-- Nesting depth of a widget tree: 1 for a widget without children. -/
def depth : Widget → Nat
  | .mk _ _ _ ws _ => depthList ws + 1

/-- Largest depth among the widgets of a list. -/
def depthList : List Widget → Nat
  | [] => 0
  | w :: ws => max (depth w) (depthList ws)

end

/-- The test `m_allowFocus == true`, then `m_visible && m_enabled`, of the focus loops. -/
def focusable (w : Widget) : Bool :=
  w.m_allowFocus && (w.m_visible && w.m_enabled)

/-- The focus test on `m_widgets[i]`; `false` for an index outside the vector (a read
that is undefined behaviour in C++). -/
def focusableAt (c : Widget) (i : Nat) : Bool :=
  match c.m_widgets[i]? with
  | some w => w.focusable
  | none => false

/-- The flag `m_widgets[i]->m_containerWidget`. -/
def containerAt (c : Widget) (i : Nat) : Bool :=
  match c.m_widgets[i]? with
  | some w => w.m_containerWidget
  | none => false

/-- The comparison `m_widgets[i].get() == widget`. -/
def ptrAt (c : Widget) (widget : Nat) (i : Nat) : Bool :=
  match c.m_widgets[i]? with
  | some w => w.ptr == widget
  | none => false

/-- Write through `m_widgets[i]`. The source indexes the vector unchecked, so an index
outside the vector is undefined behaviour in C++; the model is total and leaves the
container as it is there. That branch is not a statement about the code: it is never taken
from a valid state (`Widget.valid`), for which the claims about the code are stated. -/
def updateChild (i : Nat) (f : Widget → Widget) (c : Widget) : Widget :=
  match c.m_widgets[i]? with
  | some w => c.setWidgets (c.m_widgets.set i (f w))
  | none => c

end Widget

/-- A method table: the effect of a member call on the widget that receives it, and the
`bool` it returns (`false` for `void` members). -/
abbrev Dispatch := Call → Widget → Bool × Widget

/-- The call `m_widgets[i]->call(...)`, resolved by the method table `d`. The source
indexes the vector unchecked, so an index outside the vector is undefined behaviour in
C++; the model is total, makes no call and returns `false` there. That branch is not a
statement about the code: it is never taken from a valid state (`Widget.valid`), for which
the claims about the code are stated. -/
def Widget.childCall (d : Dispatch) (i : Nat) (call : Call) (c : Widget) : Bool × Widget :=
  match c.m_widgets[i]? with
  | some w => ((d call w).1, c.setWidgets (c.m_widgets.set i (d call w).2))
  | none => (false, c)

/-- Ascending loop with an early exit, `for (i = lo; i < lo + n; ++i) if (p i) return i;`:
the first index of the range that satisfies `p`. -/
def firstUp (p : Nat → Bool) : Nat → Nat → Option Nat
  | _, 0 => none
  | lo, n + 1 => if p lo then some lo else firstUp p (lo + 1) n

/-- Descending loop with an early exit, `for (i = lo + n; i > lo; --i) if (p (i-1)) return i-1;`:
the last index of the range `lo ≤ j < lo + n` that satisfies `p`. -/
def firstDown (p : Nat → Bool) (lo : Nat) : Nat → Option Nat
  | 0 => none
  | n + 1 => if p (lo + n) then some (lo + n) else firstDown p lo n

/-- Index of the object a `Widget*` points to: the first child with that address. -/
def Widget.indexOf (c : Widget) (widget : Nat) : Option Nat :=
  firstUp (c.ptrAt widget) 0 c.m_widgets.length

/-- The call `widget->call(...)` through a pointer to one of the children. -/
def Widget.ptrCall (d : Dispatch) (widget : Nat) (call : Call) (c : Widget) : Bool × Widget :=
  match c.indexOf widget with
  | some i => c.childCall d i call
  | none => (false, c)

/-- What lies outside `Container.cpp`: the global `TGUI_TabKeyUsageEnabled`, the virtual
hit test `mouseOnWidget(x, y)` of the widget at an address, and the coordinate change
`static_cast<int>(x - getPosition().x)` of the container at an address. -/
structure Env where
  TGUI_TabKeyUsageEnabled : Bool
  mouseOnWidget : Nat → Int → Int → Bool
  localX : Nat → Int → Int
  localY : Nat → Int → Int

namespace Container

/-- The two statements
`m_widgets[m_focusedWidget-1]->m_focused = false; m_widgets[m_focusedWidget-1]->widgetUnfocused();`. -/
def unfocusCurrent (d : Dispatch) (c : Widget) : Widget :=
  ((c.updateChild (c.m_focusedWidget - 1) (Widget.setFocused false)).childCall d
    (c.m_focusedWidget - 1) .widgetUnfocused).2

/-- The three statements
`m_focusedWidget = i+1; m_widgets[i]->m_focused = true; m_widgets[i]->widgetFocused();`. -/
def focusChild (d : Dispatch) (i : Nat) (c : Widget) : Widget :=
  (((c.setFocusedWidget (i + 1)).updateChild i (Widget.setFocused true)).childCall d i
    .widgetFocused).2

/-- The source of `Container::unfocusWidgets`. -/
def unfocusWidgets (d : Dispatch) (c : Widget) : Widget :=
  if c.m_focusedWidget ≠ 0 then
    (unfocusCurrent d c).setFocusedWidget 0
  else c

/-- The source of `Container::focusWidget(Widget*)`. -/
def focusWidget (d : Dispatch) (widget : Nat) (c : Widget) : Widget :=
  match c.indexOf widget with
  | some i =>
    if c.m_focusedWidget ≠ i + 1 then
      focusChild d i (if c.m_focusedWidget ≠ 0 then unfocusCurrent d c else c)
    else c
  | none => c

/-- The source of `Container::focusNextWidget`. -/
def focusNextWidget (d : Dispatch) (c : Widget) : Widget :=
  match firstUp c.focusableAt c.m_focusedWidget (c.m_widgets.length - c.m_focusedWidget) with
  | some i => focusChild d i (if c.m_focusedWidget ≠ 0 then unfocusCurrent d c else c)
  | none =>
    if c.m_focusedWidget ≠ 0 then
      match firstUp c.focusableAt 0 (c.m_focusedWidget - 1) with
      | some i => focusChild d i (unfocusCurrent d c)
      | none => c
    else c

/-- The source of `Container::focusPreviousWidget`. -/
def focusPreviousWidget (d : Dispatch) (c : Widget) : Widget :=
  match (if c.m_focusedWidget ≠ 0 then firstDown c.focusableAt 0 (c.m_focusedWidget - 1)
      else none) with
  | some i => focusChild d i (unfocusCurrent d c)
  | none =>
    match firstDown c.focusableAt c.m_focusedWidget
        (c.m_widgets.length - c.m_focusedWidget) with
    | some i => focusChild d i (if c.m_focusedWidget ≠ 0 then unfocusCurrent d c else c)
    | none => c

/-- The source of `Container::remove(Widget*)`. -/
def remove (d : Dispatch) (widget : Nat) (c : Widget) : Widget :=
  match c.indexOf widget with
  | some i =>
    let c1 :=
      if c.m_focusedWidget = i + 1 then unfocusWidgets d c
      else if c.m_focusedWidget > i + 1 then c.setFocusedWidget (c.m_focusedWidget - 1)
      else c
    (c1.setWidgets (c1.m_widgets.eraseIdx i)).setObjName (c1.m_objName.eraseIdx i)
  | none => c

/-- The object that `Container::remove(widget)` takes out of the container, as it is after
the call: the child at the index found, after the focus adjustment of `remove` (the two
`erase` statements do not change the object). `none` when `widget` is not a child. -/
def removedWidget (d : Dispatch) (widget : Nat) (c : Widget) : Option Widget :=
  match c.indexOf widget with
  | some i =>
    let c1 :=
      if c.m_focusedWidget = i + 1 then unfocusWidgets d c
      else if c.m_focusedWidget > i + 1 then c.setFocusedWidget (c.m_focusedWidget - 1)
      else c
    c1.m_widgets[i]?
  | none => none

/-- The source of `Container::moveWidgetToFront`: the widget and its name are copied to
the end of the two vectors, the focus index is adjusted, and the old entries at `i` are
erased. -/
def moveWidgetToFront (widget : Nat) (c : Widget) : Widget :=
  match c.indexOf widget with
  | some i =>
    let ws := c.m_widgets ++ (c.m_widgets[i]?).toList
    let ns := c.m_objName ++ (c.m_objName[i]?).toList
    let f :=
      if c.m_focusedWidget = 0 ∨ c.m_focusedWidget = i + 1 then ws.length - 1
      else if c.m_focusedWidget > i + 1 then c.m_focusedWidget - 1
      else c.m_focusedWidget
    ((c.setFocusedWidget f).setWidgets (ws.eraseIdx i)).setObjName (ns.eraseIdx i)
  | none => c

/-- The source of `Container::moveWidgetToBack`: the widget and its name are inserted at
the front of the two vectors, the focus index is adjusted, and the old entries, now at
`i + 1`, are erased. -/
def moveWidgetToBack (widget : Nat) (c : Widget) : Widget :=
  match c.indexOf widget with
  | some i =>
    let ws := (c.m_widgets[i]?).toList ++ c.m_widgets
    let ns := (c.m_objName[i]?).toList ++ c.m_objName
    let f :=
      if c.m_focusedWidget = i + 1 then 1
      else if c.m_focusedWidget ≠ 0 then c.m_focusedWidget + 1
      else c.m_focusedWidget
    ((c.setFocusedWidget f).setWidgets (ws.eraseIdx (i + 1))).setObjName (ns.eraseIdx (i + 1))
  | none => c

/-- The source of `Container::add`: `initialize(this)` is called on the widget, then the
widget and the name are pushed to the back of the two vectors. -/
def add (d : Dispatch) (widgetPtr : Widget) (widgetName : String) (c : Widget) : Widget :=
  (c.setWidgets (c.m_widgets ++ [(d .initialise widgetPtr).2])).setObjName
    (c.m_objName ++ [widgetName])

/-- The source of `Container::removeAllWidgets`. -/
def removeAllWidgets (c : Widget) : Widget :=
  ((c.setWidgets []).setObjName []).setFocusedWidget 0

/-- The source of `Container::setWidgetName`: the returned `bool` and the container. -/
def setWidgetName (widget : Nat) (name : String) (c : Widget) : Bool × Widget :=
  match c.indexOf widget with
  | some i => (true, c.setObjName (c.m_objName.set i name))
  | none => (false, c)

/-- The source of `Container::getWidgetName`: the name written to the out-parameter, `none`
when the function returns false. -/
def getWidgetName (widget : Nat) (c : Widget) : Option String :=
  match c.indexOf widget with
  | some i => c.m_objName[i]?
  | none => none

mutual

/-- The source of `Container::get(widgetName, recursive)`, a `const` member: the widget
found, `none` for `nullptr`. -/
def get (widgetName : String) (recursive : Bool) : Widget → Option Widget
  | .mk _ _ _ ws ns => getLoop widgetName recursive ws ns

/-- The loop of `Container::get` over the names and the widgets side by side, from the
current index on. The loop runs over `m_objName`; a name without a widget at its index is
a read outside `m_widgets` in C++ and ends the search in the model. -/
def getLoop (widgetName : String) (recursive : Bool) :
    List Widget → List String → Option Widget
  | w :: ws, n :: ns =>
    if n = widgetName then some w
    else if recursive && w.m_containerWidget then
      match get widgetName true w with
      | some v => some v
      | none => getLoop widgetName recursive ws ns
    else getLoop widgetName recursive ws ns
  | _, _ => none

end

/-- The reverse loop of `Container::mouseOnWhichWidget`; `n` is the number of children
still to visit (the next one is `m_widgets[n-1]`) and `found` is the local `widget`
(`widgetFound` is true exactly when it is not null). -/
def mouseOnWhichWidgetLoop (d : Dispatch) (x y : Int) :
    Nat → Option Nat → Widget → Option Nat × Widget
  | 0, found, c => (found, c)
  | n + 1, found, c =>
    match c.m_widgets[n]? with
    | none => mouseOnWhichWidgetLoop d x y n found c
    | some w =>
      if w.m_visible && w.m_enabled then
        match found with
        | none =>
          if (c.childCall d n (.mouseOnWidget x y)).1 then
            mouseOnWhichWidgetLoop d x y n (some w.ptr) (c.childCall d n (.mouseOnWidget x y)).2
          else
            mouseOnWhichWidgetLoop d x y n none (c.childCall d n (.mouseOnWidget x y)).2
        | some p => mouseOnWhichWidgetLoop d x y n (some p) (c.childCall d n .mouseNotOnWidget).2
      else mouseOnWhichWidgetLoop d x y n found c

/-- The source of `Container::mouseOnWhichWidget`: the address of the widget found
(`none` for `nullptr`) and the container after the calls made on the children. -/
def mouseOnWhichWidget (d : Dispatch) (x y : Int) (c : Widget) : Option Nat × Widget :=
  mouseOnWhichWidgetLoop d x y c.m_widgets.length none c

/-- A loop `for (i = lo; i < lo + n; ++i) m_widgets[i]->call();` without a condition on `i`. -/
def callAll (d : Dispatch) (call : Call) : Nat → Nat → Widget → Widget
  | 0, _, c => c
  | n + 1, lo, c => callAll d call n (lo + 1) (c.childCall d lo call).2

/-- The loop of the `MouseButtonReleased` branch:
`for (it ...) if (*it != widget) (*it)->mouseNoLongerDown();`. -/
def mouseNoLongerDownOthers (d : Dispatch) (widget : Option Nat) : Nat → Nat → Widget → Widget
  | 0, _, c => c
  | n + 1, lo, c =>
    if widget.any (c.ptrAt · lo) then mouseNoLongerDownOthers d widget n (lo + 1) c
    else mouseNoLongerDownOthers d widget n (lo + 1) (c.childCall d lo .mouseNoLongerDown).2

/-- The loop of `Container::focusNextWidgetInContainer` followed by its last two statements;
`n` is the number of indices left and `i` the current index. -/
def focusNextWidgetInContainerLoop (d : Dispatch) : Nat → Nat → Widget → Bool × Widget
  | 0, _, c => (false, unfocusWidgets d c)
  | n + 1, i, c =>
    if c.focusableAt i then
      if !c.containerAt i then
        (true, focusChild d i (if c.m_focusedWidget > 0 then unfocusCurrent d c else c))
      else if (c.childCall d i .focusNextWidgetInContainer).1 then
        (true, focusChild d i
          (if c.m_focusedWidget > 0
            then unfocusCurrent d (c.childCall d i .focusNextWidgetInContainer).2
            else (c.childCall d i .focusNextWidgetInContainer).2))
      else
        focusNextWidgetInContainerLoop d n (i + 1) (c.childCall d i .focusNextWidgetInContainer).2
    else focusNextWidgetInContainerLoop d n (i + 1) c

/-- The source of `Container::focusNextWidgetInContainer`. -/
def focusNextWidgetInContainer (env : Env) (d : Dispatch) (c : Widget) : Bool × Widget :=
  if env.TGUI_TabKeyUsageEnabled = false then (false, c)
  else
    focusNextWidgetInContainerLoop d (c.m_widgets.length - c.m_focusedWidget) c.m_focusedWidget c

/-- The part of `Container::tabKeyPressed` after the check of a focused container: the two
search loops and the final delegation to a focused container. -/
def tabKeyPressedSearch (d : Dispatch) (c : Widget) : Bool × Widget :=
  match firstUp c.focusableAt c.m_focusedWidget (c.m_widgets.length - c.m_focusedWidget) with
  | some i => (true, focusChild d i (if c.m_focusedWidget ≠ 0 then unfocusCurrent d c else c))
  | none =>
    match (if c.m_focusedWidget ≠ 0 then firstUp c.focusableAt 0 (c.m_focusedWidget - 1)
        else none) with
    | some i => (true, focusChild d i (unfocusCurrent d c))
    | none =>
      if c.m_focusedWidget ≠ 0 ∧ c.containerAt (c.m_focusedWidget - 1) = true then
        (true, (c.childCall d (c.m_focusedWidget - 1) .tabKeyPressed).2)
      else (false, c)

/-- The source of `Container::tabKeyPressed`. -/
def tabKeyPressed (env : Env) (d : Dispatch) (c : Widget) : Bool × Widget :=
  if env.TGUI_TabKeyUsageEnabled = false then (false, c)
  else if c.m_focusedWidget ≠ 0 ∧ c.containerAt (c.m_focusedWidget - 1) = true then
    if (c.childCall d (c.m_focusedWidget - 1) .focusNextWidgetInContainer).1 then
      (true, (c.childCall d (c.m_focusedWidget - 1) .focusNextWidgetInContainer).2)
    else
      tabKeyPressedSearch d (c.childCall d (c.m_focusedWidget - 1) .focusNextWidgetInContainer).2
  else tabKeyPressedSearch d c

/-- The test of the drag loop of the `MouseMoved` branch on `m_widgets[i]`:
`m_mouseDown` and (`m_draggableWidget` or `m_containerWidget`). -/
def draggingAt (c : Widget) (i : Nat) : Bool :=
  match c.m_widgets[i]? with
  | some w => w.m_mouseDown && (w.m_draggableWidget || w.m_containerWidget)
  | none => false

/-- The flag `widget->m_containerWidget` read through a pointer to a child. -/
def containerPtr (c : Widget) (widget : Nat) : Bool :=
  match c.indexOf widget with
  | some i => c.containerAt i
  | none => false

/-- The source of `Container::handleEvent`. -/
def handleEvent (env : Env) (d : Dispatch) (event : Event) (c : Widget) : Bool × Widget :=
  match event with
  | .MouseMoved x y =>
    match firstUp (draggingAt c) 0 c.m_widgets.length with
    | some i => (true, (c.childCall d i (.mouseMoved x y)).2)
    | none =>
      match mouseOnWhichWidget d x y c with
      | (some widget, c1) => (true, (c1.ptrCall d widget (.mouseMoved x y)).2)
      | (none, c1) => (false, c1)
  | .MouseButtonPressed button x y =>
    if button = Mouse.Left then
      match mouseOnWhichWidget d x y c with
      | (some widget, c1) =>
        let c2 := focusWidget d widget c1
        let c3 :=
          if containerPtr c2 widget = true ∧
              (c2.m_focusedWidget ≠ 0 ∧ c2.ptrAt widget (c2.m_focusedWidget - 1) = false) then
            (unfocusCurrent d c2).setFocusedWidget 0
          else c2
        (true, (c3.ptrCall d widget (.leftMousePressed x y)).2)
      | (none, c1) => (false, unfocusWidgets d c1)
    else (false, c)
  | .MouseButtonReleased button x y =>
    if button = Mouse.Left then
      match mouseOnWhichWidget d x y c with
      | (some widget, c1) =>
        (true, mouseNoLongerDownOthers d (some widget) c1.m_widgets.length 0
          (c1.ptrCall d widget (.leftMouseReleased x y)).2)
      | (none, c1) => (false, mouseNoLongerDownOthers d none c1.m_widgets.length 0 c1)
    else (false, c)
  | .KeyPressed key =>
    if key.code ≠ Keyboard.Unknown then
      if c.m_focusedWidget ≠ 0 then
        (true, (c.childCall d (c.m_focusedWidget - 1) (.keyPressed key)).2)
      else (false, c)
    else (false, c)
  | .KeyReleased key =>
    if key.code = Keyboard.Tab then tabKeyPressed env d c else (false, c)
  | .TextEntered unicode =>
    if unicode ≥ 32 ∧ unicode ≠ 127 then
      if c.m_focusedWidget ≠ 0 then
        (true, (c.childCall d (c.m_focusedWidget - 1) (.textEntered unicode)).2)
      else (false, c)
    else (false, c)
  | .MouseWheelMoved delta x y =>
    match mouseOnWhichWidget d x y c with
    | (some widget, c1) => (true, (c1.ptrCall d widget (.mouseWheelMoved delta x y)).2)
    | (none, c1) => (false, c1)
  | .Other => (false, c)

/-- The member functions of `Container` that a parent calls on a child container, each as in
`Container.cpp`: the mouse, key and text members build an event in the coordinates of the
container and pass it to `handleEvent`; `mouseNotOnWidget` and `mouseNoLongerDown` pass the
call on to every child; `widgetUnfocused` is `unfocusWidgets`.  `Widget::mouseLeftWidget`,
`Widget::mouseNoLongerDown` and `Widget::widgetFocused` are defined outside `Container.cpp`
and have no effect on the members modelled here; neither has `Container::initialize`, which
sets the parent pointer and the font. -/
def method (env : Env) (d : Dispatch) (call : Call) (c : Widget) : Bool × Widget :=
  match call with
  | .widgetFocused => (false, c)
  | .widgetUnfocused => (false, unfocusWidgets d c)
  | .mouseOnWidget x y => (env.mouseOnWidget c.ptr x y, c)
  | .mouseNotOnWidget =>
    if c.m_mouseHover = true then (false, callAll d .mouseNotOnWidget c.m_widgets.length 0 c)
    else (false, c)
  | .mouseNoLongerDown => (false, callAll d .mouseNoLongerDown c.m_widgets.length 0 c)
  | .mouseMoved x y =>
    (false, (handleEvent env d (.MouseMoved (env.localX c.ptr x) (env.localY c.ptr y)) c).2)
  | .leftMousePressed x y =>
    (false, (handleEvent env d
      (.MouseButtonPressed Mouse.Left (env.localX c.ptr x) (env.localY c.ptr y)) c).2)
  | .leftMouseReleased x y =>
    (false, (handleEvent env d
      (.MouseButtonReleased Mouse.Left (env.localX c.ptr x) (env.localY c.ptr y)) c).2)
  | .keyPressed key => (false, (handleEvent env d (.KeyPressed key) c).2)
  | .textEntered unicode => (false, (handleEvent env d (.TextEntered unicode) c).2)
  | .mouseWheelMoved delta x y =>
    (false, (handleEvent env d
      (.MouseWheelMoved delta (env.localX c.ptr x) (env.localY c.ptr y)) c).2)
  | .focusNextWidgetInContainer => focusNextWidgetInContainer env d c
  | .tabKeyPressed => tabKeyPressed env d c
  | .initialise => (false, c)

end Container

/-! ## Global callbacks -/

/-- The members of a container that the callback functions of `Container.cpp` use: its
address and `m_globalCallbackFunctions`, the bound functions in binding order, each
`std::function` represented by an identifier. -/
structure CallbackOwner where
  ptr : Nat
  m_globalCallbackFunctions : List Nat
deriving DecidableEq, Repr

/-- An invocation `(*it)(callback)`: the container whose function is called, the function
and the callback passed to it. -/
structure Invocation where
  owner : Nat
  func : Nat
  callback : Nat
deriving DecidableEq, Repr

namespace Container

/-- The source of `Container::bindGlobalCallback`. -/
def bindGlobalCallback (func : Nat) (c : CallbackOwner) : CallbackOwner :=
  { c with m_globalCallbackFunctions := c.m_globalCallbackFunctions ++ [func] }

/-- The source of `Container::unbindGlobalCallback`. -/
def unbindGlobalCallback (c : CallbackOwner) : CallbackOwner :=
  { c with m_globalCallbackFunctions := [] }

/-- The source of `Container::addChildCallback`, called on the first container of a chain
in which every container is followed by its `m_parent`: the invocations made, in order.
`none` stands for following a null `m_parent`, which is undefined behaviour in C++. The
effects of the invoked functions themselves are user code and are not represented. -/
def addChildCallback (callback : Nat) : List CallbackOwner → Option (List Invocation)
  | [] => none
  | c :: parents =>
    if c.m_globalCallbackFunctions.isEmpty then addChildCallback callback parents
    else some (c.m_globalCallbackFunctions.map (fun func => ⟨c.ptr, func, callback⟩))

end Container

/-- A member call on a widget that is not a container: the call is recorded; the only
result is that of the hit test. -/
def leafMethod (env : Env) (call : Call) (w : Widget) : Bool × Widget :=
  match call with
  | .mouseOnWidget x y => (env.mouseOnWidget w.ptr x y, w.record call)
  | _ => (false, w.record call)

/-- Virtual dispatch of a member call on a child: a container (`m_containerWidget`) runs
`Container.method`, resolving the calls on its own children one level further down; any
other widget runs `leafMethod`.  `invoke env n` resolves `n` levels of nested containers. -/
def invoke (env : Env) : Nat → Dispatch
  | 0 => leafMethod env
  | n + 1 => fun call w =>
    if w.m_containerWidget then Container.method env (invoke env n) call (w.record call)
    else leafMethod env call w

end tgui

/-! ## Specification vocabulary -/

namespace tgui

/-- The `m_focused` flags of the children, in order. -/
def Widget.flags (c : Widget) : List Bool := c.m_widgets.map Widget.m_focused

/-- The addresses of the children, in order. -/
def Widget.ptrs (c : Widget) : List Nat := c.m_widgets.map Widget.ptr

/-- The call traces of the children, in order. -/
def Widget.traces (c : Widget) : List (List Call) := c.m_widgets.map Widget.calls

/-- The members of a widget that no function of `Container.cpp` assigns: the address, the
flags `m_allowFocus`, `m_visible`, `m_enabled`, `m_mouseDown`, `m_mouseHover`,
`m_draggableWidget` and `m_containerWidget`. -/
def Widget.fixed (w : Widget) : Nat × Bool × Bool × Bool × Bool × Bool × Bool × Bool :=
  (w.ptr, w.m_allowFocus, w.m_visible, w.m_enabled, w.m_mouseDown, w.m_mouseHover,
    w.m_draggableWidget, w.m_containerWidget)

/-- The members of a widget that belong to the widget itself rather than to its children. -/
def Widget.self (w : Widget) : WidgetBase × Bool := (w.base, w.m_containerWidget)

/-- The single-focus invariant of a container: the children are pairwise distinct objects,
and a child has `m_focused` set exactly when it is the child at index `m_focusedWidget-1`
(so no child has it set when `m_focusedWidget = 0`). -/
def SingleFocus (c : Widget) : Prop :=
  c.ptrs.Nodup ∧
    ∀ i b, c.flags[i]? = some b → (b = true ↔ c.m_focusedWidget = i + 1)

/-- The focus of container `c` has moved to child `j` in `r`: the focus index of `r` is
`j+1`, child `j` has `m_focused` set, the child that `c` designated as focused (if it is
another one) has `m_focused` cleared, and the flag of every other child is as in `c`. -/
def FocusMovedTo (c r : Widget) (j : Nat) : Prop :=
  r.m_focusedWidget = j + 1 ∧ r.m_widgets.length = c.m_widgets.length ∧
    ∀ k, k < c.m_widgets.length →
      r.flags[k]? =
        if k = j then some true
        else if c.m_focusedWidget = k + 1 then some false
        else c.flags[k]?

/-- The container after `handleEvent` has processed a `KeyReleased` event for `key`
(the return value is dropped), with `m` levels of nested containers resolved. -/
def releaseKey (env : Env) (m : Nat) (key : KeyEvent) (c : Widget) : Widget :=
  (Container.handleEvent env (invoke env m) (.KeyReleased key) c).2

/-- The result of `handleEvent` for a `MouseMoved` event at `(x, y)`, with `m` levels of
nested containers resolved. -/
def moveMouse (env : Env) (m : Nat) (x y : Int) (c : Widget) : Bool × Widget :=
  Container.handleEvent env (invoke env m) (.MouseMoved x y) c

/-- The result of `handleEvent` for a `MouseButtonReleased` event of the left button at
`(x, y)`, with `m` levels of nested containers resolved. -/
def releaseLeft (env : Env) (m : Nat) (x y : Int) (c : Widget) : Bool × Widget :=
  Container.handleEvent env (invoke env m) (.MouseButtonReleased Mouse.Left x y) c

/-- The container after a call of `tabKeyPressed` (the return value is dropped), with `m`
levels of nested containers resolved. -/
def pressTab (env : Env) (m : Nat) (c : Widget) : Widget :=
  (Container.tabKeyPressed env (invoke env m) c).2

/-- The widget reached from `w` by descending through the child indices of `path`. -/
def Widget.descend : Widget → List Nat → Option Widget
  | w, [] => some w
  | w, i :: path =>
    match w.m_widgets[i]? with
    | some v => v.descend path
    | none => none

mutual

/-- Every widget of the tree is visible, enabled and allows focus. -/
def Widget.allFocusable : Widget → Bool
  | .mk b _ _ ws _ => (b.m_allowFocus && (b.m_visible && b.m_enabled)) && allFocusableList ws

/-- Every widget of every tree of the list is visible, enabled and allows focus. -/
def allFocusableList : List Widget → Bool
  | [] => true
  | w :: ws => w.allFocusable && allFocusableList ws

end

mutual

/-- Nothing is focused in the tree: no widget has `m_focused` set and every focus index
is 0. -/
def Widget.nothingFocused : Widget → Bool
  | .mk b _ f ws _ => (!b.m_focused && f == 0) && nothingFocusedList ws

/-- Nothing is focused in any tree of the list. -/
def nothingFocusedList : List Widget → Bool
  | [] => true
  | w :: ws => w.nothingFocused && nothingFocusedList ws

end

/-- Child `i` is a candidate of the hit test at `(x, y)`: it is visible, enabled and its
`mouseOnWidget(x, y)` is true. -/
def Container.hitAt (env : Env) (x y : Int) (c : Widget) (i : Nat) : Bool :=
  match c.m_widgets[i]? with
  | some w => (w.m_visible && w.m_enabled) && env.mouseOnWidget w.ptr x y
  | none => false

/-- From `c` to `r` the children have only received further calls: `r` has as many
children as `c`, and the trace of every child of `r` extends its trace in `c`. -/
def TraceGrows (c r : Widget) : Prop :=
  r.m_widgets.length = c.m_widgets.length ∧
    ∀ (i : Nat) (t : List Call), c.traces[i]? = some t → ∃ s, r.traces[i]? = some (t ++ s)

/-- A call that the hit test `mouseOnWhichWidget(x, y)` makes on a child. -/
def IsHitTestCall (x y : Int) (call : Call) : Prop :=
  call = .mouseOnWidget x y ∨ call = .mouseNotOnWidget

/-- From `c` to `r` every child has received only calls that satisfy `P`: `r` has as many
children as `c`, and the trace of every child of `r` is its trace in `c` followed by calls
that satisfy `P`. -/
def TraceGrowsBy (P : Call → Prop) (c r : Widget) : Prop :=
  r.m_widgets.length = c.m_widgets.length ∧
    ∀ (i : Nat) (t : List Call), c.traces[i]? = some t →
      ∃ s, r.traces[i]? = some (t ++ s) ∧ ∀ call ∈ s, P call

/-- Every child of `c` is a widget tree of depth at most `k`. -/
def Shallow (k : Nat) (c : Widget) : Prop :=
  ∀ w ∈ c.m_widgets, w.depth ≤ k

/-- Two method tables give the same result on every widget tree of depth at most `k`, and
that result is again a tree of depth at most `k`. -/
def Agree (k : Nat) (d1 d2 : Dispatch) : Prop :=
  ∀ call w, w.depth ≤ k → d1 call w = d2 call w ∧ (d1 call w).2.depth ≤ k

/-- A method table that respects the members of the receiver: a call changes the base
members of the receiver only by recording the call in its trace, and does not change
whether it is a container. -/
def Frame (d : Dispatch) : Prop :=
  ∀ call w, (d call w).2.base = (w.record call).base ∧
    (d call w).2.m_containerWidget = w.m_containerWidget

end tgui

/-! ## Sample widget trees -/

namespace tgui

/-- A widget that is not a container, at address `p`, with the given flags. -/
def mkLeaf (p : Nat) (focused allowFocus visible enabled : Bool) : Widget :=
  .mk ⟨p, focused, allowFocus, visible, enabled, false, false, false, []⟩ false 0 [] []

/-- A visible, enabled container at address `p` (the constructor of `Container` sets
`m_containerWidget` and `m_allowFocus`) with focus index `f`, children `ws` and names `ns`. -/
def mkContainer (p : Nat) (focused : Bool) (f : Nat) (ws : List Widget) (ns : List String) :
    Widget :=
  .mk ⟨p, focused, true, true, true, false, false, false, []⟩ true f ws ns

/-- Tab key usage enabled; the widget at address `p` covers the points with
`10 * p ≤ x < 10 * p + 10`; containers sit at the origin. -/
def sampleEnv : Env :=
  ⟨true, fun p x _ => decide (10 * (p : Int) ≤ x ∧ x < 10 * (p : Int) + 10), fun _ x => x,
    fun _ y => y⟩

/-- Tab key usage enabled; the widgets are stacked on top of each other: the widget at
address `p` covers the points with `0 ≤ x < 10 * p`; containers sit at the origin. -/
def stackedEnv : Env :=
  ⟨true, fun p x _ => decide (0 ≤ x ∧ x < 10 * (p : Int)), fun _ x => x, fun _ y => y⟩

/-- A window with a button, a focused edit box, a panel holding one button, and a label
that does not allow focus. -/
def sampleWindow : Widget :=
  mkContainer 100 false 2
    [mkLeaf 1 false true true true, mkLeaf 2 true true true true,
      mkContainer 3 false 0 [mkLeaf 4 false true true true] ["inner"],
      mkLeaf 5 false false true true]
    ["button", "edit", "panel", "label"]

/-- A `sf::Event::KeyEvent` for the Tab key without modifiers. -/
def tabKey : KeyEvent := ⟨Keyboard.Tab, false, false, false, false⟩

/-- A dialog without nested containers: a button, a label that does not allow focus, a
disabled button and an edit box; nothing is focused. -/
def flatDialog : Widget :=
  mkContainer 200 false 0
    [mkLeaf 1 false true true true, mkLeaf 2 false false true true,
      mkLeaf 3 false true true false, mkLeaf 4 false true true true]
    ["ok", "caption", "apply", "input"]

/-- A window holding a panel that holds a panel with two buttons; every widget is visible,
enabled and allows focus, and nothing is focused. -/
def deepTree : Widget :=
  mkContainer 10 false 0
    [mkContainer 11 false 0
      [mkContainer 12 false 0
        [mkLeaf 1 false true true true, mkLeaf 2 false true true true] ["first", "second"]]
      ["inner"]]
    ["outer"]

/-- The widget tree of `deepTree` in an arbitrary focus state: the focus indices of the
window and the two panels, the `m_focused` flags of the two panels and the two buttons,
and the traces of the five widgets. -/
def deepState (fWindow fOuter fInner : Nat) (outer inner first second : Bool)
    (t10 t11 t12 t1 t2 : List Call) : Widget :=
  .mk ⟨10, false, true, true, true, false, false, false, t10⟩ true fWindow
    [.mk ⟨11, outer, true, true, true, false, false, false, t11⟩ true fOuter
      [.mk ⟨12, inner, true, true, true, false, false, false, t12⟩ true fInner
        [.mk ⟨1, first, true, true, true, false, false, false, t1⟩ false 0 [] [],
          .mk ⟨2, second, true, true, true, false, false, false, t2⟩ false 0 [] []]
        ["first", "second"]]
      ["inner"]]
    ["outer"]

/-- A window whose focus index designates its only child, a button, while the `m_focused`
flag of the button is not set (the state `moveWidgetToFront` leaves when nothing was
focused). -/
def staleWindow : Widget :=
  mkContainer 300 false 1 [mkLeaf 1 false true true true] ["button"]

/-- A window with two buttons, nothing focused. -/
def twoButtons : Widget :=
  mkContainer 400 false 0 [mkLeaf 1 false true true true, mkLeaf 2 false true true true]
    ["first", "second"]

/-- A window with three buttons of which the second (address 2) is focused. -/
def threeButtons : Widget :=
  mkContainer 401 false 2
    [mkLeaf 1 false true true true, mkLeaf 2 true true true true, mkLeaf 3 false true true true]
    ["first", "second", "third"]

/-- A window with two buttons of which the second (address 2) is focused. -/
def lastFocused : Widget :=
  mkContainer 402 false 2 [mkLeaf 1 false true true true, mkLeaf 2 true true true true]
    ["first", "second"]

/-- A chain of three containers, each followed by its parent: a panel without global
callbacks, a child window with the callbacks 7 and 8 (bound in that order), and the root
with the callback 9. -/
def sampleChain : List CallbackOwner :=
  [⟨1, []⟩, ⟨2, [7, 8]⟩, ⟨3, [9]⟩]

/-- A window with a button and a slider (address 7, a draggable widget) on which the mouse
went down. -/
def dragWindow : Widget :=
  mkContainer 500 false 0
    [mkLeaf 1 false true true true,
      .mk ⟨7, false, true, true, true, true, false, true, []⟩ false 0 [] []]
    ["button", "slider"]

end tgui

/-! ## Scrollbar -/

namespace tgui

/-- Modelled from the spec: the three members of `tgui::Scrollbar` that `getMaximum`,
`getLowValue` and `getValue` return. `Scrollbar.cpp` and `Scrollbar.hpp` are not among the
sources; only the test `tests/Widgets/Scrollbar.cpp` is. -/
structure Scrollbar where
  m_maximum : Nat
  m_lowValue : Nat
  m_value : Nat
deriving DecidableEq, Repr

namespace Scrollbar

/-- Modelled from the spec: `Scrollbar::getMaximum`, whose source is missing. -/
def getMaximum (s : Scrollbar) : Nat := s.m_maximum

/-- Modelled from the spec: `Scrollbar::getLowValue`, whose source is missing. -/
def getLowValue (s : Scrollbar) : Nat := s.m_lowValue

/-- Modelled from the spec: `Scrollbar::getValue`, whose source is missing. -/
def getValue (s : Scrollbar) : Nat := s.m_value

/-- Modelled from the spec: `Scrollbar::setValue`, whose source is missing. The requested
value is stored, cut down to `maximum - lowValue`; when the low value exceeds the maximum
the value is 0. -/
def setValue (value : Nat) (s : Scrollbar) : Scrollbar :=
  if s.m_maximum < s.m_lowValue then { s with m_value := 0 }
  else if value > s.m_maximum - s.m_lowValue then
    { s with m_value := s.m_maximum - s.m_lowValue }
  else { s with m_value := value }

/-- Modelled from the spec: `Scrollbar::setLowValue`, whose source is missing. The low
value is stored as given, then the current value is adjusted as by `setValue`. -/
def setLowValue (lowValue : Nat) (s : Scrollbar) : Scrollbar :=
  setValue s.m_value { s with m_lowValue := lowValue }

/-- Modelled from the spec: `Scrollbar::setMaximum`, whose source is missing. The maximum
is stored as given, then the current value is adjusted as by `setValue`. -/
def setMaximum (maximum : Nat) (s : Scrollbar) : Scrollbar :=
  setValue s.m_value { s with m_maximum := maximum }

end Scrollbar

end tgui

/-! ## The constructor, and widgets paired with their names -/

namespace tgui

set_option linter.dupNamespace false in
/-- The source of the constructor `Container::Container()`, applied to the object that the
constructor of the base class `Widget` (outside `Container.cpp`) has built: it sets
`m_containerWidget` and `m_allowFocus` (and `m_animatedWidget`, which is not represented);
the two vectors are default-constructed, that is empty, and `m_focusedWidget` starts at 0 as
in the copy constructor. -/
def Container.Container (base : WidgetBase) : Widget :=
  .mk { base with m_allowFocus := true } true 0 [] []

/-- The children of a container paired with their names: entry `i` is
`(m_widgets[i], m_objName[i])`. -/
def Widget.named (c : Widget) : List (Widget × String) := c.m_widgets.zip c.m_objName

end tgui

/-! ## Sample trees with panels -/

namespace tgui

/-- A window whose only child is a focused panel with two buttons, of which the second is
focused. -/
def panelWindow : Widget :=
  mkContainer 600 false 1
    [mkContainer 20 true 2 [mkLeaf 1 false true true true, mkLeaf 2 true true true true]
      ["first", "second"]]
    ["panel"]

/-- A window with a focused panel, in which the first of two buttons is focused, followed
by a button. -/
def panelDialog : Widget :=
  mkContainer 601 false 1
    [mkContainer 20 true 1 [mkLeaf 1 true true true true, mkLeaf 2 false true true true]
      ["first", "second"],
      mkLeaf 3 false true true true]
    ["panel", "close"]

end tgui

namespace tgui

/-- A window with an empty panel followed by a button; nothing is focused. -/
def emptyPanelWindow : Widget :=
  mkContainer 700 false 0 [mkContainer 30 false 0 [] [], mkLeaf 1 false true true true]
    ["panel", "ok"]

end tgui

/-! ## The focus path of a tree -/

namespace tgui

mutual

/-- The focus marks of the tree lie on its focus path only: in a container, the child that
`m_focusedWidget` designates has `m_focused` set and satisfies the same condition, and every
other child has nothing focused in its subtree; a widget that is not a container has
nothing focused below it. -/
def Widget.focusPath : Widget → Bool
  | .mk _ k f ws _ => if k then focusPathList f 0 ws else (f == 0 && nothingFocusedList ws)

/-- The condition of `Widget.focusPath` on the children from index `i` on, for the focus
index `f` of their container. -/
def focusPathList (f : Nat) : Nat → List Widget → Bool
  | _, [] => true
  | i, w :: ws =>
    (if f = i + 1 then w.m_focused && w.focusPath else w.nothingFocused) &&
      focusPathList f (i + 1) ws

end

/-- A panel that is not focused although its only button is (the state after
`focusWidget` was called on the panel directly). -/
def strayInner : Widget :=
  mkContainer 41 false 1 [mkLeaf 1 true true true true] ["inner"]

/-- A focused panel holding `strayInner` and a focused button. -/
def strayPanel : Widget :=
  mkContainer 40 true 2 [strayInner, mkLeaf 2 true true true true] ["side", "ok"]

/-- A window whose only child, `strayPanel`, is focused. -/
def strayFocusWindow : Widget :=
  mkContainer 800 false 1 [strayPanel] ["panel"]

end tgui

/-! ## The pre-order of a tree -/

namespace tgui

mutual

/-- The widgets below `c` paired with their names, in depth-first pre-order: each child,
then the widgets inside that child, then the next child. -/
def Widget.preorder : Widget → List (Widget × String)
  | .mk _ _ _ ws ns => preorderList ws ns

/-- The pre-order of the widgets of a list of children `ws` with names `ns`. -/
def preorderList : List Widget → List String → List (Widget × String)
  | w :: ws, n :: ns => (w, n) :: (w.preorder ++ preorderList ws ns)
  | _, _ => []

end

mutual

/-- Only containers have widgets inside them: every widget of the tree that is not a
container (`m_containerWidget` false) has no children. -/
def Widget.wellFormed : Widget → Bool
  | .mk _ k _ ws _ => (k || ws.isEmpty) && wellFormedList ws

/-- Every tree of the list satisfies `Widget.wellFormed`. -/
def wellFormedList : List Widget → Bool
  | [] => true
  | w :: ws => w.wellFormed && wellFormedList ws

end

end tgui

/-! ## Sequences of focus operations -/

namespace tgui

/-- No child that does not allow focus is focused: every child that has `m_focused` set or
that `m_focusedWidget` designates has `m_allowFocus` set. -/
def FocusAllowed (c : Widget) : Prop :=
  ∀ (i : Nat) (w : Widget), c.m_widgets[i]? = some w →
    (w.m_focused = true ∨ c.m_focusedWidget = i + 1) → w.m_allowFocus = true

/-- From `c` to `r` the focus has not changed: the focus index, the `m_focused` flags and
the fixed members of the children are the same. -/
def SameFocus (c r : Widget) : Prop :=
  r.m_focusedWidget = c.m_focusedWidget ∧ r.flags = c.flags ∧
    r.m_widgets.map Widget.fixed = c.m_widgets.map Widget.fixed

/-- One call in a sequence of focus operations on a container. -/
inductive FocusOp where
  | focusWidget (widget : Nat)
  | focusNextWidget
  | focusPreviousWidget
  | tabKeyPressed
  | handleEvent (event : Event)
deriving DecidableEq, Repr

/-- The container after one call of a sequence (return values are dropped). -/
def Container.perform (env : Env) (d : Dispatch) (op : FocusOp) (c : Widget) : Widget :=
  match op with
  | .focusWidget widget => Container.focusWidget d widget c
  | .focusNextWidget => Container.focusNextWidget d c
  | .focusPreviousWidget => Container.focusPreviousWidget d c
  | .tabKeyPressed => (Container.tabKeyPressed env d c).2
  | .handleEvent event => (Container.handleEvent env d event c).2

/-- The container after a sequence of calls, made in order. -/
def Container.performAll (env : Env) (d : Dispatch) : List FocusOp → Widget → Widget
  | [], c => c
  | op :: ops, c => Container.performAll env d ops (Container.perform env d op c)

/-- The child that `widget` points to, if there is one, allows focus. -/
def Widget.allowFocusPtr (c : Widget) (widget : Nat) : Bool :=
  match c.indexOf widget with
  | some i => ((c.m_widgets.map Widget.m_allowFocus)[i]?).getD true
  | none => true

/-- The call does not ask for the focus of a child that does not allow focus: the argument
of `focusWidget`, and the child that a left mouse press hits, allow focus. -/
def Container.asksAllowed (d : Dispatch) (c : Widget) (op : FocusOp) : Bool :=
  match op with
  | .focusWidget widget => c.allowFocusPtr widget
  | .handleEvent event =>
    match event with
    | .MouseButtonPressed button x y =>
      if button = Mouse.Left then
        match (Container.mouseOnWhichWidget d x y c).1 with
        | some widget => c.allowFocusPtr widget
        | none => true
      else true
    | _ => true
  | _ => true

/-- Every call of the sequence satisfies `Container.asksAllowed` in the state in which it
is made. -/
def Container.allAsksAllowed (env : Env) (d : Dispatch) : List FocusOp → Widget → Bool
  | [], _ => true
  | op :: ops, c =>
    Container.asksAllowed d c op &&
      Container.allAsksAllowed env d ops (Container.perform env d op c)

end tgui

/-! ## Valid states -/

namespace tgui

mutual

/-- The address of the widget followed by the addresses of all widgets below it. -/
def Widget.addresses : Widget → List Nat
  | .mk b _ _ ws _ => b.ptr :: addressesList ws

/-- The addresses of all widgets of a list of trees. -/
def addressesList : List Widget → List Nat
  | [] => []
  | w :: ws => w.addresses ++ addressesList ws

end

mutual

/-- In the widget and in every widget below it the focus index is 0 or the index of a
child: `m_focusedWidget ≤ m_widgets.size()`. -/
def Widget.inRange : Widget → Bool
  | .mk _ _ f ws _ => decide (f ≤ ws.length) && inRangeList ws

/-- Every tree of the list satisfies `Widget.inRange`. -/
def inRangeList : List Widget → Bool
  | [] => true
  | w :: ws => w.inRange && inRangeList ws

end

/-- The states on which the model follows `Container.cpp`. (1) In every container of the
tree the focus index is within the list of children, so that every
`m_widgets[m_focusedWidget-1]` of the source reads an element of the vector; outside such
states the C++ code has undefined behaviour, where `Widget.updateChild` and
`Widget.childCall` do nothing. (2) The widgets of the tree are pairwise distinct objects,
so that the tree of values represents the objects that the vectors of shared pointers
refer to; a vector that holds one object twice has no counterpart in the tree. -/
def Widget.valid (c : Widget) : Prop := c.inRange = true ∧ c.addresses.Nodup

/-- The conversion `static_cast<float>(x)` of the `int` coordinate `x` is exact: `x` lies
within `±2^24`, the range in which every integer is a `float`. The model passes the
coordinates of an event on as integers, which is what the code does for such coordinates. -/
def exactFloat (x : Int) : Prop := x.natAbs ≤ 2 ^ 24

/-- A mouse event at `(x, y)` reaches container `c` in a state and with coordinates on which
the model follows the code: `c` is valid and both coordinates are exact as `float`. -/
def Container.validAt (c : Widget) (x y : Int) : Prop := c.valid ∧ exactFloat x ∧ exactFloat y

/-- The widget `r` is a later state of the widget `w`: it consists of the same objects, and
it is in range if `w` is. -/
def Widget.Evolved (w r : Widget) : Prop :=
  r.addresses = w.addresses ∧ (w.inRange = true → r.inRange = true)

/-- The container `r` is a later state of the container `c` as far as validity goes: it has
as many children, child by child a later state of the child of `c`, and its focus index is
within the list if that of `c` is. -/
def Widget.Kept (c r : Widget) : Prop :=
  r.m_widgets.length = c.m_widgets.length ∧
    (∀ (i : Nat) (w : Widget), c.m_widgets[i]? = some w →
      ∃ v, r.m_widgets[i]? = some v ∧ w.Evolved v) ∧
    (c.m_focusedWidget ≤ c.m_widgets.length → r.m_focusedWidget ≤ r.m_widgets.length)

/-- A method table whose calls leave every widget in a later state of itself. -/
def KeepsValid (d : Dispatch) : Prop := ∀ call w, Widget.Evolved w (d call w).2

end tgui

/-! ## Basic facts about the embedding -/

namespace tgui

@[simp] theorem Widget.base_setFocused (v : _) (w : Widget) :
    (w.setFocused v).base = { w.base with m_focused := v } := by
  cases w; rfl

@[simp] theorem Widget.m_containerWidget_setFocused (v : _) (w : Widget) :
    (w.setFocused v).m_containerWidget = w.m_containerWidget := by
  cases w; rfl

@[simp] theorem Widget.m_focusedWidget_setFocused (v : _) (w : Widget) :
    (w.setFocused v).m_focusedWidget = w.m_focusedWidget := by
  cases w; rfl

@[simp] theorem Widget.m_widgets_setFocused (v : _) (w : Widget) :
    (w.setFocused v).m_widgets = w.m_widgets := by
  cases w; rfl

@[simp] theorem Widget.m_objName_setFocused (v : _) (w : Widget) :
    (w.setFocused v).m_objName = w.m_objName := by
  cases w; rfl

@[simp] theorem Widget.base_record (call : _) (w : Widget) :
    (w.record call).base = { w.base with calls := w.base.calls ++ [call] } := by
  cases w; rfl

@[simp] theorem Widget.m_containerWidget_record (call : _) (w : Widget) :
    (w.record call).m_containerWidget = w.m_containerWidget := by
  cases w; rfl

@[simp] theorem Widget.m_focusedWidget_record (call : _) (w : Widget) :
    (w.record call).m_focusedWidget = w.m_focusedWidget := by
  cases w; rfl

@[simp] theorem Widget.m_widgets_record (call : _) (w : Widget) :
    (w.record call).m_widgets = w.m_widgets := by
  cases w; rfl

@[simp] theorem Widget.m_objName_record (call : _) (w : Widget) :
    (w.record call).m_objName = w.m_objName := by
  cases w; rfl

@[simp] theorem Widget.base_setFocusedWidget (v : _) (w : Widget) :
    (w.setFocusedWidget v).base = w.base := by
  cases w; rfl

@[simp] theorem Widget.m_containerWidget_setFocusedWidget (v : _) (w : Widget) :
    (w.setFocusedWidget v).m_containerWidget = w.m_containerWidget := by
  cases w; rfl

@[simp] theorem Widget.m_focusedWidget_setFocusedWidget (v : _) (w : Widget) :
    (w.setFocusedWidget v).m_focusedWidget = v := by
  cases w; rfl

@[simp] theorem Widget.m_widgets_setFocusedWidget (v : _) (w : Widget) :
    (w.setFocusedWidget v).m_widgets = w.m_widgets := by
  cases w; rfl

@[simp] theorem Widget.m_objName_setFocusedWidget (v : _) (w : Widget) :
    (w.setFocusedWidget v).m_objName = w.m_objName := by
  cases w; rfl

@[simp] theorem Widget.base_setWidgets (ws : _) (w : Widget) :
    (w.setWidgets ws).base = w.base := by
  cases w; rfl

@[simp] theorem Widget.m_containerWidget_setWidgets (ws : _) (w : Widget) :
    (w.setWidgets ws).m_containerWidget = w.m_containerWidget := by
  cases w; rfl

@[simp] theorem Widget.m_focusedWidget_setWidgets (ws : _) (w : Widget) :
    (w.setWidgets ws).m_focusedWidget = w.m_focusedWidget := by
  cases w; rfl

@[simp] theorem Widget.m_widgets_setWidgets (ws : _) (w : Widget) :
    (w.setWidgets ws).m_widgets = ws := by
  cases w; rfl

@[simp] theorem Widget.m_objName_setWidgets (ws : _) (w : Widget) :
    (w.setWidgets ws).m_objName = w.m_objName := by
  cases w; rfl

@[simp] theorem Widget.base_setObjName (ns : _) (w : Widget) :
    (w.setObjName ns).base = w.base := by
  cases w; rfl

@[simp] theorem Widget.m_containerWidget_setObjName (ns : _) (w : Widget) :
    (w.setObjName ns).m_containerWidget = w.m_containerWidget := by
  cases w; rfl

@[simp] theorem Widget.m_focusedWidget_setObjName (ns : _) (w : Widget) :
    (w.setObjName ns).m_focusedWidget = w.m_focusedWidget := by
  cases w; rfl

@[simp] theorem Widget.m_widgets_setObjName (ns : _) (w : Widget) :
    (w.setObjName ns).m_widgets = w.m_widgets := by
  cases w; rfl

@[simp] theorem Widget.m_objName_setObjName (ns : _) (w : Widget) :
    (w.setObjName ns).m_objName = ns := by
  cases w; rfl

@[simp] theorem Widget.ptr_setFocused (v : Bool) (w : Widget) : (w.setFocused v).ptr = w.ptr := by
  cases w; rfl

@[simp] theorem Widget.m_focused_setFocused (v : Bool) (w : Widget) :
    (w.setFocused v).m_focused = v := by
  cases w; rfl

@[simp] theorem Widget.calls_setFocused (v : Bool) (w : Widget) :
    (w.setFocused v).calls = w.calls := by
  cases w; rfl

@[simp] theorem Widget.fixed_setFocused (v : Bool) (w : Widget) :
    (w.setFocused v).fixed = w.fixed := by
  cases w; rfl

@[simp] theorem Widget.focusable_setFocused (v : Bool) (w : Widget) :
    (w.setFocused v).focusable = w.focusable := by
  cases w; rfl

@[simp] theorem Widget.ptr_record (k : Call) (w : Widget) : (w.record k).ptr = w.ptr := by
  cases w; rfl

@[simp] theorem Widget.m_focused_record (k : Call) (w : Widget) :
    (w.record k).m_focused = w.m_focused := by
  cases w; rfl

@[simp] theorem Widget.calls_record (k : Call) (w : Widget) :
    (w.record k).calls = w.calls ++ [k] := by
  cases w; rfl

@[simp] theorem Widget.fixed_record (k : Call) (w : Widget) : (w.record k).fixed = w.fixed := by
  cases w; rfl

theorem Widget.ptr_of_base {v w : Widget} (h : v.base = w.base) : v.ptr = w.ptr := by
  simp [Widget.ptr, h]

theorem Widget.m_focused_of_base {v w : Widget} (h : v.base = w.base) :
    v.m_focused = w.m_focused := by
  simp [Widget.m_focused, h]

theorem Widget.calls_of_base {v w : Widget} (h : v.base = w.base) : v.calls = w.calls := by
  simp [Widget.calls, h]

theorem Widget.fixed_of_base {v w : Widget} (h : v.base = w.base)
    (hk : v.m_containerWidget = w.m_containerWidget) : v.fixed = w.fixed := by
  simp [Widget.fixed, Widget.ptr, Widget.m_allowFocus, Widget.m_visible, Widget.m_enabled,
    Widget.m_mouseDown, Widget.m_mouseHover, Widget.m_draggableWidget, h, hk]

theorem Widget.focusable_of_fixed {v w : Widget} (h : v.fixed = w.fixed) :
    v.focusable = w.focusable := by
  simp only [Widget.fixed, Prod.mk.injEq] at h
  simp [Widget.focusable, h]

theorem Widget.ptr_of_fixed {v w : Widget} (h : v.fixed = w.fixed) : v.ptr = w.ptr := by
  simp only [Widget.fixed, Prod.mk.injEq] at h
  exact h.1

theorem Widget.m_containerWidget_of_fixed {v w : Widget} (h : v.fixed = w.fixed) :
    v.m_containerWidget = w.m_containerWidget := by
  simp only [Widget.fixed, Prod.mk.injEq] at h
  exact h.2.2.2.2.2.2.2

theorem Widget.m_visible_of_fixed {v w : Widget} (h : v.fixed = w.fixed) :
    v.m_visible = w.m_visible := by
  simp only [Widget.fixed, Prod.mk.injEq] at h
  exact h.2.2.1

theorem Widget.m_enabled_of_fixed {v w : Widget} (h : v.fixed = w.fixed) :
    v.m_enabled = w.m_enabled := by
  simp only [Widget.fixed, Prod.mk.injEq] at h
  exact h.2.2.2.1

/-! ### A method table that respects the receiver -/

theorem Frame.ptr {d : Dispatch} (hd : Frame d) (k : Call) (w : Widget) :
    (d k w).2.ptr = w.ptr := by
  rw [Widget.ptr_of_base (hd k w).1, Widget.ptr_record]

theorem Frame.m_focused {d : Dispatch} (hd : Frame d) (k : Call) (w : Widget) :
    (d k w).2.m_focused = w.m_focused := by
  rw [Widget.m_focused_of_base (hd k w).1, Widget.m_focused_record]

theorem Frame.calls {d : Dispatch} (hd : Frame d) (k : Call) (w : Widget) :
    (d k w).2.calls = w.calls ++ [k] := by
  rw [Widget.calls_of_base (hd k w).1, Widget.calls_record]

theorem Frame.fixed {d : Dispatch} (hd : Frame d) (k : Call) (w : Widget) :
    (d k w).2.fixed = w.fixed := by
  rw [Widget.fixed_of_base (hd k w).1 (by rw [(hd k w).2, Widget.m_containerWidget_record]),
    Widget.fixed_record]

/-! ### Writes and calls through `m_widgets[i]` -/

theorem List.modify_eq_of_getElem? {α : Type} (f : α → α) (l : List α) (i : Nat) (a : α)
    (h : l[i]? = some a) : l.set i (f a) = l.modify f i := by
  apply List.ext_getElem?
  intro k
  rw [List.getElem?_modify, List.getElem?_set]
  by_cases hk : i = k
  · subst hk
    have hi : i < l.length := (List.getElem?_eq_some_iff.1 h).1
    simp [h, hi]
  · simp only [hk, if_false]
    cases l[k]? <;> rfl

theorem List.modify_eq_of_getElem?_none {α : Type} (f : α → α) (l : List α) (i : Nat)
    (h : l[i]? = none) : l.modify f i = l :=
  List.modify_eq_self (List.getElem?_eq_none_iff.1 h)

theorem List.map_modify_of_eq {α β : Type} (g : α → β) (f : α → α) (l : List α) (i : Nat)
    (h : ∀ a, g (f a) = g a) : (l.modify f i).map g = l.map g := by
  apply List.ext_getElem?
  intro k
  rw [List.getElem?_map, List.getElem?_map, List.getElem?_modify]
  cases l[k]? with
  | none => rfl
  | some a => by_cases hk : i = k <;> simp [hk, h]

theorem List.map_modify_const {α β : Type} (g : α → β) (f : α → α) (l : List α) (i : Nat)
    (v : β) (h : ∀ a, g (f a) = v) : (l.modify f i).map g = (l.map g).set i v := by
  apply List.ext_getElem?
  intro k
  rw [List.getElem?_map, List.getElem?_modify, List.getElem?_set, List.getElem?_map]
  by_cases hk : i = k
  · subst hk
    cases hl : l[i]? with
    | none =>
      have : ¬ i < l.length := by
        intro hi
        rw [List.getElem?_eq_getElem hi] at hl
        exact Option.noConfusion hl
      simp [this]
    | some a =>
      have hi : i < l.length := (List.getElem?_eq_some_iff.1 hl).1
      simp [hi, h]
  · simp only [hk, if_false]
    cases l[k]? <;> rfl

@[simp] theorem Widget.updateChild_widgets (i : Nat) (f : Widget → Widget) (c : Widget) :
    (c.updateChild i f).m_widgets = c.m_widgets.modify f i := by
  unfold Widget.updateChild
  cases h : c.m_widgets[i]? with
  | none => simp [List.modify_eq_of_getElem?_none f _ _ h]
  | some w => simp [List.modify_eq_of_getElem? f _ _ _ h]

@[simp] theorem Widget.updateChild_focusedWidget (i : Nat) (f : Widget → Widget) (c : Widget) :
    (c.updateChild i f).m_focusedWidget = c.m_focusedWidget := by
  unfold Widget.updateChild
  cases c.m_widgets[i]? <;> simp

@[simp] theorem Widget.updateChild_base (i : Nat) (f : Widget → Widget) (c : Widget) :
    (c.updateChild i f).base = c.base := by
  unfold Widget.updateChild
  cases c.m_widgets[i]? <;> simp

@[simp] theorem Widget.updateChild_containerWidget (i : Nat) (f : Widget → Widget)
    (c : Widget) : (c.updateChild i f).m_containerWidget = c.m_containerWidget := by
  unfold Widget.updateChild
  cases c.m_widgets[i]? <;> simp

@[simp] theorem Widget.updateChild_objName (i : Nat) (f : Widget → Widget) (c : Widget) :
    (c.updateChild i f).m_objName = c.m_objName := by
  unfold Widget.updateChild
  cases c.m_widgets[i]? <;> simp

@[simp] theorem Widget.childCall_widgets (d : Dispatch) (i : Nat) (k : Call) (c : Widget) :
    (c.childCall d i k).2.m_widgets = c.m_widgets.modify (fun w => (d k w).2) i := by
  unfold Widget.childCall
  cases h : c.m_widgets[i]? with
  | none => simp [List.modify_eq_of_getElem?_none _ _ _ h]
  | some w => simp [List.modify_eq_of_getElem? (fun w => (d k w).2) _ _ _ h]

@[simp] theorem Widget.childCall_focusedWidget (d : Dispatch) (i : Nat) (k : Call)
    (c : Widget) : (c.childCall d i k).2.m_focusedWidget = c.m_focusedWidget := by
  unfold Widget.childCall
  cases c.m_widgets[i]? <;> simp

@[simp] theorem Widget.childCall_base (d : Dispatch) (i : Nat) (k : Call) (c : Widget) :
    (c.childCall d i k).2.base = c.base := by
  unfold Widget.childCall
  cases c.m_widgets[i]? <;> simp

@[simp] theorem Widget.childCall_containerWidget (d : Dispatch) (i : Nat) (k : Call)
    (c : Widget) : (c.childCall d i k).2.m_containerWidget = c.m_containerWidget := by
  unfold Widget.childCall
  cases c.m_widgets[i]? <;> simp

@[simp] theorem Widget.childCall_objName (d : Dispatch) (i : Nat) (k : Call) (c : Widget) :
    (c.childCall d i k).2.m_objName = c.m_objName := by
  unfold Widget.childCall
  cases c.m_widgets[i]? <;> simp

theorem Widget.childCall_fst (d : Dispatch) (i : Nat) (k : Call) (c : Widget) (w : Widget)
    (h : c.m_widgets[i]? = some w) : (c.childCall d i k).1 = (d k w).1 := by
  unfold Widget.childCall
  simp [h]

theorem Widget.ext_fields {v w : Widget} (hb : v.base = w.base)
    (hk : v.m_containerWidget = w.m_containerWidget)
    (hf : v.m_focusedWidget = w.m_focusedWidget) (hw : v.m_widgets = w.m_widgets)
    (hn : v.m_objName = w.m_objName) : v = w := by
  cases v; cases w
  simp only [Widget.base, Widget.m_containerWidget, Widget.m_focusedWidget, Widget.m_widgets,
    Widget.m_objName] at hb hk hf hw hn
  subst hb hk hf hw hn
  rfl

/-! ### The two focus fragments -/

@[simp] theorem Container.unfocusCurrent_widgets (d : Dispatch) (c : Widget) :
    (Container.unfocusCurrent d c).m_widgets =
      c.m_widgets.modify (fun w => (d .widgetUnfocused (w.setFocused false)).2)
        (c.m_focusedWidget - 1) := by
  simp [Container.unfocusCurrent, List.modify_modify_eq, Function.comp_def]

@[simp] theorem Container.unfocusCurrent_focusedWidget (d : Dispatch) (c : Widget) :
    (Container.unfocusCurrent d c).m_focusedWidget = c.m_focusedWidget := by
  simp [Container.unfocusCurrent]

@[simp] theorem Container.unfocusCurrent_base (d : Dispatch) (c : Widget) :
    (Container.unfocusCurrent d c).base = c.base := by
  simp [Container.unfocusCurrent]

@[simp] theorem Container.unfocusCurrent_containerWidget (d : Dispatch) (c : Widget) :
    (Container.unfocusCurrent d c).m_containerWidget = c.m_containerWidget := by
  simp [Container.unfocusCurrent]

@[simp] theorem Container.unfocusCurrent_objName (d : Dispatch) (c : Widget) :
    (Container.unfocusCurrent d c).m_objName = c.m_objName := by
  simp [Container.unfocusCurrent]

@[simp] theorem Container.focusChild_widgets (d : Dispatch) (i : Nat) (c : Widget) :
    (Container.focusChild d i c).m_widgets =
      c.m_widgets.modify (fun w => (d .widgetFocused (w.setFocused true)).2) i := by
  simp [Container.focusChild, List.modify_modify_eq, Function.comp_def]

@[simp] theorem Container.focusChild_focusedWidget (d : Dispatch) (i : Nat) (c : Widget) :
    (Container.focusChild d i c).m_focusedWidget = i + 1 := by
  simp [Container.focusChild]

@[simp] theorem Container.focusChild_base (d : Dispatch) (i : Nat) (c : Widget) :
    (Container.focusChild d i c).base = c.base := by
  simp [Container.focusChild]

@[simp] theorem Container.focusChild_containerWidget (d : Dispatch) (i : Nat) (c : Widget) :
    (Container.focusChild d i c).m_containerWidget = c.m_containerWidget := by
  simp [Container.focusChild]

@[simp] theorem Container.focusChild_objName (d : Dispatch) (i : Nat) (c : Widget) :
    (Container.focusChild d i c).m_objName = c.m_objName := by
  simp [Container.focusChild]

/-! ### The search loops -/

theorem firstUp_eq_some (p : Nat → Bool) (n lo j : Nat) :
    firstUp p lo n = some j ↔
      lo ≤ j ∧ j < lo + n ∧ p j = true ∧ ∀ k, lo ≤ k → k < j → p k = false := by
  induction n generalizing lo with
  | zero =>
    simp only [firstUp, Nat.add_zero]
    constructor
    · intro h; cases h
    · rintro ⟨h1, h2, -⟩; omega
  | succ n ih =>
    simp only [firstUp]
    by_cases hp : p lo = true
    · simp only [hp, if_true, Option.some.injEq]
      constructor
      · rintro rfl
        exact ⟨le_refl _, by omega, hp, fun k h1 h2 => by omega⟩
      · rintro ⟨h1, -, -, h4⟩
        by_contra hne
        have := h4 lo (le_refl _) (by omega)
        rw [hp] at this
        cases this
    · rw [if_neg hp, ih]
      have hp' : p lo = false := by simpa using hp
      constructor
      · rintro ⟨h1, h2, h3, h4⟩
        refine ⟨by omega, by omega, h3, fun k hk1 hk2 => ?_⟩
        by_cases hk : k = lo
        · rw [hk]; exact hp'
        · exact h4 k (by omega) hk2
      · rintro ⟨h1, h2, h3, h4⟩
        have hne : lo ≠ j := by
          rintro rfl
          rw [hp'] at h3
          cases h3
        exact ⟨by omega, by omega, h3, fun k hk1 hk2 => h4 k (by omega) hk2⟩

theorem firstUp_eq_none (p : Nat → Bool) (n lo : Nat) :
    firstUp p lo n = none ↔ ∀ k, lo ≤ k → k < lo + n → p k = false := by
  induction n generalizing lo with
  | zero =>
    simp only [firstUp, Nat.add_zero, true_iff]
    intro k h1 h2
    omega
  | succ n ih =>
    simp only [firstUp]
    by_cases hp : p lo = true
    · simp only [hp, if_true]
      constructor
      · intro h; cases h
      · intro h
        have := h lo (le_refl _) (by omega)
        rw [hp] at this
        cases this
    · rw [if_neg hp, ih]
      have hp' : p lo = false := by simpa using hp
      constructor
      · intro h k hk1 hk2
        by_cases hk : k = lo
        · rw [hk]; exact hp'
        · exact h k (by omega) (by omega)
      · intro h k hk1 hk2
        exact h k (by omega) (by omega)

theorem firstDown_eq_some (p : Nat → Bool) (n lo j : Nat) :
    firstDown p lo n = some j ↔
      lo ≤ j ∧ j < lo + n ∧ p j = true ∧ ∀ k, j < k → k < lo + n → p k = false := by
  induction n with
  | zero =>
    simp only [firstDown, Nat.add_zero]
    constructor
    · intro h; cases h
    · rintro ⟨h1, h2, -⟩; omega
  | succ n ih =>
    simp only [firstDown]
    by_cases hp : p (lo + n) = true
    · simp only [hp, if_true, Option.some.injEq]
      constructor
      · rintro rfl
        exact ⟨by omega, by omega, hp, fun k h1 h2 => by omega⟩
      · rintro ⟨h1, h2, -, h4⟩
        by_contra hne
        have := h4 (lo + n) (by omega) (by omega)
        rw [hp] at this
        cases this
    · rw [if_neg hp, ih]
      have hp' : p (lo + n) = false := by simpa using hp
      constructor
      · rintro ⟨h1, h2, h3, h4⟩
        refine ⟨h1, by omega, h3, fun k hk1 hk2 => ?_⟩
        by_cases hk : k = lo + n
        · rw [hk]; exact hp'
        · exact h4 k hk1 (by omega)
      · rintro ⟨h1, h2, h3, h4⟩
        have hne : j ≠ lo + n := by
          rintro rfl
          rw [hp'] at h3
          cases h3
        exact ⟨h1, by omega, h3, fun k hk1 hk2 => h4 k hk1 (by omega)⟩

theorem firstDown_eq_none (p : Nat → Bool) (n lo : Nat) :
    firstDown p lo n = none ↔ ∀ k, lo ≤ k → k < lo + n → p k = false := by
  induction n with
  | zero =>
    simp only [firstDown, Nat.add_zero, true_iff]
    intro k h1 h2
    omega
  | succ n ih =>
    simp only [firstDown]
    by_cases hp : p (lo + n) = true
    · simp only [hp, if_true]
      constructor
      · intro h; cases h
      · intro h
        have := h (lo + n) (by omega) (by omega)
        rw [hp] at this
        cases this
    · rw [if_neg hp, ih]
      have hp' : p (lo + n) = false := by simpa using hp
      constructor
      · intro h k hk1 hk2
        by_cases hk : k = lo + n
        · rw [hk]; exact hp'
        · exact h k hk1 (by omega)
      · intro h k hk1 hk2
        exact h k hk1 (by omega)

/-! ### Children seen through their fixed members -/

theorem Widget.focusableAt_eq_true (c : Widget) (i : Nat) :
    c.focusableAt i = true ↔ ∃ w, c.m_widgets[i]? = some w ∧ w.focusable = true := by
  unfold Widget.focusableAt
  cases c.m_widgets[i]? <;> simp

theorem Widget.focusableAt_lt (c : Widget) (i : Nat) (h : c.focusableAt i = true) :
    i < c.m_widgets.length := by
  obtain ⟨w, hw, -⟩ := (c.focusableAt_eq_true i).1 h
  exact (List.getElem?_eq_some_iff.1 hw).1

theorem Widget.ptrAt_lt (c : Widget) (p i : Nat) (h : c.ptrAt p i = true) :
    i < c.m_widgets.length := by
  unfold Widget.ptrAt at h
  cases hw : c.m_widgets[i]? with
  | none => simp [hw] at h
  | some w => exact (List.getElem?_eq_some_iff.1 hw).1

theorem Widget.focusableAt_congr {c c2 : Widget}
    (h : c2.m_widgets.map Widget.fixed = c.m_widgets.map Widget.fixed) :
    c2.focusableAt = c.focusableAt := by
  funext i
  have hi := congrArg (fun l => l[i]?) h
  simp only [List.getElem?_map] at hi
  unfold Widget.focusableAt
  cases h1 : c2.m_widgets[i]? <;> cases h2 : c.m_widgets[i]? <;> simp [h1, h2] at hi ⊢
  exact Widget.focusable_of_fixed hi

theorem Widget.containerAt_congr {c c2 : Widget}
    (h : c2.m_widgets.map Widget.fixed = c.m_widgets.map Widget.fixed) :
    c2.containerAt = c.containerAt := by
  funext i
  have hi := congrArg (fun l => l[i]?) h
  simp only [List.getElem?_map] at hi
  unfold Widget.containerAt
  cases h1 : c2.m_widgets[i]? <;> cases h2 : c.m_widgets[i]? <;> simp [h1, h2] at hi ⊢
  exact Widget.m_containerWidget_of_fixed hi

theorem Widget.ptrs_congr {c c2 : Widget}
    (h : c2.m_widgets.map Widget.fixed = c.m_widgets.map Widget.fixed) : c2.ptrs = c.ptrs := by
  have := congrArg (List.map (fun (t : Nat × Bool × Bool × Bool × Bool × Bool × Bool × Bool) => t.1)) h
  simpa [Widget.ptrs, Widget.fixed, List.map_map, Function.comp_def] using this

theorem Widget.length_congr {c c2 : Widget}
    (h : c2.m_widgets.map Widget.fixed = c.m_widgets.map Widget.fixed) :
    c2.m_widgets.length = c.m_widgets.length := by
  simpa using congrArg List.length h

theorem Widget.ptrAt_eq (c : Widget) (p i : Nat) :
    c.ptrAt p i = (c.ptrs[i]? == some p) := by
  unfold Widget.ptrAt Widget.ptrs
  rw [List.getElem?_map]
  cases c.m_widgets[i]? <;> simp

theorem Widget.ptrAt_congr {c c2 : Widget}
    (h : c2.m_widgets.map Widget.fixed = c.m_widgets.map Widget.fixed) :
    c2.ptrAt = c.ptrAt := by
  funext p i
  rw [Widget.ptrAt_eq, Widget.ptrAt_eq, Widget.ptrs_congr h]

theorem Widget.indexOf_congr {c c2 : Widget}
    (h : c2.m_widgets.map Widget.fixed = c.m_widgets.map Widget.fixed) :
    c2.indexOf = c.indexOf := by
  funext p
  unfold Widget.indexOf
  rw [Widget.ptrAt_congr h, Widget.length_congr h]

theorem Container.unfocusCurrent_fixed {d : Dispatch} (hd : Frame d) (c : Widget) :
    (Container.unfocusCurrent d c).m_widgets.map Widget.fixed = c.m_widgets.map Widget.fixed := by
  rw [Container.unfocusCurrent_widgets]
  exact List.map_modify_of_eq _ _ _ _ (fun a => by rw [hd.fixed, Widget.fixed_setFocused])

theorem Container.focusChild_fixed {d : Dispatch} (hd : Frame d) (i : Nat) (c : Widget) :
    (Container.focusChild d i c).m_widgets.map Widget.fixed = c.m_widgets.map Widget.fixed := by
  rw [Container.focusChild_widgets]
  exact List.map_modify_of_eq _ _ _ _ (fun a => by rw [hd.fixed, Widget.fixed_setFocused])

theorem Container.unfocusCurrent_flags {d : Dispatch} (hd : Frame d) (c : Widget) :
    (Container.unfocusCurrent d c).flags = c.flags.set (c.m_focusedWidget - 1) false := by
  unfold Widget.flags
  rw [Container.unfocusCurrent_widgets]
  exact List.map_modify_const _ _ _ _ _
    (fun a => by rw [hd.m_focused, Widget.m_focused_setFocused])

theorem Container.focusChild_flags {d : Dispatch} (hd : Frame d) (i : Nat) (c : Widget) :
    (Container.focusChild d i c).flags = c.flags.set i true := by
  unfold Widget.flags
  rw [Container.focusChild_widgets]
  exact List.map_modify_const _ _ _ _ _
    (fun a => by rw [hd.m_focused, Widget.m_focused_setFocused])

/-! ### The functions of a container leave its own members alone -/

@[simp] theorem Widget.self_setFocusedWidget (v : Nat) (c : Widget) :
    (c.setFocusedWidget v).self = c.self := by
  simp [Widget.self]

@[simp] theorem Widget.self_setWidgets (ws : List Widget) (c : Widget) :
    (c.setWidgets ws).self = c.self := by
  simp [Widget.self]

@[simp] theorem Widget.self_setObjName (ns : List String) (c : Widget) :
    (c.setObjName ns).self = c.self := by
  simp [Widget.self]

@[simp] theorem Widget.self_updateChild (i : Nat) (f : Widget → Widget) (c : Widget) :
    (c.updateChild i f).self = c.self := by
  simp [Widget.self]

@[simp] theorem Widget.self_childCall (d : Dispatch) (i : Nat) (k : Call) (c : Widget) :
    (c.childCall d i k).2.self = c.self := by
  simp [Widget.self]

@[simp] theorem Widget.self_ptrCall (d : Dispatch) (p : Nat) (k : Call) (c : Widget) :
    (c.ptrCall d p k).2.self = c.self := by
  unfold Widget.ptrCall
  cases c.indexOf p <;> simp

@[simp] theorem Container.self_unfocusCurrent (d : Dispatch) (c : Widget) :
    (Container.unfocusCurrent d c).self = c.self := by
  simp [Widget.self]

@[simp] theorem Container.self_focusChild (d : Dispatch) (i : Nat) (c : Widget) :
    (Container.focusChild d i c).self = c.self := by
  simp [Widget.self]

@[simp] theorem Container.self_unfocusWidgets (d : Dispatch) (c : Widget) :
    (Container.unfocusWidgets d c).self = c.self := by
  unfold Container.unfocusWidgets
  split <;> simp

@[simp] theorem Container.self_focusWidget (d : Dispatch) (p : Nat) (c : Widget) :
    (Container.focusWidget d p c).self = c.self := by
  unfold Container.focusWidget
  split
  · split
    · split <;> simp
    · rfl
  · rfl

@[simp] theorem Container.self_mouseOnWhichWidgetLoop (d : Dispatch) (x y : Int) (n : Nat)
    (found : Option Nat) (c : Widget) :
    (Container.mouseOnWhichWidgetLoop d x y n found c).2.self = c.self := by
  induction n generalizing found c with
  | zero => rfl
  | succ n ih =>
    unfold Container.mouseOnWhichWidgetLoop
    split
    · exact ih _ _
    · split
      · split
        · split
          · rw [ih]; simp
          · rw [ih]; simp
        · rw [ih]; simp
      · exact ih _ _

@[simp] theorem Container.self_mouseOnWhichWidget (d : Dispatch) (x y : Int) (c : Widget) :
    (Container.mouseOnWhichWidget d x y c).2.self = c.self := by
  simp [Container.mouseOnWhichWidget]

@[simp] theorem Container.self_callAll (d : Dispatch) (k : Call) (n lo : Nat) (c : Widget) :
    (Container.callAll d k n lo c).self = c.self := by
  induction n generalizing lo c with
  | zero => rfl
  | succ n ih =>
    unfold Container.callAll
    rw [ih]; simp

@[simp] theorem Container.self_mouseNoLongerDownOthers (d : Dispatch) (p : Option Nat)
    (n lo : Nat) (c : Widget) :
    (Container.mouseNoLongerDownOthers d p n lo c).self = c.self := by
  induction n generalizing lo c with
  | zero => rfl
  | succ n ih =>
    unfold Container.mouseNoLongerDownOthers
    split
    · exact ih _ _
    · rw [ih]; simp

@[simp] theorem Container.self_focusNextWidgetInContainerLoop (d : Dispatch) (n i : Nat)
    (c : Widget) : (Container.focusNextWidgetInContainerLoop d n i c).2.self = c.self := by
  induction n generalizing i c with
  | zero => simp [Container.focusNextWidgetInContainerLoop]
  | succ n ih =>
    unfold Container.focusNextWidgetInContainerLoop
    split
    · split
      · split <;> simp
      · split
        · split <;> simp
        · rw [ih]; simp
    · exact ih _ _

@[simp] theorem Container.self_focusNextWidgetInContainer (env : Env) (d : Dispatch)
    (c : Widget) : (Container.focusNextWidgetInContainer env d c).2.self = c.self := by
  unfold Container.focusNextWidgetInContainer
  split <;> simp

@[simp] theorem Container.self_tabKeyPressedSearch (d : Dispatch) (c : Widget) :
    (Container.tabKeyPressedSearch d c).2.self = c.self := by
  unfold Container.tabKeyPressedSearch
  split
  · split <;> simp
  · split
    · simp
    · split <;> simp

@[simp] theorem Container.self_tabKeyPressed (env : Env) (d : Dispatch) (c : Widget) :
    (Container.tabKeyPressed env d c).2.self = c.self := by
  unfold Container.tabKeyPressed
  split
  · rfl
  · split
    · split <;> simp
    · simp

@[simp] theorem Container.self_handleEvent (env : Env) (d : Dispatch) (event : Event)
    (c : Widget) : (Container.handleEvent env d event c).2.self = c.self := by
  cases event with
  | MouseMoved x y =>
    simp only [Container.handleEvent]
    split
    · simp
    · split
      · rename_i h
        have := Container.self_mouseOnWhichWidget d x y c
        rw [h] at this
        simpa using this
      · rename_i h
        have := Container.self_mouseOnWhichWidget d x y c
        rw [h] at this
        simpa using this
  | MouseButtonPressed button x y =>
    simp only [Container.handleEvent]
    split
    · split
      · rename_i h
        have := Container.self_mouseOnWhichWidget d x y c
        rw [h] at this
        simp only [Widget.self_ptrCall]
        split <;> simpa using this
      · rename_i h
        have := Container.self_mouseOnWhichWidget d x y c
        rw [h] at this
        simpa using this
    · rfl
  | MouseButtonReleased button x y =>
    simp only [Container.handleEvent]
    split
    · split
      · rename_i h
        have := Container.self_mouseOnWhichWidget d x y c
        rw [h] at this
        simpa using this
      · rename_i h
        have := Container.self_mouseOnWhichWidget d x y c
        rw [h] at this
        simpa using this
    · rfl
  | KeyPressed key =>
    simp only [Container.handleEvent]
    split
    · split <;> simp
    · rfl
  | KeyReleased key =>
    simp only [Container.handleEvent]
    split
    · simp
    · rfl
  | TextEntered unicode =>
    simp only [Container.handleEvent]
    split
    · split <;> simp
    · rfl
  | MouseWheelMoved delta x y =>
    simp only [Container.handleEvent]
    split
    · rename_i h
      have := Container.self_mouseOnWhichWidget d x y c
      rw [h] at this
      simpa using this
    · rename_i h
      have := Container.self_mouseOnWhichWidget d x y c
      rw [h] at this
      simpa using this
  | Other => rfl

@[simp] theorem Container.self_method (env : Env) (d : Dispatch) (call : Call) (c : Widget) :
    (Container.method env d call c).2.self = c.self := by
  cases call <;> simp only [Container.method] <;> first | rfl | simp | (split <;> simp)

theorem invoke_frame (env : Env) (n : Nat) : Frame (invoke env n) := by
  have hleaf : Frame (leafMethod env) := by
    intro call w
    cases call <;> simp [leafMethod]
  cases n with
  | zero => exact hleaf
  | succ n =>
    intro call w
    simp only [invoke]
    split
    · have := Container.self_method env (invoke env n) call (w.record call)
      simp only [Widget.self, Prod.mk.injEq] at this
      simpa using this
    · exact hleaf call w

end tgui
namespace tgui

/-! ### Preservation of the single-focus invariant -/

theorem Container.ptrs_of_fixed {c c2 : Widget}
    (h : c2.m_widgets.map Widget.fixed = c.m_widgets.map Widget.fixed) : c2.ptrs = c.ptrs :=
  Widget.ptrs_congr h

theorem List.getElem?_set_some {α : Type} {l : List α} {i k : Nat} {a b : α}
    (h : (l.set i a)[k]? = some b) : (i = k ∧ b = a) ∨ (i ≠ k ∧ l[k]? = some b) := by
  rw [List.getElem?_set] at h
  by_cases hik : i = k
  · left
    rw [if_pos hik] at h
    by_cases hl : i < l.length
    · rw [if_pos hl] at h
      exact ⟨hik, (Option.some.inj h).symm⟩
    · rw [if_neg hl] at h
      cases h
  · right
    rw [if_neg hik] at h
    exact ⟨hik, h⟩

/-- The state reached by the statements that move the focus to child `i`. -/
theorem Container.move_singleFocus {d : Dispatch} (hd : Frame d) (c : Widget) (i : Nat)
    (h : SingleFocus c) :
    SingleFocus
      (Container.focusChild d i (if c.m_focusedWidget ≠ 0 then Container.unfocusCurrent d c else c)) := by
  obtain ⟨hnd, hfl⟩ := h
  refine ⟨?_, ?_⟩
  · rw [Widget.ptrs_congr (Container.focusChild_fixed hd i _)]
    split
    · rw [Widget.ptrs_congr (Container.unfocusCurrent_fixed hd c)]; exact hnd
    · exact hnd
  · intro k b hk
    rw [Container.focusChild_flags hd, Container.focusChild_focusedWidget] at *
    rcases List.getElem?_set_some hk with ⟨hik, hb⟩ | ⟨hik, hk⟩
    · subst hik hb; simp
    · have hne : ¬ (i + 1 = k + 1) := by omega
      simp only [hne, iff_false]
      by_cases hf : c.m_focusedWidget ≠ 0
      · rw [if_pos hf, Container.unfocusCurrent_flags hd] at hk
        rcases List.getElem?_set_some hk with ⟨-, hb⟩ | ⟨hfk, hk⟩
        · subst hb; simp
        · intro hb
          have := (hfl k b hk).1 hb
          omega
      · rw [if_neg hf] at hk
        intro hb
        have := (hfl k b hk).1 hb
        omega

theorem Container.unfocusWidgets_singleFocus {d : Dispatch} (hd : Frame d) (c : Widget)
    (h : SingleFocus c) : SingleFocus (Container.unfocusWidgets d c) := by
  unfold Container.unfocusWidgets
  split
  · rename_i hf
    obtain ⟨hnd, hfl⟩ := h
    refine ⟨?_, ?_⟩
    · have : ((Container.unfocusCurrent d c).setFocusedWidget 0).ptrs
          = (Container.unfocusCurrent d c).ptrs := by simp [Widget.ptrs]
      rw [this, Widget.ptrs_congr (Container.unfocusCurrent_fixed hd c)]; exact hnd
    · intro k b hk
      have e : ((Container.unfocusCurrent d c).setFocusedWidget 0).flags
          = (Container.unfocusCurrent d c).flags := by simp [Widget.flags]
      rw [e, Container.unfocusCurrent_flags hd] at hk
      simp only [Widget.m_focusedWidget_setFocusedWidget]
      have hne : ¬ (0 = k + 1) := by omega
      simp only [hne, iff_false]
      rcases List.getElem?_set_some hk with ⟨-, hb⟩ | ⟨hfk, hk⟩
      · subst hb; simp
      · intro hb
        have := (hfl k b hk).1 hb
        omega
  · exact h

theorem List.map_eraseIdx {α β : Type} (g : α → β) (l : List α) (i : Nat) :
    (l.eraseIdx i).map g = (l.map g).eraseIdx i := by
  induction l generalizing i with
  | nil => rfl
  | cons a l ih =>
    cases i with
    | zero => rfl
    | succ i => simp [List.eraseIdx, ih]

theorem Container.focusWidget_singleFocus {d : Dispatch} (hd : Frame d) (p : Nat) (c : Widget)
    (h : SingleFocus c) : SingleFocus (Container.focusWidget d p c) := by
  unfold Container.focusWidget
  split
  · split
    · exact Container.move_singleFocus hd c _ h
    · exact h
  · exact h

theorem Container.focusNextWidget_singleFocus {d : Dispatch} (hd : Frame d) (c : Widget)
    (h : SingleFocus c) : SingleFocus (Container.focusNextWidget d c) := by
  unfold Container.focusNextWidget
  split
  · exact Container.move_singleFocus hd c _ h
  · split
    · rename_i hf
      split
      · have := Container.move_singleFocus hd c ‹Nat› h
        rwa [if_pos hf] at this
      · exact h
    · exact h

theorem Container.focusPreviousWidget_singleFocus {d : Dispatch} (hd : Frame d) (c : Widget)
    (h : SingleFocus c) : SingleFocus (Container.focusPreviousWidget d c) := by
  unfold Container.focusPreviousWidget
  split
  · rename_i i hi
    by_cases hf : c.m_focusedWidget ≠ 0
    · have := Container.move_singleFocus hd c i h
      rwa [if_pos hf] at this
    · rw [if_neg hf] at hi
      cases hi
  · split
    · exact Container.move_singleFocus hd c _ h
    · exact h

theorem Container.remove_singleFocus {d : Dispatch} (hd : Frame d) (p : Nat) (c : Widget)
    (h : SingleFocus c) : SingleFocus (Container.remove d p c) := by
  unfold Container.remove
  split
  · rename_i i hi
    simp only
    have key : ∀ c1 : Widget, c1.ptrs.Nodup →
        (∀ k b, k ≠ i → c1.flags[k]? = some b →
          (b = true ↔ c1.m_focusedWidget = (if k < i then k + 1 else k))) →
        SingleFocus ((c1.setWidgets (c1.m_widgets.eraseIdx i)).setObjName
          (c1.m_objName.eraseIdx i)) := by
      intro c1 hnd hfl
      refine ⟨?_, ?_⟩
      · simp only [Widget.ptrs, Widget.m_widgets_setObjName, Widget.m_widgets_setWidgets,
          List.map_eraseIdx]
        exact hnd.sublist (List.eraseIdx_sublist _ _)
      · intro k b hk
        simp only [Widget.flags, Widget.m_widgets_setObjName, Widget.m_widgets_setWidgets,
          List.map_eraseIdx, List.getElem?_eraseIdx] at hk
        simp only [Widget.m_focusedWidget_setObjName, Widget.m_focusedWidget_setWidgets]
        by_cases hki : k < i
        · rw [if_pos hki] at hk
          have := hfl k b (by omega) hk
          rwa [if_pos hki] at this
        · rw [if_neg hki] at hk
          have := hfl (k + 1) b (by omega) hk
          rwa [if_neg (by omega)] at this
    obtain ⟨hnd, hfl⟩ := h
    by_cases h1 : c.m_focusedWidget = i + 1
    · rw [if_pos h1]
      obtain ⟨hnd2, hfl2⟩ := Container.unfocusWidgets_singleFocus hd c ⟨hnd, hfl⟩
      apply key _ hnd2
      intro k b hki hk
      have hb := hfl2 k b hk
      have h0 : (Container.unfocusWidgets d c).m_focusedWidget = 0 := by
        unfold Container.unfocusWidgets
        rw [if_pos (by omega)]
        simp
      rw [h0] at hb ⊢
      rw [hb]
      split <;> omega
    · rw [if_neg h1]
      by_cases h2 : c.m_focusedWidget > i + 1
      · rw [if_pos h2]
        apply key
        · simpa [Widget.ptrs] using hnd
        · intro k b hki hk
          have hk2 : c.flags[k]? = some b := by simpa [Widget.flags] using hk
          have hb := hfl k b hk2
          simp only [Widget.m_focusedWidget_setFocusedWidget]
          rw [hb]
          split <;> omega
      · rw [if_neg h2]
        apply key _ hnd
        intro k b hki hk
        rw [hfl k b hk]
        split <;> omega
  · exact h

theorem singleFocus_iff (c : Widget) :
    SingleFocus c ↔
      c.ptrs.Nodup ∧
        ∀ i, i < c.flags.length → (c.flags[i]?.getD false = true ↔ c.m_focusedWidget = i + 1) := by
  unfold SingleFocus
  constructor
  · rintro ⟨h1, h2⟩
    refine ⟨h1, fun i hi => ?_⟩
    have := h2 i c.flags[i] (List.getElem?_eq_getElem hi)
    rw [List.getElem?_eq_getElem hi]
    exact this
  · rintro ⟨h1, h2⟩
    refine ⟨h1, fun i b hb => ?_⟩
    have hi : i < c.flags.length := (List.getElem?_eq_some_iff.1 hb).1
    have := h2 i hi
    rw [hb] at this
    exact this

theorem SingleFocus.unique {c : Widget} (h : SingleFocus c) (i j : Nat)
    (hi : c.flags[i]? = some true) (hj : c.flags[j]? = some true) :
    i = j ∧ c.m_focusedWidget = i + 1 := by
  have h1 := (h.2 i true hi).1 rfl
  have h2 := (h.2 j true hj).1 rfl
  omega

end tgui

/-! ## The claims -/

namespace tgui

/-- The single-focus invariant in the model: if the children of a container are pairwise distinct and a
child has `m_focused` set exactly when it is the child at index `m_focusedWidget-1`, then
the same holds after each of `focusWidget`, `focusNextWidget`, `focusPreviousWidget`,
`unfocusWidgets` and `remove` (with any argument); so in each resulting container at most
one child is focused and it is the one `m_focusedWidget` designates. -/
theorem Container.singleFocus_preserved (env : Env) (n : Nat) (c : Widget) (widget : Nat)
    (h : SingleFocus c) :
    (SingleFocus (Container.focusWidget (invoke env n) widget c) ∧
      SingleFocus (Container.focusNextWidget (invoke env n) c) ∧
      SingleFocus (Container.focusPreviousWidget (invoke env n) c) ∧
      SingleFocus (Container.unfocusWidgets (invoke env n) c) ∧
      SingleFocus (Container.remove (invoke env n) widget c)) ∧
    ∀ r ∈ [Container.focusWidget (invoke env n) widget c,
        Container.focusNextWidget (invoke env n) c,
        Container.focusPreviousWidget (invoke env n) c,
        Container.unfocusWidgets (invoke env n) c,
        Container.remove (invoke env n) widget c],
      ∀ i j, r.flags[i]? = some true → r.flags[j]? = some true →
        i = j ∧ r.m_focusedWidget = i + 1 := by
  have hd := invoke_frame env n
  have h1 := Container.focusWidget_singleFocus hd widget c h
  have h2 := Container.focusNextWidget_singleFocus hd c h
  have h3 := Container.focusPreviousWidget_singleFocus hd c h
  have h4 := Container.unfocusWidgets_singleFocus hd c h
  have h5 := Container.remove_singleFocus hd widget c h
  refine ⟨⟨h1, h2, h3, h4, h5⟩, ?_⟩
  intro r hr i j hi hj
  simp only [List.mem_cons, List.mem_singleton, List.not_mem_nil, or_false] at hr
  rcases hr with rfl | rfl | rfl | rfl | rfl
  · exact h1.unique i j hi hj
  · exact h2.unique i j hi hj
  · exact h3.unique i j hi hj
  · exact h4.unique i j hi hj
  · exact h5.unique i j hi hj

end tgui

namespace tgui

theorem Widget.indexOf_eq_some (c : Widget) (p i : Nat) :
    c.indexOf p = some i ↔ c.ptrs[i]? = some p ∧ ∀ k, k < i → c.ptrs[k]? ≠ some p := by
  unfold Widget.indexOf
  rw [firstUp_eq_some]
  simp only [Widget.ptrAt_eq, beq_iff_eq, Nat.zero_le, true_and, Nat.zero_add,
    beq_eq_false_iff_ne, ne_eq]
  constructor
  · rintro ⟨-, h2, h3⟩
    exact ⟨h2, fun k hk => h3 k trivial hk⟩
  · rintro ⟨h2, h3⟩
    refine ⟨?_, h2, fun k _ hk => h3 k hk⟩
    have := (List.getElem?_eq_some_iff.1 h2).1
    simpa [Widget.ptrs] using this

theorem Widget.indexOf_eq_none (c : Widget) (p : Nat) :
    c.indexOf p = none ↔ ∀ k : Nat, c.ptrs[k]? ≠ some p := by
  unfold Widget.indexOf
  rw [firstUp_eq_none]
  simp only [Widget.ptrAt_eq, Nat.zero_le, true_implies, Nat.zero_add,
    beq_eq_false_iff_ne, ne_eq]
  constructor
  · intro h k hk
    have hl : k < c.ptrs.length := (List.getElem?_eq_some_iff.1 hk).1
    exact h k (by simpa [Widget.ptrs] using hl) hk
  · intro h k _
    exact h k

theorem Widget.flags_length (c : Widget) : c.flags.length = c.m_widgets.length := by
  simp [Widget.flags]

theorem Widget.ptrs_length (c : Widget) : c.ptrs.length = c.m_widgets.length := by
  simp [Widget.ptrs]

/-- The flags after the statements that move the focus to child `i`. -/
theorem Container.move_flags {d : Dispatch} (hd : Frame d) (c : Widget) (i : Nat) :
    (Container.focusChild d i
      (if c.m_focusedWidget ≠ 0 then Container.unfocusCurrent d c else c)).flags =
      (if c.m_focusedWidget ≠ 0 then c.flags.set (c.m_focusedWidget - 1) false
        else c.flags).set i true := by
  rw [Container.focusChild_flags hd]
  split
  · rw [Container.unfocusCurrent_flags hd]
  · rfl

theorem Container.move_flags_getElem? {d : Dispatch} (hd : Frame d) (c : Widget) (i k : Nat)
    (hk : k < c.m_widgets.length) :
    (Container.focusChild d i
      (if c.m_focusedWidget ≠ 0 then Container.unfocusCurrent d c else c)).flags[k]? =
      if k = i then some true
      else if c.m_focusedWidget = k + 1 then some false
      else c.flags[k]? := by
  rw [Container.move_flags hd, List.getElem?_set]
  have hk' : k < c.flags.length := by rw [Widget.flags_length]; exact hk
  by_cases hik : i = k
  · subst hik
    rw [if_pos rfl, if_pos rfl, if_pos]
    split
    · simpa using hk'
    · exact hk'
  · rw [if_neg hik, if_neg (Ne.symm hik)]
    by_cases hf : c.m_focusedWidget ≠ 0
    · rw [if_pos hf, List.getElem?_set]
      by_cases hfk : c.m_focusedWidget = k + 1
      · have e : c.m_focusedWidget - 1 = k := by omega
        rw [if_pos hfk, if_pos e, e, if_pos hk']
      · rw [if_neg hfk, if_neg (by omega)]
    · rw [if_neg hf, if_neg (by omega)]

theorem Container.move_focusedWidget (d : Dispatch) (c : Widget) (i : Nat) :
    (Container.focusChild d i
      (if c.m_focusedWidget ≠ 0 then Container.unfocusCurrent d c else c)).m_focusedWidget =
      i + 1 := by
  simp

/-- In the model, for a container that satisfies the single-focus invariant and a child `widget`
whose first occurrence is at index `i`: after `focusWidget(widget)` the focus index is
`i+1`, the child at `i` has `m_focused` set, and the previously focused child, if it is
another child `j`, has `m_focused` cleared; if `widget` was already the focused child the
container is unchanged. -/
theorem Container.focusWidget_moves (env : Env) (n : Nat) (c : Widget) (widget i : Nat)
    (h : SingleFocus c) (hw : c.ptrs[i]? = some widget)
    (hfirst : ∀ k, k < i → c.ptrs[k]? ≠ some widget) :
    (Container.focusWidget (invoke env n) widget c).m_focusedWidget = i + 1 ∧
    (Container.focusWidget (invoke env n) widget c).flags[i]? = some true ∧
    (∀ j, c.m_focusedWidget = j + 1 → j ≠ i → j < c.m_widgets.length →
      (Container.focusWidget (invoke env n) widget c).flags[j]? = some false) ∧
    (c.m_focusedWidget = i + 1 → Container.focusWidget (invoke env n) widget c = c) := by
  have hd := invoke_frame env n
  have hidx : c.indexOf widget = some i := (c.indexOf_eq_some widget i).2 ⟨hw, hfirst⟩
  have hi : i < c.m_widgets.length := by
    have := (List.getElem?_eq_some_iff.1 hw).1
    simpa [Widget.ptrs] using this
  unfold Container.focusWidget
  rw [hidx]
  simp only
  by_cases hf : c.m_focusedWidget = i + 1
  · rw [if_neg (by simpa using hf)]
    refine ⟨hf, ?_, ?_, fun _ => rfl⟩
    · have hi' : i < c.flags.length := by rw [Widget.flags_length]; exact hi
      have := (h.2 i c.flags[i] (List.getElem?_eq_getElem hi')).2 hf
      rw [List.getElem?_eq_getElem hi', this]
    · intro j hj hji
      omega
  · rw [if_pos hf]
    refine ⟨Container.move_focusedWidget _ c i, ?_, ?_, fun hc => absurd hc hf⟩
    · rw [Container.move_flags_getElem? hd c i i hi, if_pos rfl]
    · intro j hj hji hjl
      rw [Container.move_flags_getElem? hd c i j hjl, if_neg hji, if_pos hj]

end tgui

namespace tgui

theorem Container.move_length {d : Dispatch} (hd : Frame d) (c : Widget) (i : Nat) :
    (Container.focusChild d i
      (if c.m_focusedWidget ≠ 0 then Container.unfocusCurrent d c else c)).m_widgets.length =
      c.m_widgets.length := by
  rw [Widget.length_congr (Container.focusChild_fixed hd i _)]
  split
  · exact Widget.length_congr (Container.unfocusCurrent_fixed hd c)
  · rfl

theorem Container.move_focusMovedTo {d : Dispatch} (hd : Frame d) (c : Widget) (i : Nat) :
    FocusMovedTo c
      (Container.focusChild d i
        (if c.m_focusedWidget ≠ 0 then Container.unfocusCurrent d c else c)) i :=
  ⟨Container.move_focusedWidget d c i, Container.move_length hd c i,
    fun k hk => Container.move_flags_getElem? hd c i k hk⟩

/-- In the model, `focusNextWidget` on a container with focus index `f`: (1) if `j` is the smallest
index `j ≥ f` of a focusable child (`m_allowFocus`, `m_visible`, `m_enabled`), the focus
moves to child `j`; (2) if no child at an index `≥ f` is focusable and `j` is the
smallest index `j < f-1` of a focusable child, the focus moves to child `j`; (3) if
there is no focusable child in either range, the container is unchanged. -/
theorem Container.focusNextWidget_moves (env : Env) (n : Nat) (c : Widget) :
    (∀ j, c.m_focusedWidget ≤ j → c.focusableAt j = true →
      (∀ k, c.m_focusedWidget ≤ k → k < j → c.focusableAt k = false) →
      FocusMovedTo c (Container.focusNextWidget (invoke env n) c) j) ∧
    (∀ j, (∀ k, c.m_focusedWidget ≤ k → c.focusableAt k = false) →
      j + 1 < c.m_focusedWidget → c.focusableAt j = true →
      (∀ k, k < j → c.focusableAt k = false) →
      FocusMovedTo c (Container.focusNextWidget (invoke env n) c) j) ∧
    ((∀ k, c.m_focusedWidget ≤ k → c.focusableAt k = false) →
      (∀ k, k + 1 < c.m_focusedWidget → c.focusableAt k = false) →
      Container.focusNextWidget (invoke env n) c = c) := by
  have hd := invoke_frame env n
  refine ⟨?_, ?_, ?_⟩
  · intro j hfj hj hmin
    have hjl := c.focusableAt_lt j hj
    have e : firstUp c.focusableAt c.m_focusedWidget
        (c.m_widgets.length - c.m_focusedWidget) = some j :=
      (firstUp_eq_some _ _ _ _).2 ⟨hfj, by omega, hj, hmin⟩
    unfold Container.focusNextWidget
    rw [e]
    exact Container.move_focusMovedTo hd c j
  · intro j hnone hjf hj hmin
    have e1 : firstUp c.focusableAt c.m_focusedWidget
        (c.m_widgets.length - c.m_focusedWidget) = none :=
      (firstUp_eq_none _ _ _).2 (fun k hk _ => hnone k hk)
    have e2 : firstUp c.focusableAt 0 (c.m_focusedWidget - 1) = some j :=
      (firstUp_eq_some _ _ _ _).2 ⟨Nat.zero_le _, by omega, hj, fun k _ hk => hmin k hk⟩
    have hf : c.m_focusedWidget ≠ 0 := by omega
    unfold Container.focusNextWidget
    rw [e1]
    simp only [if_pos hf, e2]
    have := Container.move_focusMovedTo hd c j
    rwa [if_pos hf] at this
  · intro hnone1 hnone2
    have e1 : firstUp c.focusableAt c.m_focusedWidget
        (c.m_widgets.length - c.m_focusedWidget) = none :=
      (firstUp_eq_none _ _ _).2 (fun k hk _ => hnone1 k hk)
    have e2 : firstUp c.focusableAt 0 (c.m_focusedWidget - 1) = none :=
      (firstUp_eq_none _ _ _).2 (fun k _ hk => hnone2 k (by omega))
    unfold Container.focusNextWidget
    rw [e1]
    simp only [e2]
    split <;> rfl

/-- In the model, `focusPreviousWidget` on a container with focus index `f`: (1) if `j` is the
largest index `j < f-1` of a focusable child, the focus moves to child `j`; (2) if no
child at an index `< f-1` is focusable (in particular if nothing is focused) and `j` is
the largest index `j ≥ f` of a focusable child, the focus moves to child `j`; (3) if
there is no focusable child in either range, the container is unchanged. -/
theorem Container.focusPreviousWidget_moves (env : Env) (n : Nat) (c : Widget) :
    (∀ j, j + 1 < c.m_focusedWidget → c.focusableAt j = true →
      (∀ k, j < k → k + 1 < c.m_focusedWidget → c.focusableAt k = false) →
      FocusMovedTo c (Container.focusPreviousWidget (invoke env n) c) j) ∧
    (∀ j, (∀ k, k + 1 < c.m_focusedWidget → c.focusableAt k = false) →
      c.m_focusedWidget ≤ j → c.focusableAt j = true →
      (∀ k, j < k → c.focusableAt k = false) →
      FocusMovedTo c (Container.focusPreviousWidget (invoke env n) c) j) ∧
    ((∀ k, k + 1 < c.m_focusedWidget → c.focusableAt k = false) →
      (∀ k, c.m_focusedWidget ≤ k → c.focusableAt k = false) →
      Container.focusPreviousWidget (invoke env n) c = c) := by
  have hd := invoke_frame env n
  refine ⟨?_, ?_, ?_⟩
  · intro j hjf hj hmax
    have hf : c.m_focusedWidget ≠ 0 := by omega
    have e : firstDown c.focusableAt 0 (c.m_focusedWidget - 1) = some j :=
      (firstDown_eq_some _ _ _ _).2 ⟨Nat.zero_le _, by omega, hj,
        fun k hk1 hk2 => hmax k hk1 (by omega)⟩
    unfold Container.focusPreviousWidget
    simp only [if_pos hf, e]
    have := Container.move_focusMovedTo hd c j
    rwa [if_pos hf] at this
  · intro j hnone hfj hj hmax
    have hjl := c.focusableAt_lt j hj
    have e1 : (if c.m_focusedWidget ≠ 0 then firstDown c.focusableAt 0 (c.m_focusedWidget - 1)
        else none) = none := by
      split
      · exact (firstDown_eq_none _ _ _).2 (fun k _ hk => hnone k (by omega))
      · rfl
    have e2 : firstDown c.focusableAt c.m_focusedWidget
        (c.m_widgets.length - c.m_focusedWidget) = some j :=
      (firstDown_eq_some _ _ _ _).2 ⟨hfj, by omega, hj, fun k hk _ => hmax k hk⟩
    unfold Container.focusPreviousWidget
    rw [e1]
    simp only [e2]
    exact Container.move_focusMovedTo hd c j
  · intro hnone1 hnone2
    have e1 : (if c.m_focusedWidget ≠ 0 then firstDown c.focusableAt 0 (c.m_focusedWidget - 1)
        else none) = none := by
      split
      · exact (firstDown_eq_none _ _ _).2 (fun k _ hk => hnone1 k (by omega))
      · rfl
    have e2 : firstDown c.focusableAt c.m_focusedWidget
        (c.m_widgets.length - c.m_focusedWidget) = none :=
      (firstDown_eq_none _ _ _).2 (fun k hk _ => hnone2 k hk)
    unfold Container.focusPreviousWidget
    rw [e1]
    simp only [e2]

end tgui

namespace tgui

/-! ### `focusNextWidget` as a case distinction, and Tab on a flat container -/

theorem Container.focusNextWidget_first (d : Dispatch) (c : Widget) (j : Nat)
    (h1 : c.m_focusedWidget ≤ j) (h2 : c.focusableAt j = true)
    (h3 : ∀ k, c.m_focusedWidget ≤ k → k < j → c.focusableAt k = false) :
    Container.focusNextWidget d c =
      Container.focusChild d j
        (if c.m_focusedWidget ≠ 0 then Container.unfocusCurrent d c else c) := by
  have hjl := c.focusableAt_lt j h2
  have e : firstUp c.focusableAt c.m_focusedWidget
      (c.m_widgets.length - c.m_focusedWidget) = some j :=
    (firstUp_eq_some _ _ _ _).2 ⟨h1, by omega, h2, h3⟩
  unfold Container.focusNextWidget
  rw [e]

theorem Container.focusNextWidget_second (d : Dispatch) (c : Widget) (j : Nat)
    (h0 : ∀ k, c.m_focusedWidget ≤ k → c.focusableAt k = false)
    (h1 : j + 1 < c.m_focusedWidget) (h2 : c.focusableAt j = true)
    (h3 : ∀ k, k < j → c.focusableAt k = false) :
    Container.focusNextWidget d c =
      Container.focusChild d j
        (if c.m_focusedWidget ≠ 0 then Container.unfocusCurrent d c else c) := by
  have e1 : firstUp c.focusableAt c.m_focusedWidget
      (c.m_widgets.length - c.m_focusedWidget) = none :=
    (firstUp_eq_none _ _ _).2 (fun k hk _ => h0 k hk)
  have e2 : firstUp c.focusableAt 0 (c.m_focusedWidget - 1) = some j :=
    (firstUp_eq_some _ _ _ _).2 ⟨Nat.zero_le _, by omega, h2, fun k _ hk => h3 k hk⟩
  have hf : c.m_focusedWidget ≠ 0 := by omega
  unfold Container.focusNextWidget
  rw [e1]
  simp only [if_pos hf, e2]

theorem Container.focusNextWidget_none (d : Dispatch) (c : Widget)
    (h0 : ∀ k, c.m_focusedWidget ≤ k → c.focusableAt k = false)
    (h1 : ∀ k, k + 1 < c.m_focusedWidget → c.focusableAt k = false) :
    Container.focusNextWidget d c = c := by
  have e1 : firstUp c.focusableAt c.m_focusedWidget
      (c.m_widgets.length - c.m_focusedWidget) = none :=
    (firstUp_eq_none _ _ _).2 (fun k hk _ => h0 k hk)
  have e2 : firstUp c.focusableAt 0 (c.m_focusedWidget - 1) = none :=
    (firstUp_eq_none _ _ _).2 (fun k _ hk => h1 k (by omega))
  unfold Container.focusNextWidget
  rw [e1]
  simp only [e2]
  split <;> rfl

theorem Container.move_fixed {d : Dispatch} (hd : Frame d) (c : Widget) (i : Nat) :
    (Container.focusChild d i
      (if c.m_focusedWidget ≠ 0 then Container.unfocusCurrent d c else c)).m_widgets.map
        Widget.fixed = c.m_widgets.map Widget.fixed := by
  rw [Container.focusChild_fixed hd]
  split
  · exact Container.unfocusCurrent_fixed hd c
  · rfl

theorem Container.focusNextWidget_fixed {d : Dispatch} (hd : Frame d) (c : Widget) :
    (Container.focusNextWidget d c).m_widgets.map Widget.fixed =
      c.m_widgets.map Widget.fixed := by
  unfold Container.focusNextWidget
  split
  · exact Container.move_fixed hd c _
  · split
    · rename_i hf
      split
      · have := Container.move_fixed hd c ‹Nat›
        rwa [if_pos hf] at this
      · rfl
    · rfl

/-- On a container without container children, the search of `tabKeyPressed` is
`focusNextWidget`. -/
theorem Container.tabKeyPressedSearch_flat (d : Dispatch) (c : Widget)
    (hflat : ∀ i, c.containerAt i = false) :
    (Container.tabKeyPressedSearch d c).2 = Container.focusNextWidget d c := by
  unfold Container.tabKeyPressedSearch Container.focusNextWidget
  split
  · rfl
  · by_cases hf : c.m_focusedWidget ≠ 0
    · simp only [if_pos hf]
      split
      · rfl
      · simp [hflat]
    · simp only [if_neg hf]
      simp [hflat]

theorem Container.tabKeyPressed_flat (env : Env) (d : Dispatch) (c : Widget)
    (htab : env.TGUI_TabKeyUsageEnabled = true) (hflat : ∀ i, c.containerAt i = false) :
    (Container.tabKeyPressed env d c).2 = Container.focusNextWidget d c := by
  unfold Container.tabKeyPressed
  rw [if_neg (by simp [htab]), if_neg (by simp [hflat])]
  exact Container.tabKeyPressedSearch_flat d c hflat

theorem Widget.containerAt_of_forall (c : Widget)
    (h : ∀ w ∈ c.m_widgets, w.m_containerWidget = false) (i : Nat) : c.containerAt i = false := by
  unfold Widget.containerAt
  cases hw : c.m_widgets[i]? with
  | none => rfl
  | some w =>
    obtain ⟨hi, hw⟩ := List.getElem?_eq_some_iff.1 hw
    exact h w (hw ▸ List.getElem_mem hi)

/-- The flag part of the single-focus invariant survives a move of the focus. -/
theorem FocusMovedTo.flagsInv {c r : Widget} {j : Nat} (h : FocusMovedTo c r j)
    (hc : ∀ i b, c.flags[i]? = some b → (b = true ↔ c.m_focusedWidget = i + 1)) :
    ∀ i b, r.flags[i]? = some b → (b = true ↔ r.m_focusedWidget = i + 1) := by
  obtain ⟨hf, hl, hfl⟩ := h
  intro i b hb
  have hi : i < c.m_widgets.length := by
    have := (List.getElem?_eq_some_iff.1 hb).1
    rw [Widget.flags_length] at this
    omega
  rw [hfl i hi] at hb
  rw [hf]
  by_cases hij : i = j
  · rw [if_pos hij] at hb
    cases hb
    simp [hij]
  · rw [if_neg hij] at hb
    have hne : ¬ (j + 1 = i + 1) := by omega
    simp only [hne, iff_false]
    by_cases hci : c.m_focusedWidget = i + 1
    · rw [if_pos hci] at hb
      cases hb
      simp
    · rw [if_neg hci] at hb
      intro hbt
      exact hci ((hc i b hb).1 hbt)

end tgui

namespace tgui

theorem List.pairwise_lt_getElem {js : List Nat} (h : js.Pairwise (· < ·)) {a b : Nat}
    (hab : a < b) (hb : b < js.length) : js[a] < js[b] :=
  (List.pairwise_iff_getElem.1 h) a b (by omega) hb hab

theorem List.pairwise_lt_index {js : List Nat} (h : js.Pairwise (· < ·)) {a b : Nat}
    (ha : a < js.length) (hb : b < js.length) (hlt : js[a] < js[b]) : a < b := by
  by_contra hna
  rcases Nat.lt_or_eq_of_le (Nat.le_of_not_lt hna) with hba | hba
  · have := List.pairwise_lt_getElem h hba ha
    omega
  · subst hba
    omega

/-- The effect of `focusNextWidget` on a container whose focusable children are at the
strictly increasing indices `js` and whose focus is on `js[t]`: the focus index moves to
`js[(t+1) % js.length]`, and the flag part of the single-focus invariant is kept. -/
theorem Container.focusNextWidget_cycle {d : Dispatch} (hd : Frame d) (r : Widget)
    (js : List Nat) (hsorted : js.Pairwise (· < ·))
    (hjs : ∀ j, j ∈ js ↔ r.focusableAt j = true) (t : Nat) (ht : t < js.length)
    (hf : r.m_focusedWidget = js[t] + 1)
    (hinv : ∀ i b, r.flags[i]? = some b → (b = true ↔ r.m_focusedWidget = i + 1)) :
    (Container.focusNextWidget d r).m_widgets.map Widget.fixed = r.m_widgets.map Widget.fixed ∧
    (Container.focusNextWidget d r).m_focusedWidget =
      js[(t + 1) % js.length]?.getD 0 + 1 ∧
    (∀ i b, (Container.focusNextWidget d r).flags[i]? = some b →
      (b = true ↔ (Container.focusNextWidget d r).m_focusedWidget = i + 1)) := by
  refine ⟨Container.focusNextWidget_fixed hd r, ?_⟩
  have hmem : ∀ k, r.focusableAt k = true → ∃ s, ∃ hs : s < js.length, js[s] = k := by
    intro k hk
    obtain ⟨s, hs, e⟩ := List.getElem_of_mem ((hjs k).2 hk)
    exact ⟨s, hs, e⟩
  have hnot : ∀ k, (∀ s, ∀ hs : s < js.length, js[s] ≠ k) → r.focusableAt k = false := by
    intro k hk
    cases hfk : r.focusableAt k with
    | false => rfl
    | true =>
      obtain ⟨s, hs, e⟩ := hmem k hfk
      exact absurd e (hk s hs)
  by_cases ht1 : t + 1 < js.length
  · -- the next focusable child comes after the focused one
    have hmod : (t + 1) % js.length = t + 1 := Nat.mod_eq_of_lt ht1
    have hlt : js[t] < js[t + 1] := List.pairwise_lt_getElem hsorted (by omega) ht1
    have e := Container.focusNextWidget_first d r js[t + 1] (by omega)
      ((hjs _).1 (List.getElem_mem ht1))
      (fun k hk1 hk2 => hnot k (fun s hs hsk => by
        have h1 : t < s := List.pairwise_lt_index hsorted ht hs (by omega)
        have h2 : s < t + 1 := List.pairwise_lt_index hsorted hs ht1 (by omega)
        omega))
    have hm := Container.move_focusMovedTo hd r js[t + 1]
    rw [← e] at hm
    refine ⟨?_, hm.flagsInv hinv⟩
    rw [hm.1, hmod, List.getElem?_eq_getElem ht1]
    rfl
  · have hlast : t + 1 = js.length := by omega
    have hmod : (t + 1) % js.length = 0 := by rw [hlast]; exact Nat.mod_self _
    have h0 : ∀ k, r.m_focusedWidget ≤ k → r.focusableAt k = false := by
      intro k hk
      refine hnot k (fun s hs hsk => ?_)
      have h1 : t < s := List.pairwise_lt_index hsorted ht hs (by omega)
      omega
    have hpos : 0 < js.length := by omega
    have hbefore : ∀ k, k < js[0] → r.focusableAt k = false := by
      intro k hk
      refine hnot k (fun s hs hsk => ?_)
      have h1 : s < 0 := List.pairwise_lt_index hsorted hs hpos (by omega)
      omega
    rw [hmod, List.getElem?_eq_getElem hpos]
    by_cases ht0 : t = 0
    · -- a single focusable child: nothing changes
      subst ht0
      have e := Container.focusNextWidget_none d r h0 (fun k hk => hbefore k (by omega))
      rw [e]
      exact ⟨hf, hinv⟩
    · have hlt := List.pairwise_lt_getElem hsorted (Nat.pos_of_ne_zero ht0) ht
      have e := Container.focusNextWidget_second d r js[0] h0 (by omega)
        ((hjs _).1 (List.getElem_mem hpos)) hbefore
      have hm := Container.move_focusMovedTo hd r js[0]
      rw [← e] at hm
      exact ⟨hm.1, hm.flagsInv hinv⟩

end tgui

namespace tgui

theorem releaseKey_flat {env : Env} (m : Nat) {key : KeyEvent} (r : Widget)
    (htab : env.TGUI_TabKeyUsageEnabled = true) (hkey : key.code = Keyboard.Tab)
    (hflat : ∀ i, r.containerAt i = false) :
    releaseKey env m key r = Container.focusNextWidget (invoke env m) r := by
  unfold releaseKey
  simp only [Container.handleEvent, hkey, if_true]
  exact Container.tabKeyPressed_flat env _ r htab hflat

/-- Tab order on a flat container, in the model. Tab key usage is enabled, no child of `c` is a
container, the focusable children are at the indices `js` (strictly increasing, at least
one), and nothing is focused (`m_focusedWidget = 0`, no `m_focused` flag set). Then after
`n ≥ 1` successive `KeyReleased` events for the Tab key the focus index designates the
child at index `js[(n-1) mod k]`, that child has `m_focused` set and no other child has;
the fixed members of the children are as before. -/
theorem Container.tab_order_flat (env : Env) (m : Nat) (c : Widget) (js : List Nat) (key : KeyEvent)
    (n : Nat) (htab : env.TGUI_TabKeyUsageEnabled = true) (hkey : key.code = Keyboard.Tab)
    (hleaf : ∀ w ∈ c.m_widgets, w.m_containerWidget = false)
    (hsorted : js.Pairwise (· < ·)) (hjs : ∀ j, j ∈ js ↔ c.focusableAt j = true)
    (hk : 1 ≤ js.length) (hf : c.m_focusedWidget = 0) (hflags : ∀ b ∈ c.flags, b = false)
    (hn : 1 ≤ n) :
    ∃ j, js[(n - 1) % js.length]? = some j ∧
      (Nat.iterate (releaseKey env m key) n c).m_focusedWidget = j + 1 ∧
      (∀ i, i < c.m_widgets.length →
        (Nat.iterate (releaseKey env m key) n c).flags[i]? = some (decide (i = j))) ∧
      (Nat.iterate (releaseKey env m key) n c).m_widgets.map Widget.fixed =
        c.m_widgets.map Widget.fixed := by
  have hd := invoke_frame env m
  have hflat0 : ∀ i, c.containerAt i = false := c.containerAt_of_forall hleaf
  have hpos : 0 < js.length := by omega
  have hinv0 : ∀ i b, c.flags[i]? = some b → (b = true ↔ c.m_focusedWidget = i + 1) := by
    intro i b hb
    have hbm : b ∈ c.flags := by
      obtain ⟨hi, e⟩ := List.getElem?_eq_some_iff.1 hb
      exact e ▸ List.getElem_mem hi
    rw [hflags b hbm, hf]
    constructor
    · intro h; cases h
    · intro h; omega
  -- the state after `k + 1` presses
  have main : ∀ k, ∃ t, ∃ ht : t < js.length, t = k % js.length ∧
      (Nat.iterate (releaseKey env m key) (k + 1) c).m_widgets.map Widget.fixed =
        c.m_widgets.map Widget.fixed ∧
      (Nat.iterate (releaseKey env m key) (k + 1) c).m_focusedWidget = js[t] + 1 ∧
      (∀ i b, (Nat.iterate (releaseKey env m key) (k + 1) c).flags[i]? = some b →
        (b = true ↔ (Nat.iterate (releaseKey env m key) (k + 1) c).m_focusedWidget = i + 1)) := by
    intro k
    induction k with
    | zero =>
      refine ⟨0, hpos, (Nat.zero_mod _).symm, ?_⟩
      simp only [Nat.zero_add, Function.iterate_one]
      rw [releaseKey_flat m c htab hkey hflat0]
      have hnot : ∀ q, q < js[0] → c.focusableAt q = false := by
        intro q hq
        cases hfq : c.focusableAt q with
        | false => rfl
        | true =>
          obtain ⟨s, hs, e⟩ := List.getElem_of_mem ((hjs q).2 hfq)
          have h1 : s < 0 := List.pairwise_lt_index hsorted hs hpos (by omega)
          omega
      have e := Container.focusNextWidget_first (invoke env m) c js[0] (by omega)
        ((hjs _).1 (List.getElem_mem hpos)) (fun q _ hq => hnot q hq)
      have hm := Container.move_focusMovedTo hd c js[0]
      rw [← e] at hm
      exact ⟨Container.focusNextWidget_fixed hd c, hm.1, hm.flagsInv hinv0⟩
    | succ k ih =>
      obtain ⟨t, ht, htk, hfix, hfoc, hinv⟩ := ih
      rw [Function.iterate_succ_apply']
      generalize Nat.iterate (releaseKey env m key) (k + 1) c = r at hfix hfoc hinv ⊢
      have hflat : ∀ i, r.containerAt i = false := by
        intro i
        rw [Widget.containerAt_congr hfix]
        exact hflat0 i
      have hjs2 : ∀ j, j ∈ js ↔ r.focusableAt j = true := by
        intro j
        rw [Widget.focusableAt_congr hfix]
        exact hjs j
      rw [releaseKey_flat m r htab hkey hflat]
      obtain ⟨h1, h2, h3⟩ :=
        Container.focusNextWidget_cycle hd r js hsorted hjs2 t ht hfoc hinv
      have hlt : (t + 1) % js.length < js.length := Nat.mod_lt _ hpos
      refine ⟨(t + 1) % js.length, hlt, ?_, h1.trans hfix, ?_, h3⟩
      · rw [htk, Nat.mod_add_mod]
      · rw [h2, List.getElem?_eq_getElem hlt]
        rfl
  obtain ⟨k, rfl⟩ : ∃ k, n = k + 1 := ⟨n - 1, by omega⟩
  obtain ⟨t, ht, htk, hfix, hfoc, hinv⟩ := main k
  refine ⟨js[t], ?_, hfoc, ?_, hfix⟩
  · rw [Nat.add_sub_cancel, ← htk, List.getElem?_eq_getElem ht]
  · intro i hi
    have hlen := Widget.length_congr hfix
    have hi2 : i < (Nat.iterate (releaseKey env m key) (k + 1) c).flags.length := by
      rw [Widget.flags_length]; omega
    rw [List.getElem?_eq_getElem hi2]
    have := hinv i _ (List.getElem?_eq_getElem hi2)
    rw [hfoc] at this
    congr 1
    rw [Bool.eq_iff_iff, this]
    simp only [decide_eq_true_eq]
    omega

end tgui

namespace tgui

/-! ### Tab traversal of a tree of depth three -/

theorem deepTree_eq : deepTree = deepState 0 0 0 false false false false [] [] [] [] [] := rfl

theorem deepState_pressTab_1 (m : Nat) (a b c d e : List Call) :
    pressTab sampleEnv (m + 2) (deepState 0 0 0 false false false false a b c d e) =
      deepState 1 0 0 true false false false a (b ++ [.widgetFocused]) c d e := by
  rfl

theorem deepState_pressTab_2 (m : Nat) (a b c d e : List Call) :
    pressTab sampleEnv (m + 2) (deepState 1 0 0 true false false false a b c d e) =
      deepState 1 1 1 true true true false a (b ++ [.focusNextWidgetInContainer])
        (c ++ [.focusNextWidgetInContainer] ++ [.widgetFocused]) (d ++ [.widgetFocused]) e := by
  cases m <;> rfl

theorem deepState_pressTab_3 (m : Nat) (a b c d e : List Call) :
    pressTab sampleEnv (m + 2) (deepState 1 1 1 true true true false a b c d e) =
      deepState 1 1 0 true true false false a
        (b ++ [.focusNextWidgetInContainer] ++ [.tabKeyPressed])
        (c ++ [.widgetUnfocused] ++ [.widgetFocused]) (d ++ [.widgetUnfocused]) e := by
  cases m <;> rfl

theorem deepState_pressTab_4 (m : Nat) (a b c d e : List Call) :
    pressTab sampleEnv (m + 2) (deepState 1 1 0 true true false false a b c d e) =
      deepState 1 1 0 true true false false a
        (b ++ [.focusNextWidgetInContainer] ++ [.tabKeyPressed])
        (c ++ [.widgetUnfocused] ++ [.widgetFocused]) d e := by
  rfl

/-- Every state reached from `deepTree` by `tabKeyPressed` calls is one of four focus
states, in none of which the second button is focused. -/
theorem deepTree_reachable (m n : Nat) :
    ∃ fWindow fOuter fInner outer inner first a b c d e,
      Nat.iterate (pressTab sampleEnv (m + 2)) n deepTree =
        deepState fWindow fOuter fInner outer inner first false a b c d e ∧
      ((fWindow, fOuter, fInner, outer, inner, first) = (0, 0, 0, false, false, false) ∨
        (fWindow, fOuter, fInner, outer, inner, first) = (1, 0, 0, true, false, false) ∨
        (fWindow, fOuter, fInner, outer, inner, first) = (1, 1, 1, true, true, true) ∨
        (fWindow, fOuter, fInner, outer, inner, first) = (1, 1, 0, true, true, false)) := by
  induction n with
  | zero => exact ⟨0, 0, 0, false, false, false, [], [], [], [], [], rfl, Or.inl rfl⟩
  | succ n ih =>
    obtain ⟨fW, fO, fI, o, i, f, a, b, c, d, e, hs, hcase⟩ := ih
    rw [Function.iterate_succ_apply', hs]
    rcases hcase with h | h | h | h <;> simp only [Prod.mk.injEq] at h <;>
      obtain ⟨rfl, rfl, rfl, rfl, rfl, rfl⟩ := h
    · exact ⟨_, _, _, _, _, _, _, _, _, _, _, deepState_pressTab_1 m a b c d e,
        Or.inr (Or.inl rfl)⟩
    · exact ⟨_, _, _, _, _, _, _, _, _, _, _, deepState_pressTab_2 m a b c d e,
        Or.inr (Or.inr (Or.inl rfl))⟩
    · exact ⟨_, _, _, _, _, _, _, _, _, _, _, deepState_pressTab_3 m a b c d e,
        Or.inr (Or.inr (Or.inr rfl))⟩
    · exact ⟨_, _, _, _, _, _, _, _, _, _, _, deepState_pressTab_4 m a b c d e,
        Or.inr (Or.inr (Or.inr rfl))⟩

/-- C6 on the code: `deepTree` is a finite tree of nested containers in which every widget
is visible, enabled and allows focus and nothing is focused, its widget at path `[0, 0, 1]`
is a leaf, and with tab key usage enabled there is no number `n` of `tabKeyPressed` calls
on the root (at any resolution depth `m ≥ 2`; by `invoke_depth` every `m ≥ 3` resolves the
children of the root completely) after which that leaf has `m_focused` set. -/
theorem C6_deep_leaf_never_focused :
    sampleEnv.TGUI_TabKeyUsageEnabled = true ∧ deepTree.allFocusable = true ∧
    deepTree.nothingFocused = true ∧
    (deepTree.descend [0, 0, 1]).map Widget.m_containerWidget = some false ∧
    ¬ ∃ m n, 2 ≤ m ∧
      ((Nat.iterate (pressTab sampleEnv m) n deepTree).descend [0, 0, 1]).map Widget.m_focused =
        some true := by
  refine ⟨rfl, by decide, by decide, by decide, ?_⟩
  rintro ⟨m, n, hm, h⟩
  obtain ⟨m, rfl⟩ : ∃ k, m = k + 2 := ⟨m - 2, by omega⟩
  obtain ⟨fW, fO, fI, o, i, f, a, b, c, d, e, hs, -⟩ := deepTree_reachable m n
  rw [hs] at h
  simp [deepState, Widget.descend, Widget.m_widgets, Widget.m_focused, Widget.base] at h

end tgui

namespace tgui

/-! ### Hit testing -/

theorem invoke_mouseOnWidget (env : Env) (n : Nat) (x y : Int) (w : Widget) :
    (invoke env n (.mouseOnWidget x y) w).1 = env.mouseOnWidget w.ptr x y := by
  cases n with
  | zero => rfl
  | succ n =>
    simp only [invoke]
    split
    · simp [Container.method]
    · rfl

theorem Container.hitAt_congr (env : Env) (x y : Int) {c c2 : Widget}
    (h : c2.m_widgets.map Widget.fixed = c.m_widgets.map Widget.fixed) :
    Container.hitAt env x y c2 = Container.hitAt env x y c := by
  funext i
  have hi := congrArg (fun l => l[i]?) h
  simp only [List.getElem?_map] at hi
  unfold Container.hitAt
  cases h1 : c2.m_widgets[i]? <;> cases h2 : c.m_widgets[i]? <;> simp [h1, h2] at hi ⊢
  rw [Widget.m_visible_of_fixed hi, Widget.m_enabled_of_fixed hi, Widget.ptr_of_fixed hi]

theorem Widget.childCall_fixed {d : Dispatch} (hd : Frame d) (i : Nat) (k : Call) (c : Widget) :
    (c.childCall d i k).2.m_widgets.map Widget.fixed = c.m_widgets.map Widget.fixed := by
  rw [Widget.childCall_widgets]
  exact List.map_modify_of_eq _ _ _ _ (fun a => hd.fixed k a)

theorem Widget.ptrs_getElem? (c : Widget) (i : Nat) (w : Widget) (h : c.m_widgets[i]? = some w) :
    c.ptrs[i]? = some w.ptr := by
  simp [Widget.ptrs, h]

/-- The reverse loop of `mouseOnWhichWidget`: the children keep their fixed members, and
the widget found is the one already found or else the last candidate below `n`. -/
theorem Container.mouseOnWhichWidgetLoop_spec (env : Env) {d : Dispatch} (hd : Frame d)
    (hhit : ∀ x y w, (d (.mouseOnWidget x y) w).1 = env.mouseOnWidget w.ptr x y)
    (x y : Int) (n : Nat) (found : Option Nat) (c : Widget) :
    (Container.mouseOnWhichWidgetLoop d x y n found c).2.m_widgets.map Widget.fixed =
      c.m_widgets.map Widget.fixed ∧
    (Container.mouseOnWhichWidgetLoop d x y n found c).2.m_focusedWidget = c.m_focusedWidget ∧
    (Container.mouseOnWhichWidgetLoop d x y n found c).1 =
      match found with
      | some p => some p
      | none => (firstDown (Container.hitAt env x y c) 0 n).bind (fun j => c.ptrs[j]?) := by
  induction n generalizing found c with
  | zero =>
    refine ⟨rfl, rfl, ?_⟩
    cases found <;> rfl
  | succ n ih =>
    unfold Container.mouseOnWhichWidgetLoop
    cases hw : c.m_widgets[n]? with
    | none =>
      simp only
      have hh : Container.hitAt env x y c n = false := by simp [Container.hitAt, hw]
      obtain ⟨h1, h2, h3⟩ := ih found c
      refine ⟨h1, h2, ?_⟩
      rw [h3]
      cases found with
      | some p => rfl
      | none => simp [firstDown, hh]
    | some w =>
      simp only
      by_cases hve : (w.m_visible && w.m_enabled) = true
      · rw [if_pos hve]
        cases found with
        | some p =>
          simp only
          obtain ⟨h1, h2, h3⟩ := ih (some p) (c.childCall d n .mouseNotOnWidget).2
          exact ⟨h1.trans (Widget.childCall_fixed hd _ _ c), by simpa using h2, h3⟩
        | none =>
          simp only
          have hfix := Widget.childCall_fixed hd n (.mouseOnWidget x y) c
          have hr : (c.childCall d n (.mouseOnWidget x y)).1 = env.mouseOnWidget w.ptr x y := by
            rw [Widget.childCall_fst d n _ c w hw, hhit]
          have hh : Container.hitAt env x y c n = env.mouseOnWidget w.ptr x y := by
            simp [Container.hitAt, hw, hve]
          by_cases hm : env.mouseOnWidget w.ptr x y = true
          · rw [hr, if_pos hm]
            obtain ⟨h1, h2, h3⟩ := ih (some w.ptr) (c.childCall d n (.mouseOnWidget x y)).2
            refine ⟨h1.trans hfix, by simpa using h2, ?_⟩
            rw [h3]
            simp [firstDown, hh, hm, Widget.ptrs_getElem? c n w hw]
          · rw [hr, if_neg hm]
            obtain ⟨h1, h2, h3⟩ := ih none (c.childCall d n (.mouseOnWidget x y)).2
            refine ⟨h1.trans hfix, by simpa using h2, ?_⟩
            rw [h3]
            simp only [firstDown, Nat.zero_add, hh, hm, if_false, Bool.false_eq_true]
            rw [Container.hitAt_congr env x y hfix, Widget.ptrs_congr hfix]
      · rw [if_neg hve]
        have hh : Container.hitAt env x y c n = false := by
          simp only [Container.hitAt, hw]
          simp only [Bool.not_eq_true] at hve
          rw [hve]; rfl
        obtain ⟨h1, h2, h3⟩ := ih found c
        refine ⟨h1, h2, ?_⟩
        rw [h3]
        cases found with
        | some p => rfl
        | none => simp [firstDown, hh]

theorem Container.hitAt_lt (env : Env) (x y : Int) (c : Widget) (i : Nat)
    (h : Container.hitAt env x y c i = true) : i < c.m_widgets.length := by
  unfold Container.hitAt at h
  cases hw : c.m_widgets[i]? with
  | none => simp [hw] at h
  | some w => exact (List.getElem?_eq_some_iff.1 hw).1

theorem Container.mouseOnWhichWidget_spec (env : Env) {d : Dispatch} (hd : Frame d)
    (hhit : ∀ x y w, (d (.mouseOnWidget x y) w).1 = env.mouseOnWidget w.ptr x y)
    (x y : Int) (c : Widget) :
    (Container.mouseOnWhichWidget d x y c).2.m_widgets.map Widget.fixed =
      c.m_widgets.map Widget.fixed ∧
    (Container.mouseOnWhichWidget d x y c).2.m_focusedWidget = c.m_focusedWidget ∧
    (∀ j, Container.hitAt env x y c j = true →
      (∀ k, j < k → Container.hitAt env x y c k = false) →
      ∃ p, c.ptrs[j]? = some p ∧ (Container.mouseOnWhichWidget d x y c).1 = some p) ∧
    ((Container.mouseOnWhichWidget d x y c).1 = none ↔
      ∀ j, Container.hitAt env x y c j = false) := by
  obtain ⟨h1, h2, h3⟩ :=
    Container.mouseOnWhichWidgetLoop_spec env hd hhit x y c.m_widgets.length none c
  unfold Container.mouseOnWhichWidget
  refine ⟨h1, h2, ?_, ?_⟩
  · intro j hj hmax
    have hjl := Container.hitAt_lt env x y c j hj
    have e : firstDown (Container.hitAt env x y c) 0 c.m_widgets.length = some j :=
      (firstDown_eq_some _ _ _ _).2 ⟨Nat.zero_le _, by omega, hj, fun k hk _ => hmax k hk⟩
    rw [h3]
    simp only [e, Option.some_bind]
    have hjp : j < c.ptrs.length := by rw [Widget.ptrs_length]; exact hjl
    exact ⟨c.ptrs[j], List.getElem?_eq_getElem hjp, List.getElem?_eq_getElem hjp⟩
  · rw [h3]
    simp only
    constructor
    · intro h j
      cases hfd : firstDown (Container.hitAt env x y c) 0 c.m_widgets.length with
      | none =>
        cases hj : Container.hitAt env x y c j with
        | false => rfl
        | true =>
          have hjl := Container.hitAt_lt env x y c j hj
          have := (firstDown_eq_none _ _ _).1 hfd j (Nat.zero_le _) (by omega)
          rw [hj] at this
          cases this
      | some i =>
        obtain ⟨-, hil, -, -⟩ := (firstDown_eq_some _ _ _ _).1 hfd
        rw [hfd] at h
        simp only [Option.some_bind] at h
        have hip : i < c.ptrs.length := by rw [Widget.ptrs_length]; omega
        rw [List.getElem?_eq_getElem hip] at h
        cases h
    · intro h
      have : firstDown (Container.hitAt env x y c) 0 c.m_widgets.length = none :=
        (firstDown_eq_none _ _ _).2 (fun k _ _ => h k)
      rw [this]
      rfl

/-- C7. Hit testing by z-order: `mouseOnWhichWidget(x, y)` returns the child with the
highest index among the children that are visible, enabled and whose `mouseOnWidget(x, y)`
is true, and returns null exactly when there is no such child. -/
theorem C7_mouseOnWhichWidget (env : Env) (n : Nat) (x y : Int) (c : Widget) :
    (∀ j, Container.hitAt env x y c j = true →
      (∀ k, j < k → Container.hitAt env x y c k = false) →
      ∃ p, c.ptrs[j]? = some p ∧
        (Container.mouseOnWhichWidget (invoke env n) x y c).1 = some p) ∧
    ((Container.mouseOnWhichWidget (invoke env n) x y c).1 = none ↔
      ∀ j, Container.hitAt env x y c j = false) :=
  (Container.mouseOnWhichWidget_spec env (invoke_frame env n)
    (invoke_mouseOnWidget env n) x y c).2.2

/-- Witness of C7: at the point `(5, 0)` all four children of the sample window are under
the mouse; the one returned is the last child, the label at address 5. -/
theorem C7_mouseOnWhichWidget_witness :
    ∃ p, sampleWindow.ptrs[3]? = some p ∧
      (Container.mouseOnWhichWidget (invoke stackedEnv 2) 5 0 sampleWindow).1 = some p :=
  (C7_mouseOnWhichWidget stackedEnv 2 5 0 sampleWindow).1 3 (by decide)
    (fun k hk => by
      cases hh : Container.hitAt stackedEnv 5 0 sampleWindow k with
      | false => rfl
      | true =>
        have hlt : k < 4 := Container.hitAt_lt stackedEnv 5 0 sampleWindow k hh
        omega)

end tgui

namespace tgui

/-! ### Flags and traces of the children under calls -/

theorem Widget.traces_length (c : Widget) : c.traces.length = c.m_widgets.length := by
  simp [Widget.traces]

theorem Widget.childCall_flags {d : Dispatch} (hd : Frame d) (i : Nat) (k : Call) (c : Widget) :
    (c.childCall d i k).2.flags = c.flags := by
  unfold Widget.flags
  rw [Widget.childCall_widgets]
  exact List.map_modify_of_eq _ _ _ _ (fun a => hd.m_focused k a)

theorem Widget.childCall_traces {d : Dispatch} (hd : Frame d) (i : Nat) (k : Call) (c : Widget) :
    (c.childCall d i k).2.traces = c.traces.modify (fun t => t ++ [k]) i := by
  unfold Widget.traces
  rw [Widget.childCall_widgets]
  apply List.ext_getElem?
  intro j
  simp only [List.getElem?_map, List.getElem?_modify]
  cases c.m_widgets[j]? with
  | none => rfl
  | some w =>
    by_cases hij : i = j
    · simp [hij, hd.calls]
    · simp [hij]

theorem TraceGrows.refl (c : Widget) : TraceGrows c c :=
  ⟨rfl, fun _ t h => ⟨[], by simpa using h⟩⟩

theorem TraceGrows.trans {a b c : Widget} (h1 : TraceGrows a b) (h2 : TraceGrows b c) :
    TraceGrows a c := by
  refine ⟨h2.1.trans h1.1, fun i t ht => ?_⟩
  obtain ⟨s1, hs1⟩ := h1.2 i t ht
  obtain ⟨s2, hs2⟩ := h2.2 i _ hs1
  exact ⟨s1 ++ s2, by rw [hs2, List.append_assoc]⟩

theorem TraceGrows.of_traces_eq {c r : Widget} (h : r.traces = c.traces) : TraceGrows c r := by
  refine ⟨?_, fun i t ht => ⟨[], by rw [h]; simpa using ht⟩⟩
  have := congrArg List.length h
  simpa [Widget.traces] using this

theorem Widget.childCall_traceGrows {d : Dispatch} (hd : Frame d) (i : Nat) (k : Call)
    (c : Widget) : TraceGrows c (c.childCall d i k).2 := by
  refine ⟨by simp, fun j t ht => ?_⟩
  rw [Widget.childCall_traces hd, List.getElem?_modify, ht]
  by_cases hij : i = j
  · exact ⟨[k], by simp [hij]⟩
  · exact ⟨[], by simp [hij]⟩

theorem Widget.ptrCall_fixed {d : Dispatch} (hd : Frame d) (p : Nat) (k : Call) (c : Widget) :
    (c.ptrCall d p k).2.m_widgets.map Widget.fixed = c.m_widgets.map Widget.fixed := by
  unfold Widget.ptrCall
  split
  · exact Widget.childCall_fixed hd _ _ c
  · rfl

theorem Widget.updateChild_setFocused_traces (i : Nat) (v : Bool) (c : Widget) :
    (c.updateChild i (Widget.setFocused v)).traces = c.traces := by
  unfold Widget.traces
  rw [Widget.updateChild_widgets]
  exact List.map_modify_of_eq _ _ _ _ (fun a => Widget.calls_setFocused v a)

theorem Container.unfocusCurrent_traceGrows {d : Dispatch} (hd : Frame d) (c : Widget) :
    TraceGrows c (Container.unfocusCurrent d c) := by
  unfold Container.unfocusCurrent
  exact (TraceGrows.of_traces_eq (Widget.updateChild_setFocused_traces _ _ c)).trans
    (Widget.childCall_traceGrows hd _ _ _)

theorem Widget.setFocusedWidget_traces (v : Nat) (c : Widget) :
    (c.setFocusedWidget v).traces = c.traces := by
  simp [Widget.traces]

theorem Container.focusChild_traceGrows {d : Dispatch} (hd : Frame d) (i : Nat) (c : Widget) :
    TraceGrows c (Container.focusChild d i c) := by
  unfold Container.focusChild
  refine (TraceGrows.of_traces_eq (Widget.setFocusedWidget_traces (i + 1) c)).trans ?_
  exact (TraceGrows.of_traces_eq (Widget.updateChild_setFocused_traces _ _ _)).trans
    (Widget.childCall_traceGrows hd _ _ _)

theorem Container.move_traceGrows {d : Dispatch} (hd : Frame d) (c : Widget) (i : Nat) :
    TraceGrows c (Container.focusChild d i
      (if c.m_focusedWidget ≠ 0 then Container.unfocusCurrent d c else c)) := by
  split
  · exact (Container.unfocusCurrent_traceGrows hd c).trans (Container.focusChild_traceGrows hd _ _)
  · exact Container.focusChild_traceGrows hd _ _

theorem Container.focusWidget_traceGrows {d : Dispatch} (hd : Frame d) (p : Nat) (c : Widget) :
    TraceGrows c (Container.focusWidget d p c) := by
  unfold Container.focusWidget
  split
  · split
    · exact Container.move_traceGrows hd c _
    · exact TraceGrows.refl c
  · exact TraceGrows.refl c

theorem Container.focusWidget_fixed {d : Dispatch} (hd : Frame d) (p : Nat) (c : Widget) :
    (Container.focusWidget d p c).m_widgets.map Widget.fixed = c.m_widgets.map Widget.fixed := by
  unfold Container.focusWidget
  split
  · split
    · exact Container.move_fixed hd c _
    · rfl
  · rfl

theorem Container.mouseOnWhichWidgetLoop_flags {d : Dispatch} (hd : Frame d) (x y : Int)
    (n : Nat) (found : Option Nat) (c : Widget) :
    (Container.mouseOnWhichWidgetLoop d x y n found c).2.flags = c.flags ∧
      TraceGrows c (Container.mouseOnWhichWidgetLoop d x y n found c).2 := by
  induction n generalizing found c with
  | zero => exact ⟨rfl, TraceGrows.refl c⟩
  | succ n ih =>
    unfold Container.mouseOnWhichWidgetLoop
    split
    · exact ih _ _
    · split
      · split
        · split
          · obtain ⟨h1, h2⟩ := ih (some ‹Widget›.ptr) (c.childCall d n (.mouseOnWidget x y)).2
            exact ⟨h1.trans (Widget.childCall_flags hd _ _ c),
              (Widget.childCall_traceGrows hd _ _ c).trans h2⟩
          · obtain ⟨h1, h2⟩ := ih none (c.childCall d n (.mouseOnWidget x y)).2
            exact ⟨h1.trans (Widget.childCall_flags hd _ _ c),
              (Widget.childCall_traceGrows hd _ _ c).trans h2⟩
        · rename_i p
          obtain ⟨h1, h2⟩ := ih (some p) (c.childCall d n .mouseNotOnWidget).2
          exact ⟨h1.trans (Widget.childCall_flags hd _ _ c),
            (Widget.childCall_traceGrows hd _ _ c).trans h2⟩
      · exact ih _ _

theorem SingleFocus.congr {c r : Widget} (h : SingleFocus c)
    (hfix : r.m_widgets.map Widget.fixed = c.m_widgets.map Widget.fixed)
    (hflags : r.flags = c.flags) (hf : r.m_focusedWidget = c.m_focusedWidget) :
    SingleFocus r := by
  unfold SingleFocus
  rw [Widget.ptrs_congr hfix, hflags, hf]
  exact h

/-- With pairwise distinct children the object at an address is the child that carries
the address. -/
theorem Widget.indexOf_of_nodup (c : Widget) (p j : Nat) (hnd : c.ptrs.Nodup)
    (hj : c.ptrs[j]? = some p) : c.indexOf p = some j := by
  rw [Widget.indexOf_eq_some]
  refine ⟨hj, fun k hk hkp => ?_⟩
  obtain ⟨hjl, hje⟩ := List.getElem?_eq_some_iff.1 hj
  obtain ⟨hkl, hke⟩ := List.getElem?_eq_some_iff.1 hkp
  have := (List.Nodup.getElem_inj_iff hnd).1 (hke.trans hje.symm)
  omega

/-- What `focusWidget` does under the single-focus invariant, for any method table. -/
theorem Container.focusWidget_spec {d : Dispatch} (hd : Frame d) (c : Widget) (p i : Nat)
    (h : SingleFocus c) (hidx : c.indexOf p = some i) :
    (Container.focusWidget d p c).m_focusedWidget = i + 1 ∧
      (Container.focusWidget d p c).flags[i]? = some true := by
  have hi : i < c.m_widgets.length := by
    have := ((c.indexOf_eq_some p i).1 hidx).1
    have := (List.getElem?_eq_some_iff.1 this).1
    simpa [Widget.ptrs] using this
  unfold Container.focusWidget
  rw [hidx]
  simp only
  by_cases hf : c.m_focusedWidget = i + 1
  · rw [if_neg (by simpa using hf)]
    refine ⟨hf, ?_⟩
    have hi2 : i < c.flags.length := by rw [Widget.flags_length]; exact hi
    have := (h.2 i c.flags[i] (List.getElem?_eq_getElem hi2)).2 hf
    rw [List.getElem?_eq_getElem hi2, this]
  · rw [if_pos hf]
    refine ⟨Container.move_focusedWidget _ c i, ?_⟩
    rw [Container.move_flags_getElem? hd c i i hi, if_pos rfl]

end tgui

namespace tgui

/-! ### Left mouse press -/

theorem Widget.ptrAt_of_ptrs (c : Widget) (p j : Nat) (h : c.ptrs[j]? = some p) :
    c.ptrAt p j = true := by
  rw [Widget.ptrAt_eq, h]
  simp

theorem Container.unfocusWidgets_focusedWidget (d : Dispatch) (c : Widget) :
    (Container.unfocusWidgets d c).m_focusedWidget = 0 := by
  unfold Container.unfocusWidgets
  split
  · simp
  · rename_i h
    simpa using h

/-- The left-press branch of `handleEvent` when the hit test finds the child at index `j`,
under the single-focus invariant. -/
theorem Container.handleEvent_press_hit (env : Env) {d : Dispatch} (hd : Frame d)
    (hhit : ∀ x y w, (d (.mouseOnWidget x y) w).1 = env.mouseOnWidget w.ptr x y)
    (x y : Int) (c : Widget) (j : Nat) (h : SingleFocus c)
    (hj : Container.hitAt env x y c j = true)
    (hmax : ∀ k, j < k → Container.hitAt env x y c k = false) :
    (Container.handleEvent env d (.MouseButtonPressed Mouse.Left x y) c).1 = true ∧
    (Container.handleEvent env d (.MouseButtonPressed Mouse.Left x y) c).2.m_focusedWidget =
      j + 1 ∧
    (Container.handleEvent env d (.MouseButtonPressed Mouse.Left x y) c).2.flags[j]? =
      some true ∧
    ∃ t mid, c.traces[j]? = some t ∧
      (Container.handleEvent env d (.MouseButtonPressed Mouse.Left x y) c).2.traces[j]? =
        some (t ++ mid ++ [.leftMousePressed x y]) := by
  obtain ⟨hfix1, hf1, hfound, -⟩ := Container.mouseOnWhichWidget_spec env hd hhit x y c
  obtain ⟨p, hp, hmo⟩ := hfound j hj hmax
  have hflags1 : (Container.mouseOnWhichWidget d x y c).2.flags = c.flags :=
    (Container.mouseOnWhichWidgetLoop_flags hd x y c.m_widgets.length none c).1
  have hgrow1 : TraceGrows c (Container.mouseOnWhichWidget d x y c).2 :=
    (Container.mouseOnWhichWidgetLoop_flags hd x y c.m_widgets.length none c).2
  have e : Container.mouseOnWhichWidget d x y c =
      (some p, (Container.mouseOnWhichWidget d x y c).2) := Prod.ext hmo rfl
  generalize (Container.mouseOnWhichWidget d x y c).2 = c1 at hfix1 hf1 hflags1 hgrow1 e
  -- the container after the hit test still satisfies the invariant
  have h1 : SingleFocus c1 := h.congr hfix1 hflags1 hf1
  have hp1 : c1.ptrs[j]? = some p := by rw [Widget.ptrs_congr hfix1]; exact hp
  have hidx1 : c1.indexOf p = some j := c1.indexOf_of_nodup p j h1.1 hp1
  -- focusWidget
  obtain ⟨hf2, hflag2⟩ := Container.focusWidget_spec hd c1 p j h1 hidx1
  have hfix2 := Container.focusWidget_fixed hd p c1
  have hgrow2 := Container.focusWidget_traceGrows hd p c1
  generalize he2 : Container.focusWidget d p c1 = c2 at hf2 hflag2 hfix2 hgrow2
  have hp2 : c2.ptrs[j]? = some p := by rw [Widget.ptrs_congr hfix2]; exact hp1
  have hidx2 : c2.indexOf p = some j := by rw [Widget.indexOf_congr hfix2]; exact hidx1
  have hev : Container.handleEvent env d (.MouseButtonPressed Mouse.Left x y) c =
      (true, (c2.childCall d j (.leftMousePressed x y)).2) := by
    have hpa : c2.ptrAt p (c2.m_focusedWidget - 1) = true := by
      rw [hf2, Nat.add_sub_cancel]
      exact c2.ptrAt_of_ptrs p j hp2
    simp only [Container.handleEvent, if_true, e, he2]
    rw [if_neg (by simp [hpa])]
    simp only [Widget.ptrCall, hidx2]
  rw [hev]
  refine ⟨rfl, by simpa using hf2, ?_, ?_⟩
  · rw [Widget.childCall_flags hd]; exact hflag2
  · have hjt : j < c.traces.length := by
      rw [Widget.traces_length]; exact Container.hitAt_lt env x y c j hj
    obtain ⟨s, hs⟩ := (hgrow1.trans hgrow2).2 j c.traces[j] (List.getElem?_eq_getElem hjt)
    refine ⟨c.traces[j], s, List.getElem?_eq_getElem hjt, ?_⟩
    rw [Widget.childCall_traces hd, List.getElem?_modify, hs]
    simp

/-- The left-press branch of `handleEvent` when the hit test finds nothing, under the
single-focus invariant. -/
theorem Container.handleEvent_press_miss (env : Env) {d : Dispatch} (hd : Frame d)
    (hhit : ∀ x y w, (d (.mouseOnWidget x y) w).1 = env.mouseOnWidget w.ptr x y)
    (x y : Int) (c : Widget) (h : SingleFocus c)
    (hnone : ∀ j, Container.hitAt env x y c j = false) :
    (Container.handleEvent env d (.MouseButtonPressed Mouse.Left x y) c).1 = false ∧
    (Container.handleEvent env d (.MouseButtonPressed Mouse.Left x y) c).2.m_focusedWidget = 0 ∧
    ∀ b ∈ (Container.handleEvent env d (.MouseButtonPressed Mouse.Left x y) c).2.flags,
      b = false := by
  obtain ⟨hfix1, hf1, -, hnull⟩ := Container.mouseOnWhichWidget_spec env hd hhit x y c
  have hmo := hnull.2 hnone
  have hflags1 : (Container.mouseOnWhichWidget d x y c).2.flags = c.flags :=
    (Container.mouseOnWhichWidgetLoop_flags hd x y c.m_widgets.length none c).1
  have e : Container.mouseOnWhichWidget d x y c =
      (none, (Container.mouseOnWhichWidget d x y c).2) := Prod.ext hmo rfl
  generalize (Container.mouseOnWhichWidget d x y c).2 = c1 at hfix1 hf1 hflags1 e
  have h1 : SingleFocus c1 := h.congr hfix1 hflags1 hf1
  have hev : Container.handleEvent env d (.MouseButtonPressed Mouse.Left x y) c =
      (false, Container.unfocusWidgets d c1) := by
    simp only [Container.handleEvent, if_true, e]
  rw [hev]
  have h2 := Container.unfocusWidgets_singleFocus hd c1 h1
  have hf2 := Container.unfocusWidgets_focusedWidget d c1
  refine ⟨rfl, hf2, fun b hb => ?_⟩
  obtain ⟨i, hi, rfl⟩ := List.getElem_of_mem hb
  have := h2.2 i _ (List.getElem?_eq_getElem hi)
  rw [hf2] at this
  cases hb2 : (Container.unfocusWidgets d c1).flags[i] with
  | false => rfl
  | true =>
    have := this.1 hb2
    omega

/-- C8 as stated fails on the code: in `staleWindow`, the state `moveWidgetToFront` leaves
behind in a window with one unfocused button, the focus index designates the button but
its `m_focused` flag is not set; a left press at `(15, 0)` hits the button
(address 1), `focusWidget` finds it "already focused" and does nothing, and after
`handleEvent` (which returns true) the flag of the button is still not set. -/
theorem C8_click_stale_focus_counterexample :
    Container.moveWidgetToFront 1
      (mkContainer 300 false 0 [mkLeaf 1 false true true true] ["button"]) = staleWindow ∧
    (Container.mouseOnWhichWidget (invoke sampleEnv 1) 15 0 staleWindow).1 = some 1 ∧
    (Container.handleEvent sampleEnv (invoke sampleEnv 1)
      (.MouseButtonPressed Mouse.Left 15 0) staleWindow).1 = true ∧
    (Container.handleEvent sampleEnv (invoke sampleEnv 1)
      (.MouseButtonPressed Mouse.Left 15 0) staleWindow).2.m_focusedWidget = 1 ∧
    (Container.handleEvent sampleEnv (invoke sampleEnv 1)
      (.MouseButtonPressed Mouse.Left 15 0) staleWindow).2.flags = [false] :=
  ⟨rfl, by decide⟩

/-- Focus transfer on click in the model, for a container that satisfies the single-focus
invariant and a left `MouseButtonPressed` event at `(x, y)`: (1) if the hit test finds the
child at index `j` (the topmost visible, enabled child under the mouse), then `handleEvent`
returns true, afterwards `m_focusedWidget = j+1` and child `j` has `m_focused` set, and
the last call child `j` has received is `leftMousePressed(x, y)`; (2) if no child is hit,
`handleEvent` returns false and afterwards `m_focusedWidget = 0` and no child has
`m_focused` set. -/
theorem Container.handleEvent_press_focus (env : Env) (n : Nat) (x y : Int) (c : Widget) (h : SingleFocus c) :
    (∀ j, Container.hitAt env x y c j = true →
      (∀ k, j < k → Container.hitAt env x y c k = false) →
      (Container.handleEvent env (invoke env n) (.MouseButtonPressed Mouse.Left x y) c).1 =
        true ∧
      (Container.handleEvent env (invoke env n)
        (.MouseButtonPressed Mouse.Left x y) c).2.m_focusedWidget = j + 1 ∧
      (Container.handleEvent env (invoke env n)
        (.MouseButtonPressed Mouse.Left x y) c).2.flags[j]? = some true ∧
      ∃ t mid, c.traces[j]? = some t ∧
        (Container.handleEvent env (invoke env n)
          (.MouseButtonPressed Mouse.Left x y) c).2.traces[j]? =
          some (t ++ mid ++ [.leftMousePressed x y])) ∧
    ((∀ j, Container.hitAt env x y c j = false) →
      (Container.handleEvent env (invoke env n) (.MouseButtonPressed Mouse.Left x y) c).1 =
        false ∧
      (Container.handleEvent env (invoke env n)
        (.MouseButtonPressed Mouse.Left x y) c).2.m_focusedWidget = 0 ∧
      ∀ b ∈ (Container.handleEvent env (invoke env n)
        (.MouseButtonPressed Mouse.Left x y) c).2.flags, b = false) :=
  ⟨fun j hj hmax => Container.handleEvent_press_hit env (invoke_frame env n)
      (invoke_mouseOnWidget env n) x y c j h hj hmax,
    fun hnone => Container.handleEvent_press_miss env (invoke_frame env n)
      (invoke_mouseOnWidget env n) x y c h hnone⟩

end tgui

namespace tgui

/-! ### Keyboard and text routing -/

theorem Widget.childCall_traces_getElem? {d : Dispatch} (hd : Frame d) (i : Nat) (k : Call)
    (c : Widget) (j : Nat) (t : List Call) (ht : c.traces[j]? = some t) :
    (c.childCall d i k).2.traces[j]? = some (if j = i then t ++ [k] else t) := by
  rw [Widget.childCall_traces hd, List.getElem?_modify, ht]
  by_cases hij : i = j
  · simp [hij]
  · have : ¬ j = i := fun h => hij h.symm
    simp [hij, this]

theorem Widget.childCall_getElem?_ne (d : Dispatch) (i : Nat) (k : Call) (c : Widget) (j : Nat)
    (hij : j ≠ i) : (c.childCall d i k).2.m_widgets[j]? = c.m_widgets[j]? := by
  rw [Widget.childCall_widgets, List.getElem?_modify_ne _ _ (Ne.symm hij)]

/-- Keyboard routing in the model: on a `KeyPressed` event `handleEvent` returns true exactly when
the key code is not `sf::Keyboard::Unknown` and a child is focused (`m_focusedWidget != 0`).
In that case the focused child receives `keyPressed` with the key event (its trace grows
by exactly that call) and every other child is unchanged; otherwise the container is
unchanged, so no child receives anything. The focus index is unchanged in both cases. -/
theorem Container.handleEvent_key (env : Env) (n : Nat) (key : KeyEvent) (c : Widget) :
    ((Container.handleEvent env (invoke env n) (.KeyPressed key) c).1 = true ↔
      key.code ≠ Keyboard.Unknown ∧ c.m_focusedWidget ≠ 0) ∧
    ((Container.handleEvent env (invoke env n) (.KeyPressed key) c).1 = true →
      (∀ j t, c.traces[j]? = some t →
        (Container.handleEvent env (invoke env n) (.KeyPressed key) c).2.traces[j]? =
          some (if j + 1 = c.m_focusedWidget then t ++ [.keyPressed key] else t)) ∧
      (∀ j, j + 1 ≠ c.m_focusedWidget →
        (Container.handleEvent env (invoke env n) (.KeyPressed key) c).2.m_widgets[j]? =
          c.m_widgets[j]?)) ∧
    ((Container.handleEvent env (invoke env n) (.KeyPressed key) c).1 = false →
      (Container.handleEvent env (invoke env n) (.KeyPressed key) c).2 = c) ∧
    (Container.handleEvent env (invoke env n) (.KeyPressed key) c).2.m_focusedWidget =
      c.m_focusedWidget := by
  have hd := invoke_frame env n
  simp only [Container.handleEvent]
  by_cases hk : key.code ≠ Keyboard.Unknown
  · by_cases hf : c.m_focusedWidget ≠ 0
    · rw [if_pos hk, if_pos hf]
      refine ⟨⟨fun _ => ⟨hk, hf⟩, fun _ => rfl⟩, fun _ => ⟨fun j t ht => ?_, fun j hj => ?_⟩,
        (fun h => by simp at h), by simp⟩
      · rw [Widget.childCall_traces_getElem? hd _ _ c j t ht]
        have e : (j = c.m_focusedWidget - 1) ↔ (j + 1 = c.m_focusedWidget) := by omega
        simp only [e]
      · exact Widget.childCall_getElem?_ne _ _ _ c j (by omega)
    · rw [if_pos hk, if_neg hf]
      exact ⟨⟨(fun h => by simp at h), fun h => absurd h.2 hf⟩, (fun h => by simp at h),
        fun _ => rfl, rfl⟩
  · rw [if_neg hk]
    exact ⟨⟨(fun h => by simp at h), fun h => absurd h.1 hk⟩, (fun h => by simp at h),
      fun _ => rfl, rfl⟩

/-- Text routing in the model: on a `TextEntered` event with code point `u`, `handleEvent` returns
true exactly when `u ≥ 32`, `u ≠ 127` and a child is focused. In that case the focused
child receives `textEntered(u)` (its trace grows by exactly that call) and every other
child is unchanged. For a control character (`u < 32` or `u = 127`) the container is
unchanged: nothing is delivered to any child. -/
theorem Container.handleEvent_text (env : Env) (n : Nat) (u : Nat) (c : Widget) :
    ((Container.handleEvent env (invoke env n) (.TextEntered u) c).1 = true ↔
      32 ≤ u ∧ u ≠ 127 ∧ c.m_focusedWidget ≠ 0) ∧
    ((Container.handleEvent env (invoke env n) (.TextEntered u) c).1 = true →
      (∀ j t, c.traces[j]? = some t →
        (Container.handleEvent env (invoke env n) (.TextEntered u) c).2.traces[j]? =
          some (if j + 1 = c.m_focusedWidget then t ++ [.textEntered u] else t)) ∧
      (∀ j, j + 1 ≠ c.m_focusedWidget →
        (Container.handleEvent env (invoke env n) (.TextEntered u) c).2.m_widgets[j]? =
          c.m_widgets[j]?)) ∧
    (u < 32 ∨ u = 127 →
      (Container.handleEvent env (invoke env n) (.TextEntered u) c).2 = c) := by
  have hd := invoke_frame env n
  simp only [Container.handleEvent]
  by_cases hu : u ≥ 32 ∧ u ≠ 127
  · by_cases hf : c.m_focusedWidget ≠ 0
    · rw [if_pos hu, if_pos hf]
      refine ⟨⟨fun _ => ⟨hu.1, hu.2, hf⟩, fun _ => rfl⟩,
        fun _ => ⟨fun j t ht => ?_, fun j hj => ?_⟩, fun h => ?_⟩
      · rw [Widget.childCall_traces_getElem? hd _ _ c j t ht]
        have e : (j = c.m_focusedWidget - 1) ↔ (j + 1 = c.m_focusedWidget) := by omega
        simp only [e]
      · exact Widget.childCall_getElem?_ne _ _ _ c j (by omega)
      · omega
    · rw [if_pos hu, if_neg hf]
      exact ⟨⟨(fun h => by simp at h), fun h => absurd h.2.2 hf⟩, (fun h => by simp at h),
        fun _ => rfl⟩
  · rw [if_neg hu]
    exact ⟨⟨(fun h => by simp at h), fun h => absurd ⟨h.1, h.2.1⟩ hu⟩, (fun h => by simp at h),
      fun _ => rfl⟩

end tgui

namespace tgui

/-! ### Resolution depth: `Widget.depth` levels are enough -/

theorem Widget.depthList_le (ws : List Widget) (k : Nat) :
    Widget.depthList ws ≤ k ↔ ∀ w ∈ ws, w.depth ≤ k := by
  induction ws with
  | nil => simp [Widget.depthList]
  | cons w ws ih => simp [Widget.depthList, ih]

theorem Widget.depth_eq (w : Widget) : w.depth = Widget.depthList w.m_widgets + 1 := by
  cases w; rfl

theorem Widget.depth_le_succ (c : Widget) (k : Nat) : c.depth ≤ k + 1 ↔ Shallow k c := by
  rw [Widget.depth_eq, Nat.add_le_add_iff_right, Widget.depthList_le]
  rfl

theorem Widget.depth_pos (w : Widget) : 0 < w.depth := by
  rw [Widget.depth_eq]; omega

theorem Widget.depth_of_widgets {v w : Widget} (h : v.m_widgets = w.m_widgets) :
    v.depth = w.depth := by
  rw [Widget.depth_eq, Widget.depth_eq, h]

@[simp] theorem Widget.depth_setFocused (v : Bool) (w : Widget) :
    (w.setFocused v).depth = w.depth :=
  Widget.depth_of_widgets (by simp)

@[simp] theorem Widget.depth_record (k : Call) (w : Widget) : (w.record k).depth = w.depth :=
  Widget.depth_of_widgets (by simp)

theorem Shallow.of_widgets {k : Nat} {c r : Widget} (h : Shallow k c)
    (e : r.m_widgets = c.m_widgets) : Shallow k r := by
  unfold Shallow
  rw [e]
  exact h

theorem Shallow.modify {k : Nat} {c r : Widget} (h : Shallow k c) (f : Widget → Widget)
    (i : Nat) (hf : ∀ w, w.depth ≤ k → (f w).depth ≤ k)
    (e : r.m_widgets = c.m_widgets.modify f i) : Shallow k r := by
  intro w hw
  rw [e] at hw
  obtain ⟨j, hj, rfl⟩ := List.getElem_of_mem hw
  rw [List.getElem_modify]
  have hj2 : j < c.m_widgets.length := by simpa using hj
  split
  · exact hf _ (h _ (List.getElem_mem hj2))
  · exact h _ (List.getElem_mem hj2)

theorem Shallow.updateChild {k : Nat} {c : Widget} (h : Shallow k c) (i : Nat) (v : Bool) :
    Shallow k (c.updateChild i (Widget.setFocused v)) :=
  h.modify _ i (fun w hw => by simpa using hw) (Widget.updateChild_widgets _ _ c)

theorem Shallow.setFocusedWidget {k : Nat} {c : Widget} (h : Shallow k c) (v : Nat) :
    Shallow k (c.setFocusedWidget v) :=
  h.of_widgets (by simp)

theorem Widget.childCall_agree {k : Nat} {d1 d2 : Dispatch} (h : Agree k d1 d2) {c : Widget}
    (hc : Shallow k c) (i : Nat) (call : Call) :
    c.childCall d1 i call = c.childCall d2 i call ∧ Shallow k (c.childCall d1 i call).2 := by
  refine ⟨?_, hc.modify _ i (fun w hw => (h call w hw).2) (Widget.childCall_widgets _ _ _ c)⟩
  unfold Widget.childCall
  cases hw : c.m_widgets[i]? with
  | none => rfl
  | some w =>
    obtain ⟨hi, rfl⟩ := List.getElem?_eq_some_iff.1 hw
    simp only
    rw [(h call _ (hc _ (List.getElem_mem hi))).1]

theorem Widget.ptrCall_agree {k : Nat} {d1 d2 : Dispatch} (h : Agree k d1 d2) {c : Widget}
    (hc : Shallow k c) (p : Nat) (call : Call) :
    c.ptrCall d1 p call = c.ptrCall d2 p call ∧ Shallow k (c.ptrCall d1 p call).2 := by
  unfold Widget.ptrCall
  split
  · exact Widget.childCall_agree h hc _ _
  · exact ⟨rfl, hc⟩

theorem Container.unfocusCurrent_agree {k : Nat} {d1 d2 : Dispatch} (h : Agree k d1 d2)
    {c : Widget} (hc : Shallow k c) :
    Container.unfocusCurrent d1 c = Container.unfocusCurrent d2 c ∧
      Shallow k (Container.unfocusCurrent d1 c) := by
  unfold Container.unfocusCurrent
  obtain ⟨e, s⟩ := Widget.childCall_agree h (hc.updateChild (c.m_focusedWidget - 1) false)
    (c.m_focusedWidget - 1) .widgetUnfocused
  exact ⟨by rw [e], s⟩

theorem Container.focusChild_agree {k : Nat} {d1 d2 : Dispatch} (h : Agree k d1 d2)
    {c : Widget} (hc : Shallow k c) (i : Nat) :
    Container.focusChild d1 i c = Container.focusChild d2 i c ∧
      Shallow k (Container.focusChild d1 i c) := by
  unfold Container.focusChild
  obtain ⟨e, s⟩ := Widget.childCall_agree h
    ((hc.setFocusedWidget (i + 1)).updateChild i true) i .widgetFocused
  exact ⟨by rw [e], s⟩

theorem Container.unfocusWidgets_agree {k : Nat} {d1 d2 : Dispatch} (h : Agree k d1 d2)
    {c : Widget} (hc : Shallow k c) :
    Container.unfocusWidgets d1 c = Container.unfocusWidgets d2 c ∧
      Shallow k (Container.unfocusWidgets d1 c) := by
  unfold Container.unfocusWidgets
  obtain ⟨e, s⟩ := Container.unfocusCurrent_agree h hc
  split
  · exact ⟨by rw [e], s.setFocusedWidget 0⟩
  · exact ⟨rfl, hc⟩

theorem Container.move_agree {k : Nat} {d1 d2 : Dispatch} (h : Agree k d1 d2)
    {c : Widget} (hc : Shallow k c) (i : Nat) (b : Prop) [Decidable b] :
    Container.focusChild d1 i (if b then Container.unfocusCurrent d1 c else c) =
      Container.focusChild d2 i (if b then Container.unfocusCurrent d2 c else c) ∧
    Shallow k (Container.focusChild d1 i (if b then Container.unfocusCurrent d1 c else c)) := by
  obtain ⟨e, s⟩ := Container.unfocusCurrent_agree h hc
  split
  · obtain ⟨e2, s2⟩ := Container.focusChild_agree h s i
    exact ⟨by rw [e2, e], s2⟩
  · exact Container.focusChild_agree h hc i

theorem Container.focusWidget_agree {k : Nat} {d1 d2 : Dispatch} (h : Agree k d1 d2)
    {c : Widget} (hc : Shallow k c) (p : Nat) :
    Container.focusWidget d1 p c = Container.focusWidget d2 p c ∧
      Shallow k (Container.focusWidget d1 p c) := by
  unfold Container.focusWidget
  split
  · split
    · exact Container.move_agree h hc _ _
    · exact ⟨rfl, hc⟩
  · exact ⟨rfl, hc⟩

theorem Container.mouseOnWhichWidgetLoop_agree {k : Nat} {d1 d2 : Dispatch}
    (h : Agree k d1 d2) (x y : Int) (n : Nat) (found : Option Nat) {c : Widget}
    (hc : Shallow k c) :
    Container.mouseOnWhichWidgetLoop d1 x y n found c =
      Container.mouseOnWhichWidgetLoop d2 x y n found c ∧
    Shallow k (Container.mouseOnWhichWidgetLoop d1 x y n found c).2 := by
  induction n generalizing found c with
  | zero => exact ⟨rfl, hc⟩
  | succ n ih =>
    unfold Container.mouseOnWhichWidgetLoop
    obtain ⟨e1, s1⟩ := Widget.childCall_agree h hc n (.mouseOnWidget x y)
    obtain ⟨e2, s2⟩ := Widget.childCall_agree h hc n .mouseNotOnWidget
    split
    · exact ih _ hc
    · split
      · split
        · rw [← e1]
          split
          · exact ih _ s1
          · exact ih _ s1
        · rw [← e2]
          exact ih _ s2
      · exact ih _ hc

theorem Container.mouseOnWhichWidget_agree {k : Nat} {d1 d2 : Dispatch}
    (h : Agree k d1 d2) (x y : Int) {c : Widget} (hc : Shallow k c) :
    Container.mouseOnWhichWidget d1 x y c = Container.mouseOnWhichWidget d2 x y c ∧
      Shallow k (Container.mouseOnWhichWidget d1 x y c).2 :=
  Container.mouseOnWhichWidgetLoop_agree h x y _ none hc

theorem Container.callAll_agree {k : Nat} {d1 d2 : Dispatch} (h : Agree k d1 d2)
    (call : Call) (n lo : Nat) {c : Widget} (hc : Shallow k c) :
    Container.callAll d1 call n lo c = Container.callAll d2 call n lo c ∧
      Shallow k (Container.callAll d1 call n lo c) := by
  induction n generalizing lo c with
  | zero => exact ⟨rfl, hc⟩
  | succ n ih =>
    unfold Container.callAll
    obtain ⟨e1, s1⟩ := Widget.childCall_agree h hc lo call
    rw [← e1]
    exact ih _ s1

theorem Container.mouseNoLongerDownOthers_agree {k : Nat} {d1 d2 : Dispatch}
    (h : Agree k d1 d2) (p : Option Nat) (n lo : Nat) {c : Widget} (hc : Shallow k c) :
    Container.mouseNoLongerDownOthers d1 p n lo c =
      Container.mouseNoLongerDownOthers d2 p n lo c ∧
    Shallow k (Container.mouseNoLongerDownOthers d1 p n lo c) := by
  induction n generalizing lo c with
  | zero => exact ⟨rfl, hc⟩
  | succ n ih =>
    unfold Container.mouseNoLongerDownOthers
    obtain ⟨e1, s1⟩ := Widget.childCall_agree h hc lo .mouseNoLongerDown
    split
    · exact ih _ hc
    · rw [← e1]
      exact ih _ s1

end tgui

namespace tgui

theorem Container.focusNextWidgetInContainerLoop_agree {k : Nat} {d1 d2 : Dispatch}
    (h : Agree k d1 d2) (n i : Nat) {c : Widget} (hc : Shallow k c) :
    Container.focusNextWidgetInContainerLoop d1 n i c =
      Container.focusNextWidgetInContainerLoop d2 n i c ∧
    Shallow k (Container.focusNextWidgetInContainerLoop d1 n i c).2 := by
  induction n generalizing i c with
  | zero =>
    unfold Container.focusNextWidgetInContainerLoop
    obtain ⟨e, s⟩ := Container.unfocusWidgets_agree h hc
    exact ⟨by rw [e], s⟩
  | succ n ih =>
    unfold Container.focusNextWidgetInContainerLoop
    obtain ⟨e1, s1⟩ := Widget.childCall_agree h hc i .focusNextWidgetInContainer
    split
    · split
      · obtain ⟨e, s⟩ := Container.move_agree h hc i (c.m_focusedWidget > 0)
        exact ⟨by rw [e], s⟩
      · rw [← e1]
        split
        · obtain ⟨e, s⟩ := Container.move_agree h s1 i (c.m_focusedWidget > 0)
          exact ⟨by rw [e], s⟩
        · exact ih _ s1
    · exact ih _ hc

theorem Container.focusNextWidgetInContainer_agree (env : Env) {k : Nat} {d1 d2 : Dispatch}
    (h : Agree k d1 d2) {c : Widget} (hc : Shallow k c) :
    Container.focusNextWidgetInContainer env d1 c =
      Container.focusNextWidgetInContainer env d2 c ∧
    Shallow k (Container.focusNextWidgetInContainer env d1 c).2 := by
  unfold Container.focusNextWidgetInContainer
  split
  · exact ⟨rfl, hc⟩
  · exact Container.focusNextWidgetInContainerLoop_agree h _ _ hc

theorem Container.tabKeyPressedSearch_agree {k : Nat} {d1 d2 : Dispatch}
    (h : Agree k d1 d2) {c : Widget} (hc : Shallow k c) :
    Container.tabKeyPressedSearch d1 c = Container.tabKeyPressedSearch d2 c ∧
      Shallow k (Container.tabKeyPressedSearch d1 c).2 := by
  unfold Container.tabKeyPressedSearch
  split
  · obtain ⟨e, s⟩ := Container.move_agree h hc ‹Nat› (c.m_focusedWidget ≠ 0)
    exact ⟨by rw [e], s⟩
  · split
    · obtain ⟨e1, s1⟩ := Container.unfocusCurrent_agree h hc
      obtain ⟨e2, s2⟩ := Container.focusChild_agree h s1 ‹Nat›
      exact ⟨by rw [e2, e1], s2⟩
    · split
      · obtain ⟨e, s⟩ := Widget.childCall_agree h hc (c.m_focusedWidget - 1) .tabKeyPressed
        exact ⟨by rw [e], s⟩
      · exact ⟨rfl, hc⟩

theorem Container.tabKeyPressed_agree (env : Env) {k : Nat} {d1 d2 : Dispatch}
    (h : Agree k d1 d2) {c : Widget} (hc : Shallow k c) :
    Container.tabKeyPressed env d1 c = Container.tabKeyPressed env d2 c ∧
      Shallow k (Container.tabKeyPressed env d1 c).2 := by
  unfold Container.tabKeyPressed
  obtain ⟨e1, s1⟩ :=
    Widget.childCall_agree h hc (c.m_focusedWidget - 1) .focusNextWidgetInContainer
  split
  · exact ⟨rfl, hc⟩
  · split
    · rw [← e1]
      split
      · exact ⟨rfl, s1⟩
      · exact Container.tabKeyPressedSearch_agree h s1
    · exact Container.tabKeyPressedSearch_agree h hc

theorem Container.handleEvent_agree (env : Env) {k : Nat} {d1 d2 : Dispatch}
    (h : Agree k d1 d2) (event : Event) {c : Widget} (hc : Shallow k c) :
    Container.handleEvent env d1 event c = Container.handleEvent env d2 event c ∧
      Shallow k (Container.handleEvent env d1 event c).2 := by
  cases event with
  | MouseMoved x y =>
    simp only [Container.handleEvent]
    obtain ⟨em, sm⟩ := Container.mouseOnWhichWidget_agree h x y hc
    rw [← em]
    split
    · obtain ⟨e, s⟩ := Widget.childCall_agree h hc ‹Nat› (.mouseMoved x y)
      exact ⟨by rw [e], s⟩
    · split
      · rename_i p c1 hmo
        rw [hmo] at sm
        obtain ⟨e, s⟩ := Widget.ptrCall_agree h sm p (.mouseMoved x y)
        exact ⟨by rw [e], s⟩
      · rename_i c1 hmo
        rw [hmo] at sm
        exact ⟨rfl, sm⟩
  | MouseButtonPressed button x y =>
    simp only [Container.handleEvent]
    obtain ⟨em, sm⟩ := Container.mouseOnWhichWidget_agree h x y hc
    rw [← em]
    split
    · split
      · rename_i p c1 hmo
        rw [hmo] at sm
        obtain ⟨e2, s2⟩ := Container.focusWidget_agree h (c := c1) sm p
        rw [← e2]
        obtain ⟨e3, s3⟩ := Container.unfocusCurrent_agree h s2
        rw [← e3]
        split
        · obtain ⟨e, s⟩ := Widget.ptrCall_agree h (s3.setFocusedWidget 0) p
            (.leftMousePressed x y)
          exact ⟨by rw [e], s⟩
        · obtain ⟨e, s⟩ := Widget.ptrCall_agree h s2 p (.leftMousePressed x y)
          exact ⟨by rw [e], s⟩
      · rename_i c1 hmo
        rw [hmo] at sm
        obtain ⟨e, s⟩ := Container.unfocusWidgets_agree h sm
        exact ⟨by rw [e], s⟩
    · exact ⟨rfl, hc⟩
  | MouseButtonReleased button x y =>
    simp only [Container.handleEvent]
    obtain ⟨em, sm⟩ := Container.mouseOnWhichWidget_agree h x y hc
    rw [← em]
    split
    · split
      · rename_i p c1 hmo
        rw [hmo] at sm
        obtain ⟨e2, s2⟩ := Widget.ptrCall_agree h sm p (.leftMouseReleased x y)
        rw [← e2]
        obtain ⟨e, s⟩ := Container.mouseNoLongerDownOthers_agree h (some p)
          c1.m_widgets.length 0 s2
        exact ⟨by rw [e], s⟩
      · rename_i c1 hmo
        rw [hmo] at sm
        obtain ⟨e, s⟩ := Container.mouseNoLongerDownOthers_agree h none
          c1.m_widgets.length 0 sm
        exact ⟨by rw [e], s⟩
    · exact ⟨rfl, hc⟩
  | KeyPressed key =>
    simp only [Container.handleEvent]
    split
    · split
      · obtain ⟨e, s⟩ := Widget.childCall_agree h hc (c.m_focusedWidget - 1) (.keyPressed key)
        exact ⟨by rw [e], s⟩
      · exact ⟨rfl, hc⟩
    · exact ⟨rfl, hc⟩
  | KeyReleased key =>
    simp only [Container.handleEvent]
    split
    · exact Container.tabKeyPressed_agree env h hc
    · exact ⟨rfl, hc⟩
  | TextEntered unicode =>
    simp only [Container.handleEvent]
    split
    · split
      · obtain ⟨e, s⟩ := Widget.childCall_agree h hc (c.m_focusedWidget - 1)
          (.textEntered unicode)
        exact ⟨by rw [e], s⟩
      · exact ⟨rfl, hc⟩
    · exact ⟨rfl, hc⟩
  | MouseWheelMoved delta x y =>
    simp only [Container.handleEvent]
    obtain ⟨em, sm⟩ := Container.mouseOnWhichWidget_agree h x y hc
    rw [← em]
    split
    · rename_i p c1 hmo
      rw [hmo] at sm
      obtain ⟨e, s⟩ := Widget.ptrCall_agree h sm p (.mouseWheelMoved delta x y)
      exact ⟨by rw [e], s⟩
    · rename_i c1 hmo
      rw [hmo] at sm
      exact ⟨rfl, sm⟩
  | Other => exact ⟨rfl, hc⟩

theorem Container.method_agree (env : Env) {k : Nat} {d1 d2 : Dispatch}
    (h : Agree k d1 d2) (call : Call) {c : Widget} (hc : Shallow k c) :
    Container.method env d1 call c = Container.method env d2 call c ∧
      Shallow k (Container.method env d1 call c).2 := by
  cases call with
  | widgetFocused => exact ⟨rfl, hc⟩
  | widgetUnfocused =>
    obtain ⟨e, s⟩ := Container.unfocusWidgets_agree h hc
    exact ⟨by simp only [Container.method, e], s⟩
  | mouseOnWidget x y => exact ⟨rfl, hc⟩
  | mouseNotOnWidget =>
    obtain ⟨e, s⟩ := Container.callAll_agree h .mouseNotOnWidget c.m_widgets.length 0 hc
    simp only [Container.method]
    split
    · exact ⟨by rw [e], s⟩
    · exact ⟨rfl, hc⟩
  | mouseNoLongerDown =>
    obtain ⟨e, s⟩ := Container.callAll_agree h .mouseNoLongerDown c.m_widgets.length 0 hc
    exact ⟨by simp only [Container.method, e], s⟩
  | mouseMoved x y =>
    obtain ⟨e, s⟩ := Container.handleEvent_agree env h
      (.MouseMoved (env.localX c.ptr x) (env.localY c.ptr y)) hc
    exact ⟨by simp only [Container.method, e], s⟩
  | leftMousePressed x y =>
    obtain ⟨e, s⟩ := Container.handleEvent_agree env h
      (.MouseButtonPressed Mouse.Left (env.localX c.ptr x) (env.localY c.ptr y)) hc
    exact ⟨by simp only [Container.method, e], s⟩
  | leftMouseReleased x y =>
    obtain ⟨e, s⟩ := Container.handleEvent_agree env h
      (.MouseButtonReleased Mouse.Left (env.localX c.ptr x) (env.localY c.ptr y)) hc
    exact ⟨by simp only [Container.method, e], s⟩
  | keyPressed key =>
    obtain ⟨e, s⟩ := Container.handleEvent_agree env h (.KeyPressed key) hc
    exact ⟨by simp only [Container.method, e], s⟩
  | textEntered unicode =>
    obtain ⟨e, s⟩ := Container.handleEvent_agree env h (.TextEntered unicode) hc
    exact ⟨by simp only [Container.method, e], s⟩
  | mouseWheelMoved delta x y =>
    obtain ⟨e, s⟩ := Container.handleEvent_agree env h
      (.MouseWheelMoved delta (env.localX c.ptr x) (env.localY c.ptr y)) hc
    exact ⟨by simp only [Container.method, e], s⟩
  | focusNextWidgetInContainer => exact Container.focusNextWidgetInContainer_agree env h hc
  | tabKeyPressed => exact Container.tabKeyPressed_agree env h hc
  | initialise => exact ⟨rfl, hc⟩

theorem leafMethod_depth (env : Env) (call : Call) (w : Widget) :
    (leafMethod env call w).2.depth = w.depth := by
  cases call <;> simp [leafMethod]

/-- Resolving more levels than the depth of a widget tree changes nothing. -/
theorem invoke_agree (env : Env) (k : Nat) :
    ∀ n m, k ≤ n → k ≤ m → Agree k (invoke env n) (invoke env m) := by
  induction k with
  | zero =>
    intro n m _ _ call w hw
    have := w.depth_pos
    omega
  | succ k ih =>
    intro n m hn hm call w hw
    obtain ⟨n, rfl⟩ : ∃ n', n = n' + 1 := ⟨n - 1, by omega⟩
    obtain ⟨m, rfl⟩ : ∃ m', m = m' + 1 := ⟨m - 1, by omega⟩
    simp only [invoke]
    split
    · have hs : Shallow k (w.record call) :=
        ((w.depth_le_succ k).1 hw).of_widgets (by simp)
      obtain ⟨e, s⟩ := Container.method_agree env (ih n m (by omega) (by omega)) call hs
      exact ⟨e, (Widget.depth_le_succ _ k).2 s⟩
    · exact ⟨rfl, by rw [leafMethod_depth]; exact hw⟩

/-- The method table `invoke env n` resolves a widget tree completely as soon as `n` is at
least its depth: every larger `n` gives the same result. -/
theorem invoke_depth (env : Env) (n : Nat) (call : Call) (w : Widget) (h : w.depth ≤ n) :
    invoke env n call w = invoke env w.depth call w :=
  (invoke_agree env w.depth n w.depth h (le_refl _) call w (le_refl _)).1

/-- For a container of depth at most `n + 1`, `handleEvent` with `n` levels resolved is
`handleEvent` with exactly the levels the container has. -/
theorem Container.handleEvent_depth (env : Env) (n : Nat) (event : Event) (c : Widget)
    (h : c.depth ≤ n + 1) :
    Container.handleEvent env (invoke env n) event c =
      Container.handleEvent env (invoke env (c.depth - 1)) event c := by
  have hpos := c.depth_pos
  have hs : Shallow (c.depth - 1) c :=
    (c.depth_le_succ (c.depth - 1)).1 (by omega)
  exact (Container.handleEvent_agree env
    (invoke_agree env (c.depth - 1) n (c.depth - 1) (by omega) (le_refl _)) event hs).1

/-- For a container of depth at most `n + 1`, `tabKeyPressed` with `n` levels resolved is
`tabKeyPressed` with exactly the levels the container has. -/
theorem Container.tabKeyPressed_depth (env : Env) (n : Nat) (c : Widget)
    (h : c.depth ≤ n + 1) :
    Container.tabKeyPressed env (invoke env n) c =
      Container.tabKeyPressed env (invoke env (c.depth - 1)) c := by
  have hpos := c.depth_pos
  have hs : Shallow (c.depth - 1) c :=
    (c.depth_le_succ (c.depth - 1)).1 (by omega)
  exact (Container.tabKeyPressed_agree env
    (invoke_agree env (c.depth - 1) n (c.depth - 1) (by omega) (le_refl _)) hs).1

end tgui

namespace tgui

/-! ### `add` and `remove` -/

theorem invoke_initialise (env : Env) (n : Nat) (w : Widget) :
    (invoke env n .initialise w).2 = w.record .initialise := by
  cases n with
  | zero => rfl
  | succ n =>
    simp only [invoke]
    split <;> rfl

/-- C14. `add(w, n)` appends `w` (after its `initialize(this)` call) as the last child and
`n` as the last name: the previous children and names keep their indices, both lists grow
by exactly one, and `m_focusedWidget` is unchanged. -/
theorem C14_add (env : Env) (n : Nat) (c w : Widget) (name : String) :
    (Container.add (invoke env n) w name c).m_widgets = c.m_widgets ++ [w.record .initialise] ∧
    (Container.add (invoke env n) w name c).ptrs = c.ptrs ++ [w.ptr] ∧
    (Container.add (invoke env n) w name c).m_objName = c.m_objName ++ [name] ∧
    (∀ i, i < c.m_widgets.length →
      (Container.add (invoke env n) w name c).m_widgets[i]? = c.m_widgets[i]?) ∧
    (∀ i, i < c.m_objName.length →
      (Container.add (invoke env n) w name c).m_objName[i]? = c.m_objName[i]?) ∧
    (Container.add (invoke env n) w name c).m_widgets[c.m_widgets.length]? =
      some (w.record .initialise) ∧
    (Container.add (invoke env n) w name c).m_objName[c.m_objName.length]? = some name ∧
    (Container.add (invoke env n) w name c).m_widgets.length = c.m_widgets.length + 1 ∧
    (Container.add (invoke env n) w name c).m_objName.length = c.m_objName.length + 1 ∧
    (Container.add (invoke env n) w name c).m_focusedWidget = c.m_focusedWidget := by
  have hw : (Container.add (invoke env n) w name c).m_widgets =
      c.m_widgets ++ [w.record .initialise] := by
    simp [Container.add, invoke_initialise]
  have hn : (Container.add (invoke env n) w name c).m_objName = c.m_objName ++ [name] := by
    simp [Container.add]
  refine ⟨hw, ?_, hn, ?_, ?_, ?_, ?_, ?_, ?_, ?_⟩
  · simp [Widget.ptrs, hw]
  · intro i hi
    rw [hw, List.getElem?_append_left hi]
  · intro i hi
    rw [hn, List.getElem?_append_left hi]
  · rw [hw]; simp
  · rw [hn]; simp
  · rw [hw]; simp
  · rw [hn]; simp
  · simp [Container.add]

theorem Container.unfocusWidgets_widgets (d : Dispatch) (c : Widget) :
    (Container.unfocusWidgets d c).m_widgets =
      if c.m_focusedWidget ≠ 0 then
        c.m_widgets.modify (fun w => (d .widgetUnfocused (w.setFocused false)).2)
          (c.m_focusedWidget - 1)
      else c.m_widgets := by
  unfold Container.unfocusWidgets
  split <;> simp

theorem Container.unfocusWidgets_objName (d : Dispatch) (c : Widget) :
    (Container.unfocusWidgets d c).m_objName = c.m_objName := by
  unfold Container.unfocusWidgets
  split <;> simp

theorem List.eraseIdx_modify_same {α : Type} (f : α → α) (l : List α) (i : Nat) :
    (l.modify f i).eraseIdx i = l.eraseIdx i := by
  apply List.ext_getElem?
  intro k
  rw [List.getElem?_eraseIdx, List.getElem?_eraseIdx]
  split
  · rw [List.getElem?_modify_ne _ _ (by omega)]
  · rw [List.getElem?_modify_ne _ _ (by omega)]

theorem Container.unfocusWidgets_flags_focused {d : Dispatch} (hd : Frame d) (c : Widget)
    (i : Nat) (hf : c.m_focusedWidget = i + 1) (hi : i < c.m_widgets.length) :
    (Container.unfocusWidgets d c).flags[i]? = some false := by
  unfold Container.unfocusWidgets
  rw [if_pos (by omega)]
  have e : ((Container.unfocusCurrent d c).setFocusedWidget 0).flags =
      (Container.unfocusCurrent d c).flags := by simp [Widget.flags]
  rw [e, Container.unfocusCurrent_flags hd, hf, Nat.add_sub_cancel, List.getElem?_set_self]
  rw [Widget.flags_length]; exact hi

end tgui

namespace tgui

/-! ### `moveWidgetToFront` and `moveWidgetToBack` -/

theorem List.eraseIdx_append_singleton {α : Type} (l : List α) (i : Nat) (a : α)
    (hi : i < l.length) : (l ++ [a]).eraseIdx i = l.eraseIdx i ++ [a] := by
  induction l generalizing i with
  | nil => simp at hi
  | cons b l ih =>
    cases i with
    | zero => rfl
    | succ i =>
      simp only [List.cons_append, List.eraseIdx_cons_succ]
      rw [ih i (by simpa using hi)]

theorem Widget.getElem?_of_ptrs (c : Widget) (i p : Nat) (h : c.ptrs[i]? = some p) :
    ∃ w, c.m_widgets[i]? = some w ∧ w.ptr = p := by
  unfold Widget.ptrs at h
  rw [List.getElem?_map] at h
  cases hw : c.m_widgets[i]? with
  | none => simp [hw] at h
  | some w => exact ⟨w, rfl, by simpa [hw] using h⟩

/-- The lists after `moveWidgetToFront`, for a child found at index `i`. -/
theorem Container.moveWidgetToFront_lists (c : Widget) (widget i : Nat) (w : Widget)
    (hidx : c.indexOf widget = some i) (hw : c.m_widgets[i]? = some w) :
    (Container.moveWidgetToFront widget c).m_widgets = c.m_widgets.eraseIdx i ++ [w] ∧
    (Container.moveWidgetToFront widget c).m_objName =
      c.m_objName.eraseIdx i ++ (c.m_objName[i]?).toList := by
  have hi : i < c.m_widgets.length := (List.getElem?_eq_some_iff.1 hw).1
  unfold Container.moveWidgetToFront
  rw [hidx]
  simp only [Widget.m_widgets_setObjName, Widget.m_widgets_setWidgets,
    Widget.m_objName_setObjName, hw, Option.toList_some]
  refine ⟨List.eraseIdx_append_singleton _ _ _ hi, ?_⟩
  cases hn : c.m_objName[i]? with
  | none =>
    simp only [Option.toList_none, List.append_nil]
  | some nm =>
    simp only [Option.toList_some]
    exact List.eraseIdx_append_singleton _ _ _ (List.getElem?_eq_some_iff.1 hn).1

/-- C16. For a container with pairwise distinct children and a child `widget` at index
`i`: after `moveWidgetToFront(widget)` the child list is the previous list without the
child at `i`, in unchanged order, followed by that child; the name list is changed in the
same way; and, the names being parallel to the widgets, every widget is still paired with
the name it had. -/
theorem C16_moveWidgetToFront (c : Widget) (widget i : Nat) (hnd : c.ptrs.Nodup)
    (hw : c.ptrs[i]? = some widget) :
    ∃ w, c.m_widgets[i]? = some w ∧
      (Container.moveWidgetToFront widget c).m_widgets = c.m_widgets.eraseIdx i ++ [w] ∧
      (Container.moveWidgetToFront widget c).m_objName =
        c.m_objName.eraseIdx i ++ (c.m_objName[i]?).toList ∧
      (c.m_objName.length = c.m_widgets.length →
        ∀ (k : Nat) (v : Widget) (nm : String),
          c.m_widgets[k]? = some v → c.m_objName[k]? = some nm →
          ∃ j : Nat, (Container.moveWidgetToFront widget c).m_widgets[j]? = some v ∧
            (Container.moveWidgetToFront widget c).m_objName[j]? = some nm) := by
  obtain ⟨w, hwi, -⟩ := c.getElem?_of_ptrs i widget hw
  have hidx := c.indexOf_of_nodup widget i hnd hw
  obtain ⟨h1, h2⟩ := Container.moveWidgetToFront_lists c widget i w hidx hwi
  refine ⟨w, hwi, h1, h2, ?_⟩
  intro hlen k v nm hv hnm
  have hi : i < c.m_widgets.length := (List.getElem?_eq_some_iff.1 hwi).1
  have hk : k < c.m_widgets.length := (List.getElem?_eq_some_iff.1 hv).1
  rw [h1, h2]
  have hle1 : (c.m_widgets.eraseIdx i).length = c.m_widgets.length - 1 := by
    rw [List.length_eraseIdx, if_pos hi]
  have hle2 : (c.m_objName.eraseIdx i).length = c.m_widgets.length - 1 := by
    rw [List.length_eraseIdx, if_pos (by omega), hlen]
  by_cases hki : k < i
  · refine ⟨k, ?_, ?_⟩
    · rw [List.getElem?_append_left (by omega), List.getElem?_eraseIdx, if_pos hki]
      exact hv
    · rw [List.getElem?_append_left (by omega), List.getElem?_eraseIdx, if_pos hki]
      exact hnm
  · by_cases hki2 : k = i
    · subst hki2
      refine ⟨c.m_widgets.length - 1, ?_, ?_⟩
      · rw [List.getElem?_append_right (by omega), hle1, Nat.sub_self]
        rw [hwi] at hv
        simpa using hv
      · rw [List.getElem?_append_right (by omega), hle2, Nat.sub_self, hnm]
        rfl
    · refine ⟨k - 1, ?_, ?_⟩
      · rw [List.getElem?_append_left (by omega), List.getElem?_eraseIdx, if_neg (by omega),
          show k - 1 + 1 = k from by omega]
        exact hv
      · rw [List.getElem?_append_left (by omega), List.getElem?_eraseIdx, if_neg (by omega),
          show k - 1 + 1 = k from by omega]
        exact hnm

/-- Witness of C16: moving the button (address 1, index 0) of the sample window to the
front puts it, with its name, behind the three other children. -/
theorem C16_moveWidgetToFront_witness :
    (Container.moveWidgetToFront 1 sampleWindow).ptrs = [2, 3, 5, 1] ∧
    (Container.moveWidgetToFront 1 sampleWindow).m_objName =
      ["edit", "panel", "label", "button"] := by
  obtain ⟨w, hw, h1, h2, -⟩ := C16_moveWidgetToFront sampleWindow 1 0 (by decide) (by decide)
  refine ⟨?_, ?_⟩
  · rw [Widget.ptrs, h1]
    have : w = mkLeaf 1 false true true true := by
      have e : sampleWindow.m_widgets[0]? = some (mkLeaf 1 false true true true) := rfl
      rw [e] at hw
      exact (Option.some.inj hw).symm
    subst this
    decide
  · rw [h2]; decide

end tgui

namespace tgui

/-- The lists after `moveWidgetToBack`, for a child found at index `i`. -/
theorem Container.moveWidgetToBack_lists (c : Widget) (widget i : Nat) (w : Widget)
    (hidx : c.indexOf widget = some i) (hw : c.m_widgets[i]? = some w) :
    (Container.moveWidgetToBack widget c).m_widgets = w :: c.m_widgets.eraseIdx i ∧
    (Container.moveWidgetToBack widget c).m_objName =
      (c.m_objName[i]?).toList ++ c.m_objName.eraseIdx i := by
  unfold Container.moveWidgetToBack
  rw [hidx]
  simp only [Widget.m_widgets_setObjName, Widget.m_widgets_setWidgets,
    Widget.m_objName_setObjName, hw, Option.toList_some, List.singleton_append,
    List.eraseIdx_cons_succ, true_and]
  cases hn : c.m_objName[i]? with
  | none =>
    have hl : c.m_objName.length ≤ i := List.getElem?_eq_none_iff.1 hn
    simp only [Option.toList_none, List.nil_append]
    rw [List.eraseIdx_of_length_le (by omega), List.eraseIdx_of_length_le hl]
  | some nm =>
    simp only [Option.toList_some, List.singleton_append, List.eraseIdx_cons_succ]

/-- C18. For a container with pairwise distinct children and a child `widget` at index
`i`: after `moveWidgetToBack(widget)` the child list is that child followed by the previous
list without the child at `i`, in unchanged order; the name list is changed in the same
way; and, the names being parallel to the widgets, every widget is still paired with the
name it had. -/
theorem C18_moveWidgetToBack (c : Widget) (widget i : Nat) (hnd : c.ptrs.Nodup)
    (hw : c.ptrs[i]? = some widget) :
    ∃ w, c.m_widgets[i]? = some w ∧
      (Container.moveWidgetToBack widget c).m_widgets = w :: c.m_widgets.eraseIdx i ∧
      (Container.moveWidgetToBack widget c).m_objName =
        (c.m_objName[i]?).toList ++ c.m_objName.eraseIdx i ∧
      (c.m_objName.length = c.m_widgets.length →
        ∀ (k : Nat) (v : Widget) (nm : String),
          c.m_widgets[k]? = some v → c.m_objName[k]? = some nm →
          ∃ j : Nat, (Container.moveWidgetToBack widget c).m_widgets[j]? = some v ∧
            (Container.moveWidgetToBack widget c).m_objName[j]? = some nm) := by
  obtain ⟨w, hwi, -⟩ := c.getElem?_of_ptrs i widget hw
  have hidx := c.indexOf_of_nodup widget i hnd hw
  obtain ⟨h1, h2⟩ := Container.moveWidgetToBack_lists c widget i w hidx hwi
  refine ⟨w, hwi, h1, h2, ?_⟩
  intro hlen k v nm hv hnm
  have hi : i < c.m_widgets.length := (List.getElem?_eq_some_iff.1 hwi).1
  have hk : k < c.m_widgets.length := (List.getElem?_eq_some_iff.1 hv).1
  have hin : i < c.m_objName.length := by omega
  rw [h1, h2, List.getElem?_eq_getElem hin]
  simp only [Option.toList_some, List.singleton_append]
  by_cases hki : k < i
  · refine ⟨k + 1, ?_, ?_⟩
    · rw [List.getElem?_cons_succ, List.getElem?_eraseIdx, if_pos hki]
      exact hv
    · rw [List.getElem?_cons_succ, List.getElem?_eraseIdx, if_pos hki]
      exact hnm
  · by_cases hki2 : k = i
    · subst hki2
      refine ⟨0, ?_, ?_⟩
      · rw [hwi] at hv
        simpa using hv
      · rw [List.getElem?_eq_getElem hin] at hnm
        simpa using hnm
    · obtain ⟨k, rfl⟩ : ∃ k', k = k' + 1 := ⟨k - 1, by omega⟩
      refine ⟨k + 1, ?_, ?_⟩
      · rw [List.getElem?_cons_succ, List.getElem?_eraseIdx, if_neg (by omega)]
        exact hv
      · rw [List.getElem?_cons_succ, List.getElem?_eraseIdx, if_neg (by omega)]
        exact hnm

/-- Witness of C18: moving the label (address 5, index 3) of the sample window to the back
puts it, with its name, before the three other children. -/
theorem C18_moveWidgetToBack_witness :
    (Container.moveWidgetToBack 5 sampleWindow).ptrs = [5, 1, 2, 3] ∧
    (Container.moveWidgetToBack 5 sampleWindow).m_objName =
      ["label", "button", "edit", "panel"] := by
  obtain ⟨w, hw, h1, h2, -⟩ := C18_moveWidgetToBack sampleWindow 5 3 (by decide) (by decide)
  refine ⟨?_, ?_⟩
  · rw [Widget.ptrs, h1]
    have : w = mkLeaf 5 false false true true := by
      have e : sampleWindow.m_widgets[3]? = some (mkLeaf 5 false false true true) := rfl
      rw [e] at hw
      exact (Option.some.inj hw).symm
    subst this
    decide
  · rw [h2]; decide

end tgui

namespace tgui

/-- What holds of the focus index after `moveWidgetToFront`: if a child was focused
(`m_focusedWidget` not 0 and within the list), the focus index designates the same widget
as before. -/
theorem Container.moveWidgetToFront_designates (c : Widget) (widget i : Nat) (w : Widget)
    (hidx : c.indexOf widget = some i) (hw : c.m_widgets[i]? = some w)
    (hf : c.m_focusedWidget ≠ 0) (hle : c.m_focusedWidget ≤ c.m_widgets.length) :
    (Container.moveWidgetToFront widget c).m_focusedWidget ≠ 0 ∧
    (Container.moveWidgetToFront widget c).m_widgets[
        (Container.moveWidgetToFront widget c).m_focusedWidget - 1]? =
      c.m_widgets[c.m_focusedWidget - 1]? := by
  have hi : i < c.m_widgets.length := (List.getElem?_eq_some_iff.1 hw).1
  have hl := (Container.moveWidgetToFront_lists c widget i w hidx hw).1
  have hfw : (Container.moveWidgetToFront widget c).m_focusedWidget =
      if c.m_focusedWidget = 0 ∨ c.m_focusedWidget = i + 1 then c.m_widgets.length
      else if c.m_focusedWidget > i + 1 then c.m_focusedWidget - 1
      else c.m_focusedWidget := by
    unfold Container.moveWidgetToFront
    rw [hidx]
    simp [hw]
  have hlen : (c.m_widgets.eraseIdx i).length = c.m_widgets.length - 1 := by
    rw [List.length_eraseIdx, if_pos hi]
  rw [hfw, hl]
  by_cases h1 : c.m_focusedWidget = i + 1
  · rw [if_pos (Or.inr h1)]
    refine ⟨by omega, ?_⟩
    rw [List.getElem?_append_right (by omega), hlen, Nat.sub_self, h1, Nat.add_sub_cancel, hw]
    rfl
  · rw [if_neg (by omega)]
    by_cases h2 : c.m_focusedWidget > i + 1
    · rw [if_pos h2]
      refine ⟨by omega, ?_⟩
      rw [List.getElem?_append_left (by omega), List.getElem?_eraseIdx, if_neg (by omega)]
      congr 1
      omega
    · rw [if_neg h2]
      refine ⟨hf, ?_⟩
      rw [List.getElem?_append_left (by omega), List.getElem?_eraseIdx, if_pos (by omega)]

/-- What holds of the focus index after `moveWidgetToBack`: it stays 0 when nothing was
focused, and it designates the same widget as before when the focused child is the moved
one or comes before it. -/
theorem Container.moveWidgetToBack_designates (c : Widget) (widget i : Nat) (w : Widget)
    (hidx : c.indexOf widget = some i) (hw : c.m_widgets[i]? = some w) :
    (c.m_focusedWidget = 0 → (Container.moveWidgetToBack widget c).m_focusedWidget = 0) ∧
    (c.m_focusedWidget ≠ 0 → c.m_focusedWidget ≤ i + 1 →
      (Container.moveWidgetToBack widget c).m_widgets[
          (Container.moveWidgetToBack widget c).m_focusedWidget - 1]? =
        c.m_widgets[c.m_focusedWidget - 1]?) := by
  have hl := (Container.moveWidgetToBack_lists c widget i w hidx hw).1
  have hfw : (Container.moveWidgetToBack widget c).m_focusedWidget =
      if c.m_focusedWidget = i + 1 then 1
      else if c.m_focusedWidget ≠ 0 then c.m_focusedWidget + 1
      else c.m_focusedWidget := by
    unfold Container.moveWidgetToBack
    rw [hidx]
    simp
  rw [hfw, hl]
  refine ⟨fun h0 => by rw [if_neg (by omega), if_neg (by omega)]; exact h0, fun hf hle => ?_⟩
  by_cases h1 : c.m_focusedWidget = i + 1
  · rw [if_pos h1, h1, Nat.add_sub_cancel, hw]
    simp
  · rw [if_neg h1, if_pos hf, Nat.add_sub_cancel]
    obtain ⟨f, hf'⟩ : ∃ f, c.m_focusedWidget = f + 1 := ⟨c.m_focusedWidget - 1, by omega⟩
    rw [hf', List.getElem?_cons_succ, List.getElem?_eraseIdx, if_pos (by omega),
      Nat.add_sub_cancel]

/-- C17 on the code: in `twoButtons` the children are pairwise distinct and nothing is
focused (`m_focusedWidget = 0`, no `m_focused` flag set). After `moveWidgetToFront` of the
first button the children are in the order second, first, and `m_focusedWidget` is 2: the
focus index designates the moved button although no child was focused before, and no
`m_focused` flag is set. -/
theorem C17_moveWidgetToFront_focus_from_nothing :
    twoButtons.ptrs.Nodup ∧ twoButtons.m_focusedWidget = 0 ∧
    twoButtons.flags = [false, false] ∧
    (Container.moveWidgetToFront 1 twoButtons).ptrs = [2, 1] ∧
    (Container.moveWidgetToFront 1 twoButtons).m_focusedWidget = 2 ∧
    (Container.moveWidgetToFront 1 twoButtons).flags = [false, false] := by
  decide

/-- C19 on the code: in `threeButtons` the children are pairwise distinct, the focus index
2 is within the list and designates the focused second button. `moveWidgetToBack` of the
first button leaves the order of the children as it is but increments `m_focusedWidget` to
3, which designates the third button, while the `m_focused` flag stays on the second. In
`lastFocused` the same call moves the focus index to 3, beyond the two children. -/
theorem C19_moveWidgetToBack_focus_shifts :
    threeButtons.ptrs.Nodup ∧ threeButtons.m_focusedWidget = 2 ∧
    threeButtons.m_focusedWidget ≤ threeButtons.m_widgets.length ∧
    (threeButtons.m_widgets[threeButtons.m_focusedWidget - 1]?).map Widget.ptr = some 2 ∧
    (Container.moveWidgetToBack 1 threeButtons).ptrs = [1, 2, 3] ∧
    (Container.moveWidgetToBack 1 threeButtons).flags = [false, true, false] ∧
    (Container.moveWidgetToBack 1 threeButtons).m_focusedWidget = 3 ∧
    ((Container.moveWidgetToBack 1 threeButtons).m_widgets[
        (Container.moveWidgetToBack 1 threeButtons).m_focusedWidget - 1]?).map Widget.ptr =
      some 3 ∧
    (Container.moveWidgetToBack 1 lastFocused).m_focusedWidget = 3 ∧
    (Container.moveWidgetToBack 1 lastFocused).m_widgets.length = 2 := by
  decide

end tgui

namespace tgui

/-! ### `get` -/

theorem Container.get_eq (name : String) (recursive : Bool) (c : Widget) :
    Container.get name recursive c =
      Container.getLoop name recursive c.m_widgets c.m_objName := by
  cases c
  simp [Container.get, Widget.m_widgets, Widget.m_objName]

theorem Container.getLoop_cons (name : String) (recursive : Bool) (w : Widget)
    (ws : List Widget) (n : String) (ns : List String) :
    Container.getLoop name recursive (w :: ws) (n :: ns) =
      if n = name then some w
      else if recursive && w.m_containerWidget then
        match Container.get name true w with
        | some v => some v
        | none => Container.getLoop name recursive ws ns
      else Container.getLoop name recursive ws ns := by
  rw [Container.getLoop]

theorem Container.getLoop_nil_left (name : String) (recursive : Bool) (ns : List String) :
    Container.getLoop name recursive [] ns = none := by
  simp [Container.getLoop]

theorem Container.getLoop_nil_right (name : String) (recursive : Bool) (ws : List Widget) :
    Container.getLoop name recursive ws [] = none := by
  cases ws <;> simp [Container.getLoop]

/-- The loop of `get` without recursion returns the widget at the first index that carries
the name. -/
theorem Container.getLoop_false_some (name : String) (ws : List Widget) (ns : List String)
    (i : Nat) (w : Widget) (hw : ws[i]? = some w) (hn : ns[i]? = some name)
    (hfirst : ∀ k, k < i → ns[k]? ≠ some name) :
    Container.getLoop name false ws ns = some w := by
  induction ws generalizing ns i with
  | nil => simp at hw
  | cons v ws ih =>
    cases ns with
    | nil => simp at hn
    | cons n ns =>
      rw [Container.getLoop_cons]
      cases i with
      | zero =>
        simp only [List.getElem?_cons_zero, Option.some.injEq] at hw hn
        rw [if_pos hn, hw]
      | succ i =>
        have h0 : ¬ n = name := by
          intro e
          exact hfirst 0 (by omega) (by simp [e])
        rw [if_neg h0]
        simp only [Bool.false_and, Bool.false_eq_true, if_false]
        exact ih ns i (by simpa using hw) (by simpa using hn)
          (fun k hk => by simpa using hfirst (k + 1) (by omega))

theorem Container.getLoop_false_none (name : String) (ws : List Widget) (ns : List String) :
    Container.getLoop name false ws ns = none ↔
      ∀ i, i < ws.length → ns[i]? ≠ some name := by
  induction ws generalizing ns with
  | nil => simp [Container.getLoop_nil_left]
  | cons v ws ih =>
    cases ns with
    | nil => simp [Container.getLoop_nil_right]
    | cons n ns =>
      rw [Container.getLoop_cons]
      by_cases h0 : n = name
      · rw [if_pos h0]
        constructor
        · intro h; cases h
        · intro h
          exact absurd (by simp [h0]) (h 0 (by simp))
      · rw [if_neg h0]
        simp only [Bool.false_and, Bool.false_eq_true, if_false]
        rw [ih ns]
        constructor
        · intro h i hi
          cases i with
          | zero => simpa using h0
          | succ i => simpa using h i (by simpa using hi)
        · intro h i hi
          simpa using h (i + 1) (by simpa using hi)

/-- C20. `get(n, false)` returns the child at the smallest index `i` with
`m_objName[i] = n`, and returns null exactly when no direct child carries the name `n`.
`get` is a `const` member: it is a function of the container and leaves it as it is. -/
theorem C20_get (c : Widget) (name : String) :
    (∀ (i : Nat) (w : Widget), c.m_widgets[i]? = some w → c.m_objName[i]? = some name →
      (∀ k, k < i → c.m_objName[k]? ≠ some name) →
      Container.get name false c = some w) ∧
    (Container.get name false c = none ↔
      ∀ i, i < c.m_widgets.length → c.m_objName[i]? ≠ some name) := by
  rw [Container.get_eq]
  exact ⟨fun i w hw hn hfirst => Container.getLoop_false_some name _ _ i w hw hn hfirst,
    Container.getLoop_false_none name _ _⟩

end tgui

namespace tgui

/-! ### Global callbacks -/

/-- On a chain whose last container has a bound callback, `addChildCallback` invokes the
functions of the first container of the chain that has any. -/
theorem Container.addChildCallback_nearest (callback : Nat) (l : List CallbackOwner)
    (root : CallbackOwner) (hroot : l.getLast? = some root)
    (hne : root.m_globalCallbackFunctions ≠ []) :
    ∃ (j : Nat) (owner : CallbackOwner),
      l[j]? = some owner ∧ owner.m_globalCallbackFunctions ≠ [] ∧
      (∀ (i : Nat) (c : CallbackOwner),
        i < j → l[i]? = some c → c.m_globalCallbackFunctions = []) ∧
      Container.addChildCallback callback l =
        some (owner.m_globalCallbackFunctions.map (fun func => ⟨owner.ptr, func, callback⟩)) := by
  induction l with
  | nil => simp at hroot
  | cons c parents ih =>
    by_cases hc : c.m_globalCallbackFunctions = []
    · have hp : parents ≠ [] := by
        rintro rfl
        simp only [List.getLast?_singleton, Option.some.injEq] at hroot
        exact hne (hroot ▸ hc)
      have hroot2 : parents.getLast? = some root := by
        cases parents with
        | nil => exact absurd rfl hp
        | cons b l => simpa using hroot
      obtain ⟨j, owner, h1, h2, h3, h4⟩ := ih hroot2
      refine ⟨j + 1, owner, by simpa using h1, h2, ?_, ?_⟩
      · intro i d hi hd
        cases i with
        | zero =>
          simp only [List.getElem?_cons_zero, Option.some.injEq] at hd
          exact hd ▸ hc
        | succ i => exact h3 i d (by omega) (by simpa using hd)
      · simp only [Container.addChildCallback, hc, List.isEmpty_nil, if_true]
        exact h4
    · refine ⟨0, c, by simp, hc, fun i d hi _ => by omega, ?_⟩
      have : c.m_globalCallbackFunctions.isEmpty = false := by
        cases h : c.m_globalCallbackFunctions with
        | nil => exact absurd h hc
        | cons a l => rfl
      simp [Container.addChildCallback, this]

/-- C13. Callback propagation. `chain` is a chain of containers linked by `m_parent` (each
container is followed by its parent) whose last container, the root, has at least one bound
global callback. `addChildCallback(cb)` on the container at position `k` of the chain
invokes the functions of the nearest container at a position `j ≥ k` whose
`m_globalCallbackFunctions` is not empty: the invocations are exactly its functions, once
each and in binding order, each with `cb`; no function of another container is invoked. -/
theorem C13_addChildCallback (callback : Nat) (chain : List CallbackOwner)
    (root : CallbackOwner) (k : Nat) (hroot : chain.getLast? = some root)
    (hne : root.m_globalCallbackFunctions ≠ []) (hk : k < chain.length) :
    ∃ (j : Nat) (owner : CallbackOwner),
      k ≤ j ∧ chain[j]? = some owner ∧ owner.m_globalCallbackFunctions ≠ [] ∧
      (∀ (i : Nat) (c : CallbackOwner),
        k ≤ i → i < j → chain[i]? = some c → c.m_globalCallbackFunctions = []) ∧
      Container.addChildCallback callback (chain.drop k) =
        some (owner.m_globalCallbackFunctions.map
          (fun func => ⟨owner.ptr, func, callback⟩)) := by
  have hroot2 : (chain.drop k).getLast? = some root := by
    rw [List.getLast?_drop, if_neg (by omega)]
    exact hroot
  obtain ⟨j, owner, h1, h2, h3, h4⟩ :=
    Container.addChildCallback_nearest callback (chain.drop k) root hroot2 hne
  refine ⟨k + j, owner, by omega, ?_, h2, ?_, h4⟩
  · rw [← h1, List.getElem?_drop]
  · intro i c hki hij hc
    obtain ⟨i, rfl⟩ : ∃ i', i = k + i' := ⟨i - k, by omega⟩
    exact h3 i c (by omega) (by rw [List.getElem?_drop]; exact hc)

/-- Witness of C13 on the sample chain: a callback added in the panel (position 0), which
has no global callbacks, invokes the two functions of the child window, in binding order,
and not the function of the root. -/
theorem C13_addChildCallback_witness :
    (∃ (j : Nat) (owner : CallbackOwner),
      0 ≤ j ∧ sampleChain[j]? = some owner ∧ owner.m_globalCallbackFunctions ≠ [] ∧
      (∀ (i : Nat) (c : CallbackOwner),
        0 ≤ i → i < j → sampleChain[i]? = some c → c.m_globalCallbackFunctions = []) ∧
      Container.addChildCallback 5 (sampleChain.drop 0) =
        some (owner.m_globalCallbackFunctions.map (fun func => ⟨owner.ptr, func, 5⟩))) ∧
    Container.addChildCallback 5 sampleChain = some [⟨2, 7, 5⟩, ⟨2, 8, 5⟩] :=
  ⟨C13_addChildCallback 5 sampleChain ⟨3, [9]⟩ 0 rfl (by decide) (by decide), by decide⟩

end tgui

namespace tgui

/-! ### Mouse move and mouse release -/

theorem TraceGrowsBy.refl_by (P : Call → Prop) (c : Widget) : TraceGrowsBy P c c :=
  ⟨rfl, fun _ t h => ⟨[], by simpa using h, by simp⟩⟩

theorem TraceGrowsBy.trans_by {P : Call → Prop} {a b c : Widget} (h1 : TraceGrowsBy P a b)
    (h2 : TraceGrowsBy P b c) : TraceGrowsBy P a c := by
  refine ⟨h2.1.trans h1.1, fun i t ht => ?_⟩
  obtain ⟨s1, hs1, hp1⟩ := h1.2 i t ht
  obtain ⟨s2, hs2, hp2⟩ := h2.2 i _ hs1
  refine ⟨s1 ++ s2, by rw [hs2, List.append_assoc], fun call hc => ?_⟩
  rcases List.mem_append.1 hc with h | h
  · exact hp1 call h
  · exact hp2 call h

theorem Widget.childCall_traceGrowsBy {d : Dispatch} (hd : Frame d) (P : Call → Prop)
    (i : Nat) (k : Call) (hk : P k) (c : Widget) : TraceGrowsBy P c (c.childCall d i k).2 := by
  refine ⟨by simp, fun j t ht => ?_⟩
  rw [Widget.childCall_traces_getElem? hd i k c j t ht]
  by_cases hji : j = i
  · refine ⟨[k], by simp [hji], fun call hc => ?_⟩
    rw [List.mem_singleton.1 hc]
    exact hk
  · exact ⟨[], by simp [hji], by simp⟩

/-- The hit test makes only hit-test calls on the children. -/
theorem Container.mouseOnWhichWidgetLoop_traces {d : Dispatch} (hd : Frame d) (x y : Int)
    (n : Nat) (found : Option Nat) (c : Widget) :
    TraceGrowsBy (IsHitTestCall x y) c (Container.mouseOnWhichWidgetLoop d x y n found c).2 := by
  induction n generalizing found c with
  | zero => exact TraceGrowsBy.refl_by _ c
  | succ n ih =>
    unfold Container.mouseOnWhichWidgetLoop
    have h1 := Widget.childCall_traceGrowsBy hd (IsHitTestCall x y) n (.mouseOnWidget x y)
      (Or.inl rfl) c
    have h2 := Widget.childCall_traceGrowsBy hd (IsHitTestCall x y) n .mouseNotOnWidget
      (Or.inr rfl) c
    split
    · exact ih _ _
    · split
      · split
        · split
          · exact h1.trans_by (ih _ _)
          · exact h1.trans_by (ih _ _)
        · exact h2.trans_by (ih _ _)
      · exact ih _ _

theorem Container.mouseOnWhichWidget_traces {d : Dispatch} (hd : Frame d) (x y : Int)
    (c : Widget) :
    TraceGrowsBy (IsHitTestCall x y) c (Container.mouseOnWhichWidget d x y c).2 :=
  Container.mouseOnWhichWidgetLoop_traces hd x y _ none c

/-- The loop of the release branch: every child in the range whose address is not the one
of `widget` receives `mouseNoLongerDown`, once; nothing else changes in the traces. -/
theorem Container.mouseNoLongerDownOthers_spec {d : Dispatch} (hd : Frame d)
    (widget : Option Nat) (n lo : Nat) (c : Widget) :
    (Container.mouseNoLongerDownOthers d widget n lo c).m_widgets.map Widget.fixed =
      c.m_widgets.map Widget.fixed ∧
    ∀ (k : Nat) (t : List Call), c.traces[k]? = some t →
      (Container.mouseNoLongerDownOthers d widget n lo c).traces[k]? =
        some (if lo ≤ k ∧ k < lo + n ∧ widget.any (fun p => c.ptrAt p k) = false
          then t ++ [.mouseNoLongerDown] else t) := by
  induction n generalizing lo c with
  | zero =>
    refine ⟨rfl, fun k t ht => ?_⟩
    rw [if_neg (by omega)]
    exact ht
  | succ n ih =>
    unfold Container.mouseNoLongerDownOthers
    by_cases hs : widget.any (fun p => c.ptrAt p lo) = true
    · rw [if_pos hs]
      obtain ⟨h1, h2⟩ := ih (lo + 1) c
      refine ⟨h1, fun k t ht => ?_⟩
      rw [h2 k t ht]
      congr 1
      by_cases hk : k = lo
      · subst hk
        rw [if_neg (by omega), if_neg (by simp [hs])]
      · by_cases hc : lo + 1 ≤ k ∧ k < lo + 1 + n ∧ widget.any (fun p => c.ptrAt p k) = false
        · rw [if_pos hc, if_pos ⟨by omega, by omega, hc.2.2⟩]
        · rw [if_neg hc, if_neg (fun h => hc ⟨by omega, by omega, h.2.2⟩)]
    · rw [if_neg hs]
      have hfix := Widget.childCall_fixed hd lo .mouseNoLongerDown c
      obtain ⟨h1, h2⟩ := ih (lo + 1) (c.childCall d lo .mouseNoLongerDown).2
      refine ⟨h1.trans hfix, fun k t ht => ?_⟩
      rw [h2 k _ (Widget.childCall_traces_getElem? hd lo _ c k t ht), Widget.ptrAt_congr hfix]
      congr 1
      have hs' : widget.any (fun p => c.ptrAt p lo) = false := by simpa using hs
      by_cases hk : k = lo
      · subst hk
        rw [if_neg (by omega), if_pos rfl, if_pos ⟨le_refl _, by omega, hs'⟩]
      · rw [if_neg hk]
        by_cases hc : lo + 1 ≤ k ∧ k < lo + 1 + n ∧ widget.any (fun p => c.ptrAt p k) = false
        · rw [if_pos hc, if_pos ⟨by omega, by omega, hc.2.2⟩]
        · rw [if_neg hc, if_neg (fun h => hc ⟨by omega, by omega, h.2.2⟩)]

end tgui

namespace tgui

theorem Widget.indexOf_of_ptrs (c : Widget) (p j : Nat) (h : c.ptrs[j]? = some p) :
    ∃ i, c.indexOf p = some i ∧ i ≤ j := by
  cases hi : c.indexOf p with
  | none => exact absurd h ((c.indexOf_eq_none p).1 hi j)
  | some i =>
    refine ⟨i, rfl, ?_⟩
    by_contra hlt
    exact ((c.indexOf_eq_some p i).1 hi).2 j (by omega) h

/-- The branch of `handleEvent` for a mouse move while a child is being dragged. -/
theorem Container.handleEvent_move_drag (env : Env) {d : Dispatch} (hd : Frame d)
    (x y : Int) (c : Widget) (j : Nat) (hj : Container.draggingAt c j = true)
    (hmin : ∀ k, k < j → Container.draggingAt c k = false) :
    (Container.handleEvent env d (.MouseMoved x y) c).1 = true ∧
    (∀ (k : Nat) (t : List Call), c.traces[k]? = some t →
      (Container.handleEvent env d (.MouseMoved x y) c).2.traces[k]? =
        some (if k = j then t ++ [.mouseMoved x y] else t)) ∧
    (∀ k, k ≠ j →
      (Container.handleEvent env d (.MouseMoved x y) c).2.m_widgets[k]? = c.m_widgets[k]?) := by
  have hjl : j < c.m_widgets.length := by
    unfold Container.draggingAt at hj
    cases hw : c.m_widgets[j]? with
    | none => simp [hw] at hj
    | some w => exact (List.getElem?_eq_some_iff.1 hw).1
  have e : firstUp (Container.draggingAt c) 0 c.m_widgets.length = some j :=
    (firstUp_eq_some _ _ _ _).2 ⟨Nat.zero_le _, by omega, hj, fun k _ hk => hmin k hk⟩
  simp only [Container.handleEvent, e]
  exact ⟨trivial, fun k t ht => Widget.childCall_traces_getElem? hd j _ c k t ht,
    fun k hk => Widget.childCall_getElem?_ne d j _ c k hk⟩

/-- The branch of `handleEvent` for a mouse move, a left release or a wheel move when no
drag is going on: what the hit test and the call on the widget found do to the traces.
`c1` is the container after the hit test and `p` the address it returned. -/
theorem Container.ptrCall_after_hitTest {d : Dispatch} (hd : Frame d) (x y : Int)
    (c c1 : Widget) (p j : Nat) (call : Call)
    (hfix : c1.m_widgets.map Widget.fixed = c.m_widgets.map Widget.fixed)
    (hgrow : TraceGrowsBy (IsHitTestCall x y) c c1) (hp : c.ptrs[j]? = some p) :
    ∃ i, c.indexOf p = some i ∧ (c.ptrs.Nodup → i = j) ∧
      (c1.ptrCall d p call).2 = (c1.childCall d i call).2 ∧
      (∃ t mid, c.traces[i]? = some t ∧
        (c1.ptrCall d p call).2.traces[i]? = some (t ++ mid ++ [call]) ∧
        ∀ k ∈ mid, IsHitTestCall x y k) ∧
      (∀ (k : Nat) (t : List Call), k ≠ i → c.traces[k]? = some t →
        ∃ mid, (c1.ptrCall d p call).2.traces[k]? = some (t ++ mid) ∧
          ∀ k ∈ mid, IsHitTestCall x y k) := by
  obtain ⟨i, hi, hij⟩ := c.indexOf_of_ptrs p j hp
  have hi1 : c1.indexOf p = some i := by rw [Widget.indexOf_congr hfix]; exact hi
  have hcall : (c1.ptrCall d p call).2 = (c1.childCall d i call).2 := by
    simp only [Widget.ptrCall, hi1]
  refine ⟨i, hi, fun hnd => ?_, hcall, ?_, ?_⟩
  · have := c.indexOf_of_nodup p j hnd hp
    rw [hi] at this
    exact Option.some.inj this
  · have hil : i < c.traces.length := by
      have := (List.getElem?_eq_some_iff.1 ((c.indexOf_eq_some p i).1 hi).1).1
      rw [Widget.ptrs_length] at this
      rw [Widget.traces_length]; exact this
    obtain ⟨s, hs, hps⟩ := hgrow.2 i c.traces[i] (List.getElem?_eq_getElem hil)
    refine ⟨c.traces[i], s, List.getElem?_eq_getElem hil, ?_, hps⟩
    rw [hcall, Widget.childCall_traces_getElem? hd i call c1 i _ hs, if_pos rfl]
  · intro k t hk ht
    obtain ⟨s, hs, hps⟩ := hgrow.2 k t ht
    refine ⟨s, ?_, hps⟩
    rw [hcall, Widget.childCall_traces_getElem? hd i call c1 k _ hs, if_neg hk]

theorem Container.handleEvent_move_found (env : Env) (d : Dispatch) (x y : Int)
    (c c1 : Widget) (p : Nat) (hnone : ∀ k, Container.draggingAt c k = false)
    (hmo : Container.mouseOnWhichWidget d x y c = (some p, c1)) :
    Container.handleEvent env d (.MouseMoved x y) c =
      (true, (c1.ptrCall d p (.mouseMoved x y)).2) := by
  have e : firstUp (Container.draggingAt c) 0 c.m_widgets.length = none :=
    (firstUp_eq_none _ _ _).2 (fun k _ _ => hnone k)
  simp only [Container.handleEvent, e, hmo]

theorem Container.handleEvent_move_missed (env : Env) (d : Dispatch) (x y : Int)
    (c c1 : Widget) (hnone : ∀ k, Container.draggingAt c k = false)
    (hmo : Container.mouseOnWhichWidget d x y c = (none, c1)) :
    Container.handleEvent env d (.MouseMoved x y) c = (false, c1) := by
  have e : firstUp (Container.draggingAt c) 0 c.m_widgets.length = none :=
    (firstUp_eq_none _ _ _).2 (fun k _ _ => hnone k)
  simp only [Container.handleEvent, e, hmo]

theorem Container.hitAt_exists_top (env : Env) (x y : Int) (c : Widget) (j : Nat)
    (hj : Container.hitAt env x y c j = true) :
    ∃ j', Container.hitAt env x y c j' = true ∧
      ∀ k, j' < k → Container.hitAt env x y c k = false := by
  cases h : firstDown (Container.hitAt env x y c) 0 c.m_widgets.length with
  | none =>
    have := (firstDown_eq_none _ _ _).1 h j (Nat.zero_le _)
      (by have := Container.hitAt_lt env x y c j hj; omega)
    rw [hj] at this
    cases this
  | some j' =>
    obtain ⟨-, -, h3, h4⟩ := (firstDown_eq_some _ _ _ _).1 h
    refine ⟨j', h3, fun k hk => ?_⟩
    cases hk2 : Container.hitAt env x y c k with
    | false => rfl
    | true =>
      have hkl := Container.hitAt_lt env x y c k hk2
      have := h4 k hk (by omega)
      rw [hk2] at this
      cases this

/-- Drag continuation in the model, for a `MouseMoved` event at `(x, y)`. (1) If some child has
`m_mouseDown` set and is a draggable widget or a container, and `j` is the lowest index of
such a child, then `handleEvent` returns true, child `j` receives `mouseMoved(x, y)` and
nothing else (whether or not the mouse is on it), and every other child is unchanged: no
other child receives `mouseMoved` and no hit-test call is made. (2) If there is no such
child, `handleEvent` returns true exactly when the hit test finds a child; the child found
(the object at the address returned by `mouseOnWhichWidget`, which is the topmost hit child
`j` when the children are pairwise distinct) receives `mouseMoved(x, y)` after the calls of
the hit test, and the other children receive only the calls of the hit test. -/
theorem Container.handleEvent_move (env : Env) (n : Nat) (x y : Int) (c : Widget) :
    (∀ j, Container.draggingAt c j = true →
      (∀ k, k < j → Container.draggingAt c k = false) →
      (moveMouse env n x y c).1 = true ∧
      (∀ (k : Nat) (t : List Call), c.traces[k]? = some t →
        (moveMouse env n x y c).2.traces[k]? =
          some (if k = j then t ++ [.mouseMoved x y] else t)) ∧
      (∀ k, k ≠ j → (moveMouse env n x y c).2.m_widgets[k]? = c.m_widgets[k]?)) ∧
    ((∀ k, Container.draggingAt c k = false) →
      ((moveMouse env n x y c).1 = true ↔ ∃ j, Container.hitAt env x y c j = true) ∧
      (∀ j, Container.hitAt env x y c j = true →
        (∀ k, j < k → Container.hitAt env x y c k = false) →
        ∃ p i, c.ptrs[j]? = some p ∧
          (Container.mouseOnWhichWidget (invoke env n) x y c).1 = some p ∧
          c.indexOf p = some i ∧ (c.ptrs.Nodup → i = j) ∧
          (∃ t mid, c.traces[i]? = some t ∧
            (moveMouse env n x y c).2.traces[i]? = some (t ++ mid ++ [.mouseMoved x y]) ∧
            ∀ call ∈ mid, IsHitTestCall x y call) ∧
          (∀ (k : Nat) (t : List Call), k ≠ i → c.traces[k]? = some t →
            ∃ mid, (moveMouse env n x y c).2.traces[k]? = some (t ++ mid) ∧
              ∀ call ∈ mid, IsHitTestCall x y call))) := by
  have hd := invoke_frame env n
  have hhit := invoke_mouseOnWidget env n
  refine ⟨fun j hj hmin => Container.handleEvent_move_drag env hd x y c j hj hmin,
    fun hnone => ?_⟩
  obtain ⟨hfix, -, hfound, hnull⟩ := Container.mouseOnWhichWidget_spec env hd hhit x y c
  have hgrow := Container.mouseOnWhichWidget_traces hd x y c
  unfold moveMouse
  refine ⟨?_, ?_⟩
  · cases hmo : (Container.mouseOnWhichWidget (invoke env n) x y c).1 with
    | none =>
      have e : Container.mouseOnWhichWidget (invoke env n) x y c =
          (none, (Container.mouseOnWhichWidget (invoke env n) x y c).2) := Prod.ext hmo rfl
      rw [Container.handleEvent_move_missed env _ x y c _ hnone e]
      simp only [Bool.false_eq_true, false_iff, not_exists]
      intro j hj
      have := hnull.1 hmo j
      rw [hj] at this
      cases this
    | some p =>
      have e : Container.mouseOnWhichWidget (invoke env n) x y c =
          (some p, (Container.mouseOnWhichWidget (invoke env n) x y c).2) := Prod.ext hmo rfl
      rw [Container.handleEvent_move_found env _ x y c _ p hnone e]
      simp only [true_iff]
      by_contra hne
      have : (Container.mouseOnWhichWidget (invoke env n) x y c).1 = none :=
        hnull.2 (fun j => by
          cases hj : Container.hitAt env x y c j with
          | false => rfl
          | true => exact absurd ⟨j, hj⟩ hne)
      rw [hmo] at this
      cases this
  · intro j hj hmax
    obtain ⟨p, hp, hmo⟩ := hfound j hj hmax
    have e : Container.mouseOnWhichWidget (invoke env n) x y c =
        (some p, (Container.mouseOnWhichWidget (invoke env n) x y c).2) := Prod.ext hmo rfl
    obtain ⟨i, hi, hij, -, h1, h2⟩ := Container.ptrCall_after_hitTest hd x y c
      (Container.mouseOnWhichWidget (invoke env n) x y c).2 p j (.mouseMoved x y) hfix hgrow hp
    have hr : (Container.handleEvent env (invoke env n) (.MouseMoved x y) c).2 =
        ((Container.mouseOnWhichWidget (invoke env n) x y c).2.ptrCall (invoke env n) p
          (.mouseMoved x y)).2 := by
      rw [Container.handleEvent_move_found env _ x y c _ p hnone e]
    rw [hr]
    exact ⟨p, i, hp, hmo, hi, hij, h1, h2⟩

end tgui

namespace tgui

theorem Container.handleEvent_release_found (env : Env) (d : Dispatch) (x y : Int)
    (c c1 : Widget) (p : Nat) (hmo : Container.mouseOnWhichWidget d x y c = (some p, c1)) :
    Container.handleEvent env d (.MouseButtonReleased Mouse.Left x y) c =
      (true, Container.mouseNoLongerDownOthers d (some p) c1.m_widgets.length 0
        (c1.ptrCall d p (.leftMouseReleased x y)).2) := by
  simp only [Container.handleEvent, if_true, hmo]

theorem Container.handleEvent_release_missed (env : Env) (d : Dispatch) (x y : Int)
    (c c1 : Widget) (hmo : Container.mouseOnWhichWidget d x y c = (none, c1)) :
    Container.handleEvent env d (.MouseButtonReleased Mouse.Left x y) c =
      (false, Container.mouseNoLongerDownOthers d none c1.m_widgets.length 0 c1) := by
  simp only [Container.handleEvent, if_true, hmo]

theorem Widget.ptrAt_false_of_ptrs (c : Widget) (p q k : Nat) (h : c.ptrs[k]? = some q)
    (hne : q ≠ p) : c.ptrAt p k = false := by
  rw [Widget.ptrAt_eq, h]
  simpa using hne

/-- Mouse release in the model, for a `MouseButtonReleased` event of the left button at `(x, y)`.
`handleEvent` returns true exactly when the hit test finds a child. If it does (the
topmost hit child is `j`, its address `p`, and `i` the position of the object at `p`, which
is `j` when the children are pairwise distinct), child `i` receives, after the calls of the
hit test, `leftMouseReleased(x, y)` and no `mouseNoLongerDown`; every child with another
address receives, after the calls of the hit test, `mouseNoLongerDown` exactly once. If no
child is hit, every child receives `mouseNoLongerDown` exactly once. -/
theorem Container.handleEvent_release (env : Env) (n : Nat) (x y : Int) (c : Widget) :
    ((releaseLeft env n x y c).1 = true ↔ ∃ j, Container.hitAt env x y c j = true) ∧
    (∀ j, Container.hitAt env x y c j = true →
      (∀ k, j < k → Container.hitAt env x y c k = false) →
      ∃ p i, c.ptrs[j]? = some p ∧
        (Container.mouseOnWhichWidget (invoke env n) x y c).1 = some p ∧
        c.indexOf p = some i ∧ (c.ptrs.Nodup → i = j) ∧
        (∃ t mid, c.traces[i]? = some t ∧
          (releaseLeft env n x y c).2.traces[i]? =
            some (t ++ mid ++ [.leftMouseReleased x y]) ∧
          ∀ call ∈ mid, IsHitTestCall x y call) ∧
        (∀ (k q : Nat) (t : List Call), c.ptrs[k]? = some q → q ≠ p →
          c.traces[k]? = some t →
          ∃ mid, (releaseLeft env n x y c).2.traces[k]? =
              some (t ++ mid ++ [.mouseNoLongerDown]) ∧
            ∀ call ∈ mid, IsHitTestCall x y call)) ∧
    ((∀ j, Container.hitAt env x y c j = false) →
      ∀ (k : Nat) (t : List Call), c.traces[k]? = some t →
        ∃ mid, (releaseLeft env n x y c).2.traces[k]? =
            some (t ++ mid ++ [.mouseNoLongerDown]) ∧
          ∀ call ∈ mid, IsHitTestCall x y call) := by
  have hd := invoke_frame env n
  have hhit := invoke_mouseOnWidget env n
  obtain ⟨hfix, -, hfound, hnull⟩ := Container.mouseOnWhichWidget_spec env hd hhit x y c
  have hgrow := Container.mouseOnWhichWidget_traces hd x y c
  unfold releaseLeft
  refine ⟨?_, ?_, ?_⟩
  · cases hmo : (Container.mouseOnWhichWidget (invoke env n) x y c).1 with
    | none =>
      have e : Container.mouseOnWhichWidget (invoke env n) x y c =
          (none, (Container.mouseOnWhichWidget (invoke env n) x y c).2) := Prod.ext hmo rfl
      rw [Container.handleEvent_release_missed env _ x y c _ e]
      simp only [Bool.false_eq_true, false_iff, not_exists]
      intro j hj
      have := hnull.1 hmo j
      rw [hj] at this
      cases this
    | some p =>
      have e : Container.mouseOnWhichWidget (invoke env n) x y c =
          (some p, (Container.mouseOnWhichWidget (invoke env n) x y c).2) := Prod.ext hmo rfl
      rw [Container.handleEvent_release_found env _ x y c _ p e]
      simp only [true_iff]
      by_contra hne
      have : (Container.mouseOnWhichWidget (invoke env n) x y c).1 = none :=
        hnull.2 (fun j => by
          cases hj : Container.hitAt env x y c j with
          | false => rfl
          | true => exact absurd ⟨j, hj⟩ hne)
      rw [hmo] at this
      cases this
  · intro j hj hmax
    obtain ⟨p, hp, hmo⟩ := hfound j hj hmax
    have e : Container.mouseOnWhichWidget (invoke env n) x y c =
        (some p, (Container.mouseOnWhichWidget (invoke env n) x y c).2) := Prod.ext hmo rfl
    rw [Container.handleEvent_release_found env _ x y c _ p e]
    generalize (Container.mouseOnWhichWidget (invoke env n) x y c).2 = c1 at hfix hgrow
    obtain ⟨i, hi, hij, -, ⟨t, mid, ht, htr, hmid⟩, hothers⟩ :=
      Container.ptrCall_after_hitTest hd x y c c1 p j (.leftMouseReleased x y) hfix hgrow hp
    have hfix2 : (c1.ptrCall (invoke env n) p (.leftMouseReleased x y)).2.m_widgets.map
        Widget.fixed = c.m_widgets.map Widget.fixed :=
      (Widget.ptrCall_fixed hd p _ c1).trans hfix
    obtain ⟨-, hspec⟩ := Container.mouseNoLongerDownOthers_spec hd (some p)
      c1.m_widgets.length 0 (c1.ptrCall (invoke env n) p (.leftMouseReleased x y)).2
    have hpi : c.ptrs[i]? = some p := ((c.indexOf_eq_some p i).1 hi).1
    refine ⟨p, i, hp, hmo, hi, hij, ⟨t, mid, ht, ?_, hmid⟩, ?_⟩
    · rw [hspec i _ htr, Widget.ptrAt_congr hfix2, if_neg]
      simp [c.ptrAt_of_ptrs p i hpi]
    · intro k q t' hq hne ht'
      have hki : k ≠ i := by
        rintro rfl
        rw [hpi] at hq
        exact hne (Option.some.inj hq).symm
      obtain ⟨mid', hm1, hm2⟩ := hothers k t' hki ht'
      refine ⟨mid', ?_, hm2⟩
      have hkl : k < c1.m_widgets.length := by
        have := (List.getElem?_eq_some_iff.1 ht').1
        rw [Widget.traces_length] at this
        rw [Widget.length_congr hfix]; exact this
      rw [hspec k _ hm1, Widget.ptrAt_congr hfix2, if_pos]
      exact ⟨Nat.zero_le _, by omega, by simp [c.ptrAt_false_of_ptrs p q k hq hne]⟩
  · intro hnone k t ht
    have hmo := hnull.2 hnone
    have e : Container.mouseOnWhichWidget (invoke env n) x y c =
        (none, (Container.mouseOnWhichWidget (invoke env n) x y c).2) := Prod.ext hmo rfl
    rw [Container.handleEvent_release_missed env _ x y c _ e]
    generalize (Container.mouseOnWhichWidget (invoke env n) x y c).2 = c1 at hfix hgrow
    obtain ⟨mid, hm1, hm2⟩ := hgrow.2 k t ht
    obtain ⟨-, hspec⟩ := Container.mouseNoLongerDownOthers_spec hd none c1.m_widgets.length 0 c1
    have hkl : k < c1.m_widgets.length := by
      have := (List.getElem?_eq_some_iff.1 ht).1
      rw [Widget.traces_length] at this
      rw [Widget.length_congr hfix]; exact this
    refine ⟨mid, ?_, hm2⟩
    rw [hspec k _ hm1, if_pos]
    exact ⟨Nat.zero_le _, by omega, rfl⟩

end tgui

namespace tgui

end tgui


namespace tgui

/-! ### Scrollbar values -/

theorem Scrollbar.getValue_setValue (v : Nat) (s : Scrollbar) :
    (s.setValue v).getValue =
      if s.m_lowValue ≤ s.m_maximum then min v (s.m_maximum - s.m_lowValue) else 0 := by
  unfold Scrollbar.setValue Scrollbar.getValue
  by_cases h : s.m_maximum < s.m_lowValue
  · rw [if_pos h, if_neg (show ¬ s.m_lowValue ≤ s.m_maximum by omega)]
  · rw [if_neg h, if_pos (show s.m_lowValue ≤ s.m_maximum by omega)]
    by_cases h2 : v > s.m_maximum - s.m_lowValue
    · rw [if_pos h2]
      simp only
      omega
    · rw [if_neg h2]
      simp only
      omega

theorem Scrollbar.setValue_members (v : Nat) (s : Scrollbar) :
    (s.setValue v).m_maximum = s.m_maximum ∧ (s.setValue v).m_lowValue = s.m_lowValue := by
  unfold Scrollbar.setValue
  split
  · exact ⟨rfl, rfl⟩
  · split <;> exact ⟨rfl, rfl⟩

/-- C21. Scrollbar value clamping. `setLowValue` and `setMaximum` store the low value and
the maximum exactly as given and leave the other of the two alone, `setValue` leaves both
alone; after each of `setValue(v)`, `setLowValue(l)` and `setMaximum(m)` the value is
`min x (maximum - lowValue)` when `lowValue ≤ maximum` and 0 otherwise, for the maximum and
low value then stored, where `x` is `v` for `setValue` and the previous value for the other
two. After the set-up of the test (maximum 20, low value 5, value 10, from any state) the
values of the test follow: `setValue(18)` gives 15, `setLowValue(16)` gives 4,
`setLowValue(22)` gives 0, `setMaximum(12)` gives 7 and `setMaximum(4)` gives 0. -/
theorem C21_scrollbar_clamping (s : Scrollbar) (v l m : Nat) :
    ((s.setLowValue l).getLowValue = l ∧ (s.setLowValue l).getMaximum = s.getMaximum) ∧
    ((s.setMaximum m).getMaximum = m ∧ (s.setMaximum m).getLowValue = s.getLowValue) ∧
    ((s.setValue v).getMaximum = s.getMaximum ∧ (s.setValue v).getLowValue = s.getLowValue) ∧
    (s.setValue v).getValue =
      (if s.getLowValue ≤ s.getMaximum then min v (s.getMaximum - s.getLowValue) else 0) ∧
    (s.setLowValue l).getValue =
      (if l ≤ s.getMaximum then min s.getValue (s.getMaximum - l) else 0) ∧
    (s.setMaximum m).getValue =
      (if s.getLowValue ≤ m then min s.getValue (m - s.getLowValue) else 0) ∧
    ((s.setMaximum 20).setLowValue 5).setValue 10 = ⟨20, 5, 10⟩ ∧
    (Scrollbar.setValue 18 ⟨20, 5, 10⟩).getValue = 15 ∧
    (Scrollbar.setLowValue 16 ⟨20, 5, 10⟩).getValue = 4 ∧
    (Scrollbar.setLowValue 22 ⟨20, 5, 10⟩).getValue = 0 ∧
    (Scrollbar.setMaximum 12 ⟨20, 5, 10⟩).getValue = 7 ∧
    (Scrollbar.setMaximum 4 ⟨20, 5, 10⟩).getValue = 0 := by
  refine ⟨?_, ?_, ?_, ?_, ?_, ?_, ?_, by decide, by decide, by decide, by decide, by decide⟩
  · exact ⟨(Scrollbar.setValue_members _ _).2, (Scrollbar.setValue_members _ _).1⟩
  · exact ⟨(Scrollbar.setValue_members _ _).1, (Scrollbar.setValue_members _ _).2⟩
  · exact Scrollbar.setValue_members v s
  · exact Scrollbar.getValue_setValue v s
  · exact Scrollbar.getValue_setValue _ _
  · exact Scrollbar.getValue_setValue _ _
  · have h1 := Scrollbar.setValue_members 10 ((s.setMaximum 20).setLowValue 5)
    have h2 := Scrollbar.getValue_setValue 10 ((s.setMaximum 20).setLowValue 5)
    have h3 : ((s.setMaximum 20).setLowValue 5).m_lowValue = 5 :=
      (Scrollbar.setValue_members _ _).2
    have h4 : ((s.setMaximum 20).setLowValue 5).m_maximum = 20 :=
      ((Scrollbar.setValue_members _ _).1).trans (Scrollbar.setValue_members _ _).1
    rw [h3, h4] at h1 h2
    cases hr : ((s.setMaximum 20).setLowValue 5).setValue 10 with
    | mk a b c =>
      rw [hr] at h1 h2
      simp only [Scrollbar.getValue] at h1 h2
      obtain ⟨rfl, rfl⟩ := h1
      simp at h2
      subst h2
      rfl

end tgui


namespace tgui

/-! ### The focus index and the number of children -/

theorem Widget.indexOf_lt (c : Widget) (p i : Nat) (h : c.indexOf p = some i) :
    i < c.m_widgets.length := by
  have := ((c.indexOf_eq_some p i).1 h).1
  have := (List.getElem?_eq_some_iff.1 this).1
  simpa [Widget.ptrs] using this

theorem Container.unfocusCurrent_length (d : Dispatch) (c : Widget) :
    (Container.unfocusCurrent d c).m_widgets.length = c.m_widgets.length := by
  simp

theorem Container.focusChild_length (d : Dispatch) (i : Nat) (c : Widget) :
    (Container.focusChild d i c).m_widgets.length = c.m_widgets.length := by
  simp

theorem Container.move_bound (d : Dispatch) (c : Widget) (i : Nat) (hi : i < c.m_widgets.length) :
    (Container.focusChild d i
      (if c.m_focusedWidget ≠ 0 then Container.unfocusCurrent d c else c)).m_focusedWidget ≤
    (Container.focusChild d i
      (if c.m_focusedWidget ≠ 0 then Container.unfocusCurrent d c else c)).m_widgets.length := by
  rw [Container.focusChild_focusedWidget, Container.focusChild_length]
  split
  · rw [Container.unfocusCurrent_length]; omega
  · omega

theorem Container.unfocusWidgets_bound (d : Dispatch) (c : Widget) :
    (Container.unfocusWidgets d c).m_focusedWidget = 0 := by
  unfold Container.unfocusWidgets
  split
  · simp
  · rename_i h
    simpa using h

theorem Container.focusWidget_bound (d : Dispatch) (p : Nat) (c : Widget)
    (h : c.m_focusedWidget ≤ c.m_widgets.length) :
    (Container.focusWidget d p c).m_focusedWidget ≤
      (Container.focusWidget d p c).m_widgets.length := by
  unfold Container.focusWidget
  split
  · rename_i i hi
    split
    · exact Container.move_bound d c i (c.indexOf_lt p i hi)
    · exact h
  · exact h

theorem Container.focusNextWidget_bound (d : Dispatch) (c : Widget)
    (h : c.m_focusedWidget ≤ c.m_widgets.length) :
    (Container.focusNextWidget d c).m_focusedWidget ≤
      (Container.focusNextWidget d c).m_widgets.length := by
  unfold Container.focusNextWidget
  split
  · rename_i i hi
    exact Container.move_bound d c i (c.focusableAt_lt i ((firstUp_eq_some _ _ _ _).1 hi).2.2.1)
  · split
    · rename_i hf
      split
      · rename_i i hi
        have := Container.move_bound d c i
          (c.focusableAt_lt i ((firstUp_eq_some _ _ _ _).1 hi).2.2.1)
        rwa [if_pos hf] at this
      · exact h
    · exact h

theorem Container.focusPreviousWidget_bound (d : Dispatch) (c : Widget)
    (h : c.m_focusedWidget ≤ c.m_widgets.length) :
    (Container.focusPreviousWidget d c).m_focusedWidget ≤
      (Container.focusPreviousWidget d c).m_widgets.length := by
  unfold Container.focusPreviousWidget
  split
  · rename_i i hi
    by_cases hf : c.m_focusedWidget ≠ 0
    · rw [if_pos hf] at hi
      have := Container.move_bound d c i
        (c.focusableAt_lt i ((firstDown_eq_some _ _ _ _).1 hi).2.2.1)
      rwa [if_pos hf] at this
    · rw [if_neg hf] at hi
      cases hi
  · split
    · rename_i i hi
      exact Container.move_bound d c i
        (c.focusableAt_lt i ((firstDown_eq_some _ _ _ _).1 hi).2.2.1)
    · exact h

theorem Container.remove_bound (d : Dispatch) (p : Nat) (c : Widget)
    (h : c.m_focusedWidget ≤ c.m_widgets.length) :
    (Container.remove d p c).m_focusedWidget ≤ (Container.remove d p c).m_widgets.length := by
  unfold Container.remove
  split
  · rename_i i hi
    have hil := c.indexOf_lt p i hi
    simp only [Widget.m_focusedWidget_setObjName, Widget.m_focusedWidget_setWidgets,
      Widget.m_widgets_setObjName, Widget.m_widgets_setWidgets, List.length_eraseIdx]
    by_cases h1 : c.m_focusedWidget = i + 1
    · rw [if_pos h1, Container.unfocusWidgets_bound]
      exact Nat.zero_le _
    · rw [if_neg h1]
      by_cases h2 : c.m_focusedWidget > i + 1
      · rw [if_pos h2]
        simp only [Widget.m_focusedWidget_setFocusedWidget, Widget.m_widgets_setFocusedWidget]
        rw [if_pos hil]
        omega
      · rw [if_neg h2, if_pos hil]
        omega
  · exact h

theorem Container.moveWidgetToFront_bound (p : Nat) (c : Widget)
    (h : c.m_focusedWidget ≤ c.m_widgets.length) :
    (Container.moveWidgetToFront p c).m_focusedWidget ≤
      (Container.moveWidgetToFront p c).m_widgets.length := by
  unfold Container.moveWidgetToFront
  split
  · rename_i i hi
    have hil := c.indexOf_lt p i hi
    simp only [Widget.m_focusedWidget_setObjName, Widget.m_focusedWidget_setWidgets,
      Widget.m_widgets_setObjName, Widget.m_widgets_setWidgets,
      Widget.m_focusedWidget_setFocusedWidget, List.length_eraseIdx, List.length_append,
      List.getElem?_eq_getElem hil, Option.toList, List.length_singleton]
    rw [if_pos (show i < c.m_widgets.length + 1 by omega)]
    split
    · omega
    · split <;> omega
  · exact h

/-- The focus index stays within the list of children under every operation of the list
except `moveWidgetToBack`. -/
theorem Container.focusedWidget_bound (d : Dispatch) (c w : Widget) (name : String) (p : Nat)
    (h : c.m_focusedWidget ≤ c.m_widgets.length) :
    ∀ r ∈ [Container.add d w name c, Container.remove d p c, Container.removeAllWidgets c,
        Container.focusWidget d p c, Container.focusNextWidget d c,
        Container.focusPreviousWidget d c, Container.unfocusWidgets d c,
        Container.moveWidgetToFront p c],
      r.m_focusedWidget ≤ r.m_widgets.length := by
  intro r hr
  simp only [List.mem_cons, List.mem_singleton, List.not_mem_nil, or_false] at hr
  rcases hr with rfl | rfl | rfl | rfl | rfl | rfl | rfl | rfl
  · simp [Container.add]; omega
  · exact Container.remove_bound d p c h
  · simp [Container.removeAllWidgets]
  · exact Container.focusWidget_bound d p c h
  · exact Container.focusNextWidget_bound d c h
  · exact Container.focusPreviousWidget_bound d c h
  · rw [Container.unfocusWidgets_bound]; exact Nat.zero_le _
  · exact Container.moveWidgetToFront_bound p c h

/-- C22 on the code: `lastFocused` has two distinct buttons of which the second is focused,
so its focus index 2 is within the list and the single-focus invariant holds. After
`moveWidgetToBack` of the first button the list still has two children but the focus index
is 3: the bound is lost and `m_widgets[m_focusedWidget-1]` is a read outside the list. -/
theorem C22_moveWidgetToBack_leaves_range :
    lastFocused.ptrs.Nodup ∧ lastFocused.flags = [false, true] ∧
    lastFocused.m_focusedWidget ≤ lastFocused.m_widgets.length ∧
    (Container.moveWidgetToBack 1 lastFocused).m_widgets.length = 2 ∧
    (Container.moveWidgetToBack 1 lastFocused).m_focusedWidget = 3 ∧
    ¬ ((Container.moveWidgetToBack 1 lastFocused).m_focusedWidget ≤
      (Container.moveWidgetToBack 1 lastFocused).m_widgets.length) ∧
    ((Container.moveWidgetToBack 1 lastFocused).m_widgets[
      (Container.moveWidgetToBack 1 lastFocused).m_focusedWidget - 1]?).map Widget.ptr = none := by
  decide

end tgui


namespace tgui

/-! ### Names parallel to the widgets -/

theorem List.zip_eraseIdx {α β : Type} (l : List α) (m : List β) (i : Nat) :
    (l.eraseIdx i).zip (m.eraseIdx i) = (l.zip m).eraseIdx i := by
  induction l generalizing m i with
  | nil => simp
  | cons a l ih =>
    cases m with
    | nil => simp
    | cons b m =>
      cases i with
      | zero => rfl
      | succ i => simp [List.eraseIdx_cons_succ, ih]

theorem Widget.named_getElem? (c : Widget) (i : Nat) (w : Widget) (nm : String)
    (hw : c.m_widgets[i]? = some w) (hn : c.m_objName[i]? = some nm) :
    c.named[i]? = some (w, nm) := by
  unfold Widget.named
  rw [List.getElem?_zip_eq_some]
  exact ⟨hw, hn⟩

theorem Container.remove_lists {d : Dispatch} (c : Widget) (widget i : Nat)
    (hidx : c.indexOf widget = some i) :
    (Container.remove d widget c).m_widgets = c.m_widgets.eraseIdx i ∧
    (Container.remove d widget c).m_objName = c.m_objName.eraseIdx i := by
  unfold Container.remove
  rw [hidx]
  simp only
  split
  · rename_i hf
    simp only [Widget.m_widgets_setObjName, Widget.m_widgets_setWidgets,
      Container.unfocusWidgets_widgets, if_pos (show c.m_focusedWidget ≠ 0 by omega),
      Widget.m_objName_setObjName, Container.unfocusWidgets_objName]
    rw [hf, Nat.add_sub_cancel, List.eraseIdx_modify_same]
    simp
  · split <;> simp

theorem Container.remove_none (d : Dispatch) (c : Widget) (widget : Nat)
    (h : c.indexOf widget = none) : Container.remove d widget c = c := by
  unfold Container.remove
  rw [h]

theorem Container.moveWidgetToFront_none (c : Widget) (widget : Nat)
    (h : c.indexOf widget = none) : Container.moveWidgetToFront widget c = c := by
  unfold Container.moveWidgetToFront
  rw [h]

theorem Container.moveWidgetToBack_none (c : Widget) (widget : Nat)
    (h : c.indexOf widget = none) : Container.moveWidgetToBack widget c = c := by
  unfold Container.moveWidgetToBack
  rw [h]

theorem Container.setWidgetName_lists (c : Widget) (widget : Nat) (name : String) :
    (Container.setWidgetName widget name c).2.m_widgets = c.m_widgets ∧
    (Container.setWidgetName widget name c).2.m_objName.length = c.m_objName.length := by
  unfold Container.setWidgetName
  split <;> simp

/-- The pairs of widget and name after `remove`, `moveWidgetToFront` and
`moveWidgetToBack` of a child found at index `i`, in a container whose names are parallel
to its widgets. -/
theorem Container.named_of_index {d : Dispatch} (c : Widget) (widget i : Nat)
    (h : c.m_widgets.length = c.m_objName.length) (hidx : c.indexOf widget = some i) :
    (Container.remove d widget c).named = c.named.eraseIdx i ∧
    (Container.moveWidgetToFront widget c).named = c.named.eraseIdx i ++ (c.named[i]?).toList ∧
    (Container.moveWidgetToBack widget c).named = (c.named[i]?).toList ++ c.named.eraseIdx i := by
  have hi := c.indexOf_lt widget i hidx
  have hw : c.m_widgets[i]? = some c.m_widgets[i] := List.getElem?_eq_getElem hi
  have hin : i < c.m_objName.length := by omega
  have hn : c.m_objName[i]? = some c.m_objName[i] := List.getElem?_eq_getElem hin
  have hp := c.named_getElem? i _ _ hw hn
  obtain ⟨r1, r2⟩ := Container.remove_lists (d := d) c widget i hidx
  obtain ⟨f1, f2⟩ := Container.moveWidgetToFront_lists c widget i _ hidx hw
  obtain ⟨b1, b2⟩ := Container.moveWidgetToBack_lists c widget i _ hidx hw
  have hlen : (c.m_widgets.eraseIdx i).length = (c.m_objName.eraseIdx i).length := by
    rw [List.length_eraseIdx, List.length_eraseIdx, h]
  refine ⟨?_, ?_, ?_⟩
  · unfold Widget.named
    rw [r1, r2, List.zip_eraseIdx]
  · rw [hp]
    unfold Widget.named
    rw [f1, f2, hn, Option.toList_some, List.zip_append hlen, List.zip_eraseIdx]
    rfl
  · rw [hp]
    unfold Widget.named
    rw [b1, b2, hn, Option.toList_some, Option.toList_some, List.singleton_append,
      List.singleton_append, List.zip_cons_cons, List.zip_eraseIdx]

/-- C23. Names parallel to the widgets. A container as the constructor leaves it has as
many widgets as names. In a container with as many widgets as names, the two sizes are
still equal after each of `add`, `remove`, `removeAllWidgets`, `setWidgetName`,
`moveWidgetToFront` and `moveWidgetToBack`; and the pairs of a widget and its name are: the
old pairs followed by the new pair after `add`; the old pairs without the pair at the index
`i` of the child after `remove`; none after `removeAllWidgets`; the old pairs without the
pair at `i`, followed (respectively preceded) by that pair, after `moveWidgetToFront`
(respectively `moveWidgetToBack`); and the old pairs when the argument of one of the last
three is not a child. `setWidgetName` leaves the widgets as they are. -/
theorem C23_names_parallel (env : Env) (n : Nat) (base : WidgetBase) (c w : Widget)
    (name : String) (widget : Nat) (h : c.m_widgets.length = c.m_objName.length) :
    (Container.Container base).m_widgets.length =
      (Container.Container base).m_objName.length ∧
    (∀ r ∈ [Container.add (invoke env n) w name c, Container.remove (invoke env n) widget c,
        Container.removeAllWidgets c, (Container.setWidgetName widget name c).2,
        Container.moveWidgetToFront widget c, Container.moveWidgetToBack widget c],
      r.m_widgets.length = r.m_objName.length) ∧
    (Container.add (invoke env n) w name c).named =
      c.named ++ [(w.record .initialise, name)] ∧
    (Container.removeAllWidgets c).named = [] ∧
    (Container.setWidgetName widget name c).2.m_widgets = c.m_widgets ∧
    (∀ i : Nat, c.indexOf widget = some i →
      (Container.remove (invoke env n) widget c).named = c.named.eraseIdx i ∧
      (Container.moveWidgetToFront widget c).named =
        c.named.eraseIdx i ++ (c.named[i]?).toList ∧
      (Container.moveWidgetToBack widget c).named =
        (c.named[i]?).toList ++ c.named.eraseIdx i) ∧
    (c.indexOf widget = none →
      (Container.remove (invoke env n) widget c).named = c.named ∧
      (Container.moveWidgetToFront widget c).named = c.named ∧
      (Container.moveWidgetToBack widget c).named = c.named) := by
  have hadd : (Container.add (invoke env n) w name c).named =
      c.named ++ [(w.record .initialise, name)] := by
    unfold Widget.named
    simp only [Container.add, invoke_initialise, Widget.m_widgets_setObjName,
      Widget.m_widgets_setWidgets, Widget.m_objName_setObjName]
    rw [List.zip_append h]
    rfl
  have hidx : ∀ i : Nat, c.indexOf widget = some i →
      (Container.remove (invoke env n) widget c).named = c.named.eraseIdx i ∧
      (Container.moveWidgetToFront widget c).named =
        c.named.eraseIdx i ++ (c.named[i]?).toList ∧
      (Container.moveWidgetToBack widget c).named =
        (c.named[i]?).toList ++ c.named.eraseIdx i :=
    fun i hi => Container.named_of_index c widget i h hi
  have hnone : c.indexOf widget = none →
      (Container.remove (invoke env n) widget c).named = c.named ∧
      (Container.moveWidgetToFront widget c).named = c.named ∧
      (Container.moveWidgetToBack widget c).named = c.named := by
    intro hn
    rw [Container.remove_none _ c widget hn, Container.moveWidgetToFront_none c widget hn,
      Container.moveWidgetToBack_none c widget hn]
    exact ⟨rfl, rfl, rfl⟩
  refine ⟨rfl, ?_, hadd, by simp [Widget.named, Container.removeAllWidgets],
    (Container.setWidgetName_lists c widget name).1, hidx, hnone⟩
  intro r hr
  simp only [List.mem_cons, List.mem_singleton, List.not_mem_nil, or_false] at hr
  rcases hr with rfl | rfl | rfl | rfl | rfl | rfl
  · simp [Container.add, h]
  · cases hi : c.indexOf widget with
    | none => rw [Container.remove_none _ c widget hi]; exact h
    | some i =>
      obtain ⟨r1, r2⟩ := Container.remove_lists (d := invoke env n) c widget i hi
      rw [r1, r2, List.length_eraseIdx, List.length_eraseIdx, h]
  · simp [Container.removeAllWidgets]
  · rw [(Container.setWidgetName_lists c widget name).1,
      (Container.setWidgetName_lists c widget name).2]
    exact h
  · cases hi : c.indexOf widget with
    | none => rw [Container.moveWidgetToFront_none c widget hi]; exact h
    | some i =>
      have hil := c.indexOf_lt widget i hi
      have hin : i < c.m_objName.length := by omega
      obtain ⟨f1, f2⟩ := Container.moveWidgetToFront_lists c widget i _ hi
        (List.getElem?_eq_getElem hil)
      rw [f1, f2, List.getElem?_eq_getElem hin]
      simp [List.length_eraseIdx, h]
  · cases hi : c.indexOf widget with
    | none => rw [Container.moveWidgetToBack_none c widget hi]; exact h
    | some i =>
      have hil := c.indexOf_lt widget i hi
      have hin : i < c.m_objName.length := by omega
      obtain ⟨b1, b2⟩ := Container.moveWidgetToBack_lists c widget i _ hi
        (List.getElem?_eq_getElem hil)
      rw [b1, b2, List.getElem?_eq_getElem hin]
      simp [List.length_eraseIdx, h]

/-- Witness of C23 on the sample window, whose four children carry the names "button",
"edit", "panel" and "label": after `moveWidgetToBack` of the panel (address 3, index 2) the
names are still parallel to the widgets and the panel, with its name, comes first. -/
theorem C23_names_parallel_witness :
    sampleWindow.m_widgets.length = sampleWindow.m_objName.length ∧
    (Container.moveWidgetToBack 3 sampleWindow).m_widgets.length =
      (Container.moveWidgetToBack 3 sampleWindow).m_objName.length ∧
    (Container.moveWidgetToBack 3 sampleWindow).named =
      (sampleWindow.named[2]?).toList ++ sampleWindow.named.eraseIdx 2 :=
  have h := C23_names_parallel sampleEnv 2 ⟨0, false, false, true, true, false, false, false, []⟩
    sampleWindow (mkLeaf 9 false true true true) "new" 3 (by decide)
  ⟨by decide, h.2.1 _ (by simp), (h.2.2.2.2.2.1 2 (by decide)).2.2⟩

end tgui


namespace tgui

/-! ### Tab on a container without container children -/

theorem Container.tabKeyPressedSearch_flat_fst (d : Dispatch) (c : Widget)
    (hflat : ∀ i, c.containerAt i = false) :
    (Container.tabKeyPressedSearch d c).1 = true ↔
      (Container.tabKeyPressedSearch d c).2.m_focusedWidget ≠ c.m_focusedWidget := by
  unfold Container.tabKeyPressedSearch
  split
  · rename_i i hi
    have := ((firstUp_eq_some _ _ _ _).1 hi).1
    simp only [Container.focusChild_focusedWidget, true_iff]
    omega
  · split
    · rename_i i hi
      by_cases hf : c.m_focusedWidget ≠ 0
      · rw [if_pos hf] at hi
        have := ((firstUp_eq_some _ _ _ _).1 hi).2.1
        simp only [Container.focusChild_focusedWidget, true_iff]
        omega
      · rw [if_neg hf] at hi
        cases hi
    · simp [hflat]

theorem Container.tabKeyPressed_disabled (env : Env) (d : Dispatch) (c : Widget)
    (htab : env.TGUI_TabKeyUsageEnabled = false) :
    Container.tabKeyPressed env d c = (false, c) := by
  unfold Container.tabKeyPressed
  rw [if_pos htab]

/-- In the model, with tab key usage enabled, on a container none of whose children is a container,
`tabKeyPressed` leaves the container in exactly the state `focusNextWidget` leaves it in
(focus index, `m_focused` flags and everything else), and it returns true if and only if
the focus index has changed. With tab key usage disabled `tabKeyPressed` returns false and
the container is unchanged. -/
theorem Container.tabKeyPressed_flat_eq (env : Env) (n : Nat) (c : Widget) :
    (env.TGUI_TabKeyUsageEnabled = true →
      (∀ w ∈ c.m_widgets, w.m_containerWidget = false) →
      (Container.tabKeyPressed env (invoke env n) c).2 =
        Container.focusNextWidget (invoke env n) c ∧
      (Container.tabKeyPressed env (invoke env n) c).2.m_focusedWidget =
        (Container.focusNextWidget (invoke env n) c).m_focusedWidget ∧
      (Container.tabKeyPressed env (invoke env n) c).2.flags =
        (Container.focusNextWidget (invoke env n) c).flags ∧
      ((Container.tabKeyPressed env (invoke env n) c).1 = true ↔
        (Container.tabKeyPressed env (invoke env n) c).2.m_focusedWidget ≠
          c.m_focusedWidget)) ∧
    (env.TGUI_TabKeyUsageEnabled = false →
      Container.tabKeyPressed env (invoke env n) c = (false, c)) := by
  refine ⟨fun htab hleaf => ?_, Container.tabKeyPressed_disabled env _ c⟩
  have hflat := c.containerAt_of_forall hleaf
  have e := Container.tabKeyPressed_flat env (invoke env n) c htab hflat
  refine ⟨e, by rw [e], by rw [e], ?_⟩
  have e2 : Container.tabKeyPressed env (invoke env n) c =
      Container.tabKeyPressedSearch (invoke env n) c := by
    unfold Container.tabKeyPressed
    rw [if_neg (by simp [htab]), if_neg (by simp [hflat])]
  rw [e2]
  exact Container.tabKeyPressedSearch_flat_fst _ c hflat

end tgui


namespace tgui

/-! ### `focusNextWidget` followed by `focusPreviousWidget` -/

theorem Container.focusPreviousWidget_first (d : Dispatch) (c : Widget) (j : Nat)
    (h1 : j + 1 < c.m_focusedWidget) (h2 : c.focusableAt j = true)
    (h3 : ∀ k, j < k → k + 1 < c.m_focusedWidget → c.focusableAt k = false) :
    Container.focusPreviousWidget d c =
      Container.focusChild d j
        (if c.m_focusedWidget ≠ 0 then Container.unfocusCurrent d c else c) := by
  have hf : c.m_focusedWidget ≠ 0 := by omega
  have e : firstDown c.focusableAt 0 (c.m_focusedWidget - 1) = some j :=
    (firstDown_eq_some _ _ _ _).2 ⟨Nat.zero_le _, by omega, h2,
      fun k hk1 hk2 => h3 k hk1 (by omega)⟩
  unfold Container.focusPreviousWidget
  simp only [if_pos hf, e]

theorem Container.focusPreviousWidget_second (d : Dispatch) (c : Widget) (j : Nat)
    (h0 : ∀ k, k + 1 < c.m_focusedWidget → c.focusableAt k = false)
    (h1 : c.m_focusedWidget ≤ j) (h2 : c.focusableAt j = true)
    (h3 : ∀ k, j < k → c.focusableAt k = false) :
    Container.focusPreviousWidget d c =
      Container.focusChild d j
        (if c.m_focusedWidget ≠ 0 then Container.unfocusCurrent d c else c) := by
  have hjl := c.focusableAt_lt j h2
  have e1 : (if c.m_focusedWidget ≠ 0 then firstDown c.focusableAt 0 (c.m_focusedWidget - 1)
      else none) = none := by
    split
    · exact (firstDown_eq_none _ _ _).2 (fun k _ hk => h0 k (by omega))
    · rfl
  have e2 : firstDown c.focusableAt c.m_focusedWidget
      (c.m_widgets.length - c.m_focusedWidget) = some j :=
    (firstDown_eq_some _ _ _ _).2 ⟨h1, by omega, h2, fun k hk _ => h3 k hk⟩
  unfold Container.focusPreviousWidget
  rw [e1]
  simp only [e2]

theorem Container.focusPreviousWidget_none (d : Dispatch) (c : Widget)
    (h0 : ∀ k, k + 1 < c.m_focusedWidget → c.focusableAt k = false)
    (h1 : ∀ k, c.m_focusedWidget ≤ k → c.focusableAt k = false) :
    Container.focusPreviousWidget d c = c := by
  have e1 : (if c.m_focusedWidget ≠ 0 then firstDown c.focusableAt 0 (c.m_focusedWidget - 1)
      else none) = none := by
    split
    · exact (firstDown_eq_none _ _ _).2 (fun k _ hk => h0 k (by omega))
    · rfl
  have e2 : firstDown c.focusableAt c.m_focusedWidget
      (c.m_widgets.length - c.m_focusedWidget) = none :=
    (firstDown_eq_none _ _ _).2 (fun k hk _ => h1 k hk)
  unfold Container.focusPreviousWidget
  rw [e1]
  simp only [e2]

/-- Moving the focus from the focused child `p` to another child `j` and back restores the
focus index and the flags. -/
theorem Container.move_move {d : Dispatch} (hd : Frame d) (c : Widget) (p j : Nat)
    (h : SingleFocus c) (hp : c.m_focusedWidget = p + 1) :
    (Container.focusChild d p
      (if (Container.focusChild d j
            (if c.m_focusedWidget ≠ 0 then Container.unfocusCurrent d c else c)).m_focusedWidget
          ≠ 0 then
        Container.unfocusCurrent d
          (Container.focusChild d j
            (if c.m_focusedWidget ≠ 0 then Container.unfocusCurrent d c else c))
      else Container.focusChild d j
        (if c.m_focusedWidget ≠ 0 then Container.unfocusCurrent d c else c))).m_focusedWidget =
      c.m_focusedWidget ∧
    (Container.focusChild d p
      (if (Container.focusChild d j
            (if c.m_focusedWidget ≠ 0 then Container.unfocusCurrent d c else c)).m_focusedWidget
          ≠ 0 then
        Container.unfocusCurrent d
          (Container.focusChild d j
            (if c.m_focusedWidget ≠ 0 then Container.unfocusCurrent d c else c))
      else Container.focusChild d j
        (if c.m_focusedWidget ≠ 0 then Container.unfocusCurrent d c else c))).flags =
      c.flags := by
  refine ⟨by rw [Container.move_focusedWidget, hp], ?_⟩
  have hl1 := Container.move_length hd c j
  apply List.ext_getElem?
  intro k
  by_cases hk : k < c.m_widgets.length
  · rw [Container.move_flags_getElem? hd _ p k (by rw [hl1]; exact hk),
      Container.move_focusedWidget, Container.move_flags_getElem? hd c j k hk]
    have hk' : k < c.flags.length := by rw [Widget.flags_length]; exact hk
    have hfl := h.2 k c.flags[k] (List.getElem?_eq_getElem hk')
    by_cases hkp : k = p
    · rw [if_pos hkp]
      rw [List.getElem?_eq_getElem hk']
      congr 1
      exact (hfl.2 (by omega)).symm
    · rw [if_neg hkp]
      by_cases hkj : k = j
      · rw [if_pos (by omega)]
        rw [List.getElem?_eq_getElem hk']
        congr 1
        cases hb : c.flags[k] with
        | false => rfl
        | true =>
          have := hfl.1 hb
          omega
      · rw [if_neg (by omega), if_neg hkj, if_neg (by omega)]
  · have h1 : c.flags[k]? = none := by
      rw [List.getElem?_eq_none_iff, Widget.flags_length]; omega
    rw [h1, List.getElem?_eq_none_iff, Widget.flags_length, Container.move_length hd, hl1]
    omega

end tgui


namespace tgui

/-! ### Tab inside a focused child container -/

theorem invoke_container (env : Env) (n : Nat) (call : Call) (w : Widget)
    (h : w.m_containerWidget = true) :
    invoke env (n + 1) call w = Container.method env (invoke env n) call (w.record call) := by
  simp only [invoke]
  rw [if_pos h]

/-- On a container without container children the loop of `focusNextWidgetInContainer`
focuses the first focusable child of its range. -/
theorem Container.focusNextWidgetInContainerLoop_flat_some (d : Dispatch) (c : Widget)
    (hflat : ∀ i, c.containerAt i = false) (n i j : Nat)
    (h : firstUp c.focusableAt i n = some j) :
    Container.focusNextWidgetInContainerLoop d n i c =
      (true, Container.focusChild d j
        (if c.m_focusedWidget ≠ 0 then Container.unfocusCurrent d c else c)) := by
  induction n generalizing i with
  | zero => simp [firstUp] at h
  | succ n ih =>
    unfold Container.focusNextWidgetInContainerLoop
    simp only [firstUp] at h
    by_cases hp : c.focusableAt i = true
    · rw [if_pos hp] at h ⊢
      cases h
      rw [if_pos (by simp [hflat])]
      by_cases hf : c.m_focusedWidget = 0
      · rw [if_neg (by omega), if_neg (by simpa using hf)]
      · rw [if_pos (by omega), if_pos hf]
    · rw [if_neg hp] at h ⊢
      exact ih (i + 1) h

theorem Container.focusNextWidgetInContainerLoop_flat_none (d : Dispatch) (c : Widget)
    (n i : Nat) (h : firstUp c.focusableAt i n = none) :
    Container.focusNextWidgetInContainerLoop d n i c = (false, Container.unfocusWidgets d c) := by
  induction n generalizing i with
  | zero => rfl
  | succ n ih =>
    unfold Container.focusNextWidgetInContainerLoop
    simp only [firstUp] at h
    by_cases hp : c.focusableAt i = true
    · rw [if_pos hp] at h
      cases h
    · rw [if_neg hp] at h ⊢
      exact ih (i + 1) h

theorem Widget.childCall_of_getElem? (d : Dispatch) (i : Nat) (k : Call) (c w : Widget)
    (h : c.m_widgets[i]? = some w) :
    c.childCall d i k = ((d k w).1, c.setWidgets (c.m_widgets.set i (d k w).2)) := by
  unfold Widget.childCall
  rw [h]

theorem Widget.containerAt_of_getElem? (c w : Widget) (i : Nat) (h : c.m_widgets[i]? = some w) :
    c.containerAt i = w.m_containerWidget := by
  unfold Widget.containerAt
  rw [h]

/-- The focus index and the flags after the search of `tabKeyPressed` are those after
`focusNextWidget`. -/
theorem Container.tabKeyPressedSearch_focus {d : Dispatch} (hd : Frame d) (c : Widget) :
    (Container.tabKeyPressedSearch d c).2.m_focusedWidget =
      (Container.focusNextWidget d c).m_focusedWidget ∧
    (Container.tabKeyPressedSearch d c).2.flags = (Container.focusNextWidget d c).flags := by
  unfold Container.tabKeyPressedSearch Container.focusNextWidget
  split
  · exact ⟨rfl, rfl⟩
  · by_cases hf : c.m_focusedWidget ≠ 0
    · simp only [if_pos hf]
      split
      · exact ⟨rfl, rfl⟩
      · split
        · exact ⟨by simp, Widget.childCall_flags hd _ _ c⟩
        · exact ⟨rfl, rfl⟩
    · simp only [if_neg hf]
      rw [if_neg (fun h => hf h.1)]
      exact ⟨rfl, rfl⟩

/-- The focus index and the flags after `focusNextWidget` depend only on the focus index,
the flags and the fixed members of the children. -/
theorem Container.focusNextWidget_congr {d : Dispatch} (hd : Frame d) (c1 c2 : Widget)
    (hf : c1.m_focusedWidget = c2.m_focusedWidget) (hfl : c1.flags = c2.flags)
    (hfix : c1.m_widgets.map Widget.fixed = c2.m_widgets.map Widget.fixed) :
    (Container.focusNextWidget d c1).m_focusedWidget =
      (Container.focusNextWidget d c2).m_focusedWidget ∧
    (Container.focusNextWidget d c1).flags = (Container.focusNextWidget d c2).flags := by
  have hfa := Widget.focusableAt_congr hfix
  have hlen := Widget.length_congr hfix
  unfold Container.focusNextWidget
  rw [hfa, hlen, hf]
  split
  · refine ⟨by simp, ?_⟩
    have e1 := Container.move_flags hd c1 ‹Nat›
    have e2 := Container.move_flags hd c2 ‹Nat›
    rw [hf] at e1
    rw [e1, e2, hfl]
  · by_cases h0 : c2.m_focusedWidget ≠ 0
    · simp only [if_pos h0]
      split
      · refine ⟨by simp, ?_⟩
        have e1 := Container.move_flags hd c1 ‹Nat›
        have e2 := Container.move_flags hd c2 ‹Nat›
        rw [hf] at e1
        simp only [if_pos h0] at e1 e2
        rw [e1, e2, hfl]
      · exact ⟨hf, hfl⟩
    · simp only [if_neg h0]
      exact ⟨hf, hfl⟩

end tgui


namespace tgui

theorem Widget.focusableAt_record (k : Call) (c : Widget) :
    (c.record k).focusableAt = c.focusableAt := by
  funext i
  simp [Widget.focusableAt]

theorem Widget.containerAt_record (k : Call) (c : Widget) :
    (c.record k).containerAt = c.containerAt := by
  funext i
  simp [Widget.containerAt]

theorem Widget.flags_record (k : Call) (c : Widget) : (c.record k).flags = c.flags := by
  simp [Widget.flags]

theorem Widget.flags_setFocused (v : Bool) (c : Widget) : (c.setFocused v).flags = c.flags := by
  simp [Widget.flags]

theorem FocusMovedTo.of_record {c r : Widget} {j : Nat} (k : Call)
    (h : FocusMovedTo (c.record k) r j) : FocusMovedTo c r j := by
  unfold FocusMovedTo at h ⊢
  simpa [Widget.flags_record] using h

theorem Container.unfocusWidgets_flags {d : Dispatch} (hd : Frame d) (c : Widget) :
    (Container.unfocusWidgets d c).flags =
      if c.m_focusedWidget ≠ 0 then c.flags.set (c.m_focusedWidget - 1) false else c.flags := by
  unfold Container.unfocusWidgets
  split
  · have : ((Container.unfocusCurrent d c).setFocusedWidget 0).flags =
        (Container.unfocusCurrent d c).flags := by simp [Widget.flags]
    rw [this, Container.unfocusCurrent_flags hd]
  · rfl

theorem Container.unfocusWidgets_fixed {d : Dispatch} (hd : Frame d) (c : Widget) :
    (Container.unfocusWidgets d c).m_widgets.map Widget.fixed = c.m_widgets.map Widget.fixed := by
  unfold Container.unfocusWidgets
  split
  · simp only [Widget.m_widgets_setFocusedWidget]
    exact Container.unfocusCurrent_fixed hd c
  · rfl

theorem Container.unfocusWidgets_idle (d : Dispatch) (c : Widget) (h : c.m_focusedWidget = 0) :
    Container.unfocusWidgets d c = c := by
  unfold Container.unfocusWidgets
  rw [if_neg (by simpa using h)]

/-- A flat child container that is asked to advance its focus and has a focusable child
after its focused one: the focus moves to the first such child. -/
theorem invoke_focusNextWidgetInContainer_some (env : Env) (n : Nat) (c : Widget) (j : Nat)
    (htab : env.TGUI_TabKeyUsageEnabled = true) (hcont : c.m_containerWidget = true)
    (hflat : ∀ i, c.containerAt i = false)
    (h : firstUp c.focusableAt c.m_focusedWidget (c.m_widgets.length - c.m_focusedWidget) =
      some j) :
    (invoke env (n + 1) .focusNextWidgetInContainer c).1 = true ∧
    FocusMovedTo c (invoke env (n + 1) .focusNextWidgetInContainer c).2 j := by
  rw [invoke_container env n _ c hcont]
  simp only [Container.method, Container.focusNextWidgetInContainer]
  rw [if_neg (by simp [htab])]
  simp only [Widget.m_widgets_record, Widget.m_focusedWidget_record]
  rw [Container.focusNextWidgetInContainerLoop_flat_some _ _
    (by rw [Widget.containerAt_record]; exact hflat) _ _ j
    (by rw [Widget.focusableAt_record]; exact h)]
  exact ⟨rfl, (Container.move_focusMovedTo (invoke_frame env n) _ j).of_record _⟩

/-- A flat child container that is asked to advance its focus and has no focusable child
after its focused one: it loses its focus and reports false. -/
theorem invoke_focusNextWidgetInContainer_none (env : Env) (n : Nat) (c : Widget)
    (htab : env.TGUI_TabKeyUsageEnabled = true) (hcont : c.m_containerWidget = true)
    (h : firstUp c.focusableAt c.m_focusedWidget (c.m_widgets.length - c.m_focusedWidget) =
      none) :
    (invoke env (n + 1) .focusNextWidgetInContainer c).1 = false ∧
    (invoke env (n + 1) .focusNextWidgetInContainer c).2.m_focusedWidget = 0 ∧
    (invoke env (n + 1) .focusNextWidgetInContainer c).2.flags =
      (if c.m_focusedWidget ≠ 0 then c.flags.set (c.m_focusedWidget - 1) false else c.flags) ∧
    (invoke env (n + 1) .focusNextWidgetInContainer c).2.m_widgets.map Widget.fixed =
      c.m_widgets.map Widget.fixed := by
  rw [invoke_container env n _ c hcont]
  simp only [Container.method, Container.focusNextWidgetInContainer]
  rw [if_neg (by simp [htab])]
  simp only [Widget.m_widgets_record, Widget.m_focusedWidget_record]
  rw [Container.focusNextWidgetInContainerLoop_flat_none _ _ _ _
    (by rw [Widget.focusableAt_record]; exact h)]
  refine ⟨rfl, Container.unfocusWidgets_bound _ _, ?_, ?_⟩
  · rw [Container.unfocusWidgets_flags (invoke_frame env n)]
    simp [Widget.flags_record]
  · rw [Container.unfocusWidgets_fixed (invoke_frame env n)]
    simp

/-- A widget without focus inside that is told it has lost the focus keeps its focus index
0 and the flags of its children. -/
theorem invoke_widgetUnfocused_idle (env : Env) (m : Nat) (w : Widget)
    (h : w.m_focusedWidget = 0) :
    (invoke env m .widgetUnfocused w).2.m_focusedWidget = 0 ∧
    (invoke env m .widgetUnfocused w).2.flags = w.flags := by
  cases m with
  | zero => simp [invoke, leafMethod, h, Widget.flags_record]
  | succ m =>
    simp only [invoke]
    split
    · simp only [Container.method]
      rw [Container.unfocusWidgets_idle _ _ (by simpa using h)]
      simp [h, Widget.flags_record]
    · simp [leafMethod, h, Widget.flags_record]

/-- A flat child container without focus that receives `tabKeyPressed`: its first focusable
child, if there is one, gets the focus. -/
theorem invoke_tabKeyPressed_flat (env : Env) (n : Nat) (c : Widget)
    (htab : env.TGUI_TabKeyUsageEnabled = true) (hcont : c.m_containerWidget = true)
    (hflat : ∀ i, c.containerAt i = false) (hf : c.m_focusedWidget = 0) :
    (∀ j, c.focusableAt j = true → (∀ k, k < j → c.focusableAt k = false) →
      (invoke env (n + 1) .tabKeyPressed c).2.m_focusedWidget = j + 1 ∧
      (invoke env (n + 1) .tabKeyPressed c).2.flags[j]? = some true) ∧
    ((∀ k, c.focusableAt k = false) →
      (invoke env (n + 1) .tabKeyPressed c).2.m_focusedWidget = 0) := by
  rw [invoke_container env n _ c hcont]
  simp only [Container.method]
  rw [Container.tabKeyPressed_flat env _ _ htab (by rw [Widget.containerAt_record]; exact hflat)]
  constructor
  · intro j hj hmin
    rw [Container.focusNextWidget_first _ _ j (by simp [hf])
      (by rw [Widget.focusableAt_record]; exact hj)
      (fun k _ hk => by rw [Widget.focusableAt_record]; exact hmin k hk)]
    have hm := Container.move_focusMovedTo (invoke_frame env n)
      (c.record .tabKeyPressed) j
    refine ⟨hm.1, ?_⟩
    have := hm.2.2 j (by simpa using c.focusableAt_lt j hj)
    rw [this, if_pos rfl]
  · intro hnone
    rw [Container.focusNextWidget_none _ _
      (fun k _ => by rw [Widget.focusableAt_record]; exact hnone k)
      (fun k _ => by rw [Widget.focusableAt_record]; exact hnone k)]
    simpa using hf

/-- The child that held the focus, after the focus has moved to another child `i`. -/
theorem Container.move_old_child (d : Dispatch) (c w : Widget) (q i : Nat)
    (hq : c.m_focusedWidget = q + 1) (hw : c.m_widgets[q]? = some w) (hi : i ≠ q) :
    (Container.focusChild d i
      (if c.m_focusedWidget ≠ 0 then Container.unfocusCurrent d c else c)).m_widgets[q]? =
      some (d .widgetUnfocused (w.setFocused false)).2 := by
  rw [if_pos (by omega), Container.focusChild_widgets, Container.unfocusCurrent_widgets,
    List.getElem?_modify, hq, Nat.add_sub_cancel, List.getElem?_modify, hw]
  simp [hi]

end tgui


namespace tgui

theorem Widget.childCall_getElem?_self (d : Dispatch) (i : Nat) (k : Call) (c w : Widget)
    (h : c.m_widgets[i]? = some w) : (c.childCall d i k).2.m_widgets[i]? = some (d k w).2 := by
  rw [Widget.childCall_widgets, List.getElem?_modify, h]
  simp

/-- The search of `tabKeyPressed` in a container whose focused child `q` is a container:
it returns true; if another child is focusable the focus leaves child `q`, which is told
so, and otherwise child `q` keeps the focus and receives `tabKeyPressed`. -/
theorem Container.tabKeyPressedSearch_container (d : Dispatch) (c w : Widget) (q : Nat)
    (hq : c.m_focusedWidget = q + 1) (hw : c.m_widgets[q]? = some w)
    (hc : c.containerAt q = true) :
    (Container.tabKeyPressedSearch d c).1 = true ∧
    ((∃ j, j ≠ q ∧ c.focusableAt j = true) →
      (Container.tabKeyPressedSearch d c).2.m_focusedWidget ≠ q + 1 ∧
      (Container.tabKeyPressedSearch d c).2.m_widgets[q]? =
        some (d .widgetUnfocused (w.setFocused false)).2) ∧
    ((∀ j, j ≠ q → c.focusableAt j = false) →
      (Container.tabKeyPressedSearch d c).2.m_focusedWidget = q + 1 ∧
      (Container.tabKeyPressedSearch d c).2.m_widgets[q]? = some (d .tabKeyPressed w).2) := by
  have hf : c.m_focusedWidget ≠ 0 := by omega
  unfold Container.tabKeyPressedSearch
  cases h1 : firstUp c.focusableAt c.m_focusedWidget (c.m_widgets.length - c.m_focusedWidget) with
  | some i =>
    obtain ⟨hi1, -, hi3, -⟩ := (firstUp_eq_some _ _ _ _).1 h1
    simp only
    refine ⟨trivial, fun _ => ⟨?_, ?_⟩, fun hno => ?_⟩
    · rw [Container.focusChild_focusedWidget]; omega
    · exact Container.move_old_child d c w q i hq hw (by omega)
    · have := hno i (by omega)
      rw [hi3] at this
      cases this
  | none =>
    simp only [if_pos hf]
    cases h2 : firstUp c.focusableAt 0 (c.m_focusedWidget - 1) with
    | some i =>
      obtain ⟨-, hi2, hi3, -⟩ := (firstUp_eq_some _ _ _ _).1 h2
      simp only
      refine ⟨trivial, fun _ => ⟨?_, ?_⟩, fun hno => ?_⟩
      · rw [Container.focusChild_focusedWidget]; omega
      · have := Container.move_old_child d c w q i hq hw (by omega)
        rwa [if_pos hf] at this
      · have := hno i (by omega)
        rw [hi3] at this
        cases this
    | none =>
      simp only
      have hcq : c.containerAt (c.m_focusedWidget - 1) = true := by
        rw [hq, Nat.add_sub_cancel]; exact hc
      rw [if_pos ⟨hf, hcq⟩]
      refine ⟨rfl, fun hex => ?_, fun _ => ⟨?_, ?_⟩⟩
      · obtain ⟨j, hj1, hj2⟩ := hex
        have hjl := c.focusableAt_lt j hj2
        by_cases hjq : j < q
        · have := (firstUp_eq_none _ _ _).1 h2 j (Nat.zero_le _) (by omega)
          rw [hj2] at this
          cases this
        · have := (firstUp_eq_none _ _ _).1 h1 j (by omega) (by omega)
          rw [hj2] at this
          cases this
      · simpa using hq
      · rw [hq, Nat.add_sub_cancel]
        exact Widget.childCall_getElem?_self d q _ c w hw

end tgui


namespace tgui

end tgui


namespace tgui

/-! ### Container children and the focus -/

theorem Container.focusNextWidgetInContainerLoop_exists (d : Dispatch)
    (n i : Nat) (c : Widget)
    (h : (Container.focusNextWidgetInContainerLoop d n i c).1 = true) :
    ∃ k, c.focusableAt k = true := by
  induction n generalizing i c with
  | zero => simp [Container.focusNextWidgetInContainerLoop] at h
  | succ n ih =>
    unfold Container.focusNextWidgetInContainerLoop at h
    by_cases hp : c.focusableAt i = true
    · exact ⟨i, hp⟩
    · rw [if_neg hp] at h
      exact ih _ _ h

/-- A child that reports true to `focusNextWidgetInContainer` has a focusable child. -/
theorem invoke_focusNextWidgetInContainer_exists (env : Env) (n : Nat) (w : Widget)
    (h : (invoke env n .focusNextWidgetInContainer w).1 = true) :
    w.m_containerWidget = true ∧ ∃ k, w.focusableAt k = true := by
  cases n with
  | zero => simp [invoke, leafMethod] at h
  | succ n =>
    simp only [invoke] at h
    by_cases hc : w.m_containerWidget = true
    · rw [if_pos hc] at h
      simp only [Container.method, Container.focusNextWidgetInContainer] at h
      refine ⟨hc, ?_⟩
      by_cases ht : env.TGUI_TabKeyUsageEnabled = false
      · rw [if_pos ht] at h
        cases h
      · rw [if_neg ht] at h
        obtain ⟨k, hk⟩ := Container.focusNextWidgetInContainerLoop_exists _ _ _ _ h
        rw [Widget.focusableAt_record] at hk
        exact ⟨k, hk⟩
    · rw [if_neg hc] at h
      simp [leafMethod] at h

/-- When the loop of `focusNextWidgetInContainer` reports true, the focus is on a focusable
child at or after the start of the loop, and if that child is a container it has a
focusable child of its own. -/
theorem Container.focusNextWidgetInContainerLoop_focused (env : Env) (m n i : Nat) (c : Widget)
    (h : (Container.focusNextWidgetInContainerLoop (invoke env m) n i c).1 = true) :
    ∃ (j : Nat) (w : Widget), i ≤ j ∧
      (Container.focusNextWidgetInContainerLoop (invoke env m) n i c).2.m_focusedWidget = j + 1 ∧
      c.m_widgets[j]? = some w ∧ w.focusable = true ∧
      (w.m_containerWidget = true → ∃ k, w.focusableAt k = true) := by
  induction n generalizing i c with
  | zero => simp [Container.focusNextWidgetInContainerLoop] at h
  | succ n ih =>
    unfold Container.focusNextWidgetInContainerLoop at h ⊢
    by_cases hp : c.focusableAt i = true
    · rw [if_pos hp] at h ⊢
      obtain ⟨w, hw, hwf⟩ := (c.focusableAt_eq_true i).1 hp
      by_cases hk : (!c.containerAt i) = true
      · rw [if_pos hk]
        refine ⟨i, w, le_refl _, by simp, hw, hwf, fun hc => ?_⟩
        rw [c.containerAt_of_getElem? w i hw, hc] at hk
        cases hk
      · rw [if_neg hk] at h ⊢
        by_cases hr : (c.childCall (invoke env m) i .focusNextWidgetInContainer).1 = true
        · rw [if_pos hr]
          rw [Widget.childCall_fst _ i _ c w hw] at hr
          exact ⟨i, w, le_refl _, by simp, hw, hwf,
            fun _ => (invoke_focusNextWidgetInContainer_exists env m w hr).2⟩
        · rw [if_neg hr] at h ⊢
          obtain ⟨j, v, hj1, hj2, hj3, hj4, hj5⟩ := ih _ _ h
          refine ⟨j, v, by omega, hj2, ?_, hj4, hj5⟩
          rw [← Widget.childCall_getElem?_ne (invoke env m) i .focusNextWidgetInContainer c j
            (by omega)]
          exact hj3
    · rw [if_neg hp] at h ⊢
      obtain ⟨j, v, hj1, hj2, hj3, hj4, hj5⟩ := ih _ _ h
      exact ⟨j, v, by omega, hj2, hj3, hj4, hj5⟩

/-- The part of C27 that the code keeps: when `focusNextWidgetInContainer` reports that it
has moved the focus, the focused child is focusable, and if it is a container it has a
focusable child; when it reports false nothing is focused. -/
theorem Container.focusNextWidgetInContainer_focused (env : Env) (m : Nat) (c : Widget) :
    ((Container.focusNextWidgetInContainer env (invoke env m) c).1 = true →
      ∃ (j : Nat) (w : Widget),
        (Container.focusNextWidgetInContainer env (invoke env m) c).2.m_focusedWidget = j + 1 ∧
        c.m_widgets[j]? = some w ∧ w.focusable = true ∧
        (w.m_containerWidget = true → ∃ k, w.focusableAt k = true)) ∧
    (env.TGUI_TabKeyUsageEnabled = true →
      (Container.focusNextWidgetInContainer env (invoke env m) c).1 = false →
      (Container.focusNextWidgetInContainer env (invoke env m) c).2.m_focusedWidget = 0) := by
  unfold Container.focusNextWidgetInContainer
  by_cases ht : env.TGUI_TabKeyUsageEnabled = false
  · rw [if_pos ht]
    exact ⟨fun h => (by cases h), fun h => (by rw [ht] at h; cases h)⟩
  · rw [if_neg ht]
    refine ⟨fun h => ?_, fun _ h => ?_⟩
    · obtain ⟨j, w, -, h2, h3, h4, h5⟩ :=
        Container.focusNextWidgetInContainerLoop_focused env m _ _ c h
      exact ⟨j, w, h2, h3, h4, h5⟩
    · generalize hn : c.m_widgets.length - c.m_focusedWidget = n at h ⊢
      generalize c.m_focusedWidget = i at h ⊢
      clear hn
      induction n generalizing i c with
      | zero =>
        simp only [Container.focusNextWidgetInContainerLoop]
        exact Container.unfocusWidgets_bound _ _
      | succ n ih =>
        unfold Container.focusNextWidgetInContainerLoop at h ⊢
        split at h
        · split at h
          · cases h
          · split at h
            · cases h
            · rename_i h1 h2 h3
              rw [if_pos h1, if_neg h2, if_neg h3]
              exact ih _ _ h
        · rename_i h1
          rw [if_neg h1]
          exact ih _ _ h

/-- C27 on the code: `emptyPanelWindow` holds an empty panel and a button, and nothing is
focused. `tabKeyPressed` gives the focus to the panel, a container without any widget,
instead of skipping it; `focusNextWidgetInContainer`, which asks a container child whether
it has something to focus, skips the panel on the same window and focuses the button. -/
theorem C27_tab_focuses_empty_container :
    emptyPanelWindow.m_focusedWidget = 0 ∧ emptyPanelWindow.flags = [false, false] ∧
    (emptyPanelWindow.m_widgets[0]?).map Widget.m_containerWidget = some true ∧
    (emptyPanelWindow.m_widgets[0]?).map (fun w => w.m_widgets.length) = some 0 ∧
    (Container.tabKeyPressed sampleEnv (invoke sampleEnv 2) emptyPanelWindow).1 = true ∧
    (Container.tabKeyPressed sampleEnv (invoke sampleEnv 2) emptyPanelWindow).2.m_focusedWidget
      = 1 ∧
    (Container.tabKeyPressed sampleEnv (invoke sampleEnv 2) emptyPanelWindow).2.flags =
      [true, false] ∧
    (Container.focusNextWidgetInContainer sampleEnv (invoke sampleEnv 2)
      emptyPanelWindow).2.m_focusedWidget = 2 ∧
    (Container.focusNextWidgetInContainer sampleEnv (invoke sampleEnv 2)
      emptyPanelWindow).2.flags = [false, true] := by
  decide

end tgui


namespace tgui

/-! ### Losing the focus, recursively -/

theorem Widget.nothingFocused_eq (w : Widget) :
    w.nothingFocused =
      ((!w.m_focused && w.m_focusedWidget == 0) && nothingFocusedList w.m_widgets) := by
  cases w
  rfl

theorem Widget.focusPath_eq (w : Widget) :
    w.focusPath =
      if w.m_containerWidget then focusPathList w.m_focusedWidget 0 w.m_widgets
      else (w.m_focusedWidget == 0 && nothingFocusedList w.m_widgets) := by
  cases w
  rfl

theorem nothingFocusedList_iff (ws : List Widget) :
    nothingFocusedList ws = true ↔ ∀ w ∈ ws, w.nothingFocused = true := by
  induction ws with
  | nil => simp [nothingFocusedList]
  | cons w ws ih => simp [nothingFocusedList, ih]

theorem focusPathList_iff (f i : Nat) (ws : List Widget) :
    focusPathList f i ws = true ↔
      ∀ (k : Nat) (w : Widget), ws[k]? = some w →
        if f = i + k + 1 then (w.m_focused = true ∧ w.focusPath = true)
        else w.nothingFocused = true := by
  induction ws generalizing i with
  | nil => simp [focusPathList]
  | cons v ws ih =>
    simp only [focusPathList, Bool.and_eq_true, ih]
    constructor
    · rintro ⟨h1, h2⟩ k w hk
      cases k with
      | zero =>
        simp only [List.getElem?_cons_zero, Option.some.injEq] at hk
        subst hk
        by_cases hf : f = i + 1
        · rw [if_pos hf] at h1
          rw [if_pos (by omega)]
          simpa using h1
        · rw [if_neg hf] at h1
          rw [if_neg (by omega)]
          exact h1
      | succ k =>
        simp only [List.getElem?_cons_succ] at hk
        have := h2 k w hk
        have e : i + 1 + k + 1 = i + (k + 1) + 1 := by omega
        rwa [e] at this
    · intro h
      refine ⟨?_, fun k w hk => ?_⟩
      · have := h 0 v (by simp)
        by_cases hf : f = i + 1
        · rw [if_pos (by omega)] at this
          rw [if_pos hf]
          simpa using this
        · rw [if_neg (by omega)] at this
          rw [if_neg hf]
          exact this
      · have := h (k + 1) w (by simpa using hk)
        have e : i + 1 + k + 1 = i + (k + 1) + 1 := by omega
        rwa [e]

/-- A widget on the focus path of a tree that is resolved to its full depth has nothing
focused in its subtree after it has lost the focus. -/
theorem invoke_widgetUnfocused_nothingFocused (env : Env) (n : Nat) (w : Widget)
    (hp : w.focusPath = true) (hdep : w.depth ≤ n) :
    (invoke env n .widgetUnfocused (w.setFocused false)).2.nothingFocused = true := by
  induction n generalizing w with
  | zero =>
    have := w.depth_pos
    omega
  | succ n ih =>
    rw [Widget.focusPath_eq] at hp
    simp only [invoke, Widget.m_containerWidget_setFocused]
    by_cases hk : w.m_containerWidget = true
    · rw [if_pos hk] at hp ⊢
      simp only [Container.method]
      have hsh : Shallow n w := (w.depth_le_succ n).1 hdep
      have hch := (focusPathList_iff _ _ _).1 hp
      by_cases hf : w.m_focusedWidget = 0
      · rw [Container.unfocusWidgets_idle _ _ (by simpa using hf)]
        rw [Widget.nothingFocused_eq]
        simp only [Widget.m_focused_record, Widget.m_focused_setFocused,
          Widget.m_focusedWidget_record, Widget.m_focusedWidget_setFocused,
          Widget.m_widgets_record, Widget.m_widgets_setFocused, hf]
        simp only [Bool.not_false, beq_self_eq_true, Bool.and_self, Bool.true_and]
        rw [nothingFocusedList_iff]
        intro v hv
        obtain ⟨k, hkl, hkv⟩ := List.getElem_of_mem hv
        have := hch k v (by rw [List.getElem?_eq_getElem hkl, hkv])
        rwa [if_neg (by omega)] at this
      · unfold Container.unfocusWidgets
        rw [if_pos (by simpa using hf)]
        rw [Widget.nothingFocused_eq]
        simp only [Widget.m_focusedWidget_setFocusedWidget, Widget.m_widgets_setFocusedWidget,
          Container.unfocusCurrent_widgets, Widget.m_widgets_record, Widget.m_widgets_setFocused,
          Widget.m_focusedWidget_record, Widget.m_focusedWidget_setFocused]
        have hb : ((Container.unfocusCurrent (invoke env n)
            ((w.setFocused false).record .widgetUnfocused)).setFocusedWidget 0).m_focused
            = false := by
          simp [Widget.m_focused]
        rw [hb]
        simp only [Bool.not_false, beq_self_eq_true, Bool.and_self, Bool.true_and]
        rw [nothingFocusedList_iff]
        intro v hv
        obtain ⟨k, hkl, hkv⟩ := List.getElem_of_mem hv
        have hkv' : (List.modify (fun w => (invoke env n .widgetUnfocused
            (w.setFocused false)).2) (w.m_focusedWidget - 1) w.m_widgets)[k]? = some v := by
          rw [List.getElem?_eq_getElem hkl, hkv]
        rw [List.getElem?_modify] at hkv'
        have hkl' : k < w.m_widgets.length := by simpa using hkl
        rw [List.getElem?_eq_getElem hkl'] at hkv'
        have hx := hch k w.m_widgets[k] (List.getElem?_eq_getElem hkl')
        by_cases hkf : w.m_focusedWidget - 1 = k
        · simp only [hkf, if_true, Option.map_eq_map, Option.map_some', Option.some.injEq]
            at hkv'
          rw [if_pos (by omega)] at hx
          rw [← hkv']
          exact ih _ hx.2 (hsh _ (List.getElem_mem hkl'))
        · simp only [hkf, if_false, Option.map_eq_map, Option.map_some', Option.some.injEq]
            at hkv'
          rw [if_neg (by omega)] at hx
          rw [← hkv']
          exact hx
    · rw [if_neg hk] at hp ⊢
      simp only [Bool.and_eq_true, beq_iff_eq] at hp
      rw [Widget.nothingFocused_eq]
      simp [leafMethod, hp.1, hp.2]

end tgui


namespace tgui

/-- Each of `focusWidget`, `focusNextWidget` and `focusPreviousWidget` either leaves the
container as it is or moves the focus to some child `i`. -/
theorem Container.focus_cases (d : Dispatch) (widget : Nat) (c : Widget) :
    ∀ r ∈ [Container.focusWidget d widget c, Container.focusNextWidget d c,
        Container.focusPreviousWidget d c],
      r = c ∨ ∃ i, r = Container.focusChild d i
        (if c.m_focusedWidget ≠ 0 then Container.unfocusCurrent d c else c) := by
  intro r hr
  simp only [List.mem_cons, List.mem_singleton, List.not_mem_nil, or_false] at hr
  rcases hr with rfl | rfl | rfl
  · unfold Container.focusWidget
    split
    · split
      · exact Or.inr ⟨_, rfl⟩
      · exact Or.inl rfl
    · exact Or.inl rfl
  · unfold Container.focusNextWidget
    split
    · exact Or.inr ⟨_, rfl⟩
    · split
      · split
        · exact Or.inr ⟨_, rfl⟩
        · exact Or.inl rfl
      · exact Or.inl rfl
  · unfold Container.focusPreviousWidget
    split
    · rename_i i hi
      by_cases hf : c.m_focusedWidget ≠ 0
      · exact Or.inr ⟨i, by rw [if_pos hf]⟩
      · rw [if_neg hf] at hi
        cases hi
    · split
      · exact Or.inr ⟨_, rfl⟩
      · exact Or.inl rfl

end tgui


namespace tgui

/-! ### `get` with recursion -/

theorem Widget.preorder_eq (w : Widget) : w.preorder = preorderList w.m_widgets w.m_objName := by
  cases w
  simp [Widget.preorder, Widget.m_widgets, Widget.m_objName]

theorem preorderList_cons (w : Widget) (ws : List Widget) (n : String) (ns : List String) :
    preorderList (w :: ws) (n :: ns) = (w, n) :: (w.preorder ++ preorderList ws ns) := by
  rw [preorderList]

theorem preorderList_nil_left (ns : List String) : preorderList [] ns = [] := by
  simp [preorderList]

theorem preorderList_nil_right (ws : List Widget) : preorderList ws [] = [] := by
  cases ws <;> simp [preorderList]

theorem Widget.wellFormed_eq (w : Widget) :
    w.wellFormed = ((w.m_containerWidget || w.m_widgets.isEmpty) && wellFormedList w.m_widgets) := by
  cases w
  rfl

theorem wellFormedList_iff (ws : List Widget) :
    wellFormedList ws = true ↔ ∀ w ∈ ws, w.wellFormed = true := by
  induction ws with
  | nil => simp [wellFormedList]
  | cons w ws ih => simp [wellFormedList, ih]

/-- The loop of `get` with recursion follows the pre-order, given that `get` does so on
every widget of the list. -/
theorem Container.getLoop_true_preorder (name : String) (ws : List Widget) (ns : List String)
    (hwf : ∀ w ∈ ws, w.wellFormed = true)
    (ih : ∀ w ∈ ws, Container.get name true w =
      (w.preorder.find? (fun p => p.2 == name)).map Prod.fst) :
    Container.getLoop name true ws ns =
      ((preorderList ws ns).find? (fun p => p.2 == name)).map Prod.fst := by
  induction ws generalizing ns with
  | nil => rw [Container.getLoop_nil_left, preorderList_nil_left]; rfl
  | cons w ws ihl =>
    cases ns with
    | nil => rw [Container.getLoop_nil_right, preorderList_nil_right]; rfl
    | cons n ns =>
      have hrest := ihl ns (fun v hv => hwf v (List.mem_cons_of_mem _ hv))
        (fun v hv => ih v (List.mem_cons_of_mem _ hv))
      have hw := ih w (List.mem_cons_self _ _)
      have hwfw := hwf w (List.mem_cons_self _ _)
      rw [Container.getLoop_cons, preorderList_cons, List.find?_cons]
      by_cases hn : n = name
      · rw [if_pos hn]
        simp [hn]
      · rw [if_neg hn]
        have hne : ((w, n).2 == name) = false := by simpa using hn
        simp only [hne, List.find?_append]
        by_cases hk : w.m_containerWidget = true
        · simp only [hk, Bool.and_self, if_true]
          rw [hw, hrest]
          cases List.find? (fun p => p.2 == name) w.preorder <;> rfl
        · have hk' : w.m_containerWidget = false := by simpa using hk
          simp only [hk', Bool.and_false, Bool.false_eq_true, if_false]
          rw [Widget.wellFormed_eq, hk'] at hwfw
          simp only [Bool.false_or, Bool.and_eq_true, List.isEmpty_iff] at hwfw
          rw [Widget.preorder_eq, hwfw.1, preorderList_nil_left, hrest]
          rfl

theorem Container.get_true_preorder (name : String) (n : Nat) (c : Widget)
    (hdep : c.depth ≤ n) (hwf : c.wellFormed = true) :
    Container.get name true c = (c.preorder.find? (fun p => p.2 == name)).map Prod.fst := by
  induction n generalizing c with
  | zero =>
    have := c.depth_pos
    omega
  | succ n ih =>
    have hsh : Shallow n c := (c.depth_le_succ n).1 hdep
    rw [Widget.wellFormed_eq] at hwf
    simp only [Bool.and_eq_true] at hwf
    have hl := (wellFormedList_iff _).1 hwf.2
    rw [Container.get_eq, Widget.preorder_eq]
    exact Container.getLoop_true_preorder name _ _ hl (fun w hw => ih w (hsh w hw) (hl w hw))

theorem Container.getLoop_false_true (name : String) (ws : List Widget) (ns : List String)
    (h : Container.getLoop name false ws ns ≠ none) :
    Container.getLoop name true ws ns ≠ none := by
  induction ws generalizing ns with
  | nil => rw [Container.getLoop_nil_left] at h; exact absurd rfl h
  | cons w ws ih =>
    cases ns with
    | nil => rw [Container.getLoop_nil_right] at h; exact absurd rfl h
    | cons n ns =>
      rw [Container.getLoop_cons] at h ⊢
      by_cases hn : n = name
      · rw [if_pos hn]
        simp
      · rw [if_neg hn] at h ⊢
        simp only [Bool.false_and, Bool.false_eq_true, if_false] at h
        have := ih ns h
        split
        · split
          · simp
          · exact this
        · exact this

/-- C29. In a tree in which only containers have widgets inside them, `get(n, true)`
returns the first widget named `n` in depth-first pre-order (each child before the widgets
inside it, and those before the next child); it returns null exactly when no widget of the
tree is named `n`; and whenever `get(n, false)` is not null, `get(n, true)` is not null
either. `get` is defined by recursion on the finite tree, so it returns on every tree. -/
theorem C29_get_recursive (c : Widget) (name : String) (hwf : c.wellFormed = true) :
    Container.get name true c = (c.preorder.find? (fun p => p.2 == name)).map Prod.fst ∧
    (Container.get name true c = none ↔ ∀ p ∈ c.preorder, p.2 ≠ name) ∧
    (Container.get name false c ≠ none → Container.get name true c ≠ none) := by
  have h := Container.get_true_preorder name c.depth c (le_refl _) hwf
  refine ⟨h, ?_, ?_⟩
  · rw [h]
    simp
  · rw [Container.get_eq, Container.get_eq]
    exact Container.getLoop_false_true name _ _

/-- Witness of C29 on the sample window: the button named "inner" lies inside the panel and
is found by the recursive search only. -/
theorem C29_get_recursive_witness :
    (Container.get "inner" true sampleWindow).map Widget.ptr = some 4 ∧
    (Container.get "inner" false sampleWindow).map Widget.ptr = none ∧
    sampleWindow.preorder.map (fun p => (p.1.ptr, p.2)) =
      [(1, "button"), (2, "edit"), (3, "panel"), (4, "inner"), (5, "label")] ∧
    Container.get "inner" true sampleWindow =
      (sampleWindow.preorder.find? (fun p => p.2 == "inner")).map Prod.fst :=
  ⟨by decide, by decide, by decide, (C29_get_recursive sampleWindow "inner" (by decide)).1⟩

end tgui


namespace tgui

/-! ### Children that do not allow focus -/

theorem sameFocus_refl (c : Widget) : SameFocus c c := ⟨rfl, rfl, rfl⟩

theorem sameFocus_trans {a b c : Widget} (h1 : SameFocus a b) (h2 : SameFocus b c) :
    SameFocus a c :=
  ⟨h2.1.trans h1.1, h2.2.1.trans h1.2.1, h2.2.2.trans h1.2.2⟩

theorem Widget.childCall_sameFocus {d : Dispatch} (hd : Frame d) (i : Nat) (k : Call)
    (c : Widget) : SameFocus c (c.childCall d i k).2 :=
  ⟨Widget.childCall_focusedWidget d i k c, Widget.childCall_flags hd i k c,
    Widget.childCall_fixed hd i k c⟩

theorem Widget.ptrCall_sameFocus {d : Dispatch} (hd : Frame d) (p : Nat) (k : Call)
    (c : Widget) : SameFocus c (c.ptrCall d p k).2 := by
  unfold Widget.ptrCall
  split
  · exact Widget.childCall_sameFocus hd _ k c
  · exact sameFocus_refl c

theorem Container.mouseOnWhichWidgetLoop_sameFocus {d : Dispatch} (hd : Frame d) (x y : Int)
    (n : Nat) (found : Option Nat) (c : Widget) :
    SameFocus c (Container.mouseOnWhichWidgetLoop d x y n found c).2 := by
  induction n generalizing found c with
  | zero => exact sameFocus_refl c
  | succ n ih =>
    unfold Container.mouseOnWhichWidgetLoop
    split
    · exact ih _ _
    · split
      · split
        · split
          · exact sameFocus_trans (Widget.childCall_sameFocus hd _ _ c) (ih _ _)
          · exact sameFocus_trans (Widget.childCall_sameFocus hd _ _ c) (ih _ _)
        · exact sameFocus_trans (Widget.childCall_sameFocus hd _ _ c) (ih _ _)
      · exact ih _ _

theorem Container.mouseOnWhichWidget_sameFocus {d : Dispatch} (hd : Frame d) (x y : Int)
    (c : Widget) : SameFocus c (Container.mouseOnWhichWidget d x y c).2 :=
  Container.mouseOnWhichWidgetLoop_sameFocus hd x y _ _ c

theorem Container.mouseNoLongerDownOthers_sameFocus {d : Dispatch} (hd : Frame d)
    (widget : Option Nat) (n lo : Nat) (c : Widget) :
    SameFocus c (Container.mouseNoLongerDownOthers d widget n lo c) := by
  induction n generalizing lo c with
  | zero => exact sameFocus_refl c
  | succ n ih =>
    unfold Container.mouseNoLongerDownOthers
    split
    · exact ih _ _
    · exact sameFocus_trans (Widget.childCall_sameFocus hd _ _ c) (ih _ _)

/-- The condition `FocusAllowed` through the flags and the fixed members of the children. -/
theorem focusAllowed_iff_lists (c : Widget) :
    FocusAllowed c ↔
      ∀ (i : Nat) (b : Bool) (t : Nat × Bool × Bool × Bool × Bool × Bool × Bool × Bool),
        c.flags[i]? = some b → (c.m_widgets.map Widget.fixed)[i]? = some t →
        (b = true ∨ c.m_focusedWidget = i + 1) → t.2.1 = true := by
  unfold FocusAllowed Widget.flags
  constructor
  · intro h i b t hb ht hor
    rw [List.getElem?_map] at hb ht
    cases hw : c.m_widgets[i]? with
    | none => rw [hw] at hb; cases hb
    | some w =>
      rw [hw] at hb ht
      simp only [Option.map_some', Option.some.injEq] at hb ht
      subst hb ht
      exact h i w hw hor
  · intro h i w hw hor
    exact h i w.m_focused w.fixed (by rw [List.getElem?_map, hw]; rfl)
      (by rw [List.getElem?_map, hw]; rfl) hor

theorem SameFocus.focusAllowed {c r : Widget} (h : SameFocus c r) (hc : FocusAllowed c) :
    FocusAllowed r := by
  rw [focusAllowed_iff_lists] at hc ⊢
  rw [h.1, h.2.1, h.2.2]
  exact hc

/-- The condition `FocusAllowed` with bounded quantifiers. -/
theorem focusAllowed_iff (c : Widget) :
    FocusAllowed c ↔
      ∀ i, i < c.m_widgets.length →
        ((c.flags[i]?).getD false = true ∨ c.m_focusedWidget = i + 1) →
        ((c.m_widgets.map Widget.m_allowFocus)[i]?).getD false = true := by
  unfold FocusAllowed Widget.flags
  constructor
  · intro h i hi hor
    have hw : c.m_widgets[i]? = some c.m_widgets[i] := List.getElem?_eq_getElem hi
    rw [List.getElem?_map, hw] at hor ⊢
    exact h i _ hw hor
  · intro h i w hw hor
    have hi : i < c.m_widgets.length := (List.getElem?_eq_some_iff.1 hw).1
    have := h i hi
    rw [List.getElem?_map, List.getElem?_map, hw] at this
    exact this hor

/-- Moving the focus to a child that allows focus keeps `FocusAllowed`. -/
theorem Container.move_focusAllowed {d : Dispatch} (hd : Frame d) (c : Widget) (j : Nat)
    (h : FocusAllowed c)
    (hj : ∀ w, c.m_widgets[j]? = some w → w.m_allowFocus = true) :
    FocusAllowed (Container.focusChild d j
      (if c.m_focusedWidget ≠ 0 then Container.unfocusCurrent d c else c)) := by
  rw [focusAllowed_iff_lists] at h ⊢
  rw [Container.move_flags hd, Container.move_fixed hd, Container.move_focusedWidget]
  intro i b t hb ht hor
  rcases List.getElem?_set_some hb with ⟨hji, -⟩ | ⟨hji, hb2⟩
  · subst hji
    rw [List.getElem?_map] at ht
    cases hw : c.m_widgets[j]? with
    | none => rw [hw] at ht; cases ht
    | some w =>
      rw [hw] at ht
      simp only [Option.map_some', Option.some.injEq] at ht
      subst ht
      exact hj w hw
  · have hbt : b = true := by
      rcases hor with hbt | hf
      · exact hbt
      · omega
    subst hbt
    by_cases hf : c.m_focusedWidget ≠ 0
    · rw [if_pos hf] at hb2
      rcases List.getElem?_set_some hb2 with ⟨-, hcontra⟩ | ⟨-, hb3⟩
      · cases hcontra
      · exact h i true t hb3 ht (Or.inl rfl)
    · rw [if_neg hf] at hb2
      exact h i true t hb2 ht (Or.inl rfl)

/-- Taking the focus away from the focused child keeps `FocusAllowed`. -/
theorem Container.unfocusWidgets_focusAllowed {d : Dispatch} (hd : Frame d) (c : Widget)
    (h : FocusAllowed c) : FocusAllowed (Container.unfocusWidgets d c) := by
  rw [focusAllowed_iff_lists] at h ⊢
  rw [Container.unfocusWidgets_flags hd, Container.unfocusWidgets_fixed hd,
    Container.unfocusWidgets_bound]
  intro i b t hb ht hor
  have hbt : b = true := by
    rcases hor with hbt | hf
    · exact hbt
    · omega
  subst hbt
  by_cases hf : c.m_focusedWidget ≠ 0
  · rw [if_pos hf] at hb
    rcases List.getElem?_set_some hb with ⟨-, hcontra⟩ | ⟨-, hb3⟩
    · cases hcontra
    · exact h i true t hb3 ht (Or.inl rfl)
  · rw [if_neg hf] at hb
    exact h i true t hb ht (Or.inl rfl)

theorem Widget.focusableAt_allowFocus (c w : Widget) (j : Nat) (hj : c.focusableAt j = true)
    (hw : c.m_widgets[j]? = some w) : w.m_allowFocus = true := by
  obtain ⟨v, hv, hvf⟩ := (c.focusableAt_eq_true j).1 hj
  rw [hw] at hv
  cases hv
  unfold Widget.focusable at hvf
  simp only [Bool.and_eq_true] at hvf
  exact hvf.1

theorem Container.focusNextWidget_focusAllowed {d : Dispatch} (hd : Frame d) (c : Widget)
    (h : FocusAllowed c) : FocusAllowed (Container.focusNextWidget d c) := by
  unfold Container.focusNextWidget
  split
  · rename_i i hi
    exact Container.move_focusAllowed hd c i h
      (fun w hw => c.focusableAt_allowFocus w i ((firstUp_eq_some _ _ _ _).1 hi).2.2.1 hw)
  · split
    · rename_i hf
      split
      · rename_i i hi
        have := Container.move_focusAllowed hd c i h
          (fun w hw => c.focusableAt_allowFocus w i ((firstUp_eq_some _ _ _ _).1 hi).2.2.1 hw)
        rwa [if_pos hf] at this
      · exact h
    · exact h

theorem Container.focusPreviousWidget_focusAllowed {d : Dispatch} (hd : Frame d) (c : Widget)
    (h : FocusAllowed c) : FocusAllowed (Container.focusPreviousWidget d c) := by
  unfold Container.focusPreviousWidget
  split
  · rename_i i hi
    by_cases hf : c.m_focusedWidget ≠ 0
    · rw [if_pos hf] at hi
      have := Container.move_focusAllowed hd c i h
        (fun w hw => c.focusableAt_allowFocus w i ((firstDown_eq_some _ _ _ _).1 hi).2.2.1 hw)
      rwa [if_pos hf] at this
    · rw [if_neg hf] at hi
      cases hi
  · split
    · rename_i i hi
      exact Container.move_focusAllowed hd c i h
        (fun w hw => c.focusableAt_allowFocus w i ((firstDown_eq_some _ _ _ _).1 hi).2.2.1 hw)
    · exact h

theorem Container.tabKeyPressedSearch_focusAllowed {d : Dispatch} (hd : Frame d) (c : Widget)
    (h : FocusAllowed c) : FocusAllowed (Container.tabKeyPressedSearch d c).2 := by
  unfold Container.tabKeyPressedSearch
  split
  · rename_i i hi
    exact Container.move_focusAllowed hd c i h
      (fun w hw => c.focusableAt_allowFocus w i ((firstUp_eq_some _ _ _ _).1 hi).2.2.1 hw)
  · split
    · rename_i i hi
      by_cases hf : c.m_focusedWidget ≠ 0
      · rw [if_pos hf] at hi
        have := Container.move_focusAllowed hd c i h
          (fun w hw => c.focusableAt_allowFocus w i ((firstUp_eq_some _ _ _ _).1 hi).2.2.1 hw)
        rwa [if_pos hf] at this
      · rw [if_neg hf] at hi
        cases hi
    · split
      · exact (Widget.childCall_sameFocus hd _ _ c).focusAllowed h
      · exact h

theorem Container.tabKeyPressed_focusAllowed (env : Env) {d : Dispatch} (hd : Frame d)
    (c : Widget) (h : FocusAllowed c) : FocusAllowed (Container.tabKeyPressed env d c).2 := by
  unfold Container.tabKeyPressed
  split
  · exact h
  · split
    · split
      · exact (Widget.childCall_sameFocus hd _ _ c).focusAllowed h
      · exact Container.tabKeyPressedSearch_focusAllowed hd _
          ((Widget.childCall_sameFocus hd _ _ c).focusAllowed h)
    · exact Container.tabKeyPressedSearch_focusAllowed hd c h

end tgui


namespace tgui

theorem Widget.allowFocusPtr_congr {c r : Widget} (h : SameFocus c r) (p : Nat) :
    r.allowFocusPtr p = c.allowFocusPtr p := by
  have hm : r.m_widgets.map Widget.m_allowFocus = c.m_widgets.map Widget.m_allowFocus := by
    have := congrArg
      (List.map (fun (t : Nat × Bool × Bool × Bool × Bool × Bool × Bool × Bool) => t.2.1)) h.2.2
    simpa [Widget.fixed, List.map_map, Function.comp_def] using this
  unfold Widget.allowFocusPtr
  rw [Widget.indexOf_congr h.2.2, hm]

theorem Widget.allowFocusPtr_getElem? (c w : Widget) (p i : Nat)
    (h : c.allowFocusPtr p = true) (hi : c.indexOf p = some i) (hw : c.m_widgets[i]? = some w) :
    w.m_allowFocus = true := by
  unfold Widget.allowFocusPtr at h
  rw [hi] at h
  simp only [List.getElem?_map, hw, Option.map_some', Option.getD_some] at h
  exact h

theorem Container.focusWidget_focusAllowed {d : Dispatch} (hd : Frame d) (p : Nat) (c : Widget)
    (h : FocusAllowed c) (hp : c.allowFocusPtr p = true) :
    FocusAllowed (Container.focusWidget d p c) := by
  unfold Container.focusWidget
  split
  · rename_i i hi
    split
    · exact Container.move_focusAllowed hd c i h
        (fun w hw => c.allowFocusPtr_getElem? w p i hp hi hw)
    · exact h
  · exact h

theorem Container.handleEvent_press_focusAllowed (env : Env) {d : Dispatch} (hd : Frame d)
    (x y : Int) (c : Widget) (h : FocusAllowed c)
    (hp : ∀ p, (Container.mouseOnWhichWidget d x y c).1 = some p → c.allowFocusPtr p = true) :
    FocusAllowed (Container.handleEvent env d (.MouseButtonPressed Mouse.Left x y) c).2 := by
  have hs := Container.mouseOnWhichWidget_sameFocus hd x y c
  cases hmo : Container.mouseOnWhichWidget d x y c with
  | mk found c1 =>
    rw [hmo] at hs hp
    have h1 : FocusAllowed c1 := hs.focusAllowed h
    cases found with
    | none =>
      simp only [Container.handleEvent, hmo, if_true]
      exact Container.unfocusWidgets_focusAllowed hd c1 h1
    | some p =>
      simp only [Container.handleEvent, hmo, if_true]
      have hp1 : c1.allowFocusPtr p = true := by
        rw [Widget.allowFocusPtr_congr hs]; exact hp p rfl
      have h2 := Container.focusWidget_focusAllowed hd p c1 h1 hp1
      refine (Widget.ptrCall_sameFocus hd _ _ _).focusAllowed ?_
      split
      · rename_i hc
        have e : (Container.unfocusCurrent d (Container.focusWidget d p c1)).setFocusedWidget 0 =
            Container.unfocusWidgets d (Container.focusWidget d p c1) := by
          unfold Container.unfocusWidgets
          rw [if_pos hc.2.1]
        rw [e]
        exact Container.unfocusWidgets_focusAllowed hd _ h2
      · exact h2

theorem Container.handleEvent_focusAllowed (env : Env) {d : Dispatch} (hd : Frame d)
    (event : Event) (c : Widget) (h : FocusAllowed c)
    (hask : Container.asksAllowed d c (.handleEvent event) = true) :
    FocusAllowed (Container.handleEvent env d event c).2 := by
  have hs := fun x y => Container.mouseOnWhichWidget_sameFocus hd x y c
  cases event with
  | MouseMoved x y =>
    simp only [Container.handleEvent]
    split
    · exact (Widget.childCall_sameFocus hd _ _ c).focusAllowed h
    · cases hmo : Container.mouseOnWhichWidget d x y c with
      | mk found c1 =>
        have hs1 := hs x y
        rw [hmo] at hs1
        cases found with
        | none => exact hs1.focusAllowed h
        | some p =>
          exact (Widget.ptrCall_sameFocus hd _ _ _).focusAllowed (hs1.focusAllowed h)
  | MouseButtonPressed button x y =>
    by_cases hb : button = Mouse.Left
    · subst hb
      apply Container.handleEvent_press_focusAllowed env hd x y c h
      intro p hp
      simp only [Container.asksAllowed, if_true, hp] at hask
      exact hask
    · simp only [Container.handleEvent, if_neg hb]
      exact h
  | MouseButtonReleased button x y =>
    simp only [Container.handleEvent]
    split
    · cases hmo : Container.mouseOnWhichWidget d x y c with
      | mk found c1 =>
        have hs1 := hs x y
        rw [hmo] at hs1
        cases found with
        | none =>
          exact (Container.mouseNoLongerDownOthers_sameFocus hd _ _ _ _).focusAllowed
            (hs1.focusAllowed h)
        | some p =>
          exact (Container.mouseNoLongerDownOthers_sameFocus hd _ _ _ _).focusAllowed
            ((Widget.ptrCall_sameFocus hd _ _ _).focusAllowed (hs1.focusAllowed h))
    · exact h
  | KeyPressed key =>
    simp only [Container.handleEvent]
    split
    · split
      · exact (Widget.childCall_sameFocus hd _ _ c).focusAllowed h
      · exact h
    · exact h
  | KeyReleased key =>
    simp only [Container.handleEvent]
    split
    · exact Container.tabKeyPressed_focusAllowed env hd c h
    · exact h
  | TextEntered unicode =>
    simp only [Container.handleEvent]
    split
    · split
      · exact (Widget.childCall_sameFocus hd _ _ c).focusAllowed h
      · exact h
    · exact h
  | MouseWheelMoved delta x y =>
    simp only [Container.handleEvent]
    cases hmo : Container.mouseOnWhichWidget d x y c with
    | mk found c1 =>
      have hs1 := hs x y
      rw [hmo] at hs1
      cases found with
      | none => exact hs1.focusAllowed h
      | some p =>
        exact (Widget.ptrCall_sameFocus hd _ _ _).focusAllowed (hs1.focusAllowed h)
  | Other => exact h

/-- One call that does not ask for the focus of a child that does not allow focus keeps
`FocusAllowed`. -/
theorem Container.perform_focusAllowed (env : Env) {d : Dispatch} (hd : Frame d)
    (op : FocusOp) (c : Widget) (h : FocusAllowed c)
    (hask : Container.asksAllowed d c op = true) :
    FocusAllowed (Container.perform env d op c) := by
  cases op with
  | focusWidget p =>
    exact Container.focusWidget_focusAllowed hd p c h (by simpa [Container.asksAllowed] using hask)
  | focusNextWidget => exact Container.focusNextWidget_focusAllowed hd c h
  | focusPreviousWidget => exact Container.focusPreviousWidget_focusAllowed hd c h
  | tabKeyPressed => exact Container.tabKeyPressed_focusAllowed env hd c h
  | handleEvent event => exact Container.handleEvent_focusAllowed env hd event c h hask

theorem Container.performAll_focusAllowed (env : Env) {d : Dispatch} (hd : Frame d)
    (ops : List FocusOp) (c : Widget) (h : FocusAllowed c)
    (hask : Container.allAsksAllowed env d ops c = true) :
    FocusAllowed (Container.performAll env d ops c) := by
  induction ops generalizing c with
  | nil => exact h
  | cons op ops ih =>
    simp only [Container.allAsksAllowed, Bool.and_eq_true] at hask
    exact ih _ (Container.perform_focusAllowed env hd op c h hask.1) hask.2

end tgui


namespace tgui

end tgui


namespace tgui

/-! ### Valid states are kept -/

theorem Widget.addresses_eq (w : Widget) :
    w.addresses = w.ptr :: addressesList w.m_widgets := by
  cases w
  simp [Widget.addresses, Widget.ptr, Widget.base, Widget.m_widgets]

theorem Widget.inRange_eq (w : Widget) :
    w.inRange =
      (decide (w.m_focusedWidget ≤ w.m_widgets.length) && inRangeList w.m_widgets) := by
  cases w
  simp [Widget.inRange, Widget.m_focusedWidget, Widget.m_widgets]

theorem addressesList_cons (w : Widget) (ws : List Widget) :
    addressesList (w :: ws) = w.addresses ++ addressesList ws := by
  rw [addressesList]

theorem inRangeList_iff (ws : List Widget) :
    inRangeList ws = true ↔ ∀ w ∈ ws, w.inRange = true := by
  induction ws with
  | nil => simp [inRangeList]
  | cons w ws ih => simp [inRangeList, ih]

theorem addressesList_congr (l1 l2 : List Widget) (hlen : l2.length = l1.length)
    (h : ∀ (i : Nat) (w v : Widget), l1[i]? = some w → l2[i]? = some v →
      v.addresses = w.addresses) :
    addressesList l2 = addressesList l1 := by
  induction l1 generalizing l2 with
  | nil =>
    cases l2 with
    | nil => rfl
    | cons v l2 => simp at hlen
  | cons w l1 ih =>
    cases l2 with
    | nil => simp at hlen
    | cons v l2 =>
      rw [addressesList_cons, addressesList_cons, h 0 w v (by simp) (by simp),
        ih l2 (by simpa using hlen)
          (fun i a b ha hb => h (i + 1) a b (by simpa using ha) (by simpa using hb))]

theorem Widget.ptrs_sublist (ws : List Widget) :
    (ws.map Widget.ptr).Sublist (addressesList ws) := by
  induction ws with
  | nil => simp [addressesList]
  | cons w ws ih =>
    rw [addressesList_cons, Widget.addresses_eq, List.map_cons, List.cons_append]
    exact List.Sublist.cons₂ _ ((ih.trans (List.sublist_append_right _ _)))

theorem Widget.valid_bound {c : Widget} (h : c.valid) :
    c.m_focusedWidget ≤ c.m_widgets.length := by
  have := h.1
  rw [Widget.inRange_eq] at this
  simp only [Bool.and_eq_true, decide_eq_true_eq] at this
  exact this.1

theorem Widget.valid_nodup {c : Widget} (h : c.valid) : c.ptrs.Nodup := by
  have := h.2
  rw [Widget.addresses_eq, List.nodup_cons] at this
  exact this.2.sublist (Widget.ptrs_sublist _)

/-- In a valid state a non-zero focus index designates a child: the element
`m_widgets[m_focusedWidget-1]` that the source reads exists. -/
theorem Widget.valid_focused {c : Widget} (h : c.valid) (hf : c.m_focusedWidget ≠ 0) :
    ∃ w, c.m_widgets[c.m_focusedWidget - 1]? = some w := by
  have hb := Widget.valid_bound h
  have hlt : c.m_focusedWidget - 1 < c.m_widgets.length := by omega
  exact ⟨c.m_widgets[c.m_focusedWidget - 1], List.getElem?_eq_getElem hlt⟩

theorem evolved_refl (w : Widget) : w.Evolved w := ⟨rfl, id⟩

theorem evolved_trans {a b c : Widget} (h1 : a.Evolved b) (h2 : b.Evolved c) : a.Evolved c :=
  ⟨h2.1.trans h1.1, fun h => h2.2 (h1.2 h)⟩

theorem Widget.evolved_setFocused (v : Bool) (w : Widget) : w.Evolved (w.setFocused v) := by
  cases w
  exact ⟨rfl, id⟩

theorem Widget.evolved_record (k : Call) (w : Widget) : w.Evolved (w.record k) := by
  cases w
  exact ⟨rfl, id⟩

theorem Widget.Evolved.valid {c r : Widget} (h : c.Evolved r) (hv : c.valid) : r.valid :=
  ⟨h.2 hv.1, by rw [h.1]; exact hv.2⟩

theorem kept_refl (c : Widget) : c.Kept c :=
  ⟨rfl, fun _ w hw => ⟨w, hw, evolved_refl w⟩, id⟩

theorem kept_trans {a b c : Widget} (h1 : a.Kept b) (h2 : b.Kept c) : a.Kept c := by
  refine ⟨h2.1.trans h1.1, fun i w hw => ?_, fun h => h2.2.2 (h1.2.2 h)⟩
  obtain ⟨v, hv, e1⟩ := h1.2.1 i w hw
  obtain ⟨u, hu, e2⟩ := h2.2.1 i v hv
  exact ⟨u, hu, evolved_trans e1 e2⟩

/-- A container whose children have been changed at one index by a function that leaves a
widget in a later state of itself, and whose focus index stays within the list. -/
theorem Widget.kept_of_modify (c r : Widget) (g : Widget → Widget) (i : Nat)
    (hg : ∀ w : Widget, w.Evolved (g w)) (hw : r.m_widgets = c.m_widgets.modify g i)
    (hf : c.m_focusedWidget ≤ c.m_widgets.length → r.m_focusedWidget ≤ c.m_widgets.length) :
    c.Kept r := by
  refine ⟨by rw [hw, List.length_modify], fun k w hk => ?_, fun h => ?_⟩
  · rw [hw, List.getElem?_modify, hk]
    by_cases hik : i = k
    · exact ⟨g w, by simp [hik], hg w⟩
    · exact ⟨w, by simp [hik], evolved_refl w⟩
  · rw [hw, List.length_modify]
    exact hf h

/-- A later state of a container, from later states of its children. -/
theorem Widget.Kept.evolved {c r : Widget} (h : c.Kept r) (hp : r.ptr = c.ptr) :
    c.Evolved r := by
  constructor
  · rw [Widget.addresses_eq, Widget.addresses_eq, hp]
    congr 1
    apply addressesList_congr _ _ h.1
    intro i w v hw hv
    obtain ⟨u, hu, e⟩ := h.2.1 i w hw
    rw [hv] at hu
    cases hu
    exact e.1
  · intro hin
    rw [Widget.inRange_eq] at hin ⊢
    simp only [Bool.and_eq_true, decide_eq_true_eq] at hin ⊢
    refine ⟨h.2.2 hin.1, ?_⟩
    rw [inRangeList_iff] at hin ⊢
    intro v hv
    obtain ⟨i, hil, hiv⟩ := List.getElem_of_mem hv
    have hil2 : i < c.m_widgets.length := by rw [← h.1]; exact hil
    obtain ⟨u, hu, e⟩ := h.2.1 i _ (List.getElem?_eq_getElem hil2)
    rw [List.getElem?_eq_getElem hil, hiv] at hu
    cases hu
    exact e.2 (hin.2 _ (List.getElem_mem hil2))

theorem Widget.ptr_of_self {c r : Widget} (h : r.self = c.self) : r.ptr = c.ptr := by
  simp only [Widget.self, Prod.mk.injEq] at h
  exact Widget.ptr_of_base h.1

end tgui


namespace tgui

theorem Widget.childCall_kept {d : Dispatch} (hk : KeepsValid d) (i : Nat) (k : Call)
    (c : Widget) : c.Kept (c.childCall d i k).2 :=
  Widget.kept_of_modify c _ (fun w => (d k w).2) i (fun w => hk k w)
    (Widget.childCall_widgets d i k c) (fun h => by simpa using h)

theorem Widget.ptrCall_kept {d : Dispatch} (hk : KeepsValid d) (p : Nat) (k : Call)
    (c : Widget) : c.Kept (c.ptrCall d p k).2 := by
  unfold Widget.ptrCall
  split
  · exact Widget.childCall_kept hk _ k c
  · exact kept_refl c

theorem Container.unfocusCurrent_kept {d : Dispatch} (hk : KeepsValid d) (c : Widget) :
    c.Kept (Container.unfocusCurrent d c) :=
  Widget.kept_of_modify c _ (fun w => (d .widgetUnfocused (w.setFocused false)).2) _
    (fun w => evolved_trans (w.evolved_setFocused false) (hk _ _))
    (Container.unfocusCurrent_widgets d c) (fun h => by simpa using h)

theorem Container.focusChild_kept {d : Dispatch} (hk : KeepsValid d) (i : Nat) (c : Widget)
    (hi : i < c.m_widgets.length) : c.Kept (Container.focusChild d i c) :=
  Widget.kept_of_modify c _ (fun w => (d .widgetFocused (w.setFocused true)).2) _
    (fun w => evolved_trans (w.evolved_setFocused true) (hk _ _))
    (Container.focusChild_widgets d i c)
    (fun _ => by rw [Container.focusChild_focusedWidget]; omega)

theorem Widget.setFocusedWidget_zero_kept (c : Widget) : c.Kept (c.setFocusedWidget 0) :=
  ⟨by simp, fun _ w hw => ⟨w, by simpa using hw, evolved_refl w⟩, fun _ => by simp⟩

theorem Container.unfocusWidgets_kept {d : Dispatch} (hk : KeepsValid d) (c : Widget) :
    c.Kept (Container.unfocusWidgets d c) := by
  unfold Container.unfocusWidgets
  split
  · exact kept_trans (Container.unfocusCurrent_kept hk c) (Widget.setFocusedWidget_zero_kept _)
  · exact kept_refl c

theorem Container.move_kept {d : Dispatch} (hk : KeepsValid d) (c : Widget) (i : Nat)
    (hi : i < c.m_widgets.length) :
    c.Kept (Container.focusChild d i
      (if c.m_focusedWidget ≠ 0 then Container.unfocusCurrent d c else c)) := by
  split
  · have h1 := Container.unfocusCurrent_kept hk c
    exact kept_trans h1 (Container.focusChild_kept hk i _ (by rw [h1.1]; exact hi))
  · exact Container.focusChild_kept hk i c hi

theorem Container.focusWidget_kept {d : Dispatch} (hk : KeepsValid d) (p : Nat) (c : Widget) :
    c.Kept (Container.focusWidget d p c) := by
  unfold Container.focusWidget
  split
  · rename_i i hi
    split
    · exact Container.move_kept hk c i (c.indexOf_lt p i hi)
    · exact kept_refl c
  · exact kept_refl c

theorem Container.focusNextWidget_kept {d : Dispatch} (hk : KeepsValid d) (c : Widget) :
    c.Kept (Container.focusNextWidget d c) := by
  unfold Container.focusNextWidget
  split
  · rename_i i hi
    exact Container.move_kept hk c i (c.focusableAt_lt i ((firstUp_eq_some _ _ _ _).1 hi).2.2.1)
  · split
    · rename_i hf
      split
      · rename_i i hi
        have := Container.move_kept hk c i
          (c.focusableAt_lt i ((firstUp_eq_some _ _ _ _).1 hi).2.2.1)
        rwa [if_pos hf] at this
      · exact kept_refl c
    · exact kept_refl c

theorem Container.focusPreviousWidget_kept {d : Dispatch} (hk : KeepsValid d) (c : Widget) :
    c.Kept (Container.focusPreviousWidget d c) := by
  unfold Container.focusPreviousWidget
  split
  · rename_i i hi
    by_cases hf : c.m_focusedWidget ≠ 0
    · rw [if_pos hf] at hi
      have := Container.move_kept hk c i
        (c.focusableAt_lt i ((firstDown_eq_some _ _ _ _).1 hi).2.2.1)
      rwa [if_pos hf] at this
    · rw [if_neg hf] at hi
      cases hi
  · split
    · rename_i i hi
      exact Container.move_kept hk c i
        (c.focusableAt_lt i ((firstDown_eq_some _ _ _ _).1 hi).2.2.1)
    · exact kept_refl c

theorem Container.mouseOnWhichWidgetLoop_kept {d : Dispatch} (hk : KeepsValid d) (x y : Int)
    (n : Nat) (found : Option Nat) (c : Widget) :
    c.Kept (Container.mouseOnWhichWidgetLoop d x y n found c).2 := by
  induction n generalizing found c with
  | zero => exact kept_refl c
  | succ n ih =>
    unfold Container.mouseOnWhichWidgetLoop
    split
    · exact ih _ _
    · split
      · split
        · split
          · exact kept_trans (Widget.childCall_kept hk _ _ c) (ih _ _)
          · exact kept_trans (Widget.childCall_kept hk _ _ c) (ih _ _)
        · exact kept_trans (Widget.childCall_kept hk _ _ c) (ih _ _)
      · exact ih _ _

theorem Container.mouseOnWhichWidget_kept {d : Dispatch} (hk : KeepsValid d) (x y : Int)
    (c : Widget) : c.Kept (Container.mouseOnWhichWidget d x y c).2 :=
  Container.mouseOnWhichWidgetLoop_kept hk x y _ _ c

theorem Container.callAll_kept {d : Dispatch} (hk : KeepsValid d) (k : Call) (n lo : Nat)
    (c : Widget) : c.Kept (Container.callAll d k n lo c) := by
  induction n generalizing lo c with
  | zero => exact kept_refl c
  | succ n ih =>
    unfold Container.callAll
    exact kept_trans (Widget.childCall_kept hk _ _ c) (ih _ _)

theorem Container.mouseNoLongerDownOthers_kept {d : Dispatch} (hk : KeepsValid d)
    (widget : Option Nat) (n lo : Nat) (c : Widget) :
    c.Kept (Container.mouseNoLongerDownOthers d widget n lo c) := by
  induction n generalizing lo c with
  | zero => exact kept_refl c
  | succ n ih =>
    unfold Container.mouseNoLongerDownOthers
    split
    · exact ih _ _
    · exact kept_trans (Widget.childCall_kept hk _ _ c) (ih _ _)

theorem Widget.focusableAt_lt_of_kept {c r : Widget} (h : c.Kept r) (i : Nat)
    (hi : i < c.m_widgets.length) : i < r.m_widgets.length := by
  rw [h.1]; exact hi

theorem Container.focusNextWidgetInContainerLoop_kept {d : Dispatch} (hk : KeepsValid d)
    (n i : Nat) (c : Widget) :
    c.Kept (Container.focusNextWidgetInContainerLoop d n i c).2 := by
  induction n generalizing i c with
  | zero =>
    simp only [Container.focusNextWidgetInContainerLoop]
    exact Container.unfocusWidgets_kept hk c
  | succ n ih =>
    unfold Container.focusNextWidgetInContainerLoop
    by_cases hp : c.focusableAt i = true
    · have hil := c.focusableAt_lt i hp
      rw [if_pos hp]
      split
      · split
        · exact kept_trans (Container.unfocusCurrent_kept hk c)
            (Container.focusChild_kept hk i _ (by simpa using hil))
        · exact Container.focusChild_kept hk i c hil
      · have h1 := Widget.childCall_kept hk i .focusNextWidgetInContainer c
        split
        · split
          · exact kept_trans h1 (kept_trans (Container.unfocusCurrent_kept hk _)
              (Container.focusChild_kept hk i _ (by simpa using hil)))
          · exact kept_trans h1 (Container.focusChild_kept hk i _ (by simpa using hil))
        · exact kept_trans h1 (ih _ _)
    · rw [if_neg hp]
      exact ih _ _

theorem Container.focusNextWidgetInContainer_kept (env : Env) {d : Dispatch}
    (hk : KeepsValid d) (c : Widget) :
    c.Kept (Container.focusNextWidgetInContainer env d c).2 := by
  unfold Container.focusNextWidgetInContainer
  split
  · exact kept_refl c
  · exact Container.focusNextWidgetInContainerLoop_kept hk _ _ c

theorem Container.tabKeyPressedSearch_kept {d : Dispatch} (hk : KeepsValid d) (c : Widget) :
    c.Kept (Container.tabKeyPressedSearch d c).2 := by
  unfold Container.tabKeyPressedSearch
  split
  · rename_i i hi
    exact Container.move_kept hk c i (c.focusableAt_lt i ((firstUp_eq_some _ _ _ _).1 hi).2.2.1)
  · split
    · rename_i i hi
      by_cases hf : c.m_focusedWidget ≠ 0
      · rw [if_pos hf] at hi
        have := Container.move_kept hk c i
          (c.focusableAt_lt i ((firstUp_eq_some _ _ _ _).1 hi).2.2.1)
        rwa [if_pos hf] at this
      · rw [if_neg hf] at hi
        cases hi
    · split
      · exact Widget.childCall_kept hk _ _ c
      · exact kept_refl c

theorem Container.tabKeyPressed_kept (env : Env) {d : Dispatch} (hk : KeepsValid d)
    (c : Widget) : c.Kept (Container.tabKeyPressed env d c).2 := by
  unfold Container.tabKeyPressed
  split
  · exact kept_refl c
  · split
    · split
      · exact Widget.childCall_kept hk _ _ c
      · exact kept_trans (Widget.childCall_kept hk _ _ c)
          (Container.tabKeyPressedSearch_kept hk _)
    · exact Container.tabKeyPressedSearch_kept hk c

end tgui


namespace tgui

theorem Container.handleEvent_kept (env : Env) {d : Dispatch} (hk : KeepsValid d)
    (event : Event) (c : Widget) : c.Kept (Container.handleEvent env d event c).2 := by
  have hm := fun x y => Container.mouseOnWhichWidget_kept hk x y c
  cases event with
  | MouseMoved x y =>
    simp only [Container.handleEvent]
    split
    · exact Widget.childCall_kept hk _ _ c
    · split
      · rename_i widget c1 h1
        have := hm x y
        rw [h1] at this
        exact kept_trans this (Widget.ptrCall_kept hk _ _ _)
      · rename_i c1 h1
        have := hm x y
        rw [h1] at this
        exact this
  | MouseButtonPressed button x y =>
    simp only [Container.handleEvent]
    split
    · split
      · rename_i widget c1 h1
        have := hm x y
        rw [h1] at this
        refine kept_trans this (kept_trans (Container.focusWidget_kept hk widget c1) ?_)
        refine kept_trans ?_ (Widget.ptrCall_kept hk _ _ _)
        split
        · exact kept_trans (Container.unfocusCurrent_kept hk _)
            (Widget.setFocusedWidget_zero_kept _)
        · exact kept_refl _
      · rename_i c1 h1
        have := hm x y
        rw [h1] at this
        exact kept_trans this (Container.unfocusWidgets_kept hk _)
    · exact kept_refl c
  | MouseButtonReleased button x y =>
    simp only [Container.handleEvent]
    split
    · split
      · rename_i widget c1 h1
        have := hm x y
        rw [h1] at this
        exact kept_trans this (kept_trans (Widget.ptrCall_kept hk _ _ _)
          (Container.mouseNoLongerDownOthers_kept hk _ _ _ _))
      · rename_i c1 h1
        have := hm x y
        rw [h1] at this
        exact kept_trans this (Container.mouseNoLongerDownOthers_kept hk _ _ _ _)
    · exact kept_refl c
  | KeyPressed key =>
    simp only [Container.handleEvent]
    split
    · split
      · exact Widget.childCall_kept hk _ _ c
      · exact kept_refl c
    · exact kept_refl c
  | KeyReleased key =>
    simp only [Container.handleEvent]
    split
    · exact Container.tabKeyPressed_kept env hk c
    · exact kept_refl c
  | TextEntered unicode =>
    simp only [Container.handleEvent]
    split
    · split
      · exact Widget.childCall_kept hk _ _ c
      · exact kept_refl c
    · exact kept_refl c
  | MouseWheelMoved delta x y =>
    simp only [Container.handleEvent]
    split
    · rename_i widget c1 h1
      have := hm x y
      rw [h1] at this
      exact kept_trans this (Widget.ptrCall_kept hk _ _ _)
    · rename_i c1 h1
      have := hm x y
      rw [h1] at this
      exact this
  | Other => exact kept_refl c

theorem Container.method_kept (env : Env) {d : Dispatch} (hk : KeepsValid d) (call : Call)
    (c : Widget) : c.Kept (Container.method env d call c).2 := by
  cases call with
  | widgetFocused => exact kept_refl c
  | widgetUnfocused => exact Container.unfocusWidgets_kept hk c
  | mouseOnWidget x y => exact kept_refl c
  | mouseNotOnWidget =>
    simp only [Container.method]
    split
    · exact Container.callAll_kept hk _ _ _ c
    · exact kept_refl c
  | mouseNoLongerDown => exact Container.callAll_kept hk _ _ _ c
  | mouseMoved x y => exact Container.handleEvent_kept env hk _ c
  | leftMousePressed x y => exact Container.handleEvent_kept env hk _ c
  | leftMouseReleased x y => exact Container.handleEvent_kept env hk _ c
  | keyPressed key => exact Container.handleEvent_kept env hk _ c
  | textEntered unicode => exact Container.handleEvent_kept env hk _ c
  | mouseWheelMoved delta x y => exact Container.handleEvent_kept env hk _ c
  | focusNextWidgetInContainer => exact Container.focusNextWidgetInContainer_kept env hk c
  | tabKeyPressed => exact Container.tabKeyPressed_kept env hk c
  | initialise => exact kept_refl c

theorem leafMethod_evolved (env : Env) (call : Call) (w : Widget) :
    w.Evolved (leafMethod env call w).2 := by
  cases call <;> exact w.evolved_record _

/-- Every member call resolved by `invoke env n` leaves the widget that receives it a later
state of itself: the addresses in its tree are the same and the focus indices stay within
their lists. -/
theorem invoke_keepsValid (env : Env) (n : Nat) : KeepsValid (invoke env n) := by
  induction n with
  | zero => exact fun call w => leafMethod_evolved env call w
  | succ n ih =>
    intro call w
    simp only [invoke]
    split
    · refine evolved_trans (w.evolved_record call) ?_
      exact Widget.Kept.evolved (Container.method_kept env ih call _)
        (Widget.ptr_of_self (Container.self_method env _ call _))
    · exact leafMethod_evolved env call w

end tgui


namespace tgui

/-! ### The operations keep a valid state valid -/

theorem Widget.valid_of_kept {c r : Widget} (h : c.Kept r) (hs : r.self = c.self)
    (hv : c.valid) : r.valid :=
  (Widget.Kept.evolved h (Widget.ptr_of_self hs)).valid hv

theorem addressesList_sublist {l1 l2 : List Widget} (h : l1.Sublist l2) :
    (addressesList l1).Sublist (addressesList l2) := by
  induction h with
  | slnil => exact List.Sublist.refl _
  | cons a _ ih =>
    rw [addressesList_cons]
    exact ih.trans (List.sublist_append_right _ _)
  | cons₂ a _ ih =>
    rw [addressesList_cons, addressesList_cons]
    exact List.Sublist.append (List.Sublist.refl _) ih

theorem Container.self_focusNextWidget (d : Dispatch) (c : Widget) :
    (Container.focusNextWidget d c).self = c.self := by
  unfold Container.focusNextWidget
  split
  · split <;> simp
  · split
    · split <;> simp
    · rfl

theorem Container.self_focusPreviousWidget (d : Dispatch) (c : Widget) :
    (Container.focusPreviousWidget d c).self = c.self := by
  unfold Container.focusPreviousWidget
  split
  · simp
  · split
    · split <;> simp
    · rfl

theorem Container.focusWidget_valid (env : Env) (n : Nat) (widget : Nat) (c : Widget)
    (hv : c.valid) : (Container.focusWidget (invoke env n) widget c).valid :=
  Widget.valid_of_kept (Container.focusWidget_kept (invoke_keepsValid env n) widget c)
    (Container.self_focusWidget _ _ _) hv

theorem Container.focusNextWidget_valid (env : Env) (n : Nat) (c : Widget)
    (hv : c.valid) : (Container.focusNextWidget (invoke env n) c).valid :=
  Widget.valid_of_kept (Container.focusNextWidget_kept (invoke_keepsValid env n) c)
    (Container.self_focusNextWidget _ _) hv

theorem Container.focusPreviousWidget_valid (env : Env) (n : Nat) (c : Widget)
    (hv : c.valid) : (Container.focusPreviousWidget (invoke env n) c).valid :=
  Widget.valid_of_kept (Container.focusPreviousWidget_kept (invoke_keepsValid env n) c)
    (Container.self_focusPreviousWidget _ _) hv

theorem Container.unfocusWidgets_valid (env : Env) (n : Nat) (c : Widget)
    (hv : c.valid) : (Container.unfocusWidgets (invoke env n) c).valid :=
  Widget.valid_of_kept (Container.unfocusWidgets_kept (invoke_keepsValid env n) c)
    (Container.self_unfocusWidgets _ _) hv

theorem Container.handleEvent_valid (env : Env) (n : Nat) (event : Event) (c : Widget)
    (hv : c.valid) : (Container.handleEvent env (invoke env n) event c).2.valid :=
  Widget.valid_of_kept (Container.handleEvent_kept env (invoke_keepsValid env n) event c)
    (Container.self_handleEvent _ _ _ _) hv

theorem Container.tabKeyPressed_valid (env : Env) (n : Nat) (c : Widget)
    (hv : c.valid) : (Container.tabKeyPressed env (invoke env n) c).2.valid :=
  Widget.valid_of_kept (Container.tabKeyPressed_kept env (invoke_keepsValid env n) c)
    (Container.self_tabKeyPressed _ _ _) hv

theorem releaseKey_iterate_valid (env : Env) (m : Nat) (key : KeyEvent) (n : Nat)
    (c : Widget) (hv : c.valid) : (Nat.iterate (releaseKey env m key) n c).valid := by
  induction n generalizing c with
  | zero => exact hv
  | succ n ih =>
    rw [Function.iterate_succ_apply]
    exact ih _ (Container.handleEvent_valid env m _ c hv)

theorem Container.remove_valid (env : Env) (n : Nat) (widget : Nat) (c : Widget)
    (hv : c.valid) : (Container.remove (invoke env n) widget c).valid := by
  cases hidx : c.indexOf widget with
  | none => rw [Container.remove_none _ c widget hidx]; exact hv
  | some i =>
    have hl := (Container.remove_lists (d := invoke env n) c widget i hidx).1
    have hb := Container.remove_bound (invoke env n) widget c (Widget.valid_bound hv)
    have hp : (Container.remove (invoke env n) widget c).ptr = c.ptr := by
      unfold Container.remove
      rw [hidx]
      simp only
      split
      · exact Widget.ptr_of_self (by simp)
      · split
        · exact Widget.ptr_of_self (by simp)
        · exact Widget.ptr_of_self (by simp)
    have hsub : (c.m_widgets.eraseIdx i).Sublist c.m_widgets := List.eraseIdx_sublist _ _
    have hin := hv.1
    have had := hv.2
    rw [Widget.inRange_eq, Bool.and_eq_true, decide_eq_true_eq, inRangeList_iff] at hin
    rw [Widget.addresses_eq, List.nodup_cons] at had
    refine ⟨?_, ?_⟩
    · rw [Widget.inRange_eq, Bool.and_eq_true, decide_eq_true_eq, inRangeList_iff, hl]
      exact ⟨by rw [← hl]; exact hb, fun w hw => hin.2 w (hsub.subset hw)⟩
    · rw [Widget.addresses_eq, hp, hl, List.nodup_cons]
      exact ⟨fun hm => had.1 ((addressesList_sublist hsub).subset hm),
        had.2.sublist (addressesList_sublist hsub)⟩

end tgui


namespace tgui

/-! ### The focus functions on valid states -/

/-- C1. Single-focus invariant. Let `c` be a valid container (at every level the focus
index is within the list of children, and all widgets are distinct objects) whose children
are pairwise distinct and in which a child has `m_focused` set exactly when it is the child
at index `m_focusedWidget-1` (no child when `m_focusedWidget = 0`). Then the same holds
after each of `focusWidget`, `focusNextWidget`, `focusPreviousWidget`, `unfocusWidgets` and
`remove` (with any argument), and the resulting container is valid again; so in each
resulting container at most one child is focused and it is the one that `m_focusedWidget`
designates. -/
theorem C1_single_focus_invariant (env : Env) (n : Nat) (c : Widget) (widget : Nat)
    (h : SingleFocus c) (hv : c.valid) :
    ∀ r ∈ [Container.focusWidget (invoke env n) widget c,
        Container.focusNextWidget (invoke env n) c,
        Container.focusPreviousWidget (invoke env n) c,
        Container.unfocusWidgets (invoke env n) c,
        Container.remove (invoke env n) widget c],
      SingleFocus r ∧ r.valid ∧
        ∀ i j, r.flags[i]? = some true → r.flags[j]? = some true →
          i = j ∧ r.m_focusedWidget = i + 1 := by
  have hs := Container.singleFocus_preserved env n c widget h
  intro r hr
  refine ⟨?_, ?_, hs.2 r hr⟩
  · simp only [List.mem_cons, List.mem_singleton, List.not_mem_nil, or_false] at hr
    rcases hr with rfl | rfl | rfl | rfl | rfl
    · exact hs.1.1
    · exact hs.1.2.1
    · exact hs.1.2.2.1
    · exact hs.1.2.2.2.1
    · exact hs.1.2.2.2.2
  · simp only [List.mem_cons, List.mem_singleton, List.not_mem_nil, or_false] at hr
    rcases hr with rfl | rfl | rfl | rfl | rfl
    · exact Container.focusWidget_valid env n widget c hv
    · exact Container.focusNextWidget_valid env n c hv
    · exact Container.focusPreviousWidget_valid env n c hv
    · exact Container.unfocusWidgets_valid env n c hv
    · exact Container.remove_valid env n widget c hv

/-- Witness of C1 on the sample window, a valid state whose second child is focused: the
invariant holds before and after focusing or removing the panel at address 3, and the
window is valid after focusing it. -/
theorem C1_single_focus_invariant_witness :
    SingleFocus sampleWindow ∧ sampleWindow.valid ∧
      SingleFocus (Container.focusWidget (invoke sampleEnv 2) 3 sampleWindow) ∧
      (Container.focusWidget (invoke sampleEnv 2) 3 sampleWindow).valid ∧
      SingleFocus (Container.remove (invoke sampleEnv 2) 3 sampleWindow) :=
  have hs : SingleFocus sampleWindow := (singleFocus_iff _).2 (by decide)
  have hv : sampleWindow.valid := ⟨by decide, by decide⟩
  ⟨hs, hv,
    (C1_single_focus_invariant sampleEnv 2 sampleWindow 3 hs hv _ (by simp)).1,
    (C1_single_focus_invariant sampleEnv 2 sampleWindow 3 hs hv _ (by simp)).2.1,
    (C1_single_focus_invariant sampleEnv 2 sampleWindow 3 hs hv
      (Container.remove (invoke sampleEnv 2) 3 sampleWindow) (by simp)).1⟩

/-- C2. Let `c` be a valid container (at every level the focus index is within the list of
children, and all widgets are distinct objects) that satisfies the single-focus invariant,
and let `widget` be the child at index `i`. After `focusWidget(widget)` the focus index is
`i+1`, the child at `i` has `m_focused` set, and the previously focused child, if it is
another child `j`, has `m_focused` cleared; if `widget` was already the focused child the
container is unchanged. The resulting container is valid. -/
theorem C2_focusWidget (env : Env) (n : Nat) (c : Widget) (widget i : Nat)
    (h : SingleFocus c) (hv : c.valid) (hw : c.ptrs[i]? = some widget) :
    (Container.focusWidget (invoke env n) widget c).m_focusedWidget = i + 1 ∧
    (Container.focusWidget (invoke env n) widget c).flags[i]? = some true ∧
    (∀ j, c.m_focusedWidget = j + 1 → j ≠ i →
      (Container.focusWidget (invoke env n) widget c).flags[j]? = some false) ∧
    (c.m_focusedWidget = i + 1 → Container.focusWidget (invoke env n) widget c = c) ∧
    (Container.focusWidget (invoke env n) widget c).valid := by
  have hfirst : ∀ k, k < i → c.ptrs[k]? ≠ some widget := by
    intro k hk hkp
    obtain ⟨hjl, hje⟩ := List.getElem?_eq_some_iff.1 hw
    obtain ⟨hkl, hke⟩ := List.getElem?_eq_some_iff.1 hkp
    have := (List.Nodup.getElem_inj_iff (Widget.valid_nodup hv)).1 (hke.trans hje.symm)
    omega
  have hm := Container.focusWidget_moves env n c widget i h hw hfirst
  have hb := Widget.valid_bound hv
  exact ⟨hm.1, hm.2.1, fun j hj hji => hm.2.2.1 j hj hji (by omega), hm.2.2.2,
    Container.focusWidget_valid env n widget c hv⟩

/-- Witness of C2: the panel at address 3 is the third child of the sample window. -/
theorem C2_focusWidget_witness :
    (Container.focusWidget (invoke sampleEnv 2) 3 sampleWindow).m_focusedWidget = 2 + 1 ∧
    (Container.focusWidget (invoke sampleEnv 2) 3 sampleWindow).flags[2]? = some true ∧
    (Container.focusWidget (invoke sampleEnv 2) 3 sampleWindow).flags[1]? = some false ∧
    (Container.focusWidget (invoke sampleEnv 2) 3 sampleWindow).valid := by
  have h := C2_focusWidget sampleEnv 2 sampleWindow 3 2 ((singleFocus_iff _).2 (by decide))
    ⟨by decide, by decide⟩ (by decide)
  exact ⟨h.1, h.2.1, h.2.2.1 1 (by decide) (by decide), h.2.2.2.2⟩

/-- C3. Call a child focusable when `m_allowFocus`, `m_visible` and `m_enabled` all hold.
Let `c` be a valid container (at every level the focus index is within the list of
children, and all widgets are distinct objects) with focus index `f`. (1) If `j` is the
smallest index `j ≥ f` of a focusable child, `focusNextWidget` moves the focus to child
`j`; (2) if no child at an index `≥ f` is focusable and `j` is the smallest index
`j < f-1` of a focusable child, the focus moves to child `j`; (3) if there is no focusable
child in either range, the container (focus index and all `m_focused` flags) is unchanged.
The resulting container is valid. -/
theorem C3_focusNextWidget (env : Env) (n : Nat) (c : Widget) (hv : c.valid) :
    (∀ j, c.m_focusedWidget ≤ j → c.focusableAt j = true →
      (∀ k, c.m_focusedWidget ≤ k → k < j → c.focusableAt k = false) →
      FocusMovedTo c (Container.focusNextWidget (invoke env n) c) j) ∧
    (∀ j, (∀ k, c.m_focusedWidget ≤ k → c.focusableAt k = false) →
      j + 1 < c.m_focusedWidget → c.focusableAt j = true →
      (∀ k, k < j → c.focusableAt k = false) →
      FocusMovedTo c (Container.focusNextWidget (invoke env n) c) j) ∧
    ((∀ k, c.m_focusedWidget ≤ k → c.focusableAt k = false) →
      (∀ k, k + 1 < c.m_focusedWidget → c.focusableAt k = false) →
      Container.focusNextWidget (invoke env n) c = c) ∧
    (Container.focusNextWidget (invoke env n) c).valid :=
  have hm := Container.focusNextWidget_moves env n c
  ⟨hm.1, hm.2.1, hm.2.2, Container.focusNextWidget_valid env n c hv⟩

/-- Witness of C3 on the sample window (valid, focus index 2): the focus moves to the panel
at index 2, the first focusable child after the focused edit box. -/
theorem C3_focusNextWidget_witness :
    sampleWindow.valid ∧
    FocusMovedTo sampleWindow (Container.focusNextWidget (invoke sampleEnv 2) sampleWindow) 2 ∧
    (Container.focusNextWidget (invoke sampleEnv 2) sampleWindow).valid :=
  have hv : sampleWindow.valid := ⟨by decide, by decide⟩
  ⟨hv, (C3_focusNextWidget sampleEnv 2 sampleWindow hv).1 2 (by decide) (by decide)
    (fun k h1 h2 => absurd h1 (by
      have : sampleWindow.m_focusedWidget = 2 := rfl
      omega)),
    (C3_focusNextWidget sampleEnv 2 sampleWindow hv).2.2.2⟩

/-- C4. Let `c` be a valid container (at every level the focus index is within the list of
children, and all widgets are distinct objects) with focus index `f`. (1) If `j` is the
largest index `j < f-1` of a focusable child (`m_allowFocus`, `m_visible`, `m_enabled`),
`focusPreviousWidget` moves the focus to child `j`; (2) if no child at an index `< f-1` is
focusable (in particular if nothing is focused) and `j` is the largest index `j ≥ f` of a
focusable child, the focus moves to child `j`; (3) if there is no focusable child in
either range, the container (focus index and all `m_focused` flags) is unchanged. The
resulting container is valid. -/
theorem C4_focusPreviousWidget (env : Env) (n : Nat) (c : Widget) (hv : c.valid) :
    (∀ j, j + 1 < c.m_focusedWidget → c.focusableAt j = true →
      (∀ k, j < k → k + 1 < c.m_focusedWidget → c.focusableAt k = false) →
      FocusMovedTo c (Container.focusPreviousWidget (invoke env n) c) j) ∧
    (∀ j, (∀ k, k + 1 < c.m_focusedWidget → c.focusableAt k = false) →
      c.m_focusedWidget ≤ j → c.focusableAt j = true →
      (∀ k, j < k → c.focusableAt k = false) →
      FocusMovedTo c (Container.focusPreviousWidget (invoke env n) c) j) ∧
    ((∀ k, k + 1 < c.m_focusedWidget → c.focusableAt k = false) →
      (∀ k, c.m_focusedWidget ≤ k → c.focusableAt k = false) →
      Container.focusPreviousWidget (invoke env n) c = c) ∧
    (Container.focusPreviousWidget (invoke env n) c).valid :=
  have hm := Container.focusPreviousWidget_moves env n c
  ⟨hm.1, hm.2.1, hm.2.2, Container.focusPreviousWidget_valid env n c hv⟩

/-- Witness of C4 on the sample window (valid, focus index 2): the focus moves to the button
at index 0, the last focusable child before the focused edit box. -/
theorem C4_focusPreviousWidget_witness :
    sampleWindow.valid ∧
    FocusMovedTo sampleWindow
      (Container.focusPreviousWidget (invoke sampleEnv 2) sampleWindow) 0 ∧
    (Container.focusPreviousWidget (invoke sampleEnv 2) sampleWindow).valid :=
  have hv : sampleWindow.valid := ⟨by decide, by decide⟩
  ⟨hv, (C4_focusPreviousWidget sampleEnv 2 sampleWindow hv).1 0 (by decide) (by decide)
    (fun k h1 h2 => absurd h2 (by
      have : sampleWindow.m_focusedWidget = 2 := rfl
      omega)),
    (C4_focusPreviousWidget sampleEnv 2 sampleWindow hv).2.2.2⟩

end tgui


namespace tgui

/-! ### Tab order, click, keyboard and text on valid states -/

/-- C5. Tab order on a flat container. Tab key usage is enabled, `c` is a valid container
(focus index within the list of children, all widgets distinct objects) none of whose
children is a container, the focusable children are at the indices `js` (strictly
increasing, at least one), and nothing is focused (`m_focusedWidget = 0`, no `m_focused`
flag set). Then after `n ≥ 1` successive `KeyReleased` events for the Tab key the focus
index designates the child at index `js[(n-1) mod k]`, that child has `m_focused` set and
no other child has; the fixed members of the children are as before and the container is
valid. -/
theorem C5_tab_order (env : Env) (m : Nat) (c : Widget) (js : List Nat) (key : KeyEvent)
    (n : Nat) (hv : c.valid) (htab : env.TGUI_TabKeyUsageEnabled = true)
    (hkey : key.code = Keyboard.Tab)
    (hleaf : ∀ w ∈ c.m_widgets, w.m_containerWidget = false)
    (hsorted : js.Pairwise (· < ·)) (hjs : ∀ j, j ∈ js ↔ c.focusableAt j = true)
    (hk : 1 ≤ js.length) (hf : c.m_focusedWidget = 0) (hflags : ∀ b ∈ c.flags, b = false)
    (hn : 1 ≤ n) :
    (∃ j, js[(n - 1) % js.length]? = some j ∧
      (Nat.iterate (releaseKey env m key) n c).m_focusedWidget = j + 1 ∧
      (∀ i, i < c.m_widgets.length →
        (Nat.iterate (releaseKey env m key) n c).flags[i]? = some (decide (i = j))) ∧
      (Nat.iterate (releaseKey env m key) n c).m_widgets.map Widget.fixed =
        c.m_widgets.map Widget.fixed) ∧
    (Nat.iterate (releaseKey env m key) n c).valid :=
  ⟨Container.tab_order_flat env m c js key n htab hkey hleaf hsorted hjs hk hf hflags hn,
    releaseKey_iterate_valid env m key n c hv⟩

/-- Witness of C5 on a flat dialog of four widgets of which the second does not allow
focus and the third is disabled: after five Tab releases the focus is on index
`[0, 3][4 mod 2] = 0`. -/
theorem C5_tab_order_witness :
    flatDialog.valid ∧
    (∃ j, [0, 3][(5 - 1) % [0, 3].length]? = some j ∧
      (Nat.iterate (releaseKey sampleEnv 1 tabKey) 5 flatDialog).m_focusedWidget = j + 1 ∧
      (∀ i, i < flatDialog.m_widgets.length →
        (Nat.iterate (releaseKey sampleEnv 1 tabKey) 5 flatDialog).flags[i]? =
          some (decide (i = j))) ∧
      (Nat.iterate (releaseKey sampleEnv 1 tabKey) 5 flatDialog).m_widgets.map Widget.fixed =
        flatDialog.m_widgets.map Widget.fixed) ∧
    (Nat.iterate (releaseKey sampleEnv 1 tabKey) 5 flatDialog).valid :=
  have hv : flatDialog.valid := ⟨by decide, by decide⟩
  ⟨hv, C5_tab_order sampleEnv 1 flatDialog [0, 3] tabKey 5 hv rfl rfl (by decide) (by decide)
    (fun j => by
      constructor
      · intro h
        simp only [List.mem_cons, List.mem_singleton, List.not_mem_nil, or_false] at h
        rcases h with rfl | rfl <;> decide
      · intro h
        have hj := flatDialog.focusableAt_lt j h
        have hj4 : j < 4 := hj
        interval_cases j <;> first | decide | exact absurd h (by decide))
    (by decide) rfl (by decide) (by decide)⟩

/-- C8. Focus transfer on click, for a valid container (at every level the focus index is
within the list of children, all widgets are distinct objects) that satisfies the
single-focus invariant, and a left `MouseButtonPressed` event at coordinates `(x, y)` that
are exact as `float`: (1) if the hit test finds the child at index `j` (the topmost
visible, enabled child under the mouse), then `handleEvent` returns true, afterwards
`m_focusedWidget = j+1` and child `j` has `m_focused` set, and the last call child `j` has
received is `leftMousePressed(x, y)`; (2) if no child is hit, `handleEvent` returns false
and afterwards `m_focusedWidget = 0` and no child has `m_focused` set. In both cases the
resulting container is valid. -/
theorem C8_click_focus (env : Env) (n : Nat) (x y : Int) (c : Widget) (h : SingleFocus c)
    (hin : Container.validAt c x y) :
    (∀ j, Container.hitAt env x y c j = true →
      (∀ k, j < k → Container.hitAt env x y c k = false) →
      (Container.handleEvent env (invoke env n) (.MouseButtonPressed Mouse.Left x y) c).1 =
        true ∧
      (Container.handleEvent env (invoke env n)
        (.MouseButtonPressed Mouse.Left x y) c).2.m_focusedWidget = j + 1 ∧
      (Container.handleEvent env (invoke env n)
        (.MouseButtonPressed Mouse.Left x y) c).2.flags[j]? = some true ∧
      ∃ t mid, c.traces[j]? = some t ∧
        (Container.handleEvent env (invoke env n)
          (.MouseButtonPressed Mouse.Left x y) c).2.traces[j]? =
          some (t ++ mid ++ [.leftMousePressed x y])) ∧
    ((∀ j, Container.hitAt env x y c j = false) →
      (Container.handleEvent env (invoke env n) (.MouseButtonPressed Mouse.Left x y) c).1 =
        false ∧
      (Container.handleEvent env (invoke env n)
        (.MouseButtonPressed Mouse.Left x y) c).2.m_focusedWidget = 0 ∧
      ∀ b ∈ (Container.handleEvent env (invoke env n)
        (.MouseButtonPressed Mouse.Left x y) c).2.flags, b = false) ∧
    (Container.handleEvent env (invoke env n)
      (.MouseButtonPressed Mouse.Left x y) c).2.valid :=
  have hm := Container.handleEvent_press_focus env n x y c h
  ⟨hm.1, hm.2, Container.handleEvent_valid env n _ c hin.1⟩

/-- Witness of C8 (amended) on the sample window: a left press at `(35, 0)` hits the panel
at index 2, which becomes the focused child. -/
theorem C8_click_focus_witness :
    SingleFocus sampleWindow ∧ Container.validAt sampleWindow 35 0 ∧
    (Container.handleEvent sampleEnv (invoke sampleEnv 2)
      (.MouseButtonPressed Mouse.Left 35 0) sampleWindow).1 = true ∧
    (Container.handleEvent sampleEnv (invoke sampleEnv 2)
      (.MouseButtonPressed Mouse.Left 35 0) sampleWindow).2.m_focusedWidget = 2 + 1 ∧
    (Container.handleEvent sampleEnv (invoke sampleEnv 2)
      (.MouseButtonPressed Mouse.Left 35 0) sampleWindow).2.valid :=
  have hs : SingleFocus sampleWindow := (singleFocus_iff _).2 (by decide)
  have hin : Container.validAt sampleWindow 35 0 :=
    ⟨⟨by decide, by decide⟩, by unfold exactFloat; decide, by unfold exactFloat; decide⟩
  have h := (C8_click_focus sampleEnv 2 35 0 sampleWindow hs hin).1 2 (by decide)
    (fun k hk => by
      cases hh : Container.hitAt sampleEnv 35 0 sampleWindow k with
      | false => rfl
      | true =>
        have hlt : k < 4 := Container.hitAt_lt sampleEnv 35 0 sampleWindow k hh
        interval_cases k
        revert hh
        decide)
  ⟨hs, hin, h.1, h.2.1, (C8_click_focus sampleEnv 2 35 0 sampleWindow hs hin).2.2⟩

/-- C9. Keyboard routing, for a valid container (at every level the focus index is within
the list of children, all widgets are distinct objects): on a `KeyPressed` event
`handleEvent` returns true exactly when the key code is not `sf::Keyboard::Unknown` and a
child is focused (`m_focusedWidget != 0`). In that case the focused child exists, it
receives `keyPressed` with the key event (its trace grows by exactly that call) and every
other child is unchanged; otherwise the container is unchanged, so no child receives
anything. The focus index is unchanged in both cases, and the resulting container is
valid. -/
theorem C9_key_routing (env : Env) (n : Nat) (key : KeyEvent) (c : Widget) (hv : c.valid) :
    ((Container.handleEvent env (invoke env n) (.KeyPressed key) c).1 = true ↔
      key.code ≠ Keyboard.Unknown ∧ c.m_focusedWidget ≠ 0) ∧
    ((Container.handleEvent env (invoke env n) (.KeyPressed key) c).1 = true →
      (∃ t, c.traces[c.m_focusedWidget - 1]? = some t ∧
        (Container.handleEvent env (invoke env n) (.KeyPressed key) c).2.traces[
          c.m_focusedWidget - 1]? = some (t ++ [.keyPressed key])) ∧
      (∀ j t, c.traces[j]? = some t →
        (Container.handleEvent env (invoke env n) (.KeyPressed key) c).2.traces[j]? =
          some (if j + 1 = c.m_focusedWidget then t ++ [.keyPressed key] else t)) ∧
      (∀ j, j + 1 ≠ c.m_focusedWidget →
        (Container.handleEvent env (invoke env n) (.KeyPressed key) c).2.m_widgets[j]? =
          c.m_widgets[j]?)) ∧
    ((Container.handleEvent env (invoke env n) (.KeyPressed key) c).1 = false →
      (Container.handleEvent env (invoke env n) (.KeyPressed key) c).2 = c) ∧
    (Container.handleEvent env (invoke env n) (.KeyPressed key) c).2.m_focusedWidget =
      c.m_focusedWidget ∧
    (Container.handleEvent env (invoke env n) (.KeyPressed key) c).2.valid := by
  have hm := Container.handleEvent_key env n key c
  refine ⟨hm.1, fun hr => ⟨?_, (hm.2.1 hr).1, (hm.2.1 hr).2⟩, hm.2.2.1, hm.2.2.2,
    Container.handleEvent_valid env n _ c hv⟩
  have hf := (hm.1.1 hr).2
  have hb := Widget.valid_bound hv
  have hlt : c.m_focusedWidget - 1 < c.traces.length := by
    simp only [Widget.traces, List.length_map]
    omega
  refine ⟨c.traces[c.m_focusedWidget - 1], List.getElem?_eq_getElem hlt, ?_⟩
  rw [(hm.2.1 hr).1 _ _ (List.getElem?_eq_getElem hlt),
    if_pos (show c.m_focusedWidget - 1 + 1 = c.m_focusedWidget by omega)]

/-- Witness of C9 on the sample window: the focused edit box (index 1) receives the key
event and `handleEvent` returns true. -/
theorem C9_key_routing_witness :
    sampleWindow.valid ∧
    (Container.handleEvent sampleEnv (invoke sampleEnv 2) (.KeyPressed tabKey)
      sampleWindow).1 = true ∧
    (Container.handleEvent sampleEnv (invoke sampleEnv 2) (.KeyPressed tabKey)
      sampleWindow).2.traces[1]? = some ([] ++ [.keyPressed tabKey]) ∧
    (Container.handleEvent sampleEnv (invoke sampleEnv 2) (.KeyPressed tabKey)
      sampleWindow).2.valid :=
  have hv : sampleWindow.valid := ⟨by decide, by decide⟩
  have h := C9_key_routing sampleEnv 2 tabKey sampleWindow hv
  have hr := h.1.2 ⟨by decide, by decide⟩
  ⟨hv, hr, (h.2.1 hr).2.1 1 [] rfl, h.2.2.2.2⟩

/-- C10. Text routing, for a valid container (at every level the focus index is within the
list of children, all widgets are distinct objects): on a `TextEntered` event with code
point `u`, `handleEvent` returns true exactly when `u ≥ 32`, `u ≠ 127` and a child is
focused. In that case the focused child exists, it receives `textEntered(u)` (its trace
grows by exactly that call) and every other child is unchanged. For a control character
(`u < 32` or `u = 127`) the container is unchanged: nothing is delivered to any child. The
resulting container is valid. -/
theorem C10_text_routing (env : Env) (n : Nat) (u : Nat) (c : Widget) (hv : c.valid) :
    ((Container.handleEvent env (invoke env n) (.TextEntered u) c).1 = true ↔
      32 ≤ u ∧ u ≠ 127 ∧ c.m_focusedWidget ≠ 0) ∧
    ((Container.handleEvent env (invoke env n) (.TextEntered u) c).1 = true →
      (∃ t, c.traces[c.m_focusedWidget - 1]? = some t ∧
        (Container.handleEvent env (invoke env n) (.TextEntered u) c).2.traces[
          c.m_focusedWidget - 1]? = some (t ++ [.textEntered u])) ∧
      (∀ j t, c.traces[j]? = some t →
        (Container.handleEvent env (invoke env n) (.TextEntered u) c).2.traces[j]? =
          some (if j + 1 = c.m_focusedWidget then t ++ [.textEntered u] else t)) ∧
      (∀ j, j + 1 ≠ c.m_focusedWidget →
        (Container.handleEvent env (invoke env n) (.TextEntered u) c).2.m_widgets[j]? =
          c.m_widgets[j]?)) ∧
    (u < 32 ∨ u = 127 →
      (Container.handleEvent env (invoke env n) (.TextEntered u) c).2 = c) ∧
    (Container.handleEvent env (invoke env n) (.TextEntered u) c).2.valid := by
  have hm := Container.handleEvent_text env n u c
  refine ⟨hm.1, fun hr => ⟨?_, (hm.2.1 hr).1, (hm.2.1 hr).2⟩, hm.2.2,
    Container.handleEvent_valid env n _ c hv⟩
  have hf := (hm.1.1 hr).2.2
  have hb := Widget.valid_bound hv
  have hlt : c.m_focusedWidget - 1 < c.traces.length := by
    simp only [Widget.traces, List.length_map]
    omega
  refine ⟨c.traces[c.m_focusedWidget - 1], List.getElem?_eq_getElem hlt, ?_⟩
  rw [(hm.2.1 hr).1 _ _ (List.getElem?_eq_getElem hlt),
    if_pos (show c.m_focusedWidget - 1 + 1 = c.m_focusedWidget by omega)]

/-- Witness of C10 on the sample window: the focused edit box (index 1) receives the letter
`a` (97), and the control character 127 changes nothing. -/
theorem C10_text_routing_witness :
    sampleWindow.valid ∧
    (Container.handleEvent sampleEnv (invoke sampleEnv 2) (.TextEntered 97)
      sampleWindow).1 = true ∧
    (Container.handleEvent sampleEnv (invoke sampleEnv 2) (.TextEntered 97)
      sampleWindow).2.traces[1]? = some ([] ++ [.textEntered 97]) ∧
    (Container.handleEvent sampleEnv (invoke sampleEnv 2) (.TextEntered 127)
      sampleWindow).2 = sampleWindow :=
  have hv : sampleWindow.valid := ⟨by decide, by decide⟩
  have h := C10_text_routing sampleEnv 2 97 sampleWindow hv
  have hr := h.1.2 ⟨by decide, by decide, by decide⟩
  ⟨hv, hr, (h.2.1 hr).2.1 1 [] rfl,
    (C10_text_routing sampleEnv 2 127 sampleWindow hv).2.2.1 (Or.inr rfl)⟩

end tgui


namespace tgui

/-! ### Mouse move, mouse release and Tab on valid states -/

theorem Widget.ptrs_ne_of_nodup (c : Widget) (hnd : c.ptrs.Nodup) (j k p : Nat)
    (hj : c.ptrs[j]? = some p) (hkj : k ≠ j) : c.ptrs[k]? ≠ some p := by
  intro hk
  obtain ⟨hjl, hje⟩ := List.getElem?_eq_some_iff.1 hj
  obtain ⟨hkl, hke⟩ := List.getElem?_eq_some_iff.1 hk
  exact hkj ((List.Nodup.getElem_inj_iff hnd).1 (hke.trans hje.symm))

theorem Widget.ptrs_of_traces (c : Widget) (k : Nat) (t : List Call)
    (h : c.traces[k]? = some t) : ∃ q, c.ptrs[k]? = some q := by
  have hl := (List.getElem?_eq_some_iff.1 h).1
  simp only [Widget.traces, List.length_map] at hl
  have hk : k < c.ptrs.length := by simpa [Widget.ptrs] using hl
  exact ⟨c.ptrs[k], List.getElem?_eq_getElem hk⟩

/-- C11. Drag continuation, for a valid container (at every level the focus index is
within the list of children, all widgets are distinct objects) and a `MouseMoved` event at
coordinates `(x, y)` that are exact as `float`. (1) If some child has `m_mouseDown` set
and is a draggable widget or a container, and `j` is the lowest index of such a child,
then `handleEvent` returns true, child `j` receives `mouseMoved(x, y)` and nothing else
(whether or not the mouse is on it), and every other child is unchanged: no other child
receives `mouseMoved` and no hit-test call is made. (2) If there is no such child,
`handleEvent` returns true exactly when the hit test finds a child; the child found, the
topmost hit child `j`, whose address `mouseOnWhichWidget` returns, receives
`mouseMoved(x, y)` after the calls of the hit test, and every other child receives only
the calls of the hit test. The resulting container is valid. -/
theorem C11_mouse_moved (env : Env) (n : Nat) (x y : Int) (c : Widget)
    (hin : Container.validAt c x y) :
    (∀ j, Container.draggingAt c j = true →
      (∀ k, k < j → Container.draggingAt c k = false) →
      (moveMouse env n x y c).1 = true ∧
      (∀ (k : Nat) (t : List Call), c.traces[k]? = some t →
        (moveMouse env n x y c).2.traces[k]? =
          some (if k = j then t ++ [.mouseMoved x y] else t)) ∧
      (∀ k, k ≠ j → (moveMouse env n x y c).2.m_widgets[k]? = c.m_widgets[k]?)) ∧
    ((∀ k, Container.draggingAt c k = false) →
      ((moveMouse env n x y c).1 = true ↔ ∃ j, Container.hitAt env x y c j = true) ∧
      (∀ j, Container.hitAt env x y c j = true →
        (∀ k, j < k → Container.hitAt env x y c k = false) →
        (∃ p, c.ptrs[j]? = some p ∧
          (Container.mouseOnWhichWidget (invoke env n) x y c).1 = some p) ∧
        (∃ t mid, c.traces[j]? = some t ∧
          (moveMouse env n x y c).2.traces[j]? = some (t ++ mid ++ [.mouseMoved x y]) ∧
          ∀ call ∈ mid, IsHitTestCall x y call) ∧
        (∀ (k : Nat) (t : List Call), k ≠ j → c.traces[k]? = some t →
          ∃ mid, (moveMouse env n x y c).2.traces[k]? = some (t ++ mid) ∧
            ∀ call ∈ mid, IsHitTestCall x y call))) ∧
    (moveMouse env n x y c).2.valid := by
  have hm := Container.handleEvent_move env n x y c
  refine ⟨hm.1, fun hd => ⟨(hm.2 hd).1, fun j hj htop => ?_⟩,
    Container.handleEvent_valid env n _ c hin.1⟩
  obtain ⟨p, i, hp, hfound, _, hij, htr, hoth⟩ := (hm.2 hd).2 j hj htop
  have hi : i = j := hij (Widget.valid_nodup hin.1)
  subst hi
  exact ⟨⟨p, hp, hfound⟩, htr, hoth⟩

/-- Witness of C11 on `dragWindow`: the mouse moves to `(0, 0)`, away from the slider that
is being dragged; the slider (index 1) still receives `mouseMoved(0, 0)`, the button
receives nothing, and `handleEvent` returns true. -/
theorem C11_mouse_moved_witness :
    Container.validAt dragWindow 0 0 ∧
    Container.hitAt sampleEnv 0 0 dragWindow 1 = false ∧
    (moveMouse sampleEnv 1 0 0 dragWindow).1 = true ∧
    (moveMouse sampleEnv 1 0 0 dragWindow).2.traces[1]? = some ([] ++ [.mouseMoved 0 0]) ∧
    (moveMouse sampleEnv 1 0 0 dragWindow).2.m_widgets[0]? = dragWindow.m_widgets[0]? ∧
    (moveMouse sampleEnv 1 0 0 dragWindow).2.valid :=
  have hin : Container.validAt dragWindow 0 0 :=
    ⟨⟨by decide, by decide⟩, by unfold exactFloat; decide, by unfold exactFloat; decide⟩
  have h := (C11_mouse_moved sampleEnv 1 0 0 dragWindow hin).1 1 (by decide) (by decide)
  ⟨hin, by decide, h.1, h.2.1 1 [] rfl, h.2.2 0 (by decide),
    (C11_mouse_moved sampleEnv 1 0 0 dragWindow hin).2.2⟩

/-- C12. Mouse release, for a valid container (at every level the focus index is within
the list of children, all widgets are distinct objects) and a `MouseButtonReleased` event
of the left button at coordinates `(x, y)` that are exact as `float`. `handleEvent`
returns true exactly when the hit test finds a child. If it does, the child found, the
topmost hit child `j`, whose address `mouseOnWhichWidget` returns, receives, after the
calls of the hit test, `leftMouseReleased(x, y)` and no `mouseNoLongerDown`; every other
child receives, after the calls of the hit test, `mouseNoLongerDown` exactly once. If no
child is hit, every child receives `mouseNoLongerDown` exactly once. The resulting
container is valid. -/
theorem C12_mouse_released (env : Env) (n : Nat) (x y : Int) (c : Widget)
    (hin : Container.validAt c x y) :
    ((releaseLeft env n x y c).1 = true ↔ ∃ j, Container.hitAt env x y c j = true) ∧
    (∀ j, Container.hitAt env x y c j = true →
      (∀ k, j < k → Container.hitAt env x y c k = false) →
      (∃ p, c.ptrs[j]? = some p ∧
        (Container.mouseOnWhichWidget (invoke env n) x y c).1 = some p) ∧
      (∃ t mid, c.traces[j]? = some t ∧
        (releaseLeft env n x y c).2.traces[j]? =
          some (t ++ mid ++ [.leftMouseReleased x y]) ∧
        ∀ call ∈ mid, IsHitTestCall x y call) ∧
      (∀ (k : Nat) (t : List Call), k ≠ j → c.traces[k]? = some t →
        ∃ mid, (releaseLeft env n x y c).2.traces[k]? =
            some (t ++ mid ++ [.mouseNoLongerDown]) ∧
          ∀ call ∈ mid, IsHitTestCall x y call)) ∧
    ((∀ j, Container.hitAt env x y c j = false) →
      ∀ (k : Nat) (t : List Call), c.traces[k]? = some t →
        ∃ mid, (releaseLeft env n x y c).2.traces[k]? =
            some (t ++ mid ++ [.mouseNoLongerDown]) ∧
          ∀ call ∈ mid, IsHitTestCall x y call) ∧
    (releaseLeft env n x y c).2.valid := by
  have hm := Container.handleEvent_release env n x y c
  have hnd := Widget.valid_nodup hin.1
  refine ⟨hm.1, fun j hj htop => ?_, hm.2.2, Container.handleEvent_valid env n _ c hin.1⟩
  obtain ⟨p, i, hp, hfound, _, hij, htr, hoth⟩ := hm.2.1 j hj htop
  have hi : i = j := hij hnd
  subst hi
  refine ⟨⟨p, hp, hfound⟩, htr, fun k t hk ht => ?_⟩
  obtain ⟨q, hq⟩ := c.ptrs_of_traces k t ht
  refine hoth k q t hq (fun hqp => ?_) ht
  subst hqp
  exact c.ptrs_ne_of_nodup hnd _ k q hp hk hq

/-- Witness of C12 on the sample window: a left release at `(15, 0)` hits the button
(index 0); the button receives `leftMouseReleased` and every other child receives
`mouseNoLongerDown`. -/
theorem C12_mouse_released_witness :
    Container.validAt sampleWindow 15 0 ∧
    (releaseLeft sampleEnv 2 15 0 sampleWindow).1 = true ∧
    (∃ t mid, sampleWindow.traces[0]? = some t ∧
      (releaseLeft sampleEnv 2 15 0 sampleWindow).2.traces[0]? =
        some (t ++ mid ++ [.leftMouseReleased 15 0]) ∧
      ∀ call ∈ mid, IsHitTestCall 15 0 call) ∧
    (∀ (k : Nat) (t : List Call), k ≠ 0 → sampleWindow.traces[k]? = some t →
      ∃ mid, (releaseLeft sampleEnv 2 15 0 sampleWindow).2.traces[k]? =
          some (t ++ mid ++ [.mouseNoLongerDown]) ∧
        ∀ call ∈ mid, IsHitTestCall 15 0 call) :=
  have hin : Container.validAt sampleWindow 15 0 :=
    ⟨⟨by decide, by decide⟩, by unfold exactFloat; decide, by unfold exactFloat; decide⟩
  have h := C12_mouse_released sampleEnv 2 15 0 sampleWindow hin
  have h0 := h.2.1 0 (by decide) (fun k hk => by
    cases hh : Container.hitAt sampleEnv 15 0 sampleWindow k with
    | false => rfl
    | true =>
      have hlt : k < 4 := Container.hitAt_lt sampleEnv 15 0 sampleWindow k hh
      interval_cases k <;> revert hh <;> decide)
  ⟨hin, h.1.2 ⟨0, by decide⟩, h0.2.1, h0.2.2⟩

/-- C24. With tab key usage enabled, on a valid container (at every level the focus index
is within the list of children, all widgets are distinct objects) none of whose children
is a container, `tabKeyPressed` leaves the container in exactly the state
`focusNextWidget` leaves it in (focus index, `m_focused` flags and everything else), it
returns true if and only if the focus index has changed, and the resulting container is
valid. With tab key usage disabled `tabKeyPressed` returns false and the container is
unchanged. -/
theorem C24_tabKeyPressed_flat (env : Env) (n : Nat) (c : Widget) (hv : c.valid) :
    (env.TGUI_TabKeyUsageEnabled = true →
      (∀ w ∈ c.m_widgets, w.m_containerWidget = false) →
      (Container.tabKeyPressed env (invoke env n) c).2 =
        Container.focusNextWidget (invoke env n) c ∧
      (Container.tabKeyPressed env (invoke env n) c).2.m_focusedWidget =
        (Container.focusNextWidget (invoke env n) c).m_focusedWidget ∧
      (Container.tabKeyPressed env (invoke env n) c).2.flags =
        (Container.focusNextWidget (invoke env n) c).flags ∧
      ((Container.tabKeyPressed env (invoke env n) c).1 = true ↔
        (Container.tabKeyPressed env (invoke env n) c).2.m_focusedWidget ≠
          c.m_focusedWidget) ∧
      (Container.tabKeyPressed env (invoke env n) c).2.valid) ∧
    (env.TGUI_TabKeyUsageEnabled = false →
      Container.tabKeyPressed env (invoke env n) c = (false, c)) :=
  have hm := Container.tabKeyPressed_flat_eq env n c
  ⟨fun ht hl => ⟨(hm.1 ht hl).1, (hm.1 ht hl).2.1, (hm.1 ht hl).2.2.1, (hm.1 ht hl).2.2.2,
    Container.tabKeyPressed_valid env n c hv⟩, hm.2⟩

/-- Witness of C24 on the flat dialog, in which nothing is focused: Tab does what
`focusNextWidget` does and returns true, and with tab key usage disabled it returns false
and changes nothing. -/
theorem C24_tabKeyPressed_flat_witness :
    flatDialog.valid ∧
    (Container.tabKeyPressed sampleEnv (invoke sampleEnv 1) flatDialog).2 =
      Container.focusNextWidget (invoke sampleEnv 1) flatDialog ∧
    (Container.focusNextWidget (invoke sampleEnv 1) flatDialog).m_focusedWidget = 1 ∧
    (Container.tabKeyPressed sampleEnv (invoke sampleEnv 1) flatDialog).1 = true ∧
    Container.tabKeyPressed { sampleEnv with TGUI_TabKeyUsageEnabled := false }
      (invoke { sampleEnv with TGUI_TabKeyUsageEnabled := false } 1) flatDialog =
        (false, flatDialog) :=
  have hv : flatDialog.valid := ⟨by decide, by decide⟩
  have h := (C24_tabKeyPressed_flat sampleEnv 1 flatDialog hv).1 rfl (by decide)
  ⟨hv, h.1, by decide, h.2.2.2.1.2 (by rw [h.2.1]; decide),
    (C24_tabKeyPressed_flat { sampleEnv with TGUI_TabKeyUsageEnabled := false } 1
      flatDialog hv).2 rfl⟩

end tgui
